import Mathlib

/-!
# Google Meet chromedriver payload: roster reconciliation and video feed selection

A shallow embedding of `UserManager` and `VideoTrackManager` from
`src/bots/google_meet_bot_adapter/google_meet_chromedriver_payload.js`.

JavaScript objects are insertion-ordered lists of own properties, `Map` and `Set` are
insertion-ordered association lists, `undefined` is an explicit value, and
`JSON.stringify` produces the actual JSON text, so that the record comparison of
`newUsersListSynced` is the comparison the source performs.
-/

namespace GoogleMeet

/-! ## JavaScript values, objects, `Map`, `Set` -/

/-- The JavaScript values that occur as fields of decoded records: `undefined`, strings and
non-negative integers (the decoder reads `varint` fields with `reader.uint32()`). -/
inductive JsValue where
  | undefined
  | str (s : String)
  | num (n : Nat)
  deriving DecidableEq, Repr

/-- A plain JavaScript object: its own enumerable string-keyed properties, in insertion order. -/
abbrev JsObject := List (String × JsValue)

namespace JsObject

/-- Property read `o[k]`: `undefined` when the key is absent. -/
def getProp : JsObject → String → JsValue
  | [], _ => JsValue.undefined
  | (k', v) :: rest, k => if k' = k then v else getProp rest k

/-- Property write `o[k] = v`: an existing key keeps its position, a fresh key is appended. -/
def setProp : JsObject → String → JsValue → JsObject
  | [], k, v => [(k, v)]
  | (k', v') :: rest, k, v =>
    if k' = k then (k', v) :: rest else (k', v') :: setProp rest k v

end JsObject

/-- A JavaScript `Map`: entries in insertion order, at most one entry per key. -/
abbrev JsMap (K V : Type) := List (K × V)

namespace JsMap

variable {K V : Type} [DecidableEq K]

/-- The call `map.get(k)`; `none` stands for `undefined`. -/
def get : JsMap K V → K → Option V
  | [], _ => none
  | (k', v) :: rest, k => if k' = k then some v else get rest k

/-- The call `map.has(k)`. -/
def has (m : JsMap K V) (k : K) : Bool := (get m k).isSome

/-- The call `map.set(k, v)`: an existing key keeps its position, a fresh key is appended. -/
def set : JsMap K V → K → V → JsMap K V
  | [], k, v => [(k, v)]
  | (k', v') :: rest, k, v =>
    if k' = k then (k', v) :: rest else (k', v') :: set rest k v

/-- The call `map.delete(k)`. -/
def delete : JsMap K V → K → JsMap K V
  | [], _ => []
  | (k', v') :: rest, k => if k' = k then rest else (k', v') :: delete rest k

/-- The iterator `map.keys()`, in insertion order. -/
def keys (m : JsMap K V) : List K := m.map Prod.fst

/-- The iterator `map.values()`, in insertion order. -/
def values (m : JsMap K V) : List V := m.map Prod.snd

/-- The representation invariant of a `Map`: no key occurs twice. -/
def WF (m : JsMap K V) : Prop := (keys m).Nodup

instance (m : JsMap K V) : Decidable (WF m) := inferInstanceAs (Decidable (keys m).Nodup)

end JsMap

/-- A JavaScript `Set`: members in insertion order, each once. -/
abbrev JsSet (K : Type) := List K

namespace JsSet

variable {K : Type} [DecidableEq K]

/-- The call `set.add(x)`. -/
def add (s : JsSet K) (x : K) : JsSet K := if x ∈ s then s else s ++ [x]

/-- The constructor `new Set(iterable)`. -/
def ofList (xs : List K) : JsSet K := xs.foldl add []

/-- The call `set.has(x)`. -/
def has (s : JsSet K) (x : K) : Bool := decide (x ∈ s)

end JsSet

/-! ## `JSON.stringify` -/

/-- The escape JSON uses for one character of a string (`QuoteJSONString`). -/
def jsonEscapeChar (c : Char) : List Char :=
  if c.toNat = 34 then [Char.ofNat 92, Char.ofNat 34]
  else if c.toNat = 92 then [Char.ofNat 92, Char.ofNat 92]
  else if c.toNat = 8 then [Char.ofNat 92, 'b']
  else if c.toNat = 9 then [Char.ofNat 92, 't']
  else if c.toNat = 10 then [Char.ofNat 92, 'n']
  else if c.toNat = 12 then [Char.ofNat 92, 'f']
  else if c.toNat = 13 then [Char.ofNat 92, 'r']
  else if c.toNat < 32 then
    [Char.ofNat 92, 'u', '0', '0', Nat.digitChar (c.toNat / 16), Nat.digitChar (c.toNat % 16)]
  else [c]

/-- The JSON text of a string: quoted, with escapes. -/
def jsonQuote (s : String) : List Char :=
  [Char.ofNat 34] ++ s.data.flatMap jsonEscapeChar ++ [Char.ofNat 34]

/-- The JSON text of a property value; `none` for `undefined`, whose property is left out. -/
def jsonValue : JsValue → Option (List Char)
  | JsValue.undefined => none
  | JsValue.str s => some (jsonQuote s)
  | JsValue.num n => some (Nat.toDigits 10 n)

/-- The JSON texts `"key":value` of the properties that are not `undefined`, in order. -/
def jsonMembers : JsObject → List (List Char)
  | [] => []
  | (k, v) :: rest =>
    match jsonValue v with
    | none => jsonMembers rest
    | some t => (jsonQuote k ++ [':'] ++ t) :: jsonMembers rest

/-- The call `JSON.stringify(o)` for a plain object. -/
def jsonStringifyObject (o : JsObject) : String :=
  String.mk ([Char.ofNat 123] ++ List.intercalate [','] (jsonMembers o) ++ [Char.ofNat 125])

/-- The call `JSON.stringify(x)` where `x` is an object or `undefined` (the result of a
`Map.get`); `JSON.stringify(undefined)` is `undefined`. -/
def jsonStringify : Option JsObject → Option String
  | none => none
  | some o => some (jsonStringifyObject o)

/-! ## `UserManager` -/

/-- The control messages `UserManager` hands to `ws.sendJson`:
`{type: 'UsersUpdate', newUsers, removedUsers, updatedUsers}` when the roster changes and
`{type: 'DeviceOutputsUpdate', deviceOutputs}` after a batch of device outputs; an array
element read from a `Map` is `none` when the read gives `undefined`. -/
inductive ControlMessage where
  | usersUpdate (newUsers : List JsObject) (removedUsers updatedUsers : List (Option JsObject))
  | deviceOutputsUpdate (deviceOutputs : List JsObject)
  deriving DecidableEq, Repr

/-- The fields of `UserManager`. -/
structure UserManager where
  allUsersMap : JsMap JsValue JsObject
  currentUsersMap : JsMap JsValue JsObject
  deviceOutputMap : JsMap String JsObject
  deriving DecidableEq, Repr

namespace UserManager

/-- The state built by the constructor. -/
def init : UserManager := ⟨[], [], []⟩

/-- The object literal `userStatusMap`, keyed by property name. -/
def userStatusMap : List (String × String) :=
  [("1", "in_meeting"), ("6", "not_in_meeting"), ("7", "removed_from_meeting")]

/-- The property key a value is converted to when used in `obj[value]` (`ToString`). -/
def toPropertyKey : JsValue → String
  | JsValue.undefined => "undefined"
  | JsValue.str s => s
  | JsValue.num n => String.mk (Nat.toDigits 10 n)

/-- The expression `userStatusMap[status] || "unknown"`. The table's values are non-empty
strings, hence truthy; a status is a decoded `varint` or absent, so its key is a decimal
numeral or `undefined` and never names an inherited property. -/
def humanizedStatus (status : JsValue) : String :=
  match userStatusMap.lookup (toPropertyKey status) with
  | some s => s
  | none => "unknown"

/-- The object `{...user, humanized_status: userStatusMap[user.status] || "unknown"}`. -/
def withHumanizedStatus (user : JsObject) : JsObject :=
  JsObject.setProp user "humanized_status"
    (JsValue.str (humanizedStatus (JsObject.getProp user "status")))

/-- The record stored in `currentUsersMap` for `user`. -/
def currentRecord (user : JsObject) : JsObject :=
  [("deviceId", JsObject.getProp user "deviceId"),
   ("displayName", JsObject.getProp user "displayName"),
   ("fullName", JsObject.getProp user "fullName"),
   ("profilePicture", JsObject.getProp user "profilePicture"),
   ("status", JsObject.getProp user "status"),
   ("humanized_status", JsObject.getProp user "humanized_status"),
   ("parentDeviceId", JsObject.getProp user "parentDeviceId")]

/-- The record stored in `allUsersMap` for `user` (it reads `user.profile`). -/
def allUsersRecord (user : JsObject) : JsObject :=
  [("deviceId", JsObject.getProp user "deviceId"),
   ("displayName", JsObject.getProp user "displayName"),
   ("fullName", JsObject.getProp user "fullName"),
   ("profile", JsObject.getProp user "profile"),
   ("status", JsObject.getProp user "status"),
   ("humanized_status", JsObject.getProp user "humanized_status"),
   ("parentDeviceId", JsObject.getProp user "parentDeviceId")]

/-- The expression `user.deviceId`. -/
def deviceId (user : JsObject) : JsValue := JsObject.getProp user "deviceId"

/-- The list `newUsersList`: every raw record with `humanized_status` added. -/
def newUsersList (newUsersListRaw : List JsObject) : List JsObject :=
  newUsersListRaw.map withHumanizedStatus

/-- The set `previousUserIds`. -/
def previousUserIds (self : UserManager) : JsSet JsValue :=
  JsSet.ofList (JsMap.keys self.currentUsersMap)

/-- The set `newUserIds`. -/
def newUserIds (newUsersListRaw : List JsObject) : JsSet JsValue :=
  JsSet.ofList ((newUsersList newUsersListRaw).map deviceId)

/-- The set `updatedUserIds` after the first loop: the ids already in the roster whose stored
record and incoming record have different JSON texts. -/
def updatedUserIds (self : UserManager) (newUsersListRaw : List JsObject) : JsSet JsValue :=
  (newUsersList newUsersListRaw).foldl
    (fun acc user =>
      if JsSet.has (previousUserIds self) (deviceId user) &&
          decide (jsonStringify (JsMap.get self.currentUsersMap (deviceId user))
            ≠ jsonStringify (some user))
      then JsSet.add acc (deviceId user) else acc)
    []

/-- The map `allUsersMap` after the first loop. -/
def allUsersMapAfter (self : UserManager) (newUsersListRaw : List JsObject) :
    JsMap JsValue JsObject :=
  (newUsersList newUsersListRaw).foldl
    (fun m user => JsMap.set m (deviceId user) (allUsersRecord user)) self.allUsersMap

/-- The array `newUsers`. -/
def newUsers (self : UserManager) (newUsersListRaw : List JsObject) : List JsObject :=
  (newUsersList newUsersListRaw).filter
    (fun user => !JsSet.has (previousUserIds self) (deviceId user))

/-- The array `removedUsers`. -/
def removedUsers (self : UserManager) (newUsersListRaw : List JsObject) :
    List (Option JsObject) :=
  ((previousUserIds self).filter (fun id => !JsSet.has (newUserIds newUsersListRaw) id)).map
    (fun id => JsMap.get self.currentUsersMap id)

/-- The map `currentUsersMap` after `clear()` and the second loop. -/
def currentUsersMapAfter (newUsersListRaw : List JsObject) : JsMap JsValue JsObject :=
  (newUsersList newUsersListRaw).foldl
    (fun m user => JsMap.set m (deviceId user) (currentRecord user)) []

/-- The array `updatedUsers`. -/
def updatedUsers (self : UserManager) (newUsersListRaw : List JsObject) :
    List (Option JsObject) :=
  (updatedUserIds self newUsersListRaw).map
    (fun id => JsMap.get (currentUsersMapAfter newUsersListRaw) id)

/-- The method `newUsersListSynced`: the new state and the messages handed to `ws.sendJson`. -/
def newUsersListSynced (self : UserManager) (newUsersListRaw : List JsObject) :
    UserManager × List ControlMessage :=
  let newUsers := newUsers self newUsersListRaw
  let removedUsers := removedUsers self newUsersListRaw
  let updatedUsers := updatedUsers self newUsersListRaw
  ({ allUsersMap := allUsersMapAfter self newUsersListRaw,
     currentUsersMap := currentUsersMapAfter newUsersListRaw,
     deviceOutputMap := self.deviceOutputMap },
   if newUsers.length > 0 || removedUsers.length > 0 || updatedUsers.length > 0 then
     [ControlMessage.usersUpdate newUsers removedUsers updatedUsers]
   else [])

/-- A roster entry as `newUsersListSynced` stores it: the record is a stored record (seven
keys in the stored order, `humanized_status` derived from `status`) filed under its own
deviceId. -/
def IsStored (e : JsValue × JsObject) : Prop :=
  e.2 = currentRecord (withHumanizedStatus e.2) ∧ deviceId e.2 = e.1

instance (e : JsValue × JsObject) : Decidable (IsStored e) :=
  inferInstanceAs (Decidable (_ ∧ _))

/-- The invariant of `currentUsersMap`: a `Map` whose entries are stored records. -/
def RosterInv (m : JsMap JsValue JsObject) : Prop :=
  JsMap.WF m ∧ ∀ e ∈ m, IsStored e

instance (m : JsMap JsValue JsObject) : Decidable (RosterInv m) :=
  inferInstanceAs (Decidable (_ ∧ _))

/-- The array `uniqueUsers` of `singleUserSynced`: the values of
`new Map(allUsers.map(user => [user.deviceId, user]))`. -/
def uniqueUsers (self : UserManager) (user : JsObject) : List JsObject :=
  JsMap.values
    ((JsMap.values self.currentUsersMap ++ [user]).foldl
      (fun m u => JsMap.set m (deviceId u) u) ([] : JsMap JsValue JsObject))

/-- The method `singleUserSynced`. -/
def singleUserSynced (self : UserManager) (user : JsObject) :
    UserManager × List ControlMessage :=
  newUsersListSynced self (uniqueUsers self user)

end UserManager

/-! ## `UserManager`: device outputs -/

/-- Truthiness of a value (`ToBoolean`): `undefined`, `0` and the empty string are falsy. -/
def JsValue.truthy : JsValue → Bool
  | JsValue.undefined => false
  | JsValue.str s => decide (s ≠ "")
  | JsValue.num n => decide (n ≠ 0)

/-- Whether a value is a string. -/
def JsValue.isStr : JsValue → Bool
  | JsValue.str _ => true
  | _ => false

/-- Whether a value is a number. -/
def JsValue.isNum : JsValue → Bool
  | JsValue.num _ => true
  | _ => false

/-- A decoded `DeviceOutputInfoList` record, by the four properties `updateDeviceOutputs`
reads: a property the wire did not carry reads `undefined`; `deviceOutputStatus` is a nested
record or absent (`none`). -/
structure DeviceOutputInfo where
  deviceOutputType : JsValue
  streamId : JsValue
  deviceId : JsValue
  deviceOutputStatus : Option JsObject
  deriving DecidableEq, Repr

/-- How a call of `updateDeviceOutputs` ends: it returns, having handed `sent` to
`ws.sendJson`, or it raises a `TypeError`; either way `self` is the manager afterwards. -/
inductive UpdateResult where
  | returned (self : UserManager) (sent : List ControlMessage)
  | threw (self : UserManager)
  deriving DecidableEq, Repr

/-- The manager after the call. -/
def UpdateResult.self : UpdateResult → UserManager
  | UpdateResult.returned self _ => self
  | UpdateResult.threw self => self

namespace UserManager

/-- The template literal of `updateDeviceOutputs` and `getDeviceOutput`: the deviceId, a
dash, the output type, each converted to a string. -/
def deviceOutputKey (deviceId outputType : JsValue) : String :=
  toPropertyKey deviceId ++ "-" ++ toPropertyKey outputType

/-- The object `deviceOutput` built for a descriptor whose `deviceOutputStatus` is `status`;
`now` is the value of `Date.now()`. -/
def deviceOutput (output : DeviceOutputInfo) (status : JsObject) (now : Nat) : JsObject :=
  [("deviceId", output.deviceId),
   ("outputType", output.deviceOutputType),
   ("streamId", output.streamId),
   ("disabled", JsObject.getProp status "disabled"),
   ("lastUpdated", JsValue.num now)]

/-- The loop of `updateDeviceOutputs` over descriptors, each paired with the value of
`Date.now()` at its turn: `Except.error m` when reading `output.deviceOutputStatus.disabled`
raises on an absent `deviceOutputStatus`, with the map `m` as the earlier turns left it. -/
def applyDeviceOutputs :
    JsMap String JsObject → List (DeviceOutputInfo × Nat) →
      Except (JsMap String JsObject) (JsMap String JsObject)
  | m, [] => Except.ok m
  | m, (output, now) :: rest =>
    match output.deviceOutputStatus with
    | none => Except.error m
    | some status =>
      applyDeviceOutputs
        (JsMap.set m (deviceOutputKey output.deviceId output.deviceOutputType)
          (deviceOutput output status now)) rest

/-- The method `updateDeviceOutputs`. -/
def updateDeviceOutputs (self : UserManager) (deviceOutputs : List (DeviceOutputInfo × Nat)) :
    UpdateResult :=
  match applyDeviceOutputs self.deviceOutputMap deviceOutputs with
  | Except.error m => UpdateResult.threw { self with deviceOutputMap := m }
  | Except.ok m =>
    UpdateResult.returned { self with deviceOutputMap := m }
      [ControlMessage.deviceOutputsUpdate (JsMap.values m)]

/-- The manager after a sequence of `updateDeviceOutputs` calls, one per batch. -/
def updateDeviceOutputsEach (self : UserManager)
    (batches : List (List (DeviceOutputInfo × Nat))) : UserManager :=
  batches.foldl (fun s batch => (updateDeviceOutputs s batch).self) self

/-- The method `getDeviceOutput`; `none` stands for `undefined`. -/
def getDeviceOutput (self : UserManager) (deviceId outputType : JsValue) : Option JsObject :=
  JsMap.get self.deviceOutputMap (deviceOutputKey deviceId outputType)

/-- The loop of `deviceForStreamIsActive` over `deviceOutputMap.values()`: it returns at the
first output whose `streamId` is strictly equal to the argument. -/
def deviceForStreamIsActiveLoop : List JsObject → JsValue → Bool
  | [], _ => false
  | deviceOutput :: rest, streamId =>
    if JsObject.getProp deviceOutput "streamId" = streamId then
      !(JsObject.getProp deviceOutput "disabled").truthy
    else deviceForStreamIsActiveLoop rest streamId

/-- The method `deviceForStreamIsActive`. -/
def deviceForStreamIsActive (self : UserManager) (streamId : JsValue) : Bool :=
  deviceForStreamIsActiveLoop (JsMap.values self.deviceOutputMap) streamId

/-- The entry `updateDeviceOutputs` stores for a descriptor processed at time `x.2`, when the
descriptor carries a `deviceOutputStatus`. -/
def storedDeviceOutput (x : DeviceOutputInfo × Nat) : Option JsObject :=
  x.1.deviceOutputStatus.map (fun status => deviceOutput x.1 status x.2)

/-- A descriptor that carries a deviceId, an output type and a `deviceOutputStatus`. -/
def complete (output : DeviceOutputInfo) : Bool :=
  output.deviceId.isStr && output.deviceOutputType.isNum && output.deviceOutputStatus.isSome

end UserManager

/-! ## `VideoTrackManager` -/

/-- A host video track handle; the manager only reads its `id`. -/
structure VideoTrack where
  id : String
  deriving DecidableEq, Repr

/-- The object `trackInfo` stored in `videoTracks`. -/
structure TrackInfo where
  originalTrack : VideoTrack
  isScreenShare : Bool
  firstSeenAt : Nat
  streamId : JsValue
  deriving DecidableEq, Repr

/-- The fields of `VideoTrackManager`; `none` in the cache stands for `null`. -/
structure VideoTrackManager where
  videoTracks : JsMap String TrackInfo
  trackToSendCache : Option TrackInfo
  deriving DecidableEq, Repr

namespace VideoTrackManager

/-- The state built by the constructor. -/
def init : VideoTrackManager := ⟨[], none⟩

/-- The method `deleteVideoTrack`. -/
def deleteVideoTrack (self : VideoTrackManager) (videoTrack : VideoTrack) : VideoTrackManager :=
  { videoTracks := JsMap.delete self.videoTracks videoTrack.id,
    trackToSendCache := none }

/-- The object `trackInfo` built by `upsertVideoTrack`; `now` is the value of `Date.now()`. -/
def trackInfo (self : VideoTrackManager) (videoTrack : VideoTrack) (streamId : JsValue)
    (isScreenShare : Bool) (now : Nat) : TrackInfo :=
  { originalTrack := videoTrack,
    isScreenShare := isScreenShare,
    firstSeenAt :=
      match JsMap.get self.videoTracks videoTrack.id with
      | some existingVideoTrack => existingVideoTrack.firstSeenAt
      | none => now,
    streamId := streamId }

/-- The method `upsertVideoTrack`; `now` is the value of `Date.now()`. -/
def upsertVideoTrack (self : VideoTrackManager) (videoTrack : VideoTrack) (streamId : JsValue)
    (isScreenShare : Bool) (now : Nat) : VideoTrackManager :=
  { videoTracks :=
      JsMap.set self.videoTracks videoTrack.id
        (trackInfo self videoTrack streamId isScreenShare now),
    trackToSendCache := none }

/-- The expression `tracks.reduce((max, track) => track.firstSeenAt > max.firstSeenAt ? track
: max, tracks[0])`; on an empty array it is `undefined`. -/
def mostRecentlyCreated : List TrackInfo → Option TrackInfo
  | [] => none
  | t0 :: rest =>
    some ((t0 :: rest).foldl
      (fun max track => if track.firstSeenAt > max.firstSeenAt then track else max) t0)

/-- The method `getTrackToSend`; `none` stands for `null`. -/
def getTrackToSend (self : VideoTrackManager) : Option TrackInfo :=
  let screenShareTracks := (JsMap.values self.videoTracks).filter (fun track => track.isScreenShare)
  match mostRecentlyCreated screenShareTracks with
  | some track => some track
  | none =>
    let nonScreenShareTracks :=
      (JsMap.values self.videoTracks).filter (fun track => !track.isScreenShare)
    match mostRecentlyCreated nonScreenShareTracks with
    | some track => some track
    | none => none

/-- The method `getTrackToSendCached`: the value returned and the state afterwards. -/
def getTrackToSendCached (self : VideoTrackManager) : Option TrackInfo × VideoTrackManager :=
  match self.trackToSendCache with
  | some track => (some track, self)
  | none => (getTrackToSend self, { self with trackToSendCache := getTrackToSend self })

/-- One call on a `VideoTrackManager`. -/
inductive Call where
  | upsert (videoTrack : VideoTrack) (streamId : JsValue) (isScreenShare : Bool) (now : Nat)
  | delete (videoTrack : VideoTrack)
  | read
  deriving DecidableEq, Repr

/-- The state after one call. -/
def step (self : VideoTrackManager) : Call → VideoTrackManager
  | Call.upsert videoTrack streamId isScreenShare now =>
    upsertVideoTrack self videoTrack streamId isScreenShare now
  | Call.delete videoTrack => deleteVideoTrack self videoTrack
  | Call.read => (getTrackToSendCached self).2

/-- The state after a sequence of calls. -/
def run (self : VideoTrackManager) (calls : List Call) : VideoTrackManager :=
  calls.foldl step self

end VideoTrackManager

/-! ## Bytes, `DataView` and `TextEncoder` -/

/-- The `width` low bytes of a natural number, least significant first. -/
def littleEndian : Nat → Nat → List Nat
  | 0, _ => []
  | width + 1, n => n % 256 :: littleEndian width (n / 256)

/-- The four bytes `DataView.setInt32(_, value, true)` stores: `value` modulo 2^32 in two's
complement, little-endian. -/
def int32LE (value : Int) : List Nat :=
  littleEndian 4 (value % 4294967296).toNat

/-- The eight bytes `DataView.setBigInt64(_, value, true)` stores: `value` modulo 2^64 in
two's complement, little-endian. -/
def bigInt64LE (value : Int) : List Nat :=
  littleEndian 8 (value % 18446744073709551616).toNat

/-- The number a little-endian byte sequence denotes. -/
def littleEndianValue : List Nat → Nat
  | [] => 0
  | b :: rest => b + 256 * littleEndianValue rest

/-- The UTF-8 bytes of one character. -/
def utf8EncodeChar (c : Char) : List Nat :=
  let v := c.toNat
  if v ≤ 127 then [v]
  else if v ≤ 2047 then [v / 64 % 32 + 192, v % 64 + 128]
  else if v ≤ 65535 then [v / 4096 % 16 + 224, v / 64 % 64 + 128, v % 64 + 128]
  else [v / 262144 % 8 + 240, v / 4096 % 64 + 128, v / 64 % 64 + 128, v % 64 + 128]

/-- The call `new TextEncoder().encode(s)`: the UTF-8 bytes of a string. -/
def utf8Encode (s : String) : List Nat :=
  s.data.flatMap utf8EncodeChar

/-- The call `new Uint8Array(length)`: `length` zero bytes. -/
def newUint8Array (length : Nat) : List Nat :=
  List.replicate length 0

/-- Storing `bytes` in a buffer from `offset` on; `none` stands for the `RangeError` raised
when they do not fit. -/
def writeBytes (buffer : List Nat) (offset : Nat) (bytes : List Nat) : Option (List Nat) :=
  if offset + bytes.length ≤ buffer.length then
    some (buffer.take offset ++ bytes ++ buffer.drop (offset + bytes.length))
  else none

/-- The call `dataView.setInt32(offset, value, true)`. -/
def setInt32 (buffer : List Nat) (offset : Nat) (value : Int) : Option (List Nat) :=
  writeBytes buffer offset (int32LE value)

/-- The call `dataView.setBigInt64(offset, value, true)`. -/
def setBigInt64 (buffer : List Nat) (offset : Nat) (value : Int) : Option (List Nat) :=
  writeBytes buffer offset (bigInt64LE value)

/-- The call `message.set(bytes, offset)` of a typed array. -/
def typedArraySet (buffer : List Nat) (bytes : List Nat) (offset : Nat) : Option (List Nat) :=
  writeBytes buffer offset bytes

/-! ## `WebSocketClient` -/

/-- A typed array such as `audioData` or `videoData`, by the bytes of its `buffer`. -/
structure TypedArray where
  buffer : List Nat
  deriving DecidableEq, Repr

/-- The object `{width, height, frameData}` kept in `lastVideoFrame`. -/
structure VideoFrame where
  width : Int
  height : Int
  frameData : TypedArray
  deriving DecidableEq, Repr

/-- The fields of `WebSocketClient`, with the socket's `readyState` and the messages passed
to `this.ws.send`, oldest first. Clock readings (`performance.now()`) are natural numbers. -/
structure WebSocketClient where
  readyState : Nat
  sent : List (List Nat)
  mediaSendingEnabled : Bool
  lastVideoFrameTime : Nat
  fillerFrameInterval : Option Nat
  lastVideoFrame : VideoFrame
  blackVideoFrame : VideoFrame
  deriving DecidableEq, Repr

namespace WebSocketClient

/-- The constant `WebSocket.OPEN`. -/
def OPEN : Nat := 1

/-- The constant `MESSAGE_TYPES.JSON`. -/
def MESSAGE_TYPE_JSON : Int := 1

/-- The constant `MESSAGE_TYPES.VIDEO`. -/
def MESSAGE_TYPE_VIDEO : Int := 2

/-- The constant `MESSAGE_TYPES.AUDIO`. -/
def MESSAGE_TYPE_AUDIO : Int := 3

/-- The constant `MESSAGE_TYPES.ENCODED_MP4_CHUNK`. -/
def MESSAGE_TYPE_ENCODED_MP4_CHUNK : Int := 4

/-- The call `this.ws.send(message)`. -/
def wsSend (self : WebSocketClient) (message : List Nat) : WebSocketClient :=
  { self with sent := self.sent ++ [message] }

/-- The message `sendJson` builds from the text `jsonString`; `none` when a step raises. -/
def jsonMessage (jsonString : String) : Option (List Nat) := do
  let jsonBytes := utf8Encode jsonString
  let message := newUint8Array (4 + jsonBytes.length)
  let message ← setInt32 message 0 MESSAGE_TYPE_JSON
  typedArraySet message jsonBytes 4

/-- The method `sendJson(data)`, where `jsonString` is the text `JSON.stringify(data)`; an
exception inside the `try` block is caught and nothing is sent. -/
def sendJson (self : WebSocketClient) (jsonString : String) : WebSocketClient :=
  if self.readyState ≠ OPEN then self
  else
    match jsonMessage jsonString with
    | some message => wsSend self message
    | none => self

/-- The method `sendClosedCaptionUpdate(item)`, where `jsonString` is the JSON text of
`{type: 'CaptionUpdate', caption: item}`. -/
def sendClosedCaptionUpdate (self : WebSocketClient) (jsonString : String) : WebSocketClient :=
  if !self.mediaSendingEnabled then self
  else sendJson self jsonString

/-- The message `sendEncodedMP4Chunk` builds: the blob of a four-byte header and the data. -/
def encodedMP4ChunkMessage (encodedMP4Data : List Nat) : Option (List Nat) := do
  let headerBuffer := newUint8Array 4
  let headerBuffer ← setInt32 headerBuffer 0 MESSAGE_TYPE_ENCODED_MP4_CHUNK
  pure (headerBuffer ++ encodedMP4Data)

/-- The method `sendEncodedMP4Chunk(encodedMP4Data)`. -/
def sendEncodedMP4Chunk (self : WebSocketClient) (encodedMP4Data : List Nat) :
    WebSocketClient :=
  if self.readyState ≠ OPEN then self
  else if !self.mediaSendingEnabled then self
  else
    match encodedMP4ChunkMessage encodedMP4Data with
    | some message => wsSend self message
    | none => self

/-- The message `sendAudio` builds; `none` when a step raises. -/
def audioMessage (timestamp streamId : Int) (audioData : TypedArray) : Option (List Nat) := do
  let message := newUint8Array (4 + 8 + 4 + audioData.buffer.length)
  let message ← setInt32 message 0 MESSAGE_TYPE_AUDIO
  let message ← setBigInt64 message 4 timestamp
  let message ← setInt32 message 12 streamId
  typedArraySet message audioData.buffer 16

/-- The method `sendAudio(timestamp, streamId, audioData)`. -/
def sendAudio (self : WebSocketClient) (timestamp streamId : Int) (audioData : TypedArray) :
    WebSocketClient :=
  if self.readyState ≠ OPEN then self
  else if !self.mediaSendingEnabled then self
  else
    match audioMessage timestamp streamId audioData with
    | some message => wsSend self message
    | none => self

/-- The message `sendVideo` builds; `none` when a step raises. -/
def videoMessage (timestamp : Int) (streamId : String) (width height : Int)
    (videoData : TypedArray) : Option (List Nat) := do
  let streamIdBytes := utf8Encode streamId
  let message :=
    newUint8Array (4 + 8 + 4 + streamIdBytes.length + 4 + 4 + videoData.buffer.length)
  let message ← setInt32 message 0 MESSAGE_TYPE_VIDEO
  let message ← setBigInt64 message 4 timestamp
  let message ← setInt32 message 12 (Int.ofNat streamIdBytes.length)
  let message ← typedArraySet message streamIdBytes 16
  let streamIdOffset := 16 + streamIdBytes.length
  let message ← setInt32 message streamIdOffset width
  let message ← setInt32 message (streamIdOffset + 4) height
  typedArraySet message videoData.buffer (streamIdOffset + 8)

/-- The method `sendVideo(timestamp, streamId, width, height, videoData)`; `now` is the value
of `performance.now()`. -/
def sendVideo (self : WebSocketClient) (timestamp : Int) (streamId : String)
    (width height : Int) (videoData : TypedArray) (now : Nat) : WebSocketClient :=
  if self.readyState ≠ OPEN then self
  else if !self.mediaSendingEnabled then self
  else
    let self :=
      { self with
        lastVideoFrameTime := now,
        lastVideoFrame := { width := width, height := height, frameData := videoData } }
    match videoMessage timestamp streamId width height videoData with
    | some message => wsSend self message
    | none => self

end WebSocketClient

/-! ## Decoded records -/

mutual
/-- A decoded field value: a string (by its UTF-8 bytes), a 64-bit integer, an unsigned
32-bit integer, a nested record, or the array of a repeated field. -/
inductive PbValue where
  | str (utf8 : List Nat)
  | int64 (value : Int)
  | uint32 (value : Nat)
  | message (fields : PbRecord)
  | array (items : PbArray)
  deriving DecidableEq, Repr
/-- A decoded record: its keys and values in insertion order. -/
inductive PbRecord where
  | nil
  | cons (name : String) (value : PbValue) (rest : PbRecord)
  deriving DecidableEq, Repr
/-- The elements of an array, in order. -/
inductive PbArray where
  | nil
  | cons (value : PbValue) (rest : PbArray)
  deriving DecidableEq, Repr
end

/-- The properties of a record as a list. -/
def PbRecord.toList : PbRecord → List (String × PbValue)
  | PbRecord.nil => []
  | PbRecord.cons name value rest => (name, value) :: rest.toList

/-- The record with the listed properties. -/
def PbRecord.ofList : List (String × PbValue) → PbRecord
  | [] => PbRecord.nil
  | (name, value) :: rest => PbRecord.cons name value (PbRecord.ofList rest)

/-- The elements of an array as a list. -/
def PbArray.toList : PbArray → List PbValue
  | PbArray.nil => []
  | PbArray.cons value rest => value :: rest.toList

/-- The array with the listed elements. -/
def PbArray.ofList : List PbValue → PbArray
  | [] => PbArray.nil
  | value :: rest => PbArray.cons value (PbArray.ofList rest)

/-- The object `message` under construction in `decode`: properties in insertion order. -/
abbrev PbObject := List (String × PbValue)

namespace PbObject

/-- Property read `message[name]`; `none` stands for `undefined`. -/
def get : PbObject → String → Option PbValue
  | [], _ => none
  | (k, v) :: rest, name => if k = name then some v else get rest name

/-- Property write `message[name] = value`: an existing key keeps its position. -/
def set : PbObject → String → PbValue → PbObject
  | [], name, value => [(name, value)]
  | (k, v) :: rest, name, value =>
    if k = name then (k, value) :: rest else (k, v) :: set rest name value

end PbObject

/-! ## The schema table -/

/-- One entry of a `fields` array: `{name, fieldNumber, type, messageType, repeated}`;
`messageType` is absent on scalar fields and `repeated` is absent (falsy) unless written. -/
structure FieldSchema where
  name : String
  fieldNumber : Nat
  type : String
  messageType : Option String
  repeated : Bool
  deriving DecidableEq, Repr

/-- One entry of `messageTypes`: `{name, fields}`. -/
structure MessageSchema where
  name : String
  fields : List FieldSchema
  deriving DecidableEq, Repr

/-- A scalar field of the table. -/
def scalarField (name : String) (fieldNumber : Nat) (type : String) : FieldSchema :=
  { name := name, fieldNumber := fieldNumber, type := type, messageType := none,
    repeated := false }

/-- A nested-message field of the table. -/
def messageField (name : String) (fieldNumber : Nat) (messageType : String)
    (repeated : Bool) : FieldSchema :=
  { name := name, fieldNumber := fieldNumber, type := "message",
    messageType := some messageType, repeated := repeated }

/-- The constant `messageTypes`. -/
def messageTypes : List MessageSchema :=
  [ { name := "CollectionEvent",
      fields := [messageField "body" 1 "CollectionEventBody" false] },
    { name := "CollectionEventBody",
      fields := [messageField "userInfoListWrapperAndChatWrapperWrapper" 2
        "UserInfoListWrapperAndChatWrapperWrapper" false] },
    { name := "UserInfoListWrapperAndChatWrapperWrapper",
      fields := [messageField "deviceInfoWrapper" 3 "DeviceInfoWrapper" false,
        messageField "userInfoListWrapperAndChatWrapper" 13
          "UserInfoListWrapperAndChatWrapper" false] },
    { name := "UserInfoListWrapperAndChatWrapper",
      fields := [messageField "userInfoListWrapper" 1 "UserInfoListWrapper" false,
        messageField "chatMessageWrapper" 4 "ChatMessageWrapper" true] },
    { name := "DeviceInfoWrapper",
      fields := [messageField "deviceOutputInfoList" 2 "DeviceOutputInfoList" true] },
    { name := "DeviceOutputInfoList",
      fields := [scalarField "deviceOutputType" 2 "varint",
        scalarField "streamId" 4 "string",
        scalarField "deviceId" 6 "string",
        messageField "deviceOutputStatus" 10 "DeviceOutputStatus" false] },
    { name := "DeviceOutputStatus",
      fields := [scalarField "disabled" 1 "varint"] },
    { name := "UserInfoListResponse",
      fields := [messageField "userInfoListWrapperWrapper" 2
        "UserInfoListWrapperWrapper" false] },
    { name := "UserInfoListResponse",
      fields := [messageField "userInfoListWrapperWrapper" 2
        "UserInfoListWrapperWrapper" false] },
    { name := "UserInfoListWrapperWrapper",
      fields := [messageField "userInfoListWrapper" 2 "UserInfoListWrapper" false] },
    { name := "UserEventInfo",
      fields := [scalarField "eventNumber" 1 "varint"] },
    { name := "UserInfoListWrapper",
      fields := [messageField "userEventInfo" 1 "UserEventInfo" false,
        messageField "userInfoList" 2 "UserInfoList" true] },
    { name := "UserInfoList",
      fields := [scalarField "deviceId" 1 "string",
        scalarField "fullName" 2 "string",
        scalarField "profilePicture" 3 "string",
        scalarField "status" 4 "varint",
        scalarField "displayName" 29 "string",
        scalarField "parentDeviceId" 21 "string"] },
    { name := "CaptionWrapper",
      fields := [messageField "caption" 1 "Caption" false] },
    { name := "Caption",
      fields := [scalarField "deviceId" 1 "string",
        scalarField "captionId" 2 "int64",
        scalarField "version" 3 "int64",
        scalarField "text" 6 "string",
        scalarField "languageId" 8 "int64"] },
    { name := "ChatMessageWrapper",
      fields := [messageField "chatMessage" 2 "ChatMessage" false] },
    { name := "ChatMessage",
      fields := [scalarField "messageId" 1 "string",
        scalarField "deviceId" 2 "string",
        scalarField "timestamp" 3 "int64",
        messageField "chatMessageContent" 5 "ChatMessageContent" false] },
    { name := "ChatMessageContent",
      fields := [scalarField "text" 1 "string"] } ]

/-- The lookup `messageDecoders[name]`: `messageDecoders` is filled in table order, so of two
entries with one name the later one stays. -/
def messageDecoders (table : List MessageSchema) (name : String) : Option MessageSchema :=
  table.reverse.find? (fun t => decide (t.name = name))

/-! ## The byte cursor -/

/-- What a decoding step can raise. -/
inductive DecodeError where
  | indexOutOfRange
  | invalidWireType
  | typeError
  | outOfFuel
  deriving DecidableEq, Repr

instance {ε α : Type} [DecidableEq ε] [DecidableEq α] : DecidableEq (Except ε α)
  | Except.ok a, Except.ok b =>
    if h : a = b then isTrue (by rw [h]) else isFalse (fun e => h (Except.ok.inj e))
  | Except.error a, Except.error b =>
    if h : a = b then isTrue (by rw [h]) else isFalse (fun e => h (Except.error.inj e))
  | Except.ok _, Except.error _ => isFalse (fun e => by cases e)
  | Except.error _, Except.ok _ => isFalse (fun e => by cases e)

/-- Modelled from the spec: `protobuf.Reader`, the byte cursor of the protobufjs library,
which is not part of the repository. A cursor is its position `pos` and the bytes from `pos`
to the end of the buffer, so that `len = pos + rest.length`. -/
structure Reader where
  pos : Nat
  rest : List Nat
  deriving DecidableEq, Repr

/-- Modelled from the spec: a base-128 varint at the head of a byte list, as its value and its
length in bytes; `none` when the bytes end before a byte below 128. -/
def readVarint : List Nat → Option (Nat × Nat)
  | [] => none
  | b :: rest =>
    if b < 128 then some (b, 1)
    else
      match readVarint rest with
      | some (v, k) => some (b % 128 + 128 * v, k + 1)
      | none => none

namespace Reader

/-- Modelled from the spec: `Reader.create(bytes)`. -/
def create (bytes : List Nat) : Reader := ⟨0, bytes⟩

/-- Modelled from the spec: the property `reader.len`. -/
def len (r : Reader) : Nat := r.pos + r.rest.length

/-- Modelled from the spec: moving the cursor `k` bytes forward. -/
def advance (r : Reader) (k : Nat) : Reader := ⟨r.pos + k, r.rest.drop k⟩

/-- Modelled from the spec: `reader.uint32()`, a varint as an unsigned 32-bit value. -/
def uint32 (r : Reader) : Except DecodeError (Nat × Reader) :=
  match readVarint r.rest with
  | some (v, k) => Except.ok (v % 4294967296, r.advance k)
  | none => Except.error DecodeError.indexOutOfRange

/-- Modelled from the spec: `reader.int64()`, a varint as a signed 64-bit value. -/
def int64 (r : Reader) : Except DecodeError (Int × Reader) :=
  match readVarint r.rest with
  | some (v, k) =>
    let u := v % 18446744073709551616
    Except.ok (if u < 9223372036854775808 then (u : Int) else (u : Int) - 18446744073709551616,
      r.advance k)
  | none => Except.error DecodeError.indexOutOfRange

/-- Modelled from the spec: `reader.skip(length)`. -/
def skip (r : Reader) (length : Nat) : Except DecodeError Reader :=
  if length ≤ r.rest.length then Except.ok (r.advance length)
  else Except.error DecodeError.indexOutOfRange

/-- Modelled from the spec: `reader.string()`, a length-prefixed string, kept as its UTF-8
bytes. -/
def string (r : Reader) : Except DecodeError (List Nat × Reader) := do
  let (length, r) ← r.uint32
  if length ≤ r.rest.length then Except.ok (r.rest.take length, r.advance length)
  else Except.error DecodeError.indexOutOfRange

/-- Modelled from the spec: `reader.skipType(wireType)` for the wire types varint (0),
64-bit (1), length-delimited (2) and 32-bit (5); any other wire type is rejected. -/
def skipType (r : Reader) (wireType : Nat) : Except DecodeError Reader :=
  if wireType = 0 then
    match readVarint r.rest with
    | some (_, k) => Except.ok (r.advance k)
    | none => Except.error DecodeError.indexOutOfRange
  else if wireType = 1 then r.skip 8
  else if wireType = 2 then do
    let (length, r) ← r.uint32
    r.skip length
  else if wireType = 5 then r.skip 4
  else Except.error DecodeError.invalidWireType

end Reader

/-! ## `createMessageDecoder` -/

/-- The statements after the `switch` of `decode`: a repeated field pushes onto its array,
created on first use; any other field overwrites. A `push` on a value that is not an array
raises. -/
def storeField (message : PbObject) (field : FieldSchema) (value : PbValue) :
    Except DecodeError PbObject :=
  if field.repeated then
    match PbObject.get message field.name with
    | none => Except.ok (PbObject.set message field.name (PbValue.array (PbArray.ofList [value])))
    | some (PbValue.array items) =>
      Except.ok (PbObject.set message field.name
        (PbValue.array (PbArray.ofList (items.toList ++ [value]))))
    | some _ => Except.error DecodeError.typeError
  else Except.ok (PbObject.set message field.name value)

/-- The store after one turn of the loop: nothing when the turn ended in `continue`. -/
def storeValue (message : PbObject) : Option (FieldSchema × PbValue) →
    Except DecodeError PbObject
  | none => Except.ok message
  | some (field, value) => storeField message field value

/-- The body of the `while` loop of `decode` after the tag is read: the lookup result
`field`, the `switch` on `field.type`, and the two `skipType` exits that `continue`. The
result is the value to store, if any, and the cursor. `decodeNested fields reader limit`
stands for the call `messageDecoders[field.messageType](reader, length)`. -/
def readValue (table : List MessageSchema)
    (decodeNested : List FieldSchema → Reader → Nat → Except DecodeError (PbObject × Reader))
    (field : Option FieldSchema) (tag : Nat) (reader : Reader) :
    Except DecodeError (Option (FieldSchema × PbValue) × Reader) :=
  match field with
  | none => do
    let reader ← reader.skipType (tag % 8)
    pure (none, reader)
  | some field =>
    if field.type = "string" then do
      let (value, reader) ← reader.string
      pure (some (field, PbValue.str value), reader)
    else if field.type = "int64" then do
      let (value, reader) ← reader.int64
      pure (some (field, PbValue.int64 value), reader)
    else if field.type = "varint" then do
      let (value, reader) ← reader.uint32
      pure (some (field, PbValue.uint32 value), reader)
    else if field.type = "message" then do
      let (length, reader) ← reader.uint32
      match field.messageType.bind (messageDecoders table) with
      | none => Except.error DecodeError.typeError
      | some nested =>
        let (value, reader) ← decodeNested nested.fields reader (reader.pos + length)
        pure (some (field, PbValue.message (PbRecord.ofList value)), reader)
    else do
      let reader ← reader.skipType (tag % 8)
      pure (none, reader)

/-- The `while` loop of the function `decode` returned by `createMessageDecoder(messageType)`,
for the fields `fields` of `messageType`, from the cursor `reader` up to position `limit`
(the local `end`), on the object `message`. Each turn of the loop uses one unit of `fuel`,
and a nested call gets what is left. The result is the object and the cursor when the loop
ends. -/
def decodeLoop (table : List MessageSchema) :
    Nat → List FieldSchema → Reader → Nat → PbObject → Except DecodeError (PbObject × Reader)
  | 0, _, _, _, _ => Except.error DecodeError.outOfFuel
  | fuel + 1, fields, reader, limit, message =>
    if reader.pos < limit then
      match reader.uint32 with
      | Except.error e => Except.error e
      | Except.ok (tag, reader) =>
        match readValue table (fun fs r lim => decodeLoop table fuel fs r lim [])
            (fields.find? (fun f => decide (f.fieldNumber = tag / 8))) tag reader with
        | Except.error e => Except.error e
        | Except.ok (value, reader) =>
          match storeValue message value with
          | Except.error e => Except.error e
          | Except.ok message => decodeLoop table fuel fields reader limit message
    else Except.ok (message, reader)

/-- The decoder `messageDecoders[name]` applied to a byte array: `decode(bytes)` with
`length` undefined, so that `end = reader.len`. The fuel is one more than the number of
bytes, which no run exhausts. -/
def decode (table : List MessageSchema) (schema : MessageSchema) (bytes : List Nat) :
    Except DecodeError PbObject :=
  (decodeLoop table (bytes.length + 1) schema.fields (Reader.create bytes)
    (Reader.create bytes).len []).map Prod.fst

/-! ## The decoder on the remaining bytes -/

/-- The cursor `r` over a buffer that continues with `more`. -/
def Reader.extend (r : Reader) (more : List Nat) : Reader := ⟨r.pos, r.rest ++ more⟩

/-- The body of the loop of `decode` after the tag is read, without cursor positions: the same
reads as `readValue`, made on the remaining bytes `rest`; the result is the value to store, if
any, and the bytes left. `decodeNested fields rest budget` stands for the nested call with
`budget = length` bytes to go. -/
def readValueRest (table : List MessageSchema)
    (decodeNested : List FieldSchema → List Nat → Nat →
      Except DecodeError (PbObject × List Nat))
    (field : Option FieldSchema) (tag : Nat) (rest : List Nat) :
    Except DecodeError (Option (FieldSchema × PbValue) × List Nat) :=
  match field with
  | none => do
    let reader ← (Reader.mk 0 rest).skipType (tag % 8)
    pure (none, reader.rest)
  | some field =>
    if field.type = "string" then do
      let (value, reader) ← (Reader.mk 0 rest).string
      pure (some (field, PbValue.str value), reader.rest)
    else if field.type = "int64" then do
      let (value, reader) ← (Reader.mk 0 rest).int64
      pure (some (field, PbValue.int64 value), reader.rest)
    else if field.type = "varint" then do
      let (value, reader) ← (Reader.mk 0 rest).uint32
      pure (some (field, PbValue.uint32 value), reader.rest)
    else if field.type = "message" then do
      let (length, reader) ← (Reader.mk 0 rest).uint32
      match field.messageType.bind (messageDecoders table) with
      | none => Except.error DecodeError.typeError
      | some nested =>
        let (value, rest) ← decodeNested nested.fields reader.rest length
        pure (some (field, PbValue.message (PbRecord.ofList value)), rest)
    else do
      let reader ← (Reader.mk 0 rest).skipType (tag % 8)
      pure (none, reader.rest)

/-- The loop of `decode` without cursor positions: on the remaining bytes `rest`, with
`budget = end - pos` bytes to go before the loop ends. It is `decodeLoop` seen through the
bytes left (see `decodeLoop_eq_decodeRestLoop`). -/
def decodeRestLoop (table : List MessageSchema) :
    Nat → List FieldSchema → List Nat → Nat → PbObject →
      Except DecodeError (PbObject × List Nat)
  | 0, _, _, _, _ => Except.error DecodeError.outOfFuel
  | fuel + 1, fields, rest, budget, message =>
    if 0 < budget then
      match (Reader.mk 0 rest).uint32 with
      | Except.error e => Except.error e
      | Except.ok (tag, reader) =>
        match readValueRest table (fun fs r b => decodeRestLoop table fuel fs r b [])
            (fields.find? (fun f => decide (f.fieldNumber = tag / 8))) tag reader.rest with
        | Except.error e => Except.error e
        | Except.ok (value, rest') =>
          match storeValue message value with
          | Except.error e => Except.error e
          | Except.ok message =>
            decodeRestLoop table fuel fields rest' (budget - (rest.length - rest'.length))
              message
    else Except.ok (message, rest)

/-- The loop of `decode` on the bytes `rest` with `budget` bytes to go, with fuel one more
than the number of bytes. -/
def decodeRest (table : List MessageSchema) (fields : List FieldSchema) (rest : List Nat)
    (budget : Nat) (message : PbObject) : Except DecodeError (PbObject × List Nat) :=
  decodeRestLoop table (rest.length + 1) fields rest budget message

/-- A run of `decodeLoop` from the cursor `r`, seen through the bytes left: the cursor
position is the starting position plus the number of bytes read. -/
def atCursor (r : Reader) (result : Except DecodeError (PbObject × List Nat)) :
    Except DecodeError (PbObject × Reader) :=
  result.map (fun x => (x.1, ⟨r.pos + (r.rest.length - x.2.length), x.2⟩))

/-! ## Well-formed wire fields and insertion of unknown fields -/

/-- Whether a byte list is exactly one varint: bytes of 128 or more, then one byte below
128. -/
def isVarintBytes : List Nat → Bool
  | [] => false
  | b :: rest => if b < 128 then rest.isEmpty else isVarintBytes rest

/-- The value of the varint at the head of a byte list, `0` if there is none. -/
def varintValue (bytes : List Nat) : Nat :=
  match readVarint bytes with
  | some (v, _) => v
  | none => 0

/-- A field on the wire, by its parts: the bytes of its tag and, by wire type, a varint, eight
bytes, a length prefix with its data, or four bytes. -/
inductive WireField where
  | varint (tagBytes value : List Nat)
  | fixed64 (tagBytes bytes : List Nat)
  | lengthDelimited (tagBytes lengthBytes data : List Nat)
  | fixed32 (tagBytes bytes : List Nat)
  deriving DecidableEq, Repr

namespace WireField

/-- The bytes of the tag. -/
def tagBytes : WireField → List Nat
  | varint t _ => t
  | fixed64 t _ => t
  | lengthDelimited t _ _ => t
  | fixed32 t _ => t

/-- The bytes after the tag. -/
def payload : WireField → List Nat
  | varint _ v => v
  | fixed64 _ b => b
  | lengthDelimited _ l d => l ++ d
  | fixed32 _ b => b

/-- The bytes of the field. -/
def bytes (w : WireField) : List Nat := w.tagBytes ++ w.payload

/-- The wire type of the field's kind. -/
def wireType : WireField → Nat
  | varint _ _ => 0
  | fixed64 _ _ => 1
  | lengthDelimited _ _ _ => 2
  | fixed32 _ _ => 5

/-- The field number the tag carries. -/
def fieldNumber (w : WireField) : Nat := varintValue w.tagBytes / 8

/-- Whether the payload is what the wire type demands. -/
def payloadWellFormed : WireField → Bool
  | varint _ v => isVarintBytes v
  | fixed64 _ b => decide (b.length = 8)
  | lengthDelimited _ l d =>
    isVarintBytes l && decide (varintValue l < 4294967296) && decide (varintValue l = d.length)
  | fixed32 _ b => decide (b.length = 4)

/-- Whether the field is well formed: its tag is one varint below 2^32 whose low three bits
are the wire type, and its payload is what the wire type demands. -/
def wellFormed (w : WireField) : Bool :=
  isVarintBytes w.tagBytes && decide (varintValue w.tagBytes < 4294967296) &&
    decide (varintValue w.tagBytes % 8 = w.wireType) && w.payloadWellFormed

/-- Whether the field number is none of the schema's. -/
def unknownTo (w : WireField) (fields : List FieldSchema) : Bool :=
  (fields.find? (fun f => decide (f.fieldNumber = w.fieldNumber))).isNone

end WireField

/-- The relation `Inserted table fields budget x x'`: `x` is the start of a byte sequence read
by the loop of `decode` for `fields` with `budget` bytes to go, and `x'` is `x` with one
well-formed field of an unknown number inserted at a field boundary: either at the end of
`x`, which the loop decodes to its end, within the budget; or inside the payload `y` of a
nested message that follows such a prefix `a`, the length prefix of the nested message being
replaced by one that counts the inserted bytes, the field not becoming shorter. -/
inductive Inserted (table : List MessageSchema) :
    List FieldSchema → Nat → List Nat → List Nat → Prop where
  | here (fields : List FieldSchema) (budget : Nat) (a : List Nat) (w : WireField)
      (m : PbObject) :
      decodeRest table fields a a.length [] = Except.ok (m, []) →
      a.length ≤ budget → w.wellFormed = true → w.unknownTo fields = true →
      Inserted table fields budget a (a ++ w.bytes)
  | nested (fields : List FieldSchema) (budget : Nat) (a tagBytes lengthBytes lengthBytes'
      y y' : List Nat) (m : PbObject) (field : FieldSchema) (nested : MessageSchema) :
      decodeRest table fields a a.length [] = Except.ok (m, []) →
      a.length < budget →
      isVarintBytes tagBytes = true →
      fields.find? (fun f => decide (f.fieldNumber = varintValue tagBytes % 4294967296 / 8))
        = some field →
      field.type = "message" →
      field.messageType.bind (messageDecoders table) = some nested →
      isVarintBytes lengthBytes = true → isVarintBytes lengthBytes' = true →
      Inserted table nested.fields (varintValue lengthBytes % 4294967296) y y' →
      varintValue lengthBytes' % 4294967296 + y.length
        = varintValue lengthBytes % 4294967296 + y'.length →
      lengthBytes.length + y.length ≤ lengthBytes'.length + y'.length →
      Inserted table fields budget (a ++ tagBytes ++ lengthBytes ++ y)
        (a ++ tagBytes ++ lengthBytes' ++ y')

/-! ## The fields of a message in arrival order -/

/-- The fields read off the wire by the loop of `decode`, in arrival order, instead of the
object they are stored in: each turn reads one tag and, for a field number of the schema, one
value of the field's type (a nested message through its decoder); fields of other numbers are
skipped. The result is the list of the fields read with their values, and the bytes left. -/
def wireFieldsLoop (table : List MessageSchema) :
    Nat → List FieldSchema → List Nat → Nat →
      Except DecodeError (List (FieldSchema × PbValue) × List Nat)
  | 0, _, _, _ => Except.error DecodeError.outOfFuel
  | fuel + 1, fields, rest, budget =>
    if 0 < budget then
      match (Reader.mk 0 rest).uint32 with
      | Except.error e => Except.error e
      | Except.ok (tag, reader) =>
        match readValueRest table (fun fs r b => decodeRestLoop table fuel fs r b [])
            (fields.find? (fun f => decide (f.fieldNumber = tag / 8))) tag reader.rest with
        | Except.error e => Except.error e
        | Except.ok (value, rest') =>
          match wireFieldsLoop table fuel fields rest'
              (budget - (rest.length - rest'.length)) with
          | Except.error e => Except.error e
          | Except.ok (items, rest'') => Except.ok (value.toList ++ items, rest'')
    else Except.ok ([], rest)

/-- The fields of the schema that occur in the bytes of a message, with their values, in
arrival order. -/
def wireFields (table : List MessageSchema) (schema : MessageSchema) (bytes : List Nat) :
    Except DecodeError (List (FieldSchema × PbValue)) :=
  (wireFieldsLoop table (bytes.length + 1) schema.fields bytes bytes.length).map Prod.fst

/-- The values of the occurrences of the field number of `field` among the fields read, in
arrival order. -/
def occurrences (field : FieldSchema) (items : List (FieldSchema × PbValue)) : List PbValue :=
  (items.filter (fun i => decide (i.1.fieldNumber = field.fieldNumber))).map Prod.snd

/-- The object after storing the listed fields one after the other. -/
def storeAll : PbObject → List (FieldSchema × PbValue) → Except DecodeError PbObject
  | message, [] => Except.ok message
  | message, (field, value) :: items =>
    match storeField message field value with
    | Except.error e => Except.error e
    | Except.ok message => storeAll message items

/-! ## The encoding that the decoder reads -/

/-- The bytes of the base-128 varint of `n`, low seven bits first, with `fuel` bytes at
most after the first. -/
def encodeVarintFuel : Nat → Nat → List Nat
  | 0, n => [n]
  | fuel + 1, n => if n < 128 then [n] else (n % 128 + 128) :: encodeVarintFuel fuel (n / 128)

/-- The bytes of the base-128 varint of `n`. -/
def encodeVarint (n : Nat) : List Nat := encodeVarintFuel n n

/-- The tag of a field: its number and a wire type in one varint. -/
def encodeTag (field : FieldSchema) (wireType : Nat) : List Nat :=
  encodeVarint (field.fieldNumber * 8 + wireType)

mutual
/-- The protobuf encoding of the value of a field: a string as a length-delimited field of its
UTF-8 bytes, a 64-bit integer as the varint of its two's complement, an unsigned 32-bit
integer as a varint, a nested record as a length-delimited field of its encoding, and an array
as its elements one after the other, each as a field of its own. -/
def encodeValue (table : List MessageSchema) (field : FieldSchema) : PbValue → List Nat
  | PbValue.str utf8 => encodeTag field 2 ++ (encodeVarint utf8.length ++ utf8)
  | PbValue.int64 value =>
    encodeTag field 0 ++ encodeVarint (value % 18446744073709551616).toNat
  | PbValue.uint32 value => encodeTag field 0 ++ encodeVarint value
  | PbValue.message record =>
    match field.messageType.bind (messageDecoders table) with
    | some nested =>
      encodeTag field 2 ++ (encodeVarint (encodeRecord table nested.fields record).length
        ++ encodeRecord table nested.fields record)
    | none => []
  | PbValue.array items => encodeArray table field items
/-- The protobuf encoding of a record for the fields of a schema: the encodings of its
properties in the record's order, each under the field of its name. -/
def encodeRecord (table : List MessageSchema) (fields : List FieldSchema) :
    PbRecord → List Nat
  | PbRecord.nil => []
  | PbRecord.cons name value rest =>
    (match fields.find? (fun f => decide (f.name = name)) with
      | some field => encodeValue table field value
      | none => []) ++ encodeRecord table fields rest
/-- The protobuf encoding of the elements of a repeated field, in order. -/
def encodeArray (table : List MessageSchema) (field : FieldSchema) : PbArray → List Nat
  | PbArray.nil => []
  | PbArray.cons value rest => encodeValue table field value ++ encodeArray table field rest
end

/-- The protobuf encoding of a record for a schema. The script holds a decoder only: this is
the standard tag/length-delimited encoding, written down from the wire format, with which
`decode` is compared. -/
def encode (table : List MessageSchema) (schema : MessageSchema) (record : PbObject) :
    List Nat :=
  encodeRecord table schema.fields (PbRecord.ofList record)

/-- The keys of a record. -/
def PbRecord.keys : PbRecord → List String
  | PbRecord.nil => []
  | PbRecord.cons name _ rest => name :: rest.keys

mutual
/-- Whether a value is one value of a field: of the field's type, a varint below 2^32, a
64-bit integer in the signed range, a string of fewer than 2^32 bytes, or a nested record that
conforms to the field's message type and whose encoding has fewer than 2^32 bytes. -/
def conformsValue (table : List MessageSchema) (field : FieldSchema) : PbValue → Bool
  | PbValue.str utf8 => decide (field.type = "string") && decide (utf8.length < 4294967296)
  | PbValue.int64 value =>
    decide (field.type = "int64") && decide (-9223372036854775808 ≤ value) &&
      decide (value < 9223372036854775808)
  | PbValue.uint32 value => decide (field.type = "varint") && decide (value < 4294967296)
  | PbValue.message record =>
    decide (field.type = "message") &&
      match field.messageType.bind (messageDecoders table) with
      | some nested =>
        conformsRecord table nested.fields record &&
          decide ((encodeRecord table nested.fields record).length < 4294967296)
      | none => false
  | PbValue.array _ => false
/-- Whether a record conforms to the fields of a schema: its keys are pairwise distinct names
of fields, a repeated field holds an array of values of the field, and any other field holds
one value of the field. -/
def conformsRecord (table : List MessageSchema) (fields : List FieldSchema) :
    PbRecord → Bool
  | PbRecord.nil => true
  | PbRecord.cons name value rest =>
    (match fields.find? (fun f => decide (f.name = name)) with
      | some field =>
        if field.repeated then
          match value with
          | PbValue.array items => conformsArray table field items
          | _ => false
        else conformsValue table field value
      | none => false) &&
    !rest.keys.contains name && conformsRecord table fields rest
/-- Whether the elements of an array are values of a field. -/
def conformsArray (table : List MessageSchema) (field : FieldSchema) : PbArray → Bool
  | PbArray.nil => true
  | PbArray.cons value rest => conformsValue table field value && conformsArray table field rest
end

/-- Whether a record conforms to a schema. -/
def conforms (table : List MessageSchema) (schema : MessageSchema) (record : PbObject) :
    Bool :=
  conformsRecord table schema.fields (PbRecord.ofList record)

mutual
/-- Whether no array in a value is empty. -/
def PbValue.arraysNonEmpty : PbValue → Bool
  | PbValue.message record => record.arraysNonEmpty
  | PbValue.array PbArray.nil => false
  | PbValue.array (PbArray.cons value rest) => value.arraysNonEmpty && rest.arraysNonEmpty
  | _ => true
/-- Whether no array in a record is empty. -/
def PbRecord.arraysNonEmpty : PbRecord → Bool
  | PbRecord.nil => true
  | PbRecord.cons _ value rest => value.arraysNonEmpty && rest.arraysNonEmpty
/-- Whether no array among the elements of an array is empty. -/
def PbArray.arraysNonEmpty : PbArray → Bool
  | PbArray.nil => true
  | PbArray.cons value rest => value.arraysNonEmpty && rest.arraysNonEmpty
end

/-- Whether the fields of a schema have pairwise distinct names and pairwise distinct numbers
below 2^29, so that every tag is below 2^32. -/
def fieldsWellFormed (fields : List FieldSchema) : Bool :=
  decide (fields.map FieldSchema.name).Nodup &&
    decide (fields.map FieldSchema.fieldNumber).Nodup &&
    fields.all (fun f => decide (f.fieldNumber < 536870912))

/-- Whether every schema of a table has well-formed fields. -/
def tableWellFormed (table : List MessageSchema) : Bool :=
  table.all (fun schema => fieldsWellFormed schema.fields)

/-- The fields that the encoding of the value of a field holds, in order: one for each
element of an array, one for any other value. -/
def valueItems (field : FieldSchema) : PbValue → List (FieldSchema × PbValue)
  | PbValue.array items => items.toList.map (fun value => (field, value))
  | value => [(field, value)]

/-! ## `DataView.getInt32`, `TextDecoder` and `handleMessage` -/

/-- The call `dataView.getInt32(offset, true)` on a buffer of bytes: the four bytes from
`offset` on as a little-endian number in two's complement; `none` stands for the
`RangeError` raised when the buffer ends before them. -/
def getInt32 (buffer : List Nat) (offset : Nat) : Option Int :=
  if offset + 4 ≤ buffer.length then
    let u := littleEndianValue ((buffer.drop offset).take 4)
    some (if u < 2147483648 then (u : Int) else (u : Int) - 4294967296)
  else none

/-- The character U+FFFD that the decoder gives for bytes that are not UTF-8. -/
def replacementCharacter : Char := Char.ofNat 65533

/-- The continuation bytes of one character in the UTF-8 decoder: `needed` bytes to go, each
between `lower` and `upper` (both 128 and 191 after the first), `seen` bytes read so far. The
result is the character and the number of bytes read; a byte out of range or the end of the
bytes gives U+FFFD for the bytes read before it. -/
def utf8Continuation : Nat → Nat → Nat → Nat → Nat → List Nat → Char × Nat
  | 0, codePoint, _, _, seen, _ => (Char.ofNat codePoint, seen)
  | _ + 1, _, _, _, seen, [] => (replacementCharacter, seen)
  | needed + 1, codePoint, lower, upper, seen, b :: rest =>
    if lower ≤ b ∧ b ≤ upper then
      utf8Continuation needed (codePoint * 64 + b % 64) 128 191 (seen + 1) rest
    else (replacementCharacter, seen)

/-- One character of the UTF-8 decoder, from the lead byte `b` and the bytes after it: the
character and the number of bytes read. -/
def utf8DecodeOne (b : Nat) (rest : List Nat) : Char × Nat :=
  if b ≤ 127 then (Char.ofNat b, 1)
  else if 194 ≤ b ∧ b ≤ 223 then utf8Continuation 1 (b % 32) 128 191 1 rest
  else if 224 ≤ b ∧ b ≤ 239 then
    utf8Continuation 2 (b % 16) (if b = 224 then 160 else 128) (if b = 237 then 159 else 191)
      1 rest
  else if 240 ≤ b ∧ b ≤ 244 then
    utf8Continuation 3 (b % 8) (if b = 240 then 144 else 128) (if b = 244 then 143 else 191)
      1 rest
  else (replacementCharacter, 1)

/-- The characters of a byte sequence in the UTF-8 decoder, with `fuel` characters at most. -/
def utf8DecodeLoop : Nat → List Nat → List Char
  | 0, _ => []
  | _ + 1, [] => []
  | fuel + 1, b :: rest =>
    (utf8DecodeOne b rest).1 :: utf8DecodeLoop fuel (rest.drop ((utf8DecodeOne b rest).2 - 1))

/-- The call `new TextDecoder().decode(bytes)`: a byte order mark at the start is dropped, and
the bytes are decoded as UTF-8. -/
def utf8Decode (bytes : List Nat) : String :=
  let stream := if bytes.take 3 = [239, 187, 191] then bytes.drop 3 else bytes
  ⟨utf8DecodeLoop stream.length stream⟩

namespace WebSocketClient

/-- What a call of `handleMessage` comes to: the text handed to `JSON.parse` for a message of
type JSON, the warning for any other type, or the `RangeError` of `getInt32`. -/
inductive Handled where
  | json (jsonData : String)
  | unknownType (messageType : Int)
  | threw
  deriving DecidableEq, Repr

/-- The method `handleMessage(data)`, up to the text `jsonData` that it hands to
`JSON.parse`: `new Uint8Array(data, 4)` is the bytes of `data` from offset 4 on. -/
def handleMessage (data : List Nat) : Handled :=
  match getInt32 data 0 with
  | none => Handled.threw
  | some messageType =>
    if messageType = MESSAGE_TYPE_JSON then Handled.json (utf8Decode (data.drop 4))
    else Handled.unknownType messageType

end WebSocketClient

/-! ## The text of a control message -/

/-- The JSON text of an array of objects; an element that is `undefined` is written `null`. -/
def jsonArray (items : List (Option JsObject)) : String :=
  "[" ++ String.intercalate ","
    (items.map (fun item =>
      match item with
      | some o => jsonStringifyObject o
      | none => "null")) ++ "]"

/-- The text `JSON.stringify(data)` that `sendJson` computes for a control message of
`UserManager`. -/
def ControlMessage.jsonText : ControlMessage → String
  | ControlMessage.usersUpdate newUsers removedUsers updatedUsers =>
    "\x7b\"type\":\"UsersUpdate\",\"newUsers\":" ++ jsonArray (newUsers.map some) ++
      ",\"removedUsers\":" ++ jsonArray removedUsers ++
      ",\"updatedUsers\":" ++ jsonArray updatedUsers ++ "\x7d"
  | ControlMessage.deviceOutputsUpdate deviceOutputs =>
    "\x7b\"type\":\"DeviceOutputsUpdate\",\"deviceOutputs\":" ++
      jsonArray (deviceOutputs.map some) ++ "\x7d"

/-- The calls `this.ws.sendJson(message)` for the messages a `UserManager` method hands over,
in order. -/
def WebSocketClient.sendControl (self : WebSocketClient) (messages : List ControlMessage) :
    WebSocketClient :=
  messages.foldl (fun ws message => WebSocketClient.sendJson ws message.jsonText) self

/-! ## `CaptionManager` -/

/-- The fields of `CaptionManager`: the map `captions`, keyed by `captionId`. A caption is the
decoded `Caption` record, with its 64-bit fields as numbers. -/
structure CaptionManager where
  captions : JsMap JsValue JsObject
  deriving DecidableEq, Repr

namespace CaptionManager

/-- The state built by the constructor. -/
def init : CaptionManager := ⟨[]⟩

/-- The text `JSON.stringify({type: 'CaptionUpdate', caption: item})`. -/
def captionUpdateText (item : JsObject) : String :=
  "\x7b\"type\":\"CaptionUpdate\",\"caption\":" ++ jsonStringifyObject item ++ "\x7d"

/-- The method `singleCaptionSynced`: the manager and the client `this.ws` afterwards. -/
def singleCaptionSynced (self : CaptionManager) (ws : WebSocketClient) (caption : JsObject) :
    CaptionManager × WebSocketClient :=
  ({ captions := JsMap.set self.captions (JsObject.getProp caption "captionId") caption },
    WebSocketClient.sendClosedCaptionUpdate ws (captionUpdateText caption))

/-- The state after `singleCaptionSynced` on each caption of a sequence, in order. -/
def syncAll (self : CaptionManager) (ws : WebSocketClient) (captions : List JsObject) :
    CaptionManager × WebSocketClient :=
  captions.foldl (fun state caption => singleCaptionSynced state.1 state.2 caption) (self, ws)

/-- The last caption of a sequence that carries the captionId `id`. -/
def lastSynced (captions : List JsObject) (id : JsValue) : Option JsObject :=
  captions.reverse.find? (fun caption => decide (JsObject.getProp caption "captionId" = id))

end CaptionManager

/-! ## The filler-frame timer -/

namespace VideoTrackManager

/-- The method `getStreamIdToSendCached`: the value of `this.getTrackToSendCached()?.streamId`
and the state afterwards. -/
def getStreamIdToSendCached (self : VideoTrackManager) : JsValue × VideoTrackManager :=
  match getTrackToSendCached self with
  | (some track, self) => (track.streamId, self)
  | (none, self) => (JsValue.undefined, self)

end VideoTrackManager

namespace WebSocketClient

/-- The method `getBlackFrame`: a 1920 by 1080 frame in I420 layout, the Y plane filled with 0
and the U and V planes with 128. -/
def getBlackFrame : VideoFrame :=
  { width := 1920, height := 1080,
    frameData := ⟨List.replicate (1920 * 1080) 0 ++ List.replicate (2 * (1920 * 1080 / 4)) 128⟩ }

/-- The fields the constructor sets; the socket has just been created (`readyState` 0,
`CONNECTING`) and `now` is the value of `performance.now()`. -/
def init (now : Nat) : WebSocketClient :=
  { readyState := 0, sent := [], mediaSendingEnabled := false, lastVideoFrameTime := now,
    fillerFrameInterval := none, lastVideoFrame := getBlackFrame,
    blackVideoFrame := getBlackFrame }

/-- The method `currentVideoStreamIsActive`, with `window.userManager` and
`window.videoTrackManager` as arguments: the result, the client and the track manager
afterwards. -/
def currentVideoStreamIsActive (self : WebSocketClient) (userManager : UserManager)
    (videoTrackManager : VideoTrackManager) : Bool × WebSocketClient × VideoTrackManager :=
  let (streamId, videoTrackManager) := videoTrackManager.getStreamIdToSendCached
  let result := userManager.deviceForStreamIsActive streamId
  (result, if !result then { self with lastVideoFrame := self.blackVideoFrame } else self,
    videoTrackManager)

/-- What one run of the callback of `startFillerFrameTimer` leaves: the client, the track
manager, and the local `frameToUse` when the condition of the `if` held. The statement that
would pass `frameToUse` to `sendVideo` is a comment in the source, so nothing is sent. -/
structure FillerTick where
  self : WebSocketClient
  videoTrackManager : VideoTrackManager
  frameToUse : Option VideoFrame
  deriving DecidableEq, Repr

/-- The callback passed to `setInterval` in `startFillerFrameTimer`; `currentTime` is the
value of `performance.now()`. -/
def fillerFrameTick (self : WebSocketClient) (userManager : UserManager)
    (videoTrackManager : VideoTrackManager) (currentTime : Nat) : FillerTick :=
  if currentTime - self.lastVideoFrameTime ≥ 500 && self.mediaSendingEnabled then
    let (active, self, videoTrackManager) :=
      currentVideoStreamIsActive self userManager videoTrackManager
    let frameToUse := if active then self.lastVideoFrame else self.blackVideoFrame
    { self := self, videoTrackManager := videoTrackManager, frameToUse := some frameToUse }
  else { self := self, videoTrackManager := videoTrackManager, frameToUse := none }

end WebSocketClient

/-! ## `FullCaptureManager` and the page it acts on -/

/-- The part of the page that `FullCaptureManager` and the filler-frame timer act on. Page
objects (canvas elements, mutation observers, media tracks, recorders) and the ids returned
by `requestAnimationFrame` and `setInterval` are handles: positive numbers, given out in
order, so that every handle is truthy. -/
structure Host where
  /-- The number of handles given out so far. -/
  lastHandle : Nat
  /-- The canvas elements that are children of `document.body`, in order. -/
  bodyCanvases : List Nat
  /-- The mutation observers that observe a target. -/
  observers : List Nat
  /-- The ids of the `requestAnimationFrame` callbacks that wait for the next frame: one for
  each draw loop that runs. -/
  frameRequests : List Nat
  /-- The media recorders whose `state` is not `'inactive'`. -/
  recorders : List Nat
  /-- The media tracks that have not been stopped. -/
  liveTracks : List Nat
  /-- The ids of the `setInterval` timers that have not been cleared. -/
  intervals : List Nat
  deriving DecidableEq, Repr

/-- The page before the script has created anything. -/
def Host.init : Host :=
  { lastHandle := 0, bodyCanvases := [], observers := [], frameRequests := [], recorders := [],
    liveTracks := [], intervals := [] }

namespace Host

/-- A new page object that the page keeps no list of (an audio context, a media stream). -/
def newObject (host : Host) : Nat × Host :=
  (host.lastHandle + 1, { host with lastHandle := host.lastHandle + 1 })

/-- The calls `document.createElement('canvas')` and `document.body.appendChild(canvas)`. -/
def appendCanvas (host : Host) : Nat × Host :=
  (host.lastHandle + 1,
    { host with lastHandle := host.lastHandle + 1,
                bodyCanvases := host.bodyCanvases ++ [host.lastHandle + 1] })

/-- The calls `new MutationObserver(callback)` and `observer.observe(target, options)`. -/
def observe (host : Host) : Nat × Host :=
  (host.lastHandle + 1,
    { host with lastHandle := host.lastHandle + 1,
                observers := host.observers ++ [host.lastHandle + 1] })

/-- The call `requestAnimationFrame(callback)`. -/
def requestAnimationFrame (host : Host) : Nat × Host :=
  (host.lastHandle + 1,
    { host with lastHandle := host.lastHandle + 1,
                frameRequests := host.frameRequests ++ [host.lastHandle + 1] })

/-- A new live media track: the video track of a canvas stream or the audio track of a
destination node. -/
def newTrack (host : Host) : Nat × Host :=
  (host.lastHandle + 1,
    { host with lastHandle := host.lastHandle + 1,
                liveTracks := host.liveTracks ++ [host.lastHandle + 1] })

/-- The calls `new MediaRecorder(stream, options)` and `mediaRecorder.start(1000)`. -/
def startRecorder (host : Host) : Nat × Host :=
  (host.lastHandle + 1,
    { host with lastHandle := host.lastHandle + 1,
                recorders := host.recorders ++ [host.lastHandle + 1] })

/-- The call `setInterval(callback, delay)`. -/
def setInterval (host : Host) : Nat × Host :=
  (host.lastHandle + 1,
    { host with lastHandle := host.lastHandle + 1,
                intervals := host.intervals ++ [host.lastHandle + 1] })

/-- The call `clearInterval(id)`. -/
def clearInterval (host : Host) (id : Nat) : Host :=
  { host with intervals := host.intervals.erase id }

/-- The call `track.stop()`. -/
def stopTrack (host : Host) (track : Nat) : Host :=
  { host with liveTracks := host.liveTracks.erase track }

end Host

/-- The fields of `FullCaptureManager`; `none` stands for `null` or `undefined`
(`animationFrameId` and `canvas` are not set by the constructor). -/
structure FullCaptureManager where
  videoTrack : Option Nat
  audioSources : List Nat
  mixedAudioTrack : Option Nat
  canvasStream : Option Nat
  finalStream : Option Nat
  mediaRecorder : Option Nat
  recordedChunks : List (List Nat)
  audioContext : Option Nat
  observer : Option Nat
  animationFrameId : Option Nat
  canvas : Option Nat
  deriving DecidableEq, Repr

/-- A release that `stop` performs on the page. -/
inductive ReleaseAction where
  | recorderStop (mediaRecorder : Nat)
  | cancelAnimationFrame (id : Nat)
  | observerDisconnect (observer : Nat)
  | removeCanvas (canvas : Nat)
  | trackStop (track : Nat)
  deriving DecidableEq, Repr

/-- How a call of `stop` ends: it returns, or `document.body.removeChild` raises because the
canvas is not a child of the body; either way with the manager and the page as they are then
and the releases performed, in order. -/
inductive StopResult where
  | returned (self : FullCaptureManager) (host : Host) (actions : List ReleaseAction)
  | threw (self : FullCaptureManager) (host : Host) (actions : List ReleaseAction)
  deriving DecidableEq, Repr

namespace FullCaptureManager

/-- The state built by the constructor. -/
def init : FullCaptureManager :=
  { videoTrack := none, audioSources := [], mixedAudioTrack := none, canvasStream := none,
    finalStream := none, mediaRecorder := none, recordedChunks := [], audioContext := none,
    observer := none, animationFrameId := none, canvas := none }

/-- The method `startRecording`: a new `MediaRecorder` on `finalStream`, started. -/
def startRecording (self : FullCaptureManager) (host : Host) : FullCaptureManager × Host :=
  let (mediaRecorder, host) := host.startRecorder
  ({ self with mediaRecorder := some mediaRecorder, recordedChunks := [] }, host)

/-- The method `start`. `mainElement` says whether `document.querySelector('main')` finds an
element, and `globalAudioTracks` is the array of that name; an audio source is named by its
track. The capabilities of the page (canvas, audio context, recorder) are taken to succeed.
There is no `await` in the body, so the whole of it runs within the call. -/
def start (self : FullCaptureManager) (host : Host) (mainElement : Bool)
    (globalAudioTracks : List Nat) : FullCaptureManager × Host :=
  if !mainElement then (self, host)
  else
    -- document.createElement('canvas'); document.body.appendChild(canvas)
    let (canvas, host) := host.appendCanvas
    -- this.observer = new MutationObserver(...); this.observer.observe(mainElement, ...)
    let (observer, host) := host.observe
    -- drawVideosToCanvas(): this.animationFrameId = requestAnimationFrame(drawVideosToCanvas)
    let (frame, host) := host.requestAnimationFrame
    -- const [videoTrack] = canvas.captureStream(30).getVideoTracks()
    let (videoTrack, host) := host.newTrack
    -- this.audioContext = new AudioContext()
    let (audioContext, host) := host.newObject
    -- this.mixedAudioTrack = destination.stream.getAudioTracks()[0]
    let (mixedAudioTrack, host) := host.newTrack
    -- this.finalStream = new MediaStream([this.videoTrack, this.mixedAudioTrack])
    let (finalStream, host) := host.newObject
    startRecording
      { self with observer := some observer, animationFrameId := some frame,
                  videoTrack := some videoTrack, canvas := some canvas,
                  audioContext := some audioContext, audioSources := globalAudioTracks,
                  mixedAudioTrack := some mixedAudioTrack, finalStream := some finalStream }
      host

/-- The method `stopRecording`: the page afterwards and the release performed. -/
def stopRecording (self : FullCaptureManager) (host : Host) : Host × List ReleaseAction :=
  match self.mediaRecorder with
  | some mediaRecorder =>
    if mediaRecorder ∈ host.recorders then
      ({ host with recorders := host.recorders.erase mediaRecorder },
        [ReleaseAction.recorderStop mediaRecorder])
    else (host, [])
  | none => (host, [])

/-- The statement `if (track) track.stop()` for `this.videoTrack` or `this.mixedAudioTrack`:
the page afterwards and the releases so far. -/
def stopTrackIfSet (track : Option Nat) (host : Host) (actions : List ReleaseAction) :
    Host × List ReleaseAction :=
  match track with
  | some track => (host.stopTrack track, actions ++ [ReleaseAction.trackStop track])
  | none => (host, actions)

/-- The end of `stop`, from `// Stop all tracks` on. -/
def stopTracksAndCleanUp (self : FullCaptureManager) (host : Host)
    (actions : List ReleaseAction) : StopResult :=
  let (host, actions) := stopTrackIfSet self.videoTrack host actions
  let (host, actions) := stopTrackIfSet self.mixedAudioTrack host actions
  StopResult.returned
    { self with videoTrack := none, mixedAudioTrack := none, finalStream := none,
                mediaRecorder := none } host actions

/-- The statement `if (this.canvas) ...` of `stop` and what follows it: `removeChild` raises
when the canvas is not a child of `document.body`. -/
def removeCanvasAndAfter (self : FullCaptureManager) (host : Host)
    (actions : List ReleaseAction) : StopResult :=
  match self.canvas with
  | some canvas =>
    if canvas ∈ host.bodyCanvases then
      stopTracksAndCleanUp { self with canvas := none }
        { host with bodyCanvases := host.bodyCanvases.erase canvas }
        (actions ++ [ReleaseAction.removeCanvas canvas])
    else StopResult.threw self host actions
  | none => stopTracksAndCleanUp self host actions

/-- The statement `if (this.observer) ...` of `stop` and what follows it. -/
def disconnectAndAfter (self : FullCaptureManager) (host : Host)
    (actions : List ReleaseAction) : StopResult :=
  match self.observer with
  | some observer =>
    removeCanvasAndAfter { self with observer := none }
      { host with observers := host.observers.erase observer }
      (actions ++ [ReleaseAction.observerDisconnect observer])
  | none => removeCanvasAndAfter self host actions

/-- The statement `if (this.animationFrameId) ...` of `stop` and what follows it. -/
def cancelFrameAndAfter (self : FullCaptureManager) (host : Host)
    (actions : List ReleaseAction) : StopResult :=
  match self.animationFrameId with
  | some id =>
    disconnectAndAfter { self with animationFrameId := none }
      { host with frameRequests := host.frameRequests.erase id }
      (actions ++ [ReleaseAction.cancelAnimationFrame id])
  | none => disconnectAndAfter self host actions

/-- The method `stop`. -/
def stop (self : FullCaptureManager) (host : Host) : StopResult :=
  let (host, actions) := stopRecording self host
  cancelFrameAndAfter self host actions

end FullCaptureManager

/-! ## `enableMediaSending` and `disableMediaSending` -/

/-- The objects that `enableMediaSending` and `disableMediaSending` act on: the client,
`window.fullCaptureManager`, and the page. -/
structure Page where
  ws : WebSocketClient
  fullCaptureManager : FullCaptureManager
  host : Host
  deriving DecidableEq, Repr

/-- How a call of `disableMediaSending` ends: it returns, or `fullCaptureManager.stop()`
raises; either way with the objects as they are then. -/
inductive DisableResult where
  | returned (page : Page)
  | threw (page : Page)
  deriving DecidableEq, Repr

/-- The objects after the call. -/
def DisableResult.page : DisableResult → Page
  | DisableResult.returned page => page
  | DisableResult.threw page => page

/-- The manager and the page after a call of `stop`. -/
def StopResult.state : StopResult → FullCaptureManager × Host
  | StopResult.returned self host _ => (self, host)
  | StopResult.threw self host _ => (self, host)

/-- The releases a call of `stop` performed. -/
def StopResult.actions : StopResult → List ReleaseAction
  | StopResult.returned _ _ actions => actions
  | StopResult.threw _ _ actions => actions

namespace WebSocketClient

/-- The method `startFillerFrameTimer`: nothing when `fillerFrameInterval` is set. -/
def startFillerFrameTimer (self : WebSocketClient) (host : Host) : WebSocketClient × Host :=
  match self.fillerFrameInterval with
  | some _ => (self, host)
  | none =>
    let (id, host) := host.setInterval
    ({ self with fillerFrameInterval := some id }, host)

/-- The method `stopFillerFrameTimer`. -/
def stopFillerFrameTimer (self : WebSocketClient) (host : Host) : WebSocketClient × Host :=
  match self.fillerFrameInterval with
  | some id => ({ self with fillerFrameInterval := none }, host.clearInterval id)
  | none => (self, host)

/-- The method `enableMediaSending`, with the page as `start` finds it. The promise that
`start` returns is dropped. -/
def enableMediaSending (page : Page) (mainElement : Bool) (globalAudioTracks : List Nat) :
    Page :=
  let ws := { page.ws with mediaSendingEnabled := true }
  let (ws, host) := startFillerFrameTimer ws page.host
  let (fullCaptureManager, host) :=
    page.fullCaptureManager.start host mainElement globalAudioTracks
  { ws := ws, fullCaptureManager := fullCaptureManager, host := host }

/-- The method `disableMediaSending`. -/
def disableMediaSending (page : Page) : DisableResult :=
  let ws := { page.ws with mediaSendingEnabled := false }
  let (ws, host) := stopFillerFrameTimer ws page.host
  match page.fullCaptureManager.stop host with
  | StopResult.returned fullCaptureManager host _ =>
    DisableResult.returned { ws := ws, fullCaptureManager := fullCaptureManager, host := host }
  | StopResult.threw fullCaptureManager host _ =>
    DisableResult.threw { ws := ws, fullCaptureManager := fullCaptureManager, host := host }

end WebSocketClient

namespace Page

/-- The objects when the script has run: the client and the capture manager as their
constructors build them, the page without anything of the script's; `now` is the value of
`performance.now()` in the constructor of the client. -/
def init (now : Nat) : Page :=
  { ws := WebSocketClient.init now, fullCaptureManager := FullCaptureManager.init,
    host := Host.init }

/-- One call of `enableMediaSending`, with the page as it is then, or of
`disableMediaSending`. -/
inductive Call where
  | enableMediaSending (mainElement : Bool) (globalAudioTracks : List Nat)
  | disableMediaSending
  deriving DecidableEq, Repr

/-- The objects after one call. -/
def step (page : Page) : Call → Page
  | Call.enableMediaSending mainElement globalAudioTracks =>
    WebSocketClient.enableMediaSending page mainElement globalAudioTracks
  | Call.disableMediaSending => (WebSocketClient.disableMediaSending page).page

/-- The objects after a sequence of calls. -/
def run (page : Page) (calls : List Call) : Page :=
  calls.foldl step page

end Page

namespace FullCaptureManager

/-- One call of `start`, with the page as it is then, or of `stop`. -/
inductive Call where
  | start (mainElement : Bool) (globalAudioTracks : List Nat)
  | stop
  deriving DecidableEq, Repr

/-- The manager and the page after one call. -/
def step (state : FullCaptureManager × Host) : Call → FullCaptureManager × Host
  | Call.start mainElement globalAudioTracks =>
    start state.1 state.2 mainElement globalAudioTracks
  | Call.stop => (stop state.1 state.2).state

/-- The manager and the page after a sequence of calls. -/
def run (state : FullCaptureManager × Host) (calls : List Call) : FullCaptureManager × Host :=
  calls.foldl step state

/-- The state Idle: no field of a capture session is set. -/
def idle (self : FullCaptureManager) : Bool :=
  self.mediaRecorder.isNone && self.animationFrameId.isNone && self.observer.isNone &&
    self.canvas.isNone && self.videoTrack.isNone && self.mixedAudioTrack.isNone &&
    self.finalStream.isNone

end FullCaptureManager

namespace FullCaptureManager

/-- Whether the canvas in `this.canvas`, if there is one, is a child of `document.body`. -/
def canvasAttached (self : FullCaptureManager) (host : Host) : Bool :=
  match self.canvas with
  | some canvas => decide (canvas ∈ host.bodyCanvases)
  | none => true

end FullCaptureManager

/-! ## `handleCollectionEvent` -/

/-- Truthiness of a decoded value: the empty string and the number 0 are falsy, records and
arrays are truthy. -/
def PbValue.truthy : PbValue → Bool
  | PbValue.str utf8 => !utf8.isEmpty
  | PbValue.int64 value => decide (value ≠ 0)
  | PbValue.uint32 value => decide (value ≠ 0)
  | PbValue.message _ => true
  | PbValue.array _ => true

/-- A decoded scalar as the value the managers store: a string for its UTF-8 bytes, a number
for a `varint`. The records read by `handleCollectionEvent` have string and `varint` fields
only; a nested value has no counterpart among the scalars and reads `undefined`. -/
def PbValue.toJs : PbValue → JsValue
  | PbValue.str utf8 => JsValue.str ⟨utf8DecodeLoop utf8.length utf8⟩
  | PbValue.int64 value => JsValue.num value.toNat
  | PbValue.uint32 value => JsValue.num value
  | PbValue.message _ => JsValue.undefined
  | PbValue.array _ => JsValue.undefined

/-- A property read that may be `undefined` (`none`), as a scalar. -/
def PbValue.optionToJs : Option PbValue → JsValue
  | some value => value.toJs
  | none => JsValue.undefined

/-- A decoded record of scalar fields as a plain object, keys in the record's order. -/
def PbRecord.toJsObject (record : PbRecord) : JsObject :=
  record.toList.map (fun entry => (entry.1, entry.2.toJs))

/-- The property read `value.name` on a value that is not `undefined`, for the names that
`handleCollectionEvent` and `updateDeviceOutputs` read: a record gives its field or
`undefined` (`none`), and a string, a number or an array has no property of such a name. -/
def PbValue.property (value : PbValue) (name : String) : Option PbValue :=
  match value with
  | PbValue.message record => PbObject.get record.toList name
  | _ => none

/-- The optional read `value?.name`: `undefined` when `value` is `undefined`. -/
def PbValue.optionalProperty (value : Option PbValue) (name : String) : Option PbValue :=
  match value with
  | some value => value.property name
  | none => none

/-- How a call of `handleCollectionEvent` ends: it returns or it raises a `TypeError`; either
way with the manager as it is then and the messages handed to `ws.sendJson` until then. -/
inductive HandleResult where
  | returned (userManager : UserManager) (sent : List ControlMessage)
  | threw (userManager : UserManager) (sent : List ControlMessage)
  deriving DecidableEq, Repr

/-- The element `output` of `deviceOutputInfoList` as `updateDeviceOutputs` reads it. Reading
`disabled` of a `deviceOutputStatus` that is not a record gives `undefined` and does not
raise. -/
def deviceOutputInfoOf (output : PbValue) : DeviceOutputInfo :=
  { deviceOutputType := PbValue.optionToJs (output.property "deviceOutputType"),
    streamId := PbValue.optionToJs (output.property "streamId"),
    deviceId := PbValue.optionToJs (output.property "deviceId"),
    deviceOutputStatus :=
      match output.property "deviceOutputStatus" with
      | some (PbValue.message status) => some status.toJsObject
      | some _ => some []
      | none => none }

/-- The element `user` of `userInfoList` as `singleUserSynced` reads it. -/
def userOf (user : PbValue) : JsObject :=
  match user with
  | PbValue.message record => record.toJsObject
  | _ => []

/-- The loop `for (const user of userInfoList) userManager.singleUserSynced(user)`. -/
def syncUsers (userManager : UserManager) (sent : List ControlMessage) :
    List PbValue → UserManager × List ControlMessage
  | [] => (userManager, sent)
  | user :: rest =>
    let (userManager, messages) := userManager.singleUserSynced (userOf user)
    syncUsers userManager (sent ++ messages) rest

/-- The end of `handleCollectionEvent`, from the line that reads `userInfoList` on. The two
reads before `userInfoListWrapper` are plain reads: each raises when the value it reads from
is `undefined`. In a decoded record `userInfoList`, a repeated field, is an array or absent,
and `|| []` puts the empty array for an absent one. -/
def syncUserInfoList (userManager : UserManager) (sent : List ControlMessage)
    (wrapper : Option PbValue) : HandleResult :=
  match wrapper with
  | none => HandleResult.threw userManager sent
  | some wrapper =>
    match wrapper.property "userInfoListWrapperAndChatWrapper" with
    | none => HandleResult.threw userManager sent
    | some inner =>
      match PbValue.optionalProperty (inner.property "userInfoListWrapper") "userInfoList" with
      | some (PbValue.array users) =>
        let (userManager, sent) := syncUsers userManager sent users.toList
        HandleResult.returned userManager sent
      | some value =>
        if value.truthy then HandleResult.threw userManager sent
        else HandleResult.returned userManager sent
      | none => HandleResult.returned userManager sent

/-- The function `handleCollectionEvent` from the decoded record `collectionEvent` on; `now`
is the value of `Date.now()` in `updateDeviceOutputs`. In a decoded record
`deviceOutputInfoList`, a repeated field, is an array or absent. -/
def handleCollectionEvent (userManager : UserManager) (collectionEvent : PbObject)
    (now : Nat) : HandleResult :=
  match PbObject.get collectionEvent "body" with
  | none => HandleResult.threw userManager []
  | some body =>
    let wrapper := body.property "userInfoListWrapperAndChatWrapperWrapper"
    let deviceOutputInfoList :=
      PbValue.optionalProperty (PbValue.optionalProperty wrapper "deviceInfoWrapper")
        "deviceOutputInfoList"
    match deviceOutputInfoList with
    | some (PbValue.array outputs) =>
      match userManager.updateDeviceOutputs
          (outputs.toList.map (fun output => (deviceOutputInfoOf output, now))) with
      | UpdateResult.threw userManager => HandleResult.threw userManager []
      | UpdateResult.returned userManager sent => syncUserInfoList userManager sent wrapper
    | some value =>
      if value.truthy then HandleResult.threw userManager []
      else syncUserInfoList userManager [] wrapper
    | none => syncUserInfoList userManager [] wrapper

/-! ## Sample records and states -/

namespace Sample

/-- A decoded `UserInfoList` record; its keys are in wire order (field numbers 1, 2, 4, 29). -/
def userX : JsObject :=
  [("deviceId", JsValue.str "X"), ("fullName", JsValue.str "Xavier"),
   ("status", JsValue.num 1), ("displayName", JsValue.str "Xav")]

/-- A second decoded record, keys in wire order. -/
def userY : JsObject :=
  [("deviceId", JsValue.str "Y"), ("fullName", JsValue.str "Yvonne"),
   ("status", JsValue.num 1), ("displayName", JsValue.str "Yv")]

/-- A third decoded record. -/
def userZ : JsObject :=
  [("deviceId", JsValue.str "Z"), ("fullName", JsValue.str "Zed")]

/-- A later record with the deviceId of `userZ`. -/
def userZ2 : JsObject :=
  [("deviceId", JsValue.str "Z"), ("fullName", JsValue.str "Zed Two")]

/-- A still later record with the deviceId of `userZ`. -/
def userZ3 : JsObject :=
  [("deviceId", JsValue.str "Z"), ("fullName", JsValue.str "Zed Three")]

/-- The manager after a first bulk sync of `userZ`. -/
def rosterZ : UserManager :=
  (UserManager.newUsersListSynced UserManager.init [userZ]).1

/-- The manager after a first bulk sync of `userX` and `userY`. -/
def rosterXY : UserManager :=
  (UserManager.newUsersListSynced UserManager.init [userX, userY]).1

/-- The camera track A. -/
def trackA : VideoTrack := ⟨"A"⟩

/-- The screen-share track B. -/
def trackB : VideoTrack := ⟨"B"⟩

/-- The screen-share track C. -/
def trackC : VideoTrack := ⟨"C"⟩

/-- Upserts of A (camera, t = 1), B (screen, t = 2) and C (screen, t = 3), with reads of the
cached selection in between. -/
def callsABC : List VideoTrackManager.Call :=
  [VideoTrackManager.Call.upsert trackA (JsValue.str "sa") false 1,
   VideoTrackManager.Call.read,
   VideoTrackManager.Call.upsert trackB (JsValue.str "sb") true 2,
   VideoTrackManager.Call.read,
   VideoTrackManager.Call.upsert trackC (JsValue.str "sc") true 3]

/-- A track map holding a camera track seen later than its screen-share track. -/
def cameraLater : VideoTrackManager :=
  VideoTrackManager.run VideoTrackManager.init
    [VideoTrackManager.Call.upsert trackB (JsValue.str "sb") true 2,
     VideoTrackManager.Call.upsert trackA (JsValue.str "sa") false 5]

/-- The audio output of device `a` on stream `s1`, enabled. -/
def outA1 : DeviceOutputInfo :=
  ⟨JsValue.num 1, JsValue.str "s1", JsValue.str "a", some [("disabled", JsValue.num 0)]⟩

/-- The audio output of device `a` again, now on stream `s2` and disabled. -/
def outA1later : DeviceOutputInfo :=
  ⟨JsValue.num 1, JsValue.str "s2", JsValue.str "a", some [("disabled", JsValue.num 1)]⟩

/-- The video output of device `b`, without a `deviceOutputStatus`. -/
def outB2noStatus : DeviceOutputInfo :=
  ⟨JsValue.num 2, JsValue.str "s3", JsValue.str "b", none⟩

/-- An audio output whose record carries no deviceId. -/
def outNoDevice : DeviceOutputInfo :=
  ⟨JsValue.num 1, JsValue.str "s4", JsValue.undefined, some []⟩

/-- The audio output of a device whose id is the string `undefined`. -/
def outDeviceNamedUndefined : DeviceOutputInfo :=
  ⟨JsValue.num 1, JsValue.str "s5", JsValue.str "undefined", some []⟩

/-- The video output of device `c` on stream `shared`, disabled. -/
def outC2disabled : DeviceOutputInfo :=
  ⟨JsValue.num 2, JsValue.str "shared", JsValue.str "c", some [("disabled", JsValue.num 1)]⟩

/-- The video output of device `d` on the same stream `shared`, enabled. -/
def outD2enabled : DeviceOutputInfo :=
  ⟨JsValue.num 2, JsValue.str "shared", JsValue.str "d", some [("disabled", JsValue.num 0)]⟩

/-- A two-by-one frame. -/
def smallFrame : VideoFrame := ⟨2, 1, ⟨[0, 0, 128]⟩⟩

/-- An open connection with media sending enabled. -/
def clientOpen : WebSocketClient :=
  { readyState := 1, sent := [], mediaSendingEnabled := true, lastVideoFrameTime := 0,
    fillerFrameInterval := some 1, lastVideoFrame := smallFrame, blackVideoFrame := smallFrame }

/-- An open connection with media sending disabled. -/
def clientGated : WebSocketClient :=
  { clientOpen with mediaSendingEnabled := false, fillerFrameInterval := none }

/-- A connection that is closing, with media sending enabled. -/
def clientClosing : WebSocketClient :=
  { clientOpen with readyState := 2 }

/-- The wire bytes of a caption wrapper whose caption has the device id "a". -/
def captionWrapperBytes : List Nat := [10, 3, 10, 1, 97]

/-- The bytes of `captionWrapperBytes` with the varint field number 7, unknown to `Caption`,
of value 300 added at the end of the caption, the length prefix counting it. -/
def captionWrapperBytesWithUnknown : List Nat := [10, 6, 10, 1, 97, 56, 172, 2]

/-- The schema of `CaptionWrapper`. -/
def captionWrapperSchema : MessageSchema :=
  { name := "CaptionWrapper", fields := [messageField "caption" 1 "Caption" false] }

/-- The schema of `Caption`. -/
def captionSchema : MessageSchema :=
  { name := "Caption",
    fields := [scalarField "deviceId" 1 "string", scalarField "captionId" 2 "int64",
      scalarField "version" 3 "int64", scalarField "text" 6 "string",
      scalarField "languageId" 8 "int64"] }

/-- The schema of `DeviceInfoWrapper`. -/
def deviceInfoWrapperSchema : MessageSchema :=
  { name := "DeviceInfoWrapper",
    fields := [messageField "deviceOutputInfoList" 2 "DeviceOutputInfoList" true] }

/-- A record of `DeviceInfoWrapper` whose repeated field is the empty sequence. -/
def emptyListRecord : PbObject := [("deviceOutputInfoList", PbValue.array PbArray.nil)]

/-- A record of `DeviceInfoWrapper` with two device outputs. -/
def deviceOutputsRecord : PbObject :=
  [("deviceOutputInfoList", PbValue.array (PbArray.ofList
    [PbValue.message (PbRecord.ofList
      [("deviceOutputType", PbValue.uint32 300), ("streamId", PbValue.str [97, 98]),
        ("deviceOutputStatus", PbValue.message (PbRecord.ofList
          [("disabled", PbValue.uint32 1)]))]),
     PbValue.message (PbRecord.ofList [("deviceOutputType", PbValue.uint32 2)])]))]

/-- The schema of `UserInfoListWrapper`. -/
def userInfoListWrapperSchema : MessageSchema :=
  { name := "UserInfoListWrapper",
    fields := [messageField "userEventInfo" 1 "UserEventInfo" false,
      messageField "userInfoList" 2 "UserInfoList" true] }

/-- The wire bytes of a `UserInfoListWrapper` in which the singular field `userEventInfo`
arrives twice, with event numbers 1 and 2, each time followed by one element of the repeated
field `userInfoList`, with device ids "a" and "b". -/
def userInfoListWrapperBytes : List Nat :=
  [10, 2, 8, 1, 18, 3, 10, 1, 97, 10, 2, 8, 2, 18, 3, 10, 1, 98]

/-- The record that `userInfoListWrapperBytes` decodes to. -/
def userInfoListWrapperRecord : PbObject :=
  [("userEventInfo", PbValue.message (PbRecord.ofList [("eventNumber", PbValue.uint32 2)])),
    ("userInfoList", PbValue.array (PbArray.ofList
      [PbValue.message (PbRecord.ofList [("deviceId", PbValue.str [97])]),
        PbValue.message (PbRecord.ofList [("deviceId", PbValue.str [98])])]))]

/-- A real frame, two by one, that is not the black frame. -/
def realFrame : VideoFrame := ⟨2, 1, ⟨[200, 100, 50]⟩⟩

/-- An open connection with media sending enabled whose last real frame was sent at time
100. -/
def clientAfterFrame : WebSocketClient :=
  { clientOpen with lastVideoFrameTime := 100, lastVideoFrame := realFrame }

/-- A manager whose only device output, the video output of device `c` on stream `shared`,
is disabled. -/
def managerSharedDisabled : UserManager :=
  (UserManager.updateDeviceOutputs UserManager.init [(outC2disabled, 5)]).self

/-- A track map whose only track is the camera track A on stream `shared`. -/
def feedShared : VideoTrackManager :=
  VideoTrackManager.upsertVideoTrack VideoTrackManager.init trackA (JsValue.str "shared")
    false 1

/-- Version 2 of the caption 7. -/
def captionNewer : JsObject :=
  [("deviceId", JsValue.str "a"), ("captionId", JsValue.num 7), ("version", JsValue.num 2),
    ("text", JsValue.str "hello there")]

/-- Version 1 of the caption 7. -/
def captionOlder : JsObject :=
  [("deviceId", JsValue.str "a"), ("captionId", JsValue.num 7), ("version", JsValue.num 1),
    ("text", JsValue.str "hello")]

/-- The schema of `CollectionEvent`. -/
def collectionEventSchema : MessageSchema :=
  { name := "CollectionEvent", fields := [messageField "body" 1 "CollectionEventBody" false] }

/-- The decoded video output of device `a` on stream `s1`, disabled. -/
def outputA2 : PbValue :=
  PbValue.message (PbRecord.ofList
    [("deviceOutputType", PbValue.uint32 2), ("streamId", PbValue.str [115, 49]),
      ("deviceId", PbValue.str [97]),
      ("deviceOutputStatus", PbValue.message (PbRecord.ofList
        [("disabled", PbValue.uint32 1)]))])

/-- The decoded audio output of device `a` on stream `s2`, without a `deviceOutputStatus`. -/
def outputA1noStatus : PbValue :=
  PbValue.message (PbRecord.ofList
    [("deviceOutputType", PbValue.uint32 1), ("streamId", PbValue.str [115, 50]),
      ("deviceId", PbValue.str [97])])

/-- The decoded user list wrapper with the one user `Z`, `Zed`. -/
def userListWrapperZ : PbValue :=
  PbValue.message (PbRecord.ofList
    [("userInfoListWrapper", PbValue.message (PbRecord.ofList
      [("userInfoList", PbValue.array (PbArray.ofList
        [PbValue.message (PbRecord.ofList
          [("deviceId", PbValue.str [90]), ("fullName", PbValue.str [90, 101, 100])])]))]))])

/-- The wire bytes of a collection event that carries one device output and no user list
wrapper. -/
def deviceOnlyEventBytes : List Nat :=
  [10, 19, 18, 17, 26, 15, 18, 13, 16, 2, 34, 2, 115, 49, 50, 1, 97, 82, 2, 8, 1]

/-- The record that `deviceOnlyEventBytes` decodes to. -/
def deviceOnlyEvent : PbObject :=
  [("body", PbValue.message (PbRecord.ofList
    [("userInfoListWrapperAndChatWrapperWrapper", PbValue.message (PbRecord.ofList
      [("deviceInfoWrapper", PbValue.message (PbRecord.ofList
        [("deviceOutputInfoList", PbValue.array (PbArray.ofList [outputA2]))]))]))]))]

/-- The wire bytes of a collection event that carries two device outputs, the second without
a `deviceOutputStatus`, and a user list. -/
def halfEventBytes : List Nat :=
  [10, 44, 18, 42, 26, 26, 18, 13, 16, 2, 34, 2, 115, 49, 50, 1, 97, 82, 2, 8, 1, 18, 9, 16, 1,
    34, 2, 115, 50, 50, 1, 97, 106, 12, 10, 10, 18, 8, 10, 1, 90, 18, 3, 90, 101, 100]

/-- The record that `halfEventBytes` decodes to. -/
def halfEvent : PbObject :=
  [("body", PbValue.message (PbRecord.ofList
    [("userInfoListWrapperAndChatWrapperWrapper", PbValue.message (PbRecord.ofList
      [("deviceInfoWrapper", PbValue.message (PbRecord.ofList
        [("deviceOutputInfoList", PbValue.array (PbArray.ofList
          [outputA2, outputA1noStatus]))])),
       ("userInfoListWrapperAndChatWrapper", userListWrapperZ)]))]))]

/-- The wire bytes of a collection event that carries a user list and no device outputs. -/
def userEventBytes : List Nat :=
  [10, 16, 18, 14, 106, 12, 10, 10, 18, 8, 10, 1, 90, 18, 3, 90, 101, 100]

/-- The record that `userEventBytes` decodes to. -/
def userEvent : PbObject :=
  [("body", PbValue.message (PbRecord.ofList
    [("userInfoListWrapperAndChatWrapperWrapper", PbValue.message (PbRecord.ofList
      [("userInfoListWrapperAndChatWrapper", userListWrapperZ)]))]))]

/-- The entry that `updateDeviceOutputs` stores for `outputA2` at time 5. -/
def storedA2 : JsObject :=
  [("deviceId", JsValue.str "a"), ("outputType", JsValue.num 2),
    ("streamId", JsValue.str "s1"), ("disabled", JsValue.num 1),
    ("lastUpdated", JsValue.num 5)]

/-- The wire bytes of a caption wrapper whose caption declares a length of one byte and holds
a field of three bytes, the device id "a". -/
def overrunBytes : List Nat := [10, 1, 10, 1, 97]

end Sample

/-! ## Lemmas about `Map` and `Set` -/

namespace JsMap

variable {K V : Type} [DecidableEq K]

theorem get_set (m : JsMap K V) (k k' : K) (v : V) :
    get (set m k v) k' = if k = k' then some v else get m k' := by
  induction m with
  | nil => simp [set, get]
  | cons e rest ih =>
    obtain ⟨a, b⟩ := e
    by_cases h : a = k
    · subst h
      by_cases h' : a = k' <;> simp [set, get, h']
    · by_cases h' : a = k'
      · subst h'
        have h2 : ¬ k = a := fun e => h e.symm
        simp [set, get, h, h2]
      · simp [set, get, h, h', ih]

theorem get_set_self (m : JsMap K V) (k : K) (v : V) : get (set m k v) k = some v := by
  simp [get_set]

theorem get_set_of_ne (m : JsMap K V) {k k' : K} (v : V) (h : k ≠ k') :
    get (set m k v) k' = get m k' := by
  simp [get_set, h]

theorem mem_keys_set (m : JsMap K V) (k k' : K) (v : V) :
    k' ∈ keys (set m k v) ↔ k' = k ∨ k' ∈ keys m := by
  induction m with
  | nil => simp [set, keys]
  | cons e rest ih =>
    obtain ⟨a, b⟩ := e
    by_cases h : a = k
    · subst h
      simp [set, keys]
    · have ih' : k' ∈ List.map Prod.fst (set rest k v) ↔ k' = k ∨ k' ∈ List.map Prod.fst rest := ih
      simp only [set, h, if_false, keys, List.map_cons, List.mem_cons, ih']
      tauto

theorem get_eq_none_iff (m : JsMap K V) (k : K) : get m k = none ↔ k ∉ keys m := by
  induction m with
  | nil => simp [get, keys]
  | cons e rest ih =>
    obtain ⟨a, b⟩ := e
    have ih' : get rest k = none ↔ k ∉ List.map Prod.fst rest := ih
    by_cases h : a = k
    · subst h
      simp [get, keys]
    · have h2 : ¬ k = a := fun e => h e.symm
      simp [get, keys, h, h2, ih']

theorem mem_keys_of_get {m : JsMap K V} {k : K} {v : V} (h : get m k = some v) :
    k ∈ keys m := by
  by_contra hk
  rw [(get_eq_none_iff m k).mpr hk] at h
  cases h

theorem has_eq_true_iff (m : JsMap K V) (k : K) : has m k = true ↔ k ∈ keys m := by
  unfold has
  cases hg : get m k with
  | none => simpa using (get_eq_none_iff m k).mp hg
  | some v => simpa using mem_keys_of_get hg

theorem mem_of_get {m : JsMap K V} {k : K} {v : V} (h : get m k = some v) : (k, v) ∈ m := by
  induction m with
  | nil => simp [get] at h
  | cons e rest ih =>
    obtain ⟨a, b⟩ := e
    by_cases hk : a = k
    · subst hk
      simp [get] at h
      simp [h]
    · simp [get, hk] at h
      exact List.mem_cons_of_mem _ (ih h)

theorem get_of_mem {m : JsMap K V} (hwf : WF m) {k : K} {v : V} (h : (k, v) ∈ m) :
    get m k = some v := by
  induction m with
  | nil => cases h
  | cons e rest ih =>
    obtain ⟨a, b⟩ := e
    have hnd : a ∉ List.map Prod.fst rest ∧ (List.map Prod.fst rest).Nodup := by
      simpa [WF, keys] using hwf
    rcases List.mem_cons.mp h with h1 | h1
    · cases h1
      simp [get]
    · have hk : k ∈ List.map Prod.fst rest := List.mem_map.mpr ⟨(k, v), h1, rfl⟩
      have hne : ¬ a = k := fun e => hnd.1 (e ▸ hk)
      simp only [get, hne, if_false]
      exact ih hnd.2 h1

omit [DecidableEq K] in
theorem wf_nil : WF ([] : JsMap K V) := by simp [WF, keys]

theorem wf_set {m : JsMap K V} (hwf : WF m) (k : K) (v : V) : WF (set m k v) := by
  induction m with
  | nil => simp [set, WF, keys]
  | cons e rest ih =>
    obtain ⟨a, b⟩ := e
    have hnd : a ∉ List.map Prod.fst rest ∧ (List.map Prod.fst rest).Nodup := by
      simpa [WF, keys] using hwf
    by_cases h : a = k
    · subst h
      simpa [set, WF, keys] using hnd
    · have h1 : WF (set rest k v) := ih hnd.2
      have h2 : a ∉ keys (set rest k v) := by
        rw [mem_keys_set]
        rintro (e | e)
        · exact h e
        · exact hnd.1 e
      simp only [set, h, if_false, WF, keys, List.map_cons, List.nodup_cons]
      exact ⟨h2, h1⟩

theorem keys_delete_sublist (m : JsMap K V) (k : K) :
    List.Sublist (keys (delete m k)) (keys m) := by
  induction m with
  | nil => simp [delete, keys]
  | cons e rest ih =>
    obtain ⟨a, b⟩ := e
    by_cases h : a = k
    · simp [delete, h, keys]
    · simp only [delete, h, if_false, keys, List.map_cons]
      exact List.Sublist.cons₂ _ ih

theorem wf_delete {m : JsMap K V} (hwf : WF m) (k : K) : WF (delete m k) :=
  List.Nodup.sublist (keys_delete_sublist m k) hwf

theorem get_delete {m : JsMap K V} (hwf : WF m) (k k' : K) :
    get (delete m k) k' = if k = k' then none else get m k' := by
  induction m with
  | nil => simp [delete, get]
  | cons e rest ih =>
    obtain ⟨a, b⟩ := e
    have hnd : a ∉ List.map Prod.fst rest ∧ (List.map Prod.fst rest).Nodup := by
      simpa [WF, keys] using hwf
    by_cases h : a = k
    · subst h
      by_cases h' : a = k'
      · subst h'
        simpa [delete, get_eq_none_iff, keys] using hnd.1
      · simp [delete, get, h']
    · by_cases h' : a = k'
      · subst h'
        have h2 : ¬ k = a := fun e => h e.symm
        simp [delete, get, h, h2]
      · simp [delete, get, h, h', ih hnd.2]

/-- Folding `set` over a list: the entry of a key comes from the last element with that key. -/
theorem get_foldl_set {α : Type} (f : α → K) (g : α → V) (xs : List α) (acc : JsMap K V)
    (k : K) :
    get (xs.foldl (fun m x => set m (f x) (g x)) acc) k =
      match xs.reverse.find? (fun x => decide (f x = k)) with
      | some x => some (g x)
      | none => get acc k := by
  induction xs using List.reverseRecOn generalizing acc with
  | nil => simp
  | append_singleton l a ih =>
    rw [List.foldl_append, List.reverse_append]
    simp only [List.foldl_cons, List.foldl_nil, List.reverse_cons, List.reverse_nil,
      List.nil_append, List.singleton_append, List.find?_cons]
    by_cases h : f a = k
    · simp [h, get_set]
    · simp only [h, decide_False, get_set, if_false]
      exact ih acc

theorem mem_keys_foldl_set {α : Type} (f : α → K) (g : α → V) (xs : List α)
    (acc : JsMap K V) (k : K) :
    k ∈ keys (xs.foldl (fun m x => set m (f x) (g x)) acc) ↔
      k ∈ keys acc ∨ ∃ x ∈ xs, f x = k := by
  induction xs generalizing acc with
  | nil => simp
  | cons a l ih =>
    rw [List.foldl_cons, ih, mem_keys_set]
    constructor
    · rintro ((h | h) | ⟨x, hx, h⟩)
      · exact Or.inr ⟨a, List.mem_cons_self _ _, h.symm⟩
      · exact Or.inl h
      · exact Or.inr ⟨x, List.mem_cons_of_mem _ hx, h⟩
    · rintro (h | ⟨x, hx, h⟩)
      · exact Or.inl (Or.inr h)
      · rcases List.mem_cons.mp hx with e | e
        · subst e
          exact Or.inl (Or.inl h.symm)
        · exact Or.inr ⟨x, e, h⟩

theorem wf_foldl_set {α : Type} (f : α → K) (g : α → V) (xs : List α) {acc : JsMap K V}
    (hwf : WF acc) : WF (xs.foldl (fun m x => set m (f x) (g x)) acc) := by
  induction xs generalizing acc with
  | nil => simpa using hwf
  | cons a l ih =>
    rw [List.foldl_cons]
    exact ih (wf_set hwf _ _)

end JsMap

namespace JsSet

variable {K : Type} [DecidableEq K]

theorem mem_add (s : JsSet K) (x y : K) : y ∈ add s x ↔ y ∈ s ∨ y = x := by
  unfold add
  split_ifs with h
  · constructor
    · exact Or.inl
    · rintro (e | e)
      · exact e
      · exact e ▸ h
  · simp

theorem mem_foldl_add (xs : List K) (acc : JsSet K) (y : K) :
    y ∈ xs.foldl add acc ↔ y ∈ acc ∨ y ∈ xs := by
  induction xs generalizing acc with
  | nil => simp
  | cons a l ih =>
    rw [List.foldl_cons, ih, mem_add]
    simp only [List.mem_cons]
    tauto

theorem mem_ofList (xs : List K) (y : K) : y ∈ ofList xs ↔ y ∈ xs := by
  simp [ofList, mem_foldl_add]

theorem has_ofList (xs : List K) (y : K) : has (ofList xs) y = decide (y ∈ xs) := by
  simp [has, mem_ofList]

theorem foldl_add_of_nodup (xs : List K) (acc : JsSet K) (h : (acc ++ xs).Nodup) :
    xs.foldl add acc = acc ++ xs := by
  induction xs generalizing acc with
  | nil => simp
  | cons a l ih =>
    have ha : a ∉ acc := by
      intro hmem
      have := List.nodup_append.mp h
      exact this.2.2 hmem (List.mem_cons_self _ _)
    have h2 : ((acc ++ [a]) ++ l).Nodup := by simpa using h
    rw [List.foldl_cons]
    have : add acc a = acc ++ [a] := by simp [add, ha]
    rw [this, ih _ h2]
    simp

theorem ofList_of_nodup (xs : List K) (h : xs.Nodup) : ofList xs = xs := by
  have := foldl_add_of_nodup xs [] (by simpa using h)
  simpa [ofList] using this

end JsSet

/-! ## Decimal numerals -/

theorem length_le_toDigitsCore (fuel n : Nat) (ds : List Char) :
    ds.length ≤ (Nat.toDigitsCore 10 fuel n ds).length := by
  induction fuel generalizing n ds with
  | zero => simp [Nat.toDigitsCore]
  | succ fuel ih =>
    unfold Nat.toDigitsCore
    dsimp only
    split_ifs with h
    · simp
    · exact le_trans (by simp) (ih _ _)

theorem two_le_length_toDigits {n : Nat} (h : 10 ≤ n) : 2 ≤ (Nat.toDigits 10 n).length := by
  obtain ⟨m, rfl⟩ : ∃ m, n = m + 1 := ⟨n - 1, by omega⟩
  have h1 : (m + 1) / 10 ≠ 0 := by omega
  unfold Nat.toDigits
  rw [Nat.toDigitsCore]
  simp only [h1, if_false]
  rw [Nat.toDigitsCore]
  split_ifs with h2
  · simp
  · exact le_trans (by simp) (length_le_toDigitsCore _ _ _)

theorem toDigits_eq_singleton {n : Nat} {c : Char} (h : Nat.toDigits 10 n = [c]) :
    n < 10 ∧ c = Nat.digitChar n := by
  have hn : n < 10 := by
    by_contra hc
    have := two_le_length_toDigits (Nat.le_of_not_lt hc)
    rw [h] at this
    simp at this
  refine ⟨hn, ?_⟩
  interval_cases n <;> simp [Nat.toDigits, Nat.toDigitsCore] at h <;> simp [h]


/-! ## Lemmas about objects and the roster -/

namespace JsObject

theorem getProp_setProp (o : JsObject) (k k' : String) (v : JsValue) :
    getProp (setProp o k v) k' = if k = k' then v else getProp o k' := by
  induction o with
  | nil => simp [setProp, getProp]
  | cons e rest ih =>
    obtain ⟨a, b⟩ := e
    by_cases h : a = k
    · subst h
      by_cases h' : a = k' <;> simp [setProp, getProp, h']
    · by_cases h' : a = k'
      · subst h'
        have h2 : ¬ k = a := fun e => h e.symm
        simp [setProp, getProp, h, h2]
      · simp [setProp, getProp, h, h', ih]

end JsObject

namespace UserManager

theorem humanizedStatus_num (n : Nat) :
    humanizedStatus (JsValue.num n) =
      if n = 1 then "in_meeting" else if n = 6 then "not_in_meeting"
      else if n = 7 then "removed_from_meeting" else "unknown" := by
  by_cases h1 : n = 1
  · subst h1; decide
  by_cases h6 : n = 6
  · subst h6; decide
  by_cases h7 : n = 7
  · subst h7; decide
  simp only [h1, h6, h7, if_false]
  have key : ∀ c : Char, c = '1' ∨ c = '6' ∨ c = '7' → String.mk (Nat.toDigits 10 n) ≠ String.mk [c] := by
    intro c hc he
    have he' : Nat.toDigits 10 n = [c] := congrArg String.data he
    obtain ⟨hn, hd⟩ := toDigits_eq_singleton he'
    interval_cases n <;> rcases hc with rfl | rfl | rfl <;> simp_all +decide
  have k1 := key '1' (Or.inl rfl)
  have k6 := key '6' (Or.inr (Or.inl rfl))
  have k7 := key '7' (Or.inr (Or.inr rfl))
  simp only [humanizedStatus, userStatusMap, toPropertyKey, List.lookup]
  have e1 : (String.mk (Nat.toDigits 10 n) == "1") = false := beq_eq_false_iff_ne.mpr k1
  have e6 : (String.mk (Nat.toDigits 10 n) == "6") = false := beq_eq_false_iff_ne.mpr k6
  have e7 : (String.mk (Nat.toDigits 10 n) == "7") = false := beq_eq_false_iff_ne.mpr k7
  rw [e1, e6, e7]

theorem getProp_withHumanizedStatus (user : JsObject) (k : String)
    (h : k ≠ "humanized_status") :
    JsObject.getProp (withHumanizedStatus user) k = JsObject.getProp user k := by
  unfold withHumanizedStatus
  rw [JsObject.getProp_setProp, if_neg (fun e => h e.symm)]

theorem deviceId_withHumanizedStatus (user : JsObject) :
    deviceId (withHumanizedStatus user) = deviceId user :=
  getProp_withHumanizedStatus user "deviceId" (by decide)

theorem deviceId_currentRecord (user : JsObject) :
    deviceId (currentRecord user) = deviceId user := by
  simp [deviceId, currentRecord, JsObject.getProp]

theorem newUsers_eq (self : UserManager) (raw : List JsObject) :
    newUsers self raw =
      (raw.filter (fun u => decide (deviceId u ∉ JsMap.keys self.currentUsersMap))).map
        withHumanizedStatus := by
  unfold newUsers newUsersList previousUserIds
  rw [List.filter_map]
  congr 1
  apply List.filter_congr
  intro u _
  simp [JsSet.has_ofList, deviceId_withHumanizedStatus]

theorem map_get_filter_keys {m : JsMap JsValue JsObject} (hwf : JsMap.WF m)
    (p : JsValue → Bool) (l : List (JsValue × JsObject)) (hl : ∀ e ∈ l, e ∈ m) :
    ((l.map Prod.fst).filter p).map (fun id => JsMap.get m id) =
      (l.filter (fun e => p e.1)).map (fun e => some e.2) := by
  induction l with
  | nil => simp
  | cons e rest ih =>
    obtain ⟨a, b⟩ := e
    have hab : JsMap.get m a = some b := JsMap.get_of_mem hwf (hl _ (List.mem_cons_self _ _))
    have ih' := ih (fun e he => hl e (List.mem_cons_of_mem _ he))
    by_cases hp : p a = true
    · simp [List.filter_cons, hp, hab, ih']
    · simp [List.filter_cons, hp, ih']

theorem removedUsers_eq (self : UserManager) (raw : List JsObject)
    (hwf : JsMap.WF self.currentUsersMap) :
    removedUsers self raw =
      (self.currentUsersMap.filter (fun e => decide (e.1 ∉ raw.map deviceId))).map
        (fun e => some e.2) := by
  unfold removedUsers previousUserIds
  rw [JsSet.ofList_of_nodup _ hwf]
  have h := map_get_filter_keys hwf
    (fun id => !JsSet.has (newUserIds raw) id) self.currentUsersMap (fun e he => he)
  rw [show JsMap.keys self.currentUsersMap = self.currentUsersMap.map Prod.fst from rfl, h]
  congr 1
  apply List.filter_congr
  intro e _
  have hids : (newUsersList raw).map deviceId = raw.map deviceId := by
    simp [newUsersList, List.map_map, Function.comp_def, deviceId_withHumanizedStatus]
  show (!JsSet.has (newUserIds raw) e.1) = decide (e.1 ∉ raw.map deviceId)
  rw [newUserIds, JsSet.has_ofList, hids]
  by_cases hm : e.1 ∈ raw.map deviceId <;> simp [hm]

theorem mem_updatedUserIds (self : UserManager) (raw : List JsObject) (id : JsValue) :
    id ∈ updatedUserIds self raw ↔
      ∃ user ∈ newUsersList raw, deviceId user = id ∧
        id ∈ JsMap.keys self.currentUsersMap ∧
        jsonStringify (JsMap.get self.currentUsersMap id) ≠ jsonStringify (some user) := by
  unfold updatedUserIds
  generalize newUsersList raw = l
  have key : ∀ (l : List JsObject) (acc : JsSet JsValue),
      id ∈ l.foldl (fun acc user =>
          if JsSet.has (previousUserIds self) (deviceId user) &&
              decide (jsonStringify (JsMap.get self.currentUsersMap (deviceId user))
                ≠ jsonStringify (some user))
          then JsSet.add acc (deviceId user) else acc) acc ↔
        id ∈ acc ∨ ∃ user ∈ l, deviceId user = id ∧
          id ∈ JsMap.keys self.currentUsersMap ∧
          jsonStringify (JsMap.get self.currentUsersMap id) ≠ jsonStringify (some user) := by
    intro l
    induction l with
    | nil => intro acc; simp
    | cons a rest ih =>
      intro acc
      rw [List.foldl_cons, ih]
      by_cases hc : (JsSet.has (previousUserIds self) (deviceId a) &&
              decide (jsonStringify (JsMap.get self.currentUsersMap (deviceId a))
                ≠ jsonStringify (some a))) = true
      · rw [if_pos hc, JsSet.mem_add]
        simp only [Bool.and_eq_true, decide_eq_true_eq, previousUserIds, JsSet.has_ofList] at hc
        constructor
        · rintro ((h | h) | ⟨u, hu, h⟩)
          · exact Or.inl h
          · subst h
            exact Or.inr ⟨a, List.mem_cons_self _ _, rfl, hc.1, hc.2⟩
          · exact Or.inr ⟨u, List.mem_cons_of_mem _ hu, h⟩
        · rintro (h | ⟨u, hu, h⟩)
          · exact Or.inl (Or.inl h)
          · rcases List.mem_cons.mp hu with e | e
            · subst e
              exact Or.inl (Or.inr h.1.symm)
            · exact Or.inr ⟨u, e, h⟩
      · rw [if_neg hc]
        simp only [Bool.and_eq_true, decide_eq_true_eq, previousUserIds, JsSet.has_ofList,
          not_and, not_not] at hc
        constructor
        · rintro (h | ⟨u, hu, h⟩)
          · exact Or.inl h
          · exact Or.inr ⟨u, List.mem_cons_of_mem _ hu, h⟩
        · rintro (h | ⟨u, hu, h⟩)
          · exact Or.inl h
          · rcases List.mem_cons.mp hu with e | e
            · subst e
              obtain ⟨h1, h2, h3⟩ := h
              subst h1
              exact absurd (hc h2) h3
            · exact Or.inr ⟨u, e, h⟩
  simpa using key l []

end UserManager

/-! ## Roster reconciliation: `newUsersListSynced` -/

namespace UserManager

open Sample

/-- C1 (evaluation at the failing input): after a bulk sync of `userX` and `userY`, a second
bulk sync carrying the very same `userY` record (and the new `userZ`) reports `userY` as an
updated user, because the JSON text of the stored record lists `displayName` before
`fullName` and `status` while the incoming record lists its keys in wire order. -/
theorem newUsersListSynced_reports_unchanged_user :
    JsMap.get rosterXY.currentUsersMap (JsValue.str "Y")
        = some (currentRecord (withHumanizedStatus userY)) ∧
      jsonStringify (JsMap.get rosterXY.currentUsersMap (JsValue.str "Y"))
        ≠ jsonStringify (some (withHumanizedStatus userY)) ∧
      updatedUsers rosterXY [userY, userZ]
        = [some (currentRecord (withHumanizedStatus userY))] ∧
      (newUsersListSynced rosterXY [userY, userZ]).2
        = [ControlMessage.usersUpdate [withHumanizedStatus userZ]
            [some (currentRecord (withHumanizedStatus userX))]
            [some (currentRecord (withHumanizedStatus userY))]] := by
  decide

/-- C2: for a roster `R_old` (a `Map`, so without repeated keys) and any input list,
`newUsers` is exactly the input records whose deviceId is not a key of `R_old` (each carrying
its humanized status), in input order, and `removedUsers` is exactly the records stored in
`R_old` whose deviceId does not occur in the input, in roster order. -/
theorem newUsers_removedUsers_exact (self : UserManager) (newUsersListRaw : List JsObject)
    (hwf : JsMap.WF self.currentUsersMap) :
    newUsers self newUsersListRaw =
        (newUsersListRaw.filter
          (fun u => decide (deviceId u ∉ JsMap.keys self.currentUsersMap))).map
          withHumanizedStatus ∧
      removedUsers self newUsersListRaw =
        (self.currentUsersMap.filter
          (fun e => decide (e.1 ∉ newUsersListRaw.map deviceId))).map (fun e => some e.2) :=
  ⟨newUsers_eq self newUsersListRaw, removedUsers_eq self newUsersListRaw hwf⟩

/-- C2 at the roster {X, Y} and the input {Y, Z}: `newUsers = [Z]`, `removedUsers = [X]`. -/
theorem newUsers_removedUsers_exact_witness :
    JsMap.WF rosterXY.currentUsersMap ∧
      newUsers rosterXY [userY, userZ] = [withHumanizedStatus userZ] ∧
      removedUsers rosterXY [userY, userZ]
        = [some (currentRecord (withHumanizedStatus userX))] :=
  ⟨by decide,
   (newUsers_removedUsers_exact rosterXY [userY, userZ] (by decide)).1.trans (by decide),
   (newUsers_removedUsers_exact rosterXY [userY, userZ] (by decide)).2.trans (by decide)⟩

/-- C3 (evaluation at the failing input): a bulk list holding two records with the same
deviceId, absent from the roster, is not deduplicated before the delta is computed: `newUsers`
holds both records, while the roster keeps one entry, built from the later record, and
`updatedUsers`, for a duplicated deviceId that is in the roster, holds one record, the later. -/
theorem newUsersListSynced_duplicate_reported_twice :
    deviceId userZ = deviceId userZ2 ∧
      newUsers init [userZ, userZ2] = [withHumanizedStatus userZ, withHumanizedStatus userZ2] ∧
      (newUsersListSynced init [userZ, userZ2]).2
        = [ControlMessage.usersUpdate
            [withHumanizedStatus userZ, withHumanizedStatus userZ2] [] []] ∧
      (newUsersListSynced init [userZ, userZ2]).1.currentUsersMap
        = [(JsValue.str "Z", currentRecord (withHumanizedStatus userZ2))] ∧
      updatedUsers rosterZ [userZ2, userZ3]
        = [some (currentRecord (withHumanizedStatus userZ3))] := by
  decide

/-- C4: after `newUsersListSynced` the roster depends on the input only: it has no repeated
key, its keys are exactly the deviceIds occurring in the input, the entry of a deviceId is the
stored record of the last input record with that deviceId, and that stored record carries
the input record's own fields. -/
theorem currentUsersMap_replaced_by_input (self : UserManager)
    (newUsersListRaw : List JsObject) :
    (newUsersListSynced self newUsersListRaw).1.currentUsersMap
        = currentUsersMapAfter newUsersListRaw ∧
      JsMap.WF (newUsersListSynced self newUsersListRaw).1.currentUsersMap ∧
      (∀ k, k ∈ JsMap.keys (newUsersListSynced self newUsersListRaw).1.currentUsersMap ↔
        k ∈ newUsersListRaw.map deviceId) ∧
      (∀ k, JsMap.get (newUsersListSynced self newUsersListRaw).1.currentUsersMap k =
        (newUsersListRaw.reverse.find? (fun u => decide (deviceId u = k))).map
          (fun u => currentRecord (withHumanizedStatus u))) ∧
      (∀ u : JsObject, ∀ field ∈
          ["deviceId", "displayName", "fullName", "profilePicture", "status", "parentDeviceId"],
        JsObject.getProp (currentRecord (withHumanizedStatus u)) field
          = JsObject.getProp u field) := by
  have hfold : currentUsersMapAfter newUsersListRaw =
      newUsersListRaw.foldl
        (fun m u => JsMap.set m (deviceId u) (currentRecord (withHumanizedStatus u))) [] := by
    unfold currentUsersMapAfter newUsersList
    rw [List.foldl_map]
    simp only [deviceId_withHumanizedStatus]
  refine ⟨rfl, ?_, ?_, ?_, ?_⟩
  · show JsMap.WF (currentUsersMapAfter newUsersListRaw)
    rw [hfold]
    exact JsMap.wf_foldl_set _ _ _ JsMap.wf_nil
  · intro k
    show k ∈ JsMap.keys (currentUsersMapAfter newUsersListRaw) ↔ _
    rw [hfold, JsMap.mem_keys_foldl_set]
    simp [JsMap.keys]
  · intro k
    show JsMap.get (currentUsersMapAfter newUsersListRaw) k = _
    rw [hfold, JsMap.get_foldl_set]
    cases newUsersListRaw.reverse.find? (fun u => decide (deviceId u = k)) <;> simp [JsMap.get]
  · intro u field hfield
    simp only [List.mem_cons, List.mem_singleton, List.not_mem_nil, or_false] at hfield
    rcases hfield with rfl | rfl | rfl | rfl | rfl | rfl <;>
      simp [currentRecord, JsObject.getProp, getProp_withHumanizedStatus]

/-- C6: `newUsersListSynced` hands `ws.sendJson` exactly one `UsersUpdate` message, carrying
`newUsers`, `removedUsers` and `updatedUsers`, when one of the three lists is non-empty, and
nothing when all three are empty. -/
theorem newUsersListSynced_sends_one_or_none (self : UserManager)
    (newUsersListRaw : List JsObject) :
    (newUsersListSynced self newUsersListRaw).2 =
      if newUsers self newUsersListRaw = [] ∧ removedUsers self newUsersListRaw = [] ∧
          updatedUsers self newUsersListRaw = []
      then []
      else [ControlMessage.usersUpdate (newUsers self newUsersListRaw)
              (removedUsers self newUsersListRaw) (updatedUsers self newUsersListRaw)] := by
  unfold newUsersListSynced
  by_cases h1 : newUsers self newUsersListRaw = []
  · by_cases h2 : removedUsers self newUsersListRaw = []
    · by_cases h3 : updatedUsers self newUsersListRaw = []
      · simp [h1, h2, h3]
      · simp [h1, h2, h3, List.length_pos]
    · simp [h1, h2, List.length_pos]
  · simp [h1, List.length_pos]

/-- C7: the humanized status is `in_meeting` for 1, `not_in_meeting` for 6,
`removed_from_meeting` for 7 and `unknown` for every other number and for an absent status;
it is a total function of the status, and it is the value `newUsersListSynced` stores under
`humanized_status`. -/
theorem humanizedStatus_mapping :
    (∀ n : Nat, humanizedStatus (JsValue.num n) =
      if n = 1 then "in_meeting" else if n = 6 then "not_in_meeting"
      else if n = 7 then "removed_from_meeting" else "unknown") ∧
      humanizedStatus JsValue.undefined = "unknown" ∧
      (∀ user : JsObject, JsObject.getProp (withHumanizedStatus user) "humanized_status"
        = JsValue.str (humanizedStatus (JsObject.getProp user "status"))) ∧
      (∀ (self : UserManager) (newUsersListRaw : List JsObject) (k : JsValue) (r : JsObject),
        JsMap.get (newUsersListSynced self newUsersListRaw).1.currentUsersMap k = some r →
        JsObject.getProp r "humanized_status"
          = JsValue.str (humanizedStatus (JsObject.getProp r "status"))) := by
  refine ⟨humanizedStatus_num, by decide, ?_, ?_⟩
  · intro user
    simp [withHumanizedStatus, JsObject.getProp_setProp]
  · intro self raw k r h
    have hfold : currentUsersMapAfter raw =
        raw.foldl
          (fun m u => JsMap.set m (deviceId u) (currentRecord (withHumanizedStatus u))) [] := by
      unfold currentUsersMapAfter newUsersList
      rw [List.foldl_map]
      simp only [deviceId_withHumanizedStatus]
    have h' : JsMap.get (currentUsersMapAfter raw) k = some r := h
    rw [hfold, JsMap.get_foldl_set] at h'
    cases hf : raw.reverse.find? (fun u => decide (deviceId u = k)) with
    | none => rw [hf] at h'; simp [JsMap.get] at h'
    | some u =>
      rw [hf] at h'
      simp only [Option.some.injEq] at h'
      subst h'
      simp [currentRecord, JsObject.getProp, withHumanizedStatus, JsObject.getProp_setProp]

end UserManager

/-! ## Incremental sync: `singleUserSynced` -/

namespace JsMap
variable {K V : Type} [DecidableEq K]

theorem mem_set {m : JsMap K V} {k : K} {v : V} {e : K × V} (h : e ∈ set m k v) :
    e = (k, v) ∨ e ∈ m := by
  induction m with
  | nil => simpa [set] using h
  | cons a rest ih =>
    obtain ⟨a1, a2⟩ := a
    by_cases hk : a1 = k
    · subst hk
      simp only [set, if_true, List.mem_cons] at h
      rcases h with h | h
      · exact Or.inl h
      · exact Or.inr (List.mem_cons_of_mem _ h)
    · simp only [set, hk, if_false, List.mem_cons] at h
      rcases h with h | h
      · exact Or.inr (h ▸ List.mem_cons_self _ _)
      · rcases ih h with h' | h'
        · exact Or.inl h'
        · exact Or.inr (List.mem_cons_of_mem _ h')

theorem mem_foldl_set {α : Type} (f : α → K) (g : α → V) (xs : List α) (acc : JsMap K V)
    {e : K × V} (h : e ∈ xs.foldl (fun m x => set m (f x) (g x)) acc) :
    e ∈ acc ∨ ∃ x ∈ xs, e = (f x, g x) := by
  induction xs generalizing acc with
  | nil => exact Or.inl (by simpa using h)
  | cons a l ih =>
    rw [List.foldl_cons] at h
    rcases ih _ h with h1 | ⟨x, hx, h1⟩
    · rcases mem_set h1 with h2 | h2
      · exact Or.inr ⟨a, List.mem_cons_self _ _, h2⟩
      · exact Or.inl h2
    · exact Or.inr ⟨x, List.mem_cons_of_mem _ hx, h1⟩

theorem set_of_not_mem (m : JsMap K V) (k : K) (v : V) (h : k ∉ keys m) :
    set m k v = m ++ [(k, v)] := by
  induction m with
  | nil => simp [set]
  | cons a rest ih =>
    obtain ⟨a1, a2⟩ := a
    have h1 : ¬ a1 = k := by
      intro e
      exact h (by simp [keys, e])
    have h2 : k ∉ keys rest := by
      intro e
      exact h (by simp only [keys, List.map_cons, List.mem_cons]; exact Or.inr e)
    simp [set, h1, ih h2]

/-- In a fold of `set` over elements with pairwise distinct keys, every element is stored. -/
theorem get_foldl_set_of_nodup {α : Type} (f : α → K) (g : α → V) (xs : List α)
    (hnd : (xs.map f).Nodup) {x : α} (hx : x ∈ xs) :
    get (xs.foldl (fun m x => set m (f x) (g x)) []) (f x) = some (g x) := by
  rw [get_foldl_set]
  cases hf : xs.reverse.find? (fun y => decide (f y = f x)) with
  | none =>
    have := List.find?_eq_none.mp hf x (List.mem_reverse.mpr hx)
    simp at this
  | some y =>
    have hy : y ∈ xs := List.mem_reverse.mp (List.mem_of_find?_eq_some hf)
    have hfy : f y = f x := by simpa using List.find?_some hf
    have : y = x := List.inj_on_of_nodup_map hnd hy hx hfy
    simp [this]

end JsMap

namespace UserManager

theorem withHumanizedStatus_currentRecord (u : JsObject) :
    withHumanizedStatus (currentRecord (withHumanizedStatus u))
      = currentRecord (withHumanizedStatus u) := by
  simp [currentRecord, withHumanizedStatus, JsObject.getProp, JsObject.setProp,
    JsObject.getProp_setProp]

theorem currentRecord_currentRecord (u : JsObject) :
    currentRecord (currentRecord u) = currentRecord u := by
  simp [currentRecord, JsObject.getProp]

theorem isStored_currentRecord (u : JsObject) :
    IsStored (deviceId u, currentRecord (withHumanizedStatus u)) := by
  constructor
  · show currentRecord (withHumanizedStatus u)
      = currentRecord (withHumanizedStatus (currentRecord (withHumanizedStatus u)))
    rw [withHumanizedStatus_currentRecord, currentRecord_currentRecord]
  · show deviceId (currentRecord (withHumanizedStatus u)) = deviceId u
    rw [deviceId_currentRecord, deviceId_withHumanizedStatus]

theorem withHumanizedStatus_of_isStored {e : JsValue × JsObject} (h : IsStored e) :
    withHumanizedStatus e.2 = e.2 := by
  have h1 := h.1
  rw [h1]
  exact withHumanizedStatus_currentRecord e.2

theorem currentUsersMapAfter_eq_foldl (raw : List JsObject) :
    currentUsersMapAfter raw =
      raw.foldl
        (fun m u => JsMap.set m (deviceId u) (currentRecord (withHumanizedStatus u))) [] := by
  unfold currentUsersMapAfter newUsersList
  rw [List.foldl_map]
  simp only [deviceId_withHumanizedStatus]

theorem rosterInv_currentUsersMapAfter (raw : List JsObject) :
    RosterInv (currentUsersMapAfter raw) := by
  rw [currentUsersMapAfter_eq_foldl]
  refine ⟨JsMap.wf_foldl_set _ _ _ JsMap.wf_nil, ?_⟩
  intro e he
  rcases JsMap.mem_foldl_set _ _ _ _ he with h | ⟨x, _, h⟩
  · cases h
  · rw [h]
    exact isStored_currentRecord x

end UserManager

namespace UserManager

theorem foldl_set_values_eq (l acc : JsMap JsValue JsObject)
    (hl : ∀ e ∈ l, deviceId e.2 = e.1) (hnd : (JsMap.keys (acc ++ l)).Nodup) :
    (JsMap.values l).foldl (fun m u => JsMap.set m (deviceId u) u) acc = acc ++ l := by
  induction l generalizing acc with
  | nil => simp [JsMap.values]
  | cons e rest ih =>
    obtain ⟨k, r⟩ := e
    have hk : deviceId r = k := hl (k, r) (List.mem_cons_self _ _)
    have hnot : k ∉ JsMap.keys acc := by
      intro hmem
      have hnd' : (List.map Prod.fst acc ++ k :: List.map Prod.fst rest).Nodup := by
        simpa [JsMap.keys] using hnd
      exact (List.nodup_append.mp hnd').2.2 hmem (List.mem_cons_self _ _)
    have hstep : JsMap.set acc (deviceId r) r = acc ++ [(k, r)] := by
      rw [hk]
      exact JsMap.set_of_not_mem acc k r hnot
    have hnd2 : (JsMap.keys ((acc ++ [(k, r)]) ++ rest)).Nodup := by simpa using hnd
    simp only [JsMap.values, List.map_cons, List.foldl_cons]
    rw [hstep]
    have := ih (acc ++ [(k, r)]) (fun e he => hl e (List.mem_cons_of_mem _ he)) hnd2
    simpa [JsMap.values] using this

theorem uniqueUsers_eq (self : UserManager) (user : JsObject)
    (hinv : RosterInv self.currentUsersMap) :
    uniqueUsers self user
      = JsMap.values (JsMap.set self.currentUsersMap (deviceId user) user) := by
  unfold uniqueUsers
  rw [List.foldl_append]
  have h := foldl_set_values_eq self.currentUsersMap [] (fun e he => (hinv.2 e he).2)
    (by simpa using hinv.1)
  rw [h]
  simp

/-- What `singleUserSynced` feeds to `newUsersListSynced`: every record is either the incoming
user or a stored record of the roster, and deviceIds are pairwise distinct. -/
theorem uniqueUsers_spec (self : UserManager) (user : JsObject)
    (hinv : RosterInv self.currentUsersMap) :
    ((uniqueUsers self user).map deviceId).Nodup ∧
      (uniqueUsers self user).map deviceId
        = JsMap.keys (JsMap.set self.currentUsersMap (deviceId user) user) ∧
      (∀ x ∈ uniqueUsers self user,
        x = user ∨ ((deviceId x, x) ∈ self.currentUsersMap ∧ deviceId x ≠ deviceId user)) ∧
      user ∈ uniqueUsers self user := by
  rw [uniqueUsers_eq self user hinv]
  have hM : ∀ e ∈ JsMap.set self.currentUsersMap (deviceId user) user, deviceId e.2 = e.1 := by
    intro e he
    rcases JsMap.mem_set he with h | h
    · rw [h]
    · exact (hinv.2 e h).2
  have hkeys : (JsMap.values (JsMap.set self.currentUsersMap (deviceId user) user)).map deviceId
      = JsMap.keys (JsMap.set self.currentUsersMap (deviceId user) user) := by
    simp only [JsMap.values, JsMap.keys, List.map_map]
    exact List.map_congr_left hM
  refine ⟨?_, hkeys, ?_, ?_⟩
  · rw [hkeys]
    exact JsMap.wf_set hinv.1 _ _
  · intro x hx
    obtain ⟨e, he, rfl⟩ := List.mem_map.mp hx
    by_cases hd : e.1 = deviceId user
    · left
      have h1 : JsMap.get (JsMap.set self.currentUsersMap (deviceId user) user) e.1
          = some e.2 := JsMap.get_of_mem (JsMap.wf_set hinv.1 _ _) he
      rw [hd, JsMap.get_set_self] at h1
      exact (Option.some.inj h1).symm
    · right
      rcases JsMap.mem_set he with h | h
      · exact absurd (by rw [h]) hd
      · have h2 := (hinv.2 e h).2
        refine ⟨?_, ?_⟩
        · rw [h2]; exact h
        · rw [h2]; exact hd
  · have h1 := JsMap.mem_of_get (JsMap.get_set_self self.currentUsersMap (deviceId user) user)
    exact List.mem_map.mpr ⟨_, h1, rfl⟩

end UserManager

namespace UserManager
open Sample

/-- C5: on a roster as `newUsersListSynced` leaves it, `singleUserSynced(user)` computes an
empty `removedUsers`, the roster keys afterwards are the previous keys together with
`user.deviceId`, the entry of `user.deviceId` is the stored record built from `user`, every
other entry is unchanged, and nothing but `user` is reported as new or as updated. -/
theorem singleUserSynced_never_removes (self : UserManager) (user : JsObject)
    (hinv : RosterInv self.currentUsersMap) :
    removedUsers self (uniqueUsers self user) = [] ∧
      (∀ k, k ∈ JsMap.keys (singleUserSynced self user).1.currentUsersMap ↔
        k ∈ JsMap.keys self.currentUsersMap ∨ k = deviceId user) ∧
      JsMap.get (singleUserSynced self user).1.currentUsersMap (deviceId user)
        = some (currentRecord (withHumanizedStatus user)) ∧
      (∀ k, k ≠ deviceId user →
        JsMap.get (singleUserSynced self user).1.currentUsersMap k
          = JsMap.get self.currentUsersMap k) ∧
      (∀ r ∈ newUsers self (uniqueUsers self user), r = withHumanizedStatus user) ∧
      (∀ x ∈ updatedUsers self (uniqueUsers self user),
        x = some (currentRecord (withHumanizedStatus user))) ∧
      (∀ newUsers removedUsers updatedUsers,
        ControlMessage.usersUpdate newUsers removedUsers updatedUsers
          ∈ (singleUserSynced self user).2 → removedUsers = []) ∧
      RosterInv (singleUserSynced self user).1.currentUsersMap := by
  obtain ⟨hnd, hkeys, hmem, huser⟩ := uniqueUsers_spec self user hinv
  have hafter : (singleUserSynced self user).1.currentUsersMap
      = currentUsersMapAfter (uniqueUsers self user) := rfl
  have hget : ∀ x ∈ uniqueUsers self user,
      JsMap.get (currentUsersMapAfter (uniqueUsers self user)) (deviceId x)
        = some (currentRecord (withHumanizedStatus x)) := by
    intro x hx
    rw [currentUsersMapAfter_eq_foldl]
    exact JsMap.get_foldl_set_of_nodup deviceId
      (fun u => currentRecord (withHumanizedStatus u)) _ hnd hx
  have hkeysAfter : ∀ k, k ∈ JsMap.keys (currentUsersMapAfter (uniqueUsers self user)) ↔
      k ∈ JsMap.keys self.currentUsersMap ∨ k = deviceId user := by
    intro k
    rw [currentUsersMapAfter_eq_foldl, JsMap.mem_keys_foldl_set]
    have : (∃ x ∈ uniqueUsers self user, deviceId x = k)
        ↔ k ∈ (uniqueUsers self user).map deviceId := by
      simp [List.mem_map]
    rw [this, hkeys, JsMap.mem_keys_set]
    simp only [JsMap.keys, List.map_nil, List.not_mem_nil, false_or]
    tauto
  have hrem : removedUsers self (uniqueUsers self user) = [] := by
    unfold removedUsers
    rw [List.map_eq_nil_iff, List.filter_eq_nil_iff]
    intro id hid
    have h1 : id ∈ JsMap.keys self.currentUsersMap := by
      simpa [previousUserIds, JsSet.mem_ofList] using hid
    have h2 : id ∈ (uniqueUsers self user).map deviceId := by
      rw [hkeys, JsMap.mem_keys_set]
      exact Or.inr h1
    have h3 : (newUsersList (uniqueUsers self user)).map deviceId
        = (uniqueUsers self user).map deviceId := by
      simp [newUsersList, List.map_map, Function.comp_def, deviceId_withHumanizedStatus]
    simp [newUserIds, JsSet.has_ofList, h3, h2]
  have hupd : ∀ id ∈ updatedUserIds self (uniqueUsers self user), id = deviceId user := by
    intro id hid
    obtain ⟨u, hu, hdev, _, hjson⟩ := (mem_updatedUserIds self _ id).mp hid
    obtain ⟨x, hx, rfl⟩ := List.mem_map.mp hu
    rw [deviceId_withHumanizedStatus] at hdev
    rcases hmem x hx with h | ⟨h, _⟩
    · rw [← hdev, h]
    · exfalso
      apply hjson
      have hfix : withHumanizedStatus x = x :=
        withHumanizedStatus_of_isStored (hinv.2 _ h)
      rw [hfix, ← hdev, JsMap.get_of_mem hinv.1 h]
  refine ⟨hrem, ?_, ?_, ?_, ?_, ?_, ?_, ?_⟩
  · rw [hafter]
    exact hkeysAfter
  · rw [hafter]
    exact hget user huser
  · intro k hk
    rw [hafter]
    cases hg : JsMap.get self.currentUsersMap k with
    | none =>
      rw [JsMap.get_eq_none_iff] at hg ⊢
      rw [hkeysAfter]
      rintro (h | h)
      · exact hg h
      · exact hk h
    | some r =>
      have h1 : (k, r) ∈ self.currentUsersMap := JsMap.mem_of_get hg
      have h2 := hinv.2 _ h1
      have h3 : JsMap.get (JsMap.set self.currentUsersMap (deviceId user) user) k = some r := by
        rw [JsMap.get_set_of_ne _ _ (fun e => hk e.symm)]
        exact hg
      have h4 : r ∈ uniqueUsers self user := by
        rw [uniqueUsers_eq self user hinv]
        exact List.mem_map.mpr ⟨_, JsMap.mem_of_get h3, rfl⟩
      have h5 := hget r h4
      have h6 : deviceId r = k := h2.2
      have h7 : r = currentRecord (withHumanizedStatus r) := h2.1
      rw [h6, ← h7] at h5
      exact h5
  · intro r hr
    rw [newUsers_eq, List.mem_map] at hr
    obtain ⟨x, hx, rfl⟩ := hr
    rw [List.mem_filter] at hx
    rcases hmem x hx.1 with h | ⟨h, _⟩
    · rw [h]
    · exfalso
      have h1 : deviceId x ∉ JsMap.keys self.currentUsersMap := by simpa using hx.2
      exact h1 (List.mem_map.mpr ⟨_, h, rfl⟩)
  · intro x hx
    unfold updatedUsers at hx
    obtain ⟨id, hid, rfl⟩ := List.mem_map.mp hx
    rw [hupd id hid]
    exact hget user huser
  · intro nu ru uu hmsg
    unfold singleUserSynced newUsersListSynced at hmsg
    dsimp only at hmsg
    split_ifs at hmsg with hc
    · simp only [List.mem_singleton, ControlMessage.usersUpdate.injEq] at hmsg
      rw [hmsg.2.1]
      exact hrem
    · cases hmsg
  · rw [hafter]
    exact rosterInv_currentUsersMapAfter _

/-- C5 at the roster {X, Y} and the incoming user Z. -/
theorem singleUserSynced_never_removes_witness :
    RosterInv rosterXY.currentUsersMap ∧
      removedUsers rosterXY (uniqueUsers rosterXY userZ) = [] ∧
      JsMap.keys (singleUserSynced rosterXY userZ).1.currentUsersMap
        = [JsValue.str "X", JsValue.str "Y", JsValue.str "Z"] ∧
      (singleUserSynced rosterXY userZ).2
        = [ControlMessage.usersUpdate [withHumanizedStatus userZ] [] []] :=
  ⟨by decide, (singleUserSynced_never_removes rosterXY userZ (by decide)).1,
    by decide, by decide⟩

end UserManager

/-! ## Video feed selection: `VideoTrackManager` -/

namespace VideoTrackManager
open Sample

theorem foldl_max_spec (l : List TrackInfo) (t0 : TrackInfo) :
    let r := l.foldl
      (fun max track => if track.firstSeenAt > max.firstSeenAt then track else max) t0
    (r = t0 ∨ r ∈ l) ∧ t0.firstSeenAt ≤ r.firstSeenAt ∧
      ∀ t ∈ l, t.firstSeenAt ≤ r.firstSeenAt := by
  induction l generalizing t0 with
  | nil => simp
  | cons a rest ih =>
    simp only [List.foldl_cons]
    by_cases h : a.firstSeenAt > t0.firstSeenAt
    · rw [if_pos h]
      obtain ⟨h1, h2, h3⟩ := ih a
      refine ⟨?_, by omega, ?_⟩
      · rcases h1 with h1 | h1
        · exact Or.inr (by rw [h1]; exact List.mem_cons_self _ _)
        · exact Or.inr (List.mem_cons_of_mem _ h1)
      · intro t ht
        rcases List.mem_cons.mp ht with e | e
        · rw [e]; exact h2
        · exact h3 t e
    · rw [if_neg h]
      obtain ⟨h1, h2, h3⟩ := ih t0
      refine ⟨?_, h2, ?_⟩
      · rcases h1 with h1 | h1
        · exact Or.inl h1
        · exact Or.inr (List.mem_cons_of_mem _ h1)
      · intro t ht
        rcases List.mem_cons.mp ht with e | e
        · rw [e]; omega
        · exact h3 t e

theorem mostRecentlyCreated_nil : mostRecentlyCreated [] = none := rfl

theorem mostRecentlyCreated_spec {l : List TrackInfo} (hl : l ≠ []) :
    ∃ r, mostRecentlyCreated l = some r ∧ r ∈ l ∧ ∀ t ∈ l, t.firstSeenAt ≤ r.firstSeenAt := by
  cases l with
  | nil => exact absurd rfl hl
  | cons t0 rest =>
    obtain ⟨h1, _, h3⟩ := foldl_max_spec (t0 :: rest) t0
    refine ⟨_, rfl, ?_, h3⟩
    rcases h1 with h1 | h1
    · rw [h1]; exact List.mem_cons_self _ _
    · exact h1

theorem mostRecentlyCreated_eq_none {l : List TrackInfo} (h : mostRecentlyCreated l = none) :
    l = [] := by
  cases l with
  | nil => rfl
  | cons t0 rest => simp [mostRecentlyCreated] at h

/-- C8: `getTrackToSend` returns a record of the current map: when some track is a screen
share, a screen-share track whose `firstSeenAt` is maximal among the screen-share tracks,
whatever the camera tracks are; when no track is a screen share and the map is not empty, a
camera track whose `firstSeenAt` is maximal; and `null` exactly when the map is empty. -/
theorem getTrackToSend_policy (self : VideoTrackManager) :
    ((∃ t ∈ JsMap.values self.videoTracks, t.isScreenShare = true) →
      ∃ r, getTrackToSend self = some r ∧ r ∈ JsMap.values self.videoTracks ∧
        r.isScreenShare = true ∧
        ∀ t ∈ JsMap.values self.videoTracks, t.isScreenShare = true →
          t.firstSeenAt ≤ r.firstSeenAt) ∧
      ((∀ t ∈ JsMap.values self.videoTracks, t.isScreenShare = false) →
        self.videoTracks ≠ [] →
        ∃ r, getTrackToSend self = some r ∧ r ∈ JsMap.values self.videoTracks ∧
          r.isScreenShare = false ∧
          ∀ t ∈ JsMap.values self.videoTracks, t.firstSeenAt ≤ r.firstSeenAt) ∧
      (getTrackToSend self = none ↔ self.videoTracks = []) := by
  refine ⟨?_, ?_, ?_⟩
  · rintro ⟨t, ht, hs⟩
    have hne : (JsMap.values self.videoTracks).filter (fun track => track.isScreenShare) ≠ [] := by
      intro e
      have : t ∈ (JsMap.values self.videoTracks).filter (fun track => track.isScreenShare) :=
        List.mem_filter.mpr ⟨ht, hs⟩
      rw [e] at this
      cases this
    obtain ⟨r, hr, hmem, hmax⟩ := mostRecentlyCreated_spec hne
    rw [List.mem_filter] at hmem
    refine ⟨r, ?_, hmem.1, hmem.2, ?_⟩
    · simp only [getTrackToSend, hr]
    · intro t' ht' hs'
      exact hmax t' (List.mem_filter.mpr ⟨ht', hs'⟩)
  · intro hall hne
    have h1 : (JsMap.values self.videoTracks).filter (fun track => track.isScreenShare) = [] := by
      rw [List.filter_eq_nil_iff]
      intro t ht
      simp [hall t ht]
    have h2 : (JsMap.values self.videoTracks).filter (fun track => !track.isScreenShare)
        = JsMap.values self.videoTracks := by
      rw [List.filter_eq_self]
      intro t ht
      simp [hall t ht]
    have h3 : JsMap.values self.videoTracks ≠ [] := by
      intro e
      exact hne (List.map_eq_nil_iff.mp e)
    obtain ⟨r, hr, hmem, hmax⟩ := mostRecentlyCreated_spec h3
    refine ⟨r, ?_, hmem, hall r hmem, hmax⟩
    simp only [getTrackToSend, h1, h2, mostRecentlyCreated_nil, hr]
  · constructor
    · intro h
      unfold getTrackToSend at h
      dsimp only at h
      cases hs : mostRecentlyCreated
          ((JsMap.values self.videoTracks).filter (fun track => track.isScreenShare)) with
      | some r => rw [hs] at h; cases h
      | none =>
        rw [hs] at h
        cases hc : mostRecentlyCreated
            ((JsMap.values self.videoTracks).filter (fun track => !track.isScreenShare)) with
        | some r => rw [hc] at h; cases h
        | none =>
          have e1 := mostRecentlyCreated_eq_none hs
          have e2 := mostRecentlyCreated_eq_none hc
          cases hv : self.videoTracks with
          | nil => rfl
          | cons e rest =>
            exfalso
            rw [hv] at e1 e2
            cases hb : e.2.isScreenShare
            · simp [JsMap.values, List.filter_cons, hb] at e2
            · simp [JsMap.values, List.filter_cons, hb] at e1
    · intro h
      simp [getTrackToSend, h, JsMap.values, mostRecentlyCreated]

/-- C8 on a map whose camera track was seen later than its screen-share track: the
screen-share track is returned. -/
theorem getTrackToSend_policy_witness :
    (∃ t ∈ JsMap.values cameraLater.videoTracks, t.isScreenShare = true) ∧
      getTrackToSend cameraLater = some ⟨trackB, true, 2, JsValue.str "sb"⟩ ∧
      ∃ r, getTrackToSend cameraLater = some r ∧ r ∈ JsMap.values cameraLater.videoTracks ∧
        r.isScreenShare = true ∧
        ∀ t ∈ JsMap.values cameraLater.videoTracks, t.isScreenShare = true →
          t.firstSeenAt ≤ r.firstSeenAt :=
  ⟨by decide, by decide, (getTrackToSend_policy cameraLater).1 (by decide)⟩

end VideoTrackManager

namespace VideoTrackManager
open Sample

/-- The cache invariant: the cache is empty or holds what `getTrackToSend` computes. -/
theorem cacheOk_step (self : VideoTrackManager) (call : Call)
    (h : self.trackToSendCache = none ∨ self.trackToSendCache = getTrackToSend self) :
    (step self call).trackToSendCache = none ∨
      (step self call).trackToSendCache = getTrackToSend (step self call) := by
  cases call with
  | upsert videoTrack streamId isScreenShare now => exact Or.inl rfl
  | delete videoTrack => exact Or.inl rfl
  | read =>
    show (getTrackToSendCached self).2.trackToSendCache = none ∨
      (getTrackToSendCached self).2.trackToSendCache
        = getTrackToSend (getTrackToSendCached self).2
    unfold getTrackToSendCached
    cases hc : self.trackToSendCache with
    | some track =>
      rcases h with h | h
      · rw [hc] at h; cases h
      · right
        show self.trackToSendCache = getTrackToSend self
        exact h
    | none =>
      right
      rfl

theorem cacheOk_run (calls : List Call) (self : VideoTrackManager)
    (h : self.trackToSendCache = none ∨ self.trackToSendCache = getTrackToSend self) :
    (run self calls).trackToSendCache = none ∨
      (run self calls).trackToSendCache = getTrackToSend (run self calls) := by
  induction calls generalizing self with
  | nil => exact h
  | cons c rest ih => exact ih (step self c) (cacheOk_step self c h)

theorem getTrackToSend_mem (self : VideoTrackManager) (r : TrackInfo)
    (h : getTrackToSend self = some r) : r ∈ JsMap.values self.videoTracks := by
  unfold getTrackToSend at h
  dsimp only at h
  cases hs : mostRecentlyCreated
      ((JsMap.values self.videoTracks).filter (fun track => track.isScreenShare)) with
  | some t =>
    rw [hs] at h
    have hne : (JsMap.values self.videoTracks).filter (fun track => track.isScreenShare) ≠ [] := by
      intro e; rw [e] at hs; cases hs
    obtain ⟨r', hr', hmem, _⟩ := mostRecentlyCreated_spec hne
    rw [hs] at hr'
    cases hr'
    cases h
    exact (List.mem_filter.mp hmem).1
  | none =>
    rw [hs] at h
    cases hc : mostRecentlyCreated
        ((JsMap.values self.videoTracks).filter (fun track => !track.isScreenShare)) with
    | some t =>
      rw [hc] at h
      have hne : (JsMap.values self.videoTracks).filter (fun track => !track.isScreenShare)
          ≠ [] := by
        intro e; rw [e] at hc; cases hc
      obtain ⟨r', hr', hmem, _⟩ := mostRecentlyCreated_spec hne
      rw [hc] at hr'
      cases hr'
      cases h
      exact (List.mem_filter.mp hmem).1
    | none => rw [hc] at h; cases h

/-- C9: after every sequence of `upsertVideoTrack`, `deleteVideoTrack` and cached reads from
the initial state, `getTrackToSendCached` returns exactly what `getTrackToSend` computes from
the current track map and leaves the map unchanged, so a returned track is a record of the
map; on A (camera, t = 1), B (screen, t = 2), C (screen, t = 3) it returns C, then B after C is
deleted, then A after B is deleted, then nothing after A is deleted. -/
theorem getTrackToSendCached_eq_getTrackToSend :
    (∀ calls : List Call,
      (getTrackToSendCached (run init calls)).1 = getTrackToSend (run init calls) ∧
      (getTrackToSendCached (run init calls)).2.videoTracks = (run init calls).videoTracks ∧
      ∀ r, (getTrackToSendCached (run init calls)).1 = some r →
        r ∈ JsMap.values (run init calls).videoTracks) ∧
      (getTrackToSendCached (run init callsABC)).1
        = some ⟨trackC, true, 3, JsValue.str "sc"⟩ ∧
      (getTrackToSendCached (run init (callsABC ++ [Call.read, Call.delete trackC]))).1
        = some ⟨trackB, true, 2, JsValue.str "sb"⟩ ∧
      (getTrackToSendCached (run init (callsABC ++ [Call.read, Call.delete trackC,
          Call.read, Call.delete trackB]))).1
        = some ⟨trackA, false, 1, JsValue.str "sa"⟩ ∧
      (getTrackToSendCached (run init (callsABC ++ [Call.read, Call.delete trackC,
          Call.read, Call.delete trackB, Call.read, Call.delete trackA]))).1 = none := by
  refine ⟨?_, by decide, by decide, by decide, by decide⟩
  intro calls
  have hinv := cacheOk_run calls init (Or.inl rfl)
  have heq : (getTrackToSendCached (run init calls)).1 = getTrackToSend (run init calls) := by
    unfold getTrackToSendCached
    cases hc : (run init calls).trackToSendCache with
    | some track =>
      rcases hinv with h | h
      · rw [hc] at h; cases h
      · rw [hc] at h
        exact h
    | none => rfl
  refine ⟨heq, ?_, ?_⟩
  · unfold getTrackToSendCached
    cases (run init calls).trackToSendCache <;> rfl
  · intro r hr
    rw [heq] at hr
    exact getTrackToSend_mem _ r hr

/-- C10: `upsertVideoTrack` on a track map: a track id already in the map keeps its
`firstSeenAt` and takes the new `streamId` and `isScreenShare`; a fresh track id gets
`firstSeenAt = Date.now()`; the records of all other track ids are unchanged; the map holds
exactly one record for the track id; the cached selection is cleared. -/
theorem upsertVideoTrack_spec (self : VideoTrackManager) (videoTrack : VideoTrack)
    (streamId : JsValue) (isScreenShare : Bool) (now : Nat)
    (hwf : JsMap.WF self.videoTracks) :
    (∀ existing, JsMap.get self.videoTracks videoTrack.id = some existing →
      JsMap.get (upsertVideoTrack self videoTrack streamId isScreenShare now).videoTracks
          videoTrack.id
        = some ⟨videoTrack, isScreenShare, existing.firstSeenAt, streamId⟩) ∧
      (JsMap.get self.videoTracks videoTrack.id = none →
        JsMap.get (upsertVideoTrack self videoTrack streamId isScreenShare now).videoTracks
            videoTrack.id
          = some ⟨videoTrack, isScreenShare, now, streamId⟩) ∧
      (∀ k, k ≠ videoTrack.id →
        JsMap.get (upsertVideoTrack self videoTrack streamId isScreenShare now).videoTracks k
          = JsMap.get self.videoTracks k) ∧
      (JsMap.keys
        (upsertVideoTrack self videoTrack streamId isScreenShare now).videoTracks).count
          videoTrack.id = 1 ∧
      JsMap.WF (upsertVideoTrack self videoTrack streamId isScreenShare now).videoTracks ∧
      (upsertVideoTrack self videoTrack streamId isScreenShare now).trackToSendCache
        = none := by
  have hwf' : JsMap.WF
      (upsertVideoTrack self videoTrack streamId isScreenShare now).videoTracks :=
    JsMap.wf_set hwf _ _
  refine ⟨?_, ?_, ?_, ?_, hwf', rfl⟩
  · intro existing he
    simp only [upsertVideoTrack, JsMap.get_set_self, trackInfo, he]
  · intro he
    simp only [upsertVideoTrack, JsMap.get_set_self, trackInfo, he]
  · intro k hk
    exact JsMap.get_set_of_ne _ _ (fun e => hk e.symm)
  · apply List.count_eq_one_of_mem hwf'
    exact (JsMap.mem_keys_set _ _ _ _).mpr (Or.inl rfl)

/-- C10 at a refresh of track A (first seen at 1) at time 99 with a new stream and class. -/
theorem upsertVideoTrack_spec_witness :
    JsMap.WF (run init callsABC).videoTracks ∧
      JsMap.get
        (upsertVideoTrack (run init callsABC) trackA (JsValue.str "sx") true 99).videoTracks
          "A"
        = some ⟨trackA, true, 1, JsValue.str "sx"⟩ ∧
      JsMap.get
        (upsertVideoTrack (run init callsABC) trackA (JsValue.str "sx") true 99).videoTracks
          "B"
        = some ⟨trackB, true, 2, JsValue.str "sb"⟩ :=
  ⟨by decide,
   (upsertVideoTrack_spec (run init callsABC) trackA (JsValue.str "sx") true 99
      (by decide)).1 ⟨trackA, false, 1, JsValue.str "sa"⟩ (by decide),
   ((upsertVideoTrack_spec (run init callsABC) trackA (JsValue.str "sx") true 99
      (by decide)).2.2.1 "B" (by decide)).trans (by decide)⟩

end VideoTrackManager

/-! ## Device outputs: `updateDeviceOutputs`, `getDeviceOutput`, `deviceForStreamIsActive` -/

/-! ## Decimal numerals are injective -/

theorem digitChar_toNat_sub {k : Nat} (h : k < 10) : (Nat.digitChar k).toNat - 48 = k := by
  interval_cases k <;> decide

theorem digitChar_ne_dash {k : Nat} (h : k < 10) : Nat.digitChar k ≠ '-' := by
  interval_cases k <;> decide

theorem toDigitsCore_spec (fuel n : Nat) (ds : List Char) (h : n < fuel) :
    ∃ l, Nat.toDigitsCore 10 fuel n ds = l ++ ds ∧
      l.foldl (fun a c => 10 * a + (c.toNat - 48)) 0 = n ∧ ∀ c ∈ l, c ≠ '-' := by
  induction fuel generalizing n ds with
  | zero => omega
  | succ fuel ih =>
    rw [Nat.toDigitsCore]
    split_ifs with h0
    · refine ⟨[Nat.digitChar (n % 10)], rfl, ?_, ?_⟩
      · simp only [List.foldl_cons, List.foldl_nil]
        rw [digitChar_toNat_sub (Nat.mod_lt _ (by decide))]
        omega
      · intro c hc
        rw [List.mem_singleton] at hc
        rw [hc]
        exact digitChar_ne_dash (Nat.mod_lt _ (by decide))
    · obtain ⟨l, hl, hv, hd⟩ := ih (n / 10) (Nat.digitChar (n % 10) :: ds) (by omega)
      refine ⟨l ++ [Nat.digitChar (n % 10)], by rw [hl]; simp, ?_, ?_⟩
      · rw [List.foldl_append, hv]
        simp only [List.foldl_cons, List.foldl_nil]
        rw [digitChar_toNat_sub (Nat.mod_lt _ (by decide))]
        omega
      · intro c hc
        rcases List.mem_append.mp hc with hc | hc
        · exact hd c hc
        · rw [List.mem_singleton] at hc
          rw [hc]
          exact digitChar_ne_dash (Nat.mod_lt _ (by decide))

theorem toDigits_injective {a b : Nat} (h : Nat.toDigits 10 a = Nat.toDigits 10 b) : a = b := by
  obtain ⟨la, hla, hva, _⟩ := toDigitsCore_spec (a + 1) a [] (by omega)
  obtain ⟨lb, hlb, hvb, _⟩ := toDigitsCore_spec (b + 1) b [] (by omega)
  unfold Nat.toDigits at h
  rw [hla, hlb] at h
  simp only [List.append_nil] at h
  rw [← hva, ← hvb, h]

theorem dash_not_mem_toDigits (n : Nat) : '-' ∉ Nat.toDigits 10 n := by
  obtain ⟨l, hl, _, hd⟩ := toDigitsCore_spec (n + 1) n [] (by omega)
  unfold Nat.toDigits
  rw [hl, List.append_nil]
  intro hmem
  exact hd _ hmem rfl

theorem append_cons_inj {α : Type} {c : α} :
    ∀ {l1 l2 s1 s2 : List α}, c ∉ s1 → c ∉ s2 → l1 ++ c :: s1 = l2 ++ c :: s2 →
      l1 = l2 ∧ s1 = s2
  | [], [], _, _, _, _, h => ⟨rfl, by simpa using h⟩
  | [], y :: l2, s1, s2, h1, _, h => by
    exfalso
    simp only [List.nil_append, List.cons_append, List.cons.injEq] at h
    apply h1
    rw [h.2]
    simp
  | x :: l1, [], s1, s2, _, h2, h => by
    exfalso
    simp only [List.nil_append, List.cons_append, List.cons.injEq] at h
    apply h2
    rw [← h.2]
    simp
  | x :: l1, y :: l2, s1, s2, h1, h2, h => by
    simp only [List.cons_append, List.cons.injEq] at h
    obtain ⟨e1, e2⟩ := append_cons_inj h1 h2 h.2
    exact ⟨by rw [h.1, e1], e2⟩

namespace UserManager

/-- The key of a deviceId string and a numeric output type determines both. -/
theorem deviceOutputKey_injective {d d' : String} {t t' : Nat}
    (h : deviceOutputKey (JsValue.str d) (JsValue.num t)
      = deviceOutputKey (JsValue.str d') (JsValue.num t')) : d = d' ∧ t = t' := by
  have h' : d.data ++ '-' :: Nat.toDigits 10 t = d'.data ++ '-' :: Nat.toDigits 10 t' := by
    have := congrArg String.data h
    simpa [deviceOutputKey, toPropertyKey, String.data_append] using this
  obtain ⟨e1, e2⟩ := append_cons_inj (dash_not_mem_toDigits t) (dash_not_mem_toDigits t') h'
  exact ⟨String.ext e1, toDigits_injective e2⟩

end UserManager

namespace UserManager
open Sample

theorem applyDeviceOutputs_of_status (l : List (DeviceOutputInfo × Nat))
    (m : JsMap String JsObject) (h : ∀ x ∈ l, x.1.deviceOutputStatus.isSome = true) :
    applyDeviceOutputs m l =
      Except.ok (l.foldl
        (fun m x => JsMap.set m (deviceOutputKey x.1.deviceId x.1.deviceOutputType)
          (deviceOutput x.1 (x.1.deviceOutputStatus.getD []) x.2)) m) := by
  induction l generalizing m with
  | nil => rfl
  | cons x rest ih =>
    obtain ⟨output, now⟩ := x
    have hx := h (output, now) (List.mem_cons_self _ _)
    cases hs : output.deviceOutputStatus with
    | none => simp [hs] at hx
    | some status =>
      simp only [applyDeviceOutputs, hs, List.foldl_cons, Option.getD_some]
      exact ih _ (fun y hy => h y (List.mem_cons_of_mem _ hy))

theorem updateDeviceOutputsEach_of_status (batches : List (List (DeviceOutputInfo × Nat)))
    (self : UserManager)
    (h : ∀ b ∈ batches, ∀ x ∈ b, x.1.deviceOutputStatus.isSome = true) :
    (updateDeviceOutputsEach self batches).deviceOutputMap =
      batches.flatten.foldl
        (fun m x => JsMap.set m (deviceOutputKey x.1.deviceId x.1.deviceOutputType)
          (deviceOutput x.1 (x.1.deviceOutputStatus.getD []) x.2)) self.deviceOutputMap := by
  induction batches generalizing self with
  | nil => rfl
  | cons b rest ih =>
    have hb := applyDeviceOutputs_of_status b self.deviceOutputMap
      (h b (List.mem_cons_self _ _))
    simp only [updateDeviceOutputsEach, List.foldl_cons, List.flatten_cons, List.foldl_append]
    have hstep : (updateDeviceOutputs self b).self.deviceOutputMap =
        b.foldl
          (fun m x => JsMap.set m (deviceOutputKey x.1.deviceId x.1.deviceOutputType)
            (deviceOutput x.1 (x.1.deviceOutputStatus.getD []) x.2)) self.deviceOutputMap := by
      simp [updateDeviceOutputs, hb, UpdateResult.self]
    rw [← hstep]
    exact ih _ (fun b' hb' => h b' (List.mem_cons_of_mem _ hb'))

theorem find?_congr_of_mem {α : Type} {p q : α → Bool} {l : List α}
    (h : ∀ x ∈ l, p x = q x) : l.find? p = l.find? q := by
  induction l with
  | nil => rfl
  | cons a rest ih =>
    simp only [List.find?_cons, h a (List.mem_cons_self _ _)]
    rw [ih (fun x hx => h x (List.mem_cons_of_mem _ hx))]

theorem complete_iff (output : DeviceOutputInfo) :
    complete output = true ↔
      (∃ d, output.deviceId = JsValue.str d) ∧ (∃ t, output.deviceOutputType = JsValue.num t) ∧
        output.deviceOutputStatus.isSome = true := by
  unfold complete
  cases h1 : output.deviceId <;> cases h2 : output.deviceOutputType <;>
    simp [JsValue.isStr, JsValue.isNum]

/-- C11, as amended: for every sequence of `updateDeviceOutputs` batches from the initial
manager whose descriptors each carry a deviceId, an output type and a `deviceOutputStatus`,
the device-output map has no repeated key and as many entries as there are distinct
(deviceId, outputType) pairs among the descriptors, and `getDeviceOutput(deviceId,
outputType)` is the entry stored for the last descriptor of that pair (its `streamId`, its
`disabled` flag), or `undefined` when no descriptor has that pair. -/
theorem updateDeviceOutputs_last_descriptor_wins
    (batches : List (List (DeviceOutputInfo × Nat)))
    (hc : ∀ b ∈ batches, ∀ x ∈ b, complete x.1 = true) :
    JsMap.WF (updateDeviceOutputsEach init batches).deviceOutputMap ∧
      (updateDeviceOutputsEach init batches).deviceOutputMap.length =
        (batches.flatten.map (fun x => (x.1.deviceId, x.1.deviceOutputType))).dedup.length ∧
      (∀ (d : String) (t : Nat),
        getDeviceOutput (updateDeviceOutputsEach init batches) (JsValue.str d) (JsValue.num t) =
          (batches.flatten.reverse.find?
            (fun x => decide (x.1.deviceId = JsValue.str d ∧
              x.1.deviceOutputType = JsValue.num t))).bind storedDeviceOutput) ∧
      (∀ x ∈ batches.flatten, ∀ entry, storedDeviceOutput x = some entry →
        JsObject.getProp entry "streamId" = x.1.streamId ∧
        ∃ status, x.1.deviceOutputStatus = some status ∧
          JsObject.getProp entry "disabled" = JsObject.getProp status "disabled") := by
  have hs : ∀ b ∈ batches, ∀ x ∈ b, x.1.deviceOutputStatus.isSome = true :=
    fun b hb x hx => ((complete_iff x.1).mp (hc b hb x hx)).2.2
  have hflat : ∀ x ∈ batches.flatten, complete x.1 = true := by
    intro x hx
    obtain ⟨b, hb, hxb⟩ := List.mem_flatten.mp hx
    exact hc b hb x hxb
  have hmap := updateDeviceOutputsEach_of_status batches init hs
  have hwf : JsMap.WF (updateDeviceOutputsEach init batches).deviceOutputMap := by
    rw [hmap]
    exact JsMap.wf_foldl_set _ _ _ JsMap.wf_nil
  refine ⟨hwf, ?_, ?_, ?_⟩
  · -- the keys are the keys of the distinct pairs
    have hnd2 : ((batches.flatten.map
        (fun x => (x.1.deviceId, x.1.deviceOutputType))).dedup.map
          (fun p => deviceOutputKey p.1 p.2)).Nodup := by
      apply List.Nodup.map_on _ (List.nodup_dedup _)
      intro p hp q hq hpq
      rw [List.mem_dedup, List.mem_map] at hp hq
      obtain ⟨x, hx, rfl⟩ := hp
      obtain ⟨y, hy, rfl⟩ := hq
      obtain ⟨⟨d, hd⟩, ⟨t, ht⟩, _⟩ := (complete_iff x.1).mp (hflat x hx)
      obtain ⟨⟨d', hd'⟩, ⟨t', ht'⟩, _⟩ := (complete_iff y.1).mp (hflat y hy)
      simp only [hd, ht, hd', ht'] at hpq ⊢
      obtain ⟨e1, e2⟩ := deviceOutputKey_injective hpq
      rw [e1, e2]
    have hperm : List.Perm (JsMap.keys (updateDeviceOutputsEach init batches).deviceOutputMap)
        ((batches.flatten.map
          (fun x => (x.1.deviceId, x.1.deviceOutputType))).dedup.map
            (fun p => deviceOutputKey p.1 p.2)) := by
      rw [List.perm_ext_iff_of_nodup hwf hnd2]
      intro k
      rw [hmap, JsMap.mem_keys_foldl_set]
      simp only [init, JsMap.keys, List.map_nil, List.not_mem_nil, false_or, List.mem_map,
        List.mem_dedup]
      constructor
      · rintro ⟨x, hx, rfl⟩
        exact ⟨(x.1.deviceId, x.1.deviceOutputType), ⟨x, hx, rfl⟩, rfl⟩
      · rintro ⟨p, ⟨x, hx, rfl⟩, rfl⟩
        exact ⟨x, hx, rfl⟩
    have hlen := hperm.length_eq
    simpa [JsMap.keys] using hlen
  · intro d t
    unfold getDeviceOutput
    rw [hmap, JsMap.get_foldl_set]
    have hpred : ∀ x ∈ batches.flatten.reverse,
        decide (deviceOutputKey x.1.deviceId x.1.deviceOutputType
          = deviceOutputKey (JsValue.str d) (JsValue.num t)) =
        decide (x.1.deviceId = JsValue.str d ∧ x.1.deviceOutputType = JsValue.num t) := by
      intro x hx
      obtain ⟨⟨d', hd'⟩, ⟨t', ht'⟩, _⟩ :=
        (complete_iff x.1).mp (hflat x (List.mem_reverse.mp hx))
      rw [hd', ht']
      by_cases hk : deviceOutputKey (JsValue.str d') (JsValue.num t')
          = deviceOutputKey (JsValue.str d) (JsValue.num t)
      · obtain ⟨e1, e2⟩ := deviceOutputKey_injective hk
        simp [e1, e2]
      · have : ¬ (JsValue.str d' = JsValue.str d ∧ JsValue.num t' = JsValue.num t) := by
          rintro ⟨e1, e2⟩
          apply hk
          rw [e1, e2]
        rw [decide_eq_false hk, decide_eq_false this]
    rw [find?_congr_of_mem hpred]
    cases hf : batches.flatten.reverse.find?
        (fun x => decide (x.1.deviceId = JsValue.str d ∧
          x.1.deviceOutputType = JsValue.num t)) with
    | none => simp [init, JsMap.get]
    | some x =>
      have hx : x ∈ batches.flatten := List.mem_reverse.mp (List.mem_of_find?_eq_some hf)
      obtain ⟨_, _, hst⟩ := (complete_iff x.1).mp (hflat x hx)
      cases hstat : x.1.deviceOutputStatus with
      | none => simp [hstat] at hst
      | some status => simp [storedDeviceOutput, hstat]
  · intro x _ entry he
    unfold storedDeviceOutput at he
    cases hstat : x.1.deviceOutputStatus with
    | none => simp [hstat] at he
    | some status =>
      simp only [hstat, Option.map_some', Option.some.injEq] at he
      subst he
      exact ⟨by simp [deviceOutput, JsObject.getProp], status, rfl,
        by simp [deviceOutput, JsObject.getProp]⟩

end UserManager

namespace UserManager
open Sample

/-- C11 (counterexample): a descriptor without `deviceOutputStatus` makes `updateDeviceOutputs`
raise, so its (deviceId, outputType) pair occurred in a descriptor and has no entry; and a
descriptor without deviceId and one whose deviceId is the string `undefined` are two pairs
sharing the key `undefined-1`, so the map holds one entry for both and `getDeviceOutput` for
the first pair returns the stream of the second. -/
theorem updateDeviceOutputs_pair_without_entry :
    updateDeviceOutputs init [(outA1, 10), (outB2noStatus, 11)]
        = UpdateResult.threw
            { init with
              deviceOutputMap :=
                [("a-1", deviceOutput outA1 [("disabled", JsValue.num 0)] 10)] } ∧
      getDeviceOutput (updateDeviceOutputsEach init [[(outA1, 10), (outB2noStatus, 11)]])
        outB2noStatus.deviceId outB2noStatus.deviceOutputType = none ∧
      (outNoDevice.deviceId, outNoDevice.deviceOutputType)
        ≠ (outDeviceNamedUndefined.deviceId, outDeviceNamedUndefined.deviceOutputType) ∧
      (updateDeviceOutputsEach init
        [[(outNoDevice, 1)], [(outDeviceNamedUndefined, 2)]]).deviceOutputMap.length = 1 ∧
      (getDeviceOutput
        (updateDeviceOutputsEach init [[(outNoDevice, 1)], [(outDeviceNamedUndefined, 2)]])
        outNoDevice.deviceId outNoDevice.deviceOutputType).map
          (fun entry => JsObject.getProp entry "streamId") = some (JsValue.str "s5") := by
  decide

/-- C11 at two batches for the audio output of device `a`: the second descriptor wins. -/
theorem updateDeviceOutputs_last_descriptor_wins_witness :
    (∀ b ∈ [[(outA1, 1)], [(outA1later, 2)]], ∀ x ∈ b, complete x.1 = true) ∧
      getDeviceOutput (updateDeviceOutputsEach init [[(outA1, 1)], [(outA1later, 2)]])
        (JsValue.str "a") (JsValue.num 1)
        = some [("deviceId", JsValue.str "a"), ("outputType", JsValue.num 1),
            ("streamId", JsValue.str "s2"), ("disabled", JsValue.num 1),
            ("lastUpdated", JsValue.num 2)] :=
  ⟨by decide,
   ((updateDeviceOutputs_last_descriptor_wins [[(outA1, 1)], [(outA1later, 2)]]
      (by decide)).2.2.1 "a" 1).trans (by decide)⟩

theorem deviceForStreamIsActiveLoop_eq (values : List JsObject) (streamId : JsValue) :
    deviceForStreamIsActiveLoop values streamId =
      match values.find? (fun o => decide (JsObject.getProp o "streamId" = streamId)) with
      | some o => !(JsObject.getProp o "disabled").truthy
      | none => false := by
  induction values with
  | nil => rfl
  | cons o rest ih =>
    by_cases h : JsObject.getProp o "streamId" = streamId
    · simp [deviceForStreamIsActiveLoop, List.find?_cons, h]
    · simp only [deviceForStreamIsActiveLoop, h, if_false, List.find?_cons, decide_False]
      exact ih

/-- C12 (counterexample): two outputs share the stream `shared`; the one stored first is
disabled, the other is not; some output with that streamId is not disabled, and
`deviceForStreamIsActive` returns false. -/
theorem deviceForStreamIsActive_shared_stream :
    (∃ o ∈ JsMap.values
        (updateDeviceOutputsEach init [[(outC2disabled, 1), (outD2enabled, 2)]]).deviceOutputMap,
      JsObject.getProp o "streamId" = JsValue.str "shared" ∧
        (JsObject.getProp o "disabled").truthy = false) ∧
      deviceForStreamIsActive
        (updateDeviceOutputsEach init [[(outC2disabled, 1), (outD2enabled, 2)]])
        (JsValue.str "shared") = false := by
  decide

/-- C12, as amended: `deviceForStreamIsActive(streamId)` is decided by the first output, in
map order, whose `streamId` is the argument: true iff that output is not disabled, false when
no output has that `streamId`; hence, when all outputs with that `streamId` are one and the
same, true iff some output has that `streamId` and is not disabled. -/
theorem deviceForStreamIsActive_first_match (self : UserManager) (streamId : JsValue) :
    (deviceForStreamIsActive self streamId =
      match (JsMap.values self.deviceOutputMap).find?
          (fun o => decide (JsObject.getProp o "streamId" = streamId)) with
      | some o => !(JsObject.getProp o "disabled").truthy
      | none => false) ∧
      ((∀ o ∈ JsMap.values self.deviceOutputMap, JsObject.getProp o "streamId" ≠ streamId) →
        deviceForStreamIsActive self streamId = false) ∧
      ((∀ o ∈ JsMap.values self.deviceOutputMap, ∀ o' ∈ JsMap.values self.deviceOutputMap,
          JsObject.getProp o "streamId" = streamId →
          JsObject.getProp o' "streamId" = streamId → o = o') →
        (deviceForStreamIsActive self streamId = true ↔
          ∃ o ∈ JsMap.values self.deviceOutputMap,
            JsObject.getProp o "streamId" = streamId ∧
              (JsObject.getProp o "disabled").truthy = false)) := by
  have hloop := deviceForStreamIsActiveLoop_eq (JsMap.values self.deviceOutputMap) streamId
  refine ⟨hloop, ?_, ?_⟩
  · intro hnone
    unfold deviceForStreamIsActive
    rw [hloop]
    have : (JsMap.values self.deviceOutputMap).find?
        (fun o => decide (JsObject.getProp o "streamId" = streamId)) = none := by
      rw [List.find?_eq_none]
      intro o ho
      simpa using hnone o ho
    rw [this]
  · intro huniq
    unfold deviceForStreamIsActive
    rw [hloop]
    cases hf : (JsMap.values self.deviceOutputMap).find?
        (fun o => decide (JsObject.getProp o "streamId" = streamId)) with
    | none =>
      have hnone := List.find?_eq_none.mp hf
      simp only [Bool.false_eq_true, false_iff, not_exists, not_and]
      intro o ho hs
      exact absurd (by simpa using hs) (hnone o ho)
    | some o =>
      have ho : o ∈ JsMap.values self.deviceOutputMap := List.mem_of_find?_eq_some hf
      have hs : JsObject.getProp o "streamId" = streamId := by
        simpa using List.find?_some hf
      simp only [Bool.not_eq_true']
      constructor
      · intro hd
        exact ⟨o, ho, hs, hd⟩
      · rintro ⟨o', ho', hs', hd'⟩
        rw [huniq o ho o' ho' hs hs']
        exact hd'

/-- C12 on a map with one output per stream: stream `s1` is active, an unknown stream is
not. -/
theorem deviceForStreamIsActive_first_match_witness :
    deviceForStreamIsActive (updateDeviceOutputsEach init [[(outA1, 1), (outC2disabled, 2)]])
        (JsValue.str "s1") = true ∧
      deviceForStreamIsActive (updateDeviceOutputsEach init [[(outA1, 1), (outC2disabled, 2)]])
        (JsValue.str "nowhere") = false :=
  ⟨(deviceForStreamIsActive_first_match
      (updateDeviceOutputsEach init [[(outA1, 1), (outC2disabled, 2)]])
      (JsValue.str "s1")).1.trans (by decide),
   (deviceForStreamIsActive_first_match
      (updateDeviceOutputsEach init [[(outA1, 1), (outC2disabled, 2)]])
      (JsValue.str "nowhere")).2.1 (by decide)⟩

/-- C13: for every batch whose descriptors each carry a `deviceOutputStatus`,
`updateDeviceOutputs` returns having handed `ws.sendJson` exactly one `DeviceOutputsUpdate`
message; its list is the values of the whole device-output map after every descriptor of the
batch has been applied, and the entries whose key no descriptor of the batch has are the
entries the map held before. -/
theorem updateDeviceOutputs_sends_one_snapshot (self : UserManager)
    (deviceOutputs : List (DeviceOutputInfo × Nat))
    (h : ∀ x ∈ deviceOutputs, x.1.deviceOutputStatus.isSome = true) :
    ∃ m, updateDeviceOutputs self deviceOutputs =
        UpdateResult.returned { self with deviceOutputMap := m }
          [ControlMessage.deviceOutputsUpdate (JsMap.values m)] ∧
      m = deviceOutputs.foldl
        (fun m x => JsMap.set m (deviceOutputKey x.1.deviceId x.1.deviceOutputType)
          (deviceOutput x.1 (x.1.deviceOutputStatus.getD []) x.2)) self.deviceOutputMap ∧
      (∀ k, (∀ x ∈ deviceOutputs, deviceOutputKey x.1.deviceId x.1.deviceOutputType ≠ k) →
        JsMap.get m k = JsMap.get self.deviceOutputMap k) ∧
      (∀ k, k ∈ JsMap.keys self.deviceOutputMap → k ∈ JsMap.keys m) := by
  refine ⟨_, ?_, rfl, ?_, ?_⟩
  · unfold updateDeviceOutputs
    rw [applyDeviceOutputs_of_status deviceOutputs self.deviceOutputMap h]
  · intro k hk
    rw [JsMap.get_foldl_set]
    have : deviceOutputs.reverse.find?
        (fun x => decide (deviceOutputKey x.1.deviceId x.1.deviceOutputType = k)) = none := by
      rw [List.find?_eq_none]
      intro x hx
      simpa using hk x (List.mem_reverse.mp hx)
    rw [this]
  · intro k hk
    rw [JsMap.mem_keys_foldl_set]
    exact Or.inl hk

/-- C13 on a map that holds the audio output of `a`, with a batch for the video output of
`c`: the one message lists both entries. -/
theorem updateDeviceOutputs_sends_one_snapshot_witness :
    (∀ x ∈ [(outC2disabled, 2)], x.1.deviceOutputStatus.isSome = true) ∧
      ∃ m, updateDeviceOutputs (updateDeviceOutputsEach init [[(outA1, 1)]])
          [(outC2disabled, 2)] =
        UpdateResult.returned
          { updateDeviceOutputsEach init [[(outA1, 1)]] with deviceOutputMap := m }
          [ControlMessage.deviceOutputsUpdate (JsMap.values m)] ∧
        JsMap.keys m = ["a-1", "c-2"] :=
  ⟨by decide,
   (updateDeviceOutputs_sends_one_snapshot (updateDeviceOutputsEach init [[(outA1, 1)]])
      [(outC2disabled, 2)] (by decide)).elim
     (fun m hm => ⟨m, hm.1, by rw [hm.2.1]; decide⟩)⟩

end UserManager

/-! ## Outbound frames: `WebSocketClient` -/

theorem length_littleEndian (width n : Nat) : (littleEndian width n).length = width := by
  induction width generalizing n with
  | zero => rfl
  | succ w ih => simp [littleEndian, ih]

theorem length_int32LE (value : Int) : (int32LE value).length = 4 :=
  length_littleEndian 4 _

theorem length_bigInt64LE (value : Int) : (bigInt64LE value).length = 8 :=
  length_littleEndian 8 _

theorem littleEndianValue_littleEndian (width n : Nat) :
    littleEndianValue (littleEndian width n) = n % 256 ^ width := by
  induction width generalizing n with
  | zero => simp [littleEndian, littleEndianValue, Nat.mod_one]
  | succ w ih =>
    simp only [littleEndian, littleEndianValue, ih]
    rw [pow_succ, Nat.mul_comm (256 ^ w) 256, Nat.mod_mul]

/-- Writing into the zero tail of a buffer, right after its prefix. -/
theorem writeBytes_fill (pre bytes : List Nat) (m offset : Nat) (hoff : offset = pre.length) :
    writeBytes (pre ++ List.replicate (bytes.length + m) 0) offset bytes
      = some ((pre ++ bytes) ++ List.replicate m 0) := by
  subst hoff
  unfold writeBytes
  have hfit : pre.length + bytes.length ≤ (pre ++ List.replicate (bytes.length + m) 0).length := by
    simp
  rw [if_pos hfit]
  have h1 : (pre ++ List.replicate (bytes.length + m) 0).take pre.length = pre := by
    simp
  have h2 : (pre ++ List.replicate (bytes.length + m) 0).drop (pre.length + bytes.length)
      = List.replicate m 0 := by
    rw [List.drop_append]
    simp
  rw [h1, h2]

namespace WebSocketClient

theorem videoMessage_eq (timestamp : Int) (streamId : String) (width height : Int)
    (videoData : TypedArray) :
    videoMessage timestamp streamId width height videoData =
      some (int32LE 2 ++ bigInt64LE timestamp ++ int32LE (Int.ofNat (utf8Encode streamId).length)
        ++ utf8Encode streamId ++ int32LE width ++ int32LE height ++ videoData.buffer) := by
  unfold videoMessage
  have e0 : newUint8Array
      (4 + 8 + 4 + (utf8Encode streamId).length + 4 + 4 + videoData.buffer.length)
      = [] ++ List.replicate ((int32LE MESSAGE_TYPE_VIDEO).length
          + (8 + 4 + (utf8Encode streamId).length + 4 + 4 + videoData.buffer.length)) 0 := by
    rw [length_int32LE]
    simp only [newUint8Array, List.nil_append]
    congr 1
    omega
  have s1 := writeBytes_fill [] (int32LE MESSAGE_TYPE_VIDEO)
    (8 + 4 + (utf8Encode streamId).length + 4 + 4 + videoData.buffer.length) 0 rfl
  have e1 : ([] ++ int32LE MESSAGE_TYPE_VIDEO) ++ List.replicate
      (8 + 4 + (utf8Encode streamId).length + 4 + 4 + videoData.buffer.length) 0
      = int32LE MESSAGE_TYPE_VIDEO ++ List.replicate ((bigInt64LE timestamp).length
          + (4 + (utf8Encode streamId).length + 4 + 4 + videoData.buffer.length)) 0 := by
    rw [length_bigInt64LE]
    simp only [List.nil_append]
    congr 2
    omega
  have s2 := writeBytes_fill (int32LE MESSAGE_TYPE_VIDEO) (bigInt64LE timestamp)
    (4 + (utf8Encode streamId).length + 4 + 4 + videoData.buffer.length) 4
    (length_int32LE _).symm
  have e2 : (int32LE MESSAGE_TYPE_VIDEO ++ bigInt64LE timestamp) ++ List.replicate
      (4 + (utf8Encode streamId).length + 4 + 4 + videoData.buffer.length) 0
      = (int32LE MESSAGE_TYPE_VIDEO ++ bigInt64LE timestamp) ++ List.replicate
          ((int32LE (Int.ofNat (utf8Encode streamId).length)).length
            + ((utf8Encode streamId).length + 4 + 4 + videoData.buffer.length)) 0 := by
    rw [length_int32LE]
    congr 2
    omega
  have s3 := writeBytes_fill (int32LE MESSAGE_TYPE_VIDEO ++ bigInt64LE timestamp)
    (int32LE (Int.ofNat (utf8Encode streamId).length))
    ((utf8Encode streamId).length + 4 + 4 + videoData.buffer.length) 12
    (by simp only [List.length_append, length_int32LE, length_bigInt64LE])
  have e3 : ((int32LE MESSAGE_TYPE_VIDEO ++ bigInt64LE timestamp)
      ++ int32LE (Int.ofNat (utf8Encode streamId).length)) ++ List.replicate
        ((utf8Encode streamId).length + 4 + 4 + videoData.buffer.length) 0
      = ((int32LE MESSAGE_TYPE_VIDEO ++ bigInt64LE timestamp)
      ++ int32LE (Int.ofNat (utf8Encode streamId).length)) ++ List.replicate
        ((utf8Encode streamId).length + (4 + 4 + videoData.buffer.length)) 0 := by
    congr 2
    omega
  have s4 := writeBytes_fill ((int32LE MESSAGE_TYPE_VIDEO ++ bigInt64LE timestamp)
      ++ int32LE (Int.ofNat (utf8Encode streamId).length)) (utf8Encode streamId)
    (4 + 4 + videoData.buffer.length) 16
    (by simp only [List.length_append, length_int32LE, length_bigInt64LE])
  have e4 : (((int32LE MESSAGE_TYPE_VIDEO ++ bigInt64LE timestamp)
      ++ int32LE (Int.ofNat (utf8Encode streamId).length)) ++ utf8Encode streamId)
        ++ List.replicate (4 + 4 + videoData.buffer.length) 0
      = (((int32LE MESSAGE_TYPE_VIDEO ++ bigInt64LE timestamp)
      ++ int32LE (Int.ofNat (utf8Encode streamId).length)) ++ utf8Encode streamId)
        ++ List.replicate ((int32LE width).length + (4 + videoData.buffer.length)) 0 := by
    rw [length_int32LE]
    congr 2
    omega
  have s5 := writeBytes_fill (((int32LE MESSAGE_TYPE_VIDEO ++ bigInt64LE timestamp)
      ++ int32LE (Int.ofNat (utf8Encode streamId).length)) ++ utf8Encode streamId)
    (int32LE width) (4 + videoData.buffer.length) (16 + (utf8Encode streamId).length)
    (by simp only [List.length_append, length_int32LE, length_bigInt64LE])
  have e5 : ((((int32LE MESSAGE_TYPE_VIDEO ++ bigInt64LE timestamp)
      ++ int32LE (Int.ofNat (utf8Encode streamId).length)) ++ utf8Encode streamId)
        ++ int32LE width) ++ List.replicate (4 + videoData.buffer.length) 0
      = ((((int32LE MESSAGE_TYPE_VIDEO ++ bigInt64LE timestamp)
      ++ int32LE (Int.ofNat (utf8Encode streamId).length)) ++ utf8Encode streamId)
        ++ int32LE width)
        ++ List.replicate ((int32LE height).length + videoData.buffer.length) 0 := by
    rw [length_int32LE]
  have s6 := writeBytes_fill ((((int32LE MESSAGE_TYPE_VIDEO ++ bigInt64LE timestamp)
      ++ int32LE (Int.ofNat (utf8Encode streamId).length)) ++ utf8Encode streamId)
        ++ int32LE width)
    (int32LE height) videoData.buffer.length (16 + (utf8Encode streamId).length + 4)
    (by simp only [List.length_append, length_int32LE, length_bigInt64LE])
  have e6 : (((((int32LE MESSAGE_TYPE_VIDEO ++ bigInt64LE timestamp)
      ++ int32LE (Int.ofNat (utf8Encode streamId).length)) ++ utf8Encode streamId)
        ++ int32LE width) ++ int32LE height) ++ List.replicate videoData.buffer.length 0
      = (((((int32LE MESSAGE_TYPE_VIDEO ++ bigInt64LE timestamp)
      ++ int32LE (Int.ofNat (utf8Encode streamId).length)) ++ utf8Encode streamId)
        ++ int32LE width) ++ int32LE height)
        ++ List.replicate (videoData.buffer.length + 0) 0 := by
    rw [Nat.add_zero]
  have s7 := writeBytes_fill (((((int32LE MESSAGE_TYPE_VIDEO ++ bigInt64LE timestamp)
      ++ int32LE (Int.ofNat (utf8Encode streamId).length)) ++ utf8Encode streamId)
        ++ int32LE width) ++ int32LE height)
    videoData.buffer 0 (16 + (utf8Encode streamId).length + 8)
    (by simp only [List.length_append, length_int32LE, length_bigInt64LE])
  simp only [setInt32, setBigInt64, typedArraySet, Option.bind_eq_bind]
  rw [e0, s1, Option.some_bind, e1, s2, Option.some_bind, e2, s3, Option.some_bind, e3, s4,
    Option.some_bind, e4, s5, Option.some_bind, e5, s6, Option.some_bind, e6, s7]
  simp [MESSAGE_TYPE_VIDEO]

theorem audioMessage_eq (timestamp streamId : Int) (audioData : TypedArray) :
    audioMessage timestamp streamId audioData =
      some (int32LE 3 ++ bigInt64LE timestamp ++ int32LE streamId ++ audioData.buffer) := by
  unfold audioMessage
  have e0 : newUint8Array (4 + 8 + 4 + audioData.buffer.length)
      = [] ++ List.replicate ((int32LE MESSAGE_TYPE_AUDIO).length
          + (8 + 4 + audioData.buffer.length)) 0 := by
    rw [length_int32LE]
    simp only [newUint8Array, List.nil_append]
    congr 1
    omega
  have s1 := writeBytes_fill [] (int32LE MESSAGE_TYPE_AUDIO)
    (8 + 4 + audioData.buffer.length) 0 rfl
  have e1 : ([] ++ int32LE MESSAGE_TYPE_AUDIO) ++ List.replicate
      (8 + 4 + audioData.buffer.length) 0
      = int32LE MESSAGE_TYPE_AUDIO ++ List.replicate ((bigInt64LE timestamp).length
          + (4 + audioData.buffer.length)) 0 := by
    rw [length_bigInt64LE]
    simp only [List.nil_append]
    congr 2
    omega
  have s2 := writeBytes_fill (int32LE MESSAGE_TYPE_AUDIO) (bigInt64LE timestamp)
    (4 + audioData.buffer.length) 4 (length_int32LE _).symm
  have e2 : (int32LE MESSAGE_TYPE_AUDIO ++ bigInt64LE timestamp) ++ List.replicate
      (4 + audioData.buffer.length) 0
      = (int32LE MESSAGE_TYPE_AUDIO ++ bigInt64LE timestamp) ++ List.replicate
          ((int32LE streamId).length + audioData.buffer.length) 0 := by
    rw [length_int32LE]
  have s3 := writeBytes_fill (int32LE MESSAGE_TYPE_AUDIO ++ bigInt64LE timestamp)
    (int32LE streamId) audioData.buffer.length 12
    (by simp only [List.length_append, length_int32LE, length_bigInt64LE])
  have e3 : ((int32LE MESSAGE_TYPE_AUDIO ++ bigInt64LE timestamp) ++ int32LE streamId)
      ++ List.replicate audioData.buffer.length 0
      = ((int32LE MESSAGE_TYPE_AUDIO ++ bigInt64LE timestamp) ++ int32LE streamId)
      ++ List.replicate (audioData.buffer.length + 0) 0 := by
    rw [Nat.add_zero]
  have s4 := writeBytes_fill
    ((int32LE MESSAGE_TYPE_AUDIO ++ bigInt64LE timestamp) ++ int32LE streamId)
    audioData.buffer 0 16
    (by simp only [List.length_append, length_int32LE, length_bigInt64LE])
  simp only [setInt32, setBigInt64, typedArraySet, Option.bind_eq_bind]
  rw [e0, s1, Option.some_bind, e1, s2, Option.some_bind, e2, s3, Option.some_bind, e3, s4]
  simp [ MESSAGE_TYPE_AUDIO]

theorem bigInt64LE_value (timestamp : Int)
    (h : -9223372036854775808 ≤ timestamp ∧ timestamp < 9223372036854775808) :
    (littleEndianValue (bigInt64LE timestamp) : Int) =
      if 0 ≤ timestamp then timestamp else timestamp + 18446744073709551616 := by
  unfold bigInt64LE
  rw [littleEndianValue_littleEndian]
  have hlt : (timestamp % 18446744073709551616).toNat < 256 ^ 8 := by
    have := Int.emod_lt_of_pos timestamp (show (0 : Int) < 18446744073709551616 by decide)
    have h0 := Int.emod_nonneg timestamp (show (18446744073709551616 : Int) ≠ 0 by decide)
    omega
  rw [Nat.mod_eq_of_lt hlt]
  have h0 := Int.emod_nonneg timestamp (show (18446744073709551616 : Int) ≠ 0 by decide)
  rw [Int.toNat_of_nonneg h0]
  split_ifs with hs <;> omega

theorem int32LE_value (value : Int) (h : -2147483648 ≤ value ∧ value < 2147483648) :
    (littleEndianValue (int32LE value) : Int) =
      if 0 ≤ value then value else value + 4294967296 := by
  unfold int32LE
  rw [littleEndianValue_littleEndian]
  have hlt : (value % 4294967296).toNat < 256 ^ 4 := by
    have := Int.emod_lt_of_pos value (show (0 : Int) < 4294967296 by decide)
    have h0 := Int.emod_nonneg value (show (4294967296 : Int) ≠ 0 by decide)
    omega
  rw [Nat.mod_eq_of_lt hlt]
  have h0 := Int.emod_nonneg value (show (4294967296 : Int) ≠ 0 by decide)
  rw [Int.toNat_of_nonneg h0]
  split_ifs with hs <;> omega

open Sample

/-- C17: when the connection is open and media sending is enabled, `sendVideo` passes
`ws.send` exactly one message, `LE32(2) ++ LE64(timestamp) ++ LE32(n) ++ utf8(streamId) ++
LE32(width) ++ LE32(height) ++ pixels` with `n` the UTF-8 byte length of `streamId` and
`pixels` the bytes of `videoData.buffer`; its length is `24 + n + |pixels|`; for a timestamp
in the signed 64-bit range and an int32 width and height the little-endian fields are the
two's complement of these numbers. -/
theorem sendVideo_frame (self : WebSocketClient) (timestamp : Int) (streamId : String)
    (width height : Int) (videoData : TypedArray) (now : Nat)
    (hopen : self.readyState = OPEN) (hgate : self.mediaSendingEnabled = true)
    (hts : -9223372036854775808 ≤ timestamp ∧ timestamp < 9223372036854775808)
    (hw : -2147483648 ≤ width ∧ width < 2147483648)
    (hh : -2147483648 ≤ height ∧ height < 2147483648) :
    (sendVideo self timestamp streamId width height videoData now).sent =
        self.sent ++
          [int32LE 2 ++ bigInt64LE timestamp ++ int32LE (Int.ofNat (utf8Encode streamId).length)
            ++ utf8Encode streamId ++ int32LE width ++ int32LE height ++ videoData.buffer] ∧
      (int32LE 2 ++ bigInt64LE timestamp ++ int32LE (Int.ofNat (utf8Encode streamId).length)
            ++ utf8Encode streamId ++ int32LE width ++ int32LE height
            ++ videoData.buffer).length
        = 24 + (utf8Encode streamId).length + videoData.buffer.length ∧
      int32LE 2 = [2, 0, 0, 0] ∧
      (littleEndianValue (bigInt64LE timestamp) : Int)
        = (if 0 ≤ timestamp then timestamp else timestamp + 18446744073709551616) ∧
      (littleEndianValue (int32LE width) : Int)
        = (if 0 ≤ width then width else width + 4294967296) ∧
      (littleEndianValue (int32LE height) : Int)
        = (if 0 ≤ height then height else height + 4294967296) := by
  refine ⟨?_, ?_, by decide, bigInt64LE_value timestamp hts, int32LE_value width hw,
    int32LE_value height hh⟩
  · unfold sendVideo
    rw [videoMessage_eq]
    simp [hopen, hgate, wsSend]
  · simp only [List.length_append, length_int32LE, length_bigInt64LE]
    omega

/-- C17 on an open, enabled connection: the frame for timestamp 1000, stream `ab`, a 2 by 1
picture and three pixel bytes. -/
theorem sendVideo_frame_witness :
    clientOpen.readyState = OPEN ∧ clientOpen.mediaSendingEnabled = true ∧
      (sendVideo clientOpen 1000 "ab" 2 1 ⟨[9, 8, 7]⟩ 55).sent =
        [[2, 0, 0, 0, 232, 3, 0, 0, 0, 0, 0, 0, 2, 0, 0, 0, 97, 98, 2, 0, 0, 0, 1, 0, 0, 0,
          9, 8, 7]] :=
  ⟨by decide, by decide,
   (sendVideo_frame clientOpen 1000 "ab" 2 1 ⟨[9, 8, 7]⟩ 55 (by decide) (by decide)
      (by decide) (by decide) (by decide)).1.trans (by decide)⟩

/-- C18: when the connection is open and media sending is enabled, `sendAudio` passes
`ws.send` exactly one message, `LE32(3) ++ LE64(timestamp) ++ LE32(streamId) ++ samples` with
`samples` the bytes of `audioData.buffer`; its length is `16 + |samples|`; for a timestamp in
the signed 64-bit range and an int32 streamId the little-endian fields are the two's
complement of these numbers; no other field of the client changes. -/
theorem sendAudio_frame (self : WebSocketClient) (timestamp streamId : Int)
    (audioData : TypedArray)
    (hopen : self.readyState = OPEN) (hgate : self.mediaSendingEnabled = true)
    (hts : -9223372036854775808 ≤ timestamp ∧ timestamp < 9223372036854775808)
    (hid : -2147483648 ≤ streamId ∧ streamId < 2147483648) :
    sendAudio self timestamp streamId audioData =
        { self with
          sent := self.sent ++
            [int32LE 3 ++ bigInt64LE timestamp ++ int32LE streamId ++ audioData.buffer] } ∧
      (int32LE 3 ++ bigInt64LE timestamp ++ int32LE streamId ++ audioData.buffer).length
        = 16 + audioData.buffer.length ∧
      int32LE 3 = [3, 0, 0, 0] ∧
      (littleEndianValue (bigInt64LE timestamp) : Int)
        = (if 0 ≤ timestamp then timestamp else timestamp + 18446744073709551616) ∧
      (littleEndianValue (int32LE streamId) : Int)
        = (if 0 ≤ streamId then streamId else streamId + 4294967296) := by
  refine ⟨?_, ?_, by decide, bigInt64LE_value timestamp hts, int32LE_value streamId hid⟩
  · unfold sendAudio
    rw [audioMessage_eq]
    simp [hopen, hgate, wsSend]
  · simp only [List.length_append, length_int32LE, length_bigInt64LE]

/-- C18 on an open, enabled connection: the frame for timestamp -1, stream 7 and three sample
bytes. -/
theorem sendAudio_frame_witness :
    clientOpen.readyState = OPEN ∧ clientOpen.mediaSendingEnabled = true ∧
      (sendAudio clientOpen (-1) 7 ⟨[9, 8, 7]⟩).sent =
        [[3, 0, 0, 0, 255, 255, 255, 255, 255, 255, 255, 255, 7, 0, 0, 0, 9, 8, 7]] :=
  ⟨by decide, by decide,
   (congrArg WebSocketClient.sent
      (sendAudio_frame clientOpen (-1) 7 ⟨[9, 8, 7]⟩ (by decide) (by decide)
        (by decide) (by decide)).1).trans (by decide)⟩

/-- C20: in every state in which the connection is not open or `mediaSendingEnabled` is
false, each of `sendEncodedMP4Chunk`, `sendAudio`, `sendVideo` and `sendClosedCaptionUpdate`
returns leaving the client as it was: nothing is passed to `ws.send`, and `lastVideoFrame`
and `lastVideoFrameTime` are unchanged; so each of them passes a message to `ws.send` only
when the connection is open and the gate is enabled. -/
theorem gated_sends_are_noops (self : WebSocketClient) (encodedMP4Data : List Nat)
    (timestamp audioStreamId : Int) (audioData : TypedArray) (streamId : String)
    (width height : Int) (videoData : TypedArray) (now : Nat) (jsonString : String) :
    ((self.readyState ≠ OPEN ∨ self.mediaSendingEnabled = false) →
      sendEncodedMP4Chunk self encodedMP4Data = self ∧
      sendAudio self timestamp audioStreamId audioData = self ∧
      sendVideo self timestamp streamId width height videoData now = self ∧
      sendClosedCaptionUpdate self jsonString = self) ∧
      ((sendEncodedMP4Chunk self encodedMP4Data).sent ≠ self.sent →
        self.readyState = OPEN ∧ self.mediaSendingEnabled = true) ∧
      ((sendAudio self timestamp audioStreamId audioData).sent ≠ self.sent →
        self.readyState = OPEN ∧ self.mediaSendingEnabled = true) ∧
      ((sendVideo self timestamp streamId width height videoData now).sent ≠ self.sent →
        self.readyState = OPEN ∧ self.mediaSendingEnabled = true) ∧
      ((sendClosedCaptionUpdate self jsonString).sent ≠ self.sent →
        self.readyState = OPEN ∧ self.mediaSendingEnabled = true) := by
  have hnoop : (self.readyState ≠ OPEN ∨ self.mediaSendingEnabled = false) →
      sendEncodedMP4Chunk self encodedMP4Data = self ∧
      sendAudio self timestamp audioStreamId audioData = self ∧
      sendVideo self timestamp streamId width height videoData now = self ∧
      sendClosedCaptionUpdate self jsonString = self := by
    rintro (h | h)
    · refine ⟨?_, ?_, ?_, ?_⟩
      · simp [sendEncodedMP4Chunk, h]
      · simp [sendAudio, h]
      · simp [sendVideo, h]
      · simp [sendClosedCaptionUpdate, sendJson, h]
    · refine ⟨?_, ?_, ?_, ?_⟩
      · simp [sendEncodedMP4Chunk, h]
      · simp [sendAudio, h]
      · simp [sendVideo, h]
      · simp [sendClosedCaptionUpdate, h]
  have hconv : ∀ s : WebSocketClient, s.sent ≠ self.sent →
      ((self.readyState ≠ OPEN ∨ self.mediaSendingEnabled = false) → s = self) →
      self.readyState = OPEN ∧ self.mediaSendingEnabled = true := by
    intro s hs himp
    by_contra hc
    apply hs
    have : self.readyState ≠ OPEN ∨ self.mediaSendingEnabled = false := by
      by_cases ho : self.readyState = OPEN
      · right
        cases hg : self.mediaSendingEnabled
        · rfl
        · exact absurd ⟨ho, hg⟩ hc
      · exact Or.inl ho
    rw [himp this]
  exact ⟨hnoop, fun h => hconv _ h (fun g => (hnoop g).1),
    fun h => hconv _ h (fun g => (hnoop g).2.1),
    fun h => hconv _ h (fun g => (hnoop g).2.2.1),
    fun h => hconv _ h (fun g => (hnoop g).2.2.2)⟩

/-- C20 on an open connection with the gate off and on a closing connection with the gate
on: `sendVideo` leaves both untouched. -/
theorem gated_sends_are_noops_witness :
    sendVideo clientGated 1000 "ab" 2 1 ⟨[9, 8, 7]⟩ 55 = clientGated ∧
      sendVideo clientClosing 1000 "ab" 2 1 ⟨[9, 8, 7]⟩ 55 = clientClosing :=
  ⟨((gated_sends_are_noops clientGated [] 1000 7 ⟨[]⟩ "ab" 2 1 ⟨[9, 8, 7]⟩ 55 "").1
      (Or.inr rfl)).2.2.1,
   ((gated_sends_are_noops clientClosing [] 1000 7 ⟨[]⟩ "ab" 2 1 ⟨[9, 8, 7]⟩ 55 "").1
      (Or.inl (by decide))).2.2.1⟩

end WebSocketClient

/-! ## The byte cursor: what each read consumes -/

theorem readVarint_size {l : List Nat} {v k : Nat} (h : readVarint l = some (v, k)) :
    1 ≤ k ∧ k ≤ l.length := by
  induction l generalizing v k with
  | nil => simp [readVarint] at h
  | cons b rest ih =>
    unfold readVarint at h
    split_ifs at h with hb
    · simp only [Option.some.injEq, Prod.mk.injEq] at h
      simp [← h.2]
    · cases hr : readVarint rest with
      | none => simp [hr] at h
      | some p =>
        obtain ⟨v', k'⟩ := p
        simp only [hr, Option.some.injEq, Prod.mk.injEq] at h
        have := ih hr
        simp only [List.length_cons]
        omega

theorem readVarint_append {l : List Nat} {v k : Nat} (h : readVarint l = some (v, k))
    (more : List Nat) : readVarint (l ++ more) = some (v, k) := by
  induction l generalizing v k with
  | nil => simp [readVarint] at h
  | cons b rest ih =>
    unfold readVarint at h
    rw [List.cons_append]
    unfold readVarint
    split_ifs at h ⊢ with hb
    · exact h
    · cases hr : readVarint rest with
      | none => simp [hr] at h
      | some p =>
        obtain ⟨v', k'⟩ := p
        rw [ih hr]
        simpa [hr] using h

namespace Reader

theorem advance_extend (r : Reader) (more : List Nat) {k : Nat} (hk : k ≤ r.rest.length) :
    (r.extend more).advance k = (r.advance k).extend more := by
  simp [advance, extend, List.drop_append_of_le_length hk]

theorem advance_advance (r : Reader) (j k : Nat) : (r.advance j).advance k = r.advance (j + k) := by
  simp only [advance, List.drop_drop, Reader.mk.injEq, and_true]
  omega

theorem advance_zero (r : Reader) : r.advance 0 = r := by
  simp [advance]

theorem length_rest_advance (r : Reader) (k : Nat) :
    (r.advance k).rest.length = r.rest.length - k := by
  simp [advance]

/-- What a successful read does to the cursor: it moves at least `least` bytes forward,
inside the buffer, and does the same when the buffer continues with more bytes. -/
theorem uint32_spec {r r' : Reader} {v : Nat} (h : r.uint32 = Except.ok (v, r')) :
    ∃ k, 1 ≤ k ∧ k ≤ r.rest.length ∧ r' = r.advance k ∧
      ∀ more, (r.extend more).uint32 = Except.ok (v, (r.extend more).advance k) := by
  unfold uint32 at h
  cases hv : readVarint r.rest with
  | none => simp [hv] at h
  | some p =>
    obtain ⟨v', k⟩ := p
    simp only [hv, Except.ok.injEq, Prod.mk.injEq] at h
    obtain ⟨h1, h2⟩ := readVarint_size hv
    refine ⟨k, h1, h2, h.2.symm, ?_⟩
    intro more
    unfold uint32
    have : readVarint (r.extend more).rest = some (v', k) := readVarint_append hv more
    rw [this]
    simp only [h.1]

theorem int64_spec {r r' : Reader} {v : Int} (h : r.int64 = Except.ok (v, r')) :
    ∃ k, 1 ≤ k ∧ k ≤ r.rest.length ∧ r' = r.advance k ∧
      ∀ more, (r.extend more).int64 = Except.ok (v, (r.extend more).advance k) := by
  unfold int64 at h
  cases hv : readVarint r.rest with
  | none => simp [hv] at h
  | some p =>
    obtain ⟨v', k⟩ := p
    simp only [hv, Except.ok.injEq, Prod.mk.injEq] at h
    obtain ⟨h1, h2⟩ := readVarint_size hv
    refine ⟨k, h1, h2, h.2.symm, ?_⟩
    intro more
    unfold int64
    have : readVarint (r.extend more).rest = some (v', k) := readVarint_append hv more
    rw [this]
    simp only [Except.ok.injEq, Prod.mk.injEq, and_true]
    exact h.1

theorem skip_spec {r r' : Reader} {length : Nat} (h : r.skip length = Except.ok r') :
    length ≤ r.rest.length ∧ r' = r.advance length ∧
      ∀ more, (r.extend more).skip length = Except.ok ((r.extend more).advance length) := by
  unfold skip at h
  split_ifs at h with hl
  simp only [Except.ok.injEq] at h
  refine ⟨hl, h.symm, ?_⟩
  intro more
  unfold skip
  have : length ≤ (r.extend more).rest.length := by
    simp only [extend, List.length_append]
    omega
  rw [if_pos this]

theorem string_spec {r r' : Reader} {v : List Nat} (h : r.string = Except.ok (v, r')) :
    ∃ k, 1 ≤ k ∧ k ≤ r.rest.length ∧ r' = r.advance k ∧
      ∀ more, (r.extend more).string = Except.ok (v, (r.extend more).advance k) := by
  unfold string at h
  cases hu : r.uint32 with
  | error e => simp [hu, bind, Except.bind] at h
  | ok p =>
    obtain ⟨len, r1⟩ := p
    obtain ⟨k, hk1, hk2, hr1, hext⟩ := uint32_spec hu
    simp only [hu, bind, Except.bind] at h
    split_ifs at h with hl
    simp only [Except.ok.injEq, Prod.mk.injEq] at h
    have hlen1 : r1.rest.length = r.rest.length - k := by rw [hr1, length_rest_advance]
    refine ⟨k + len, by omega, by omega, ?_, ?_⟩
    · rw [← h.2, hr1, advance_advance]
    · intro more
      unfold string
      simp only [hext more, bind, Except.bind]
      rw [advance_extend r more hk2, ← hr1]
      have hl' : len ≤ (r1.extend more).rest.length := by
        simp only [extend, List.length_append]
        omega
      rw [if_pos hl']
      simp only [Except.ok.injEq, Prod.mk.injEq]
      refine ⟨?_, ?_⟩
      · rw [← h.1]
        simp [extend, List.take_append_of_le_length hl]
      · rw [advance_extend r1 more hl, hr1, advance_advance, advance_extend r more (by omega)]

theorem skipType_spec {r r' : Reader} {wireType : Nat}
    (h : r.skipType wireType = Except.ok r') :
    ∃ k, 1 ≤ k ∧ k ≤ r.rest.length ∧ r' = r.advance k ∧
      ∀ more, (r.extend more).skipType wireType = Except.ok ((r.extend more).advance k) := by
  unfold skipType at h
  split_ifs at h with h0 h1 h2 h5
  · cases hv : readVarint r.rest with
    | none => simp [hv] at h
    | some p =>
      obtain ⟨v', k⟩ := p
      simp only [hv, Except.ok.injEq] at h
      obtain ⟨hk1, hk2⟩ := readVarint_size hv
      refine ⟨k, hk1, hk2, h.symm, ?_⟩
      intro more
      unfold skipType
      have : readVarint (r.extend more).rest = some (v', k) := readVarint_append hv more
      rw [if_pos h0, this]
  · obtain ⟨hl, hr, hext⟩ := skip_spec h
    refine ⟨8, by omega, hl, hr, ?_⟩
    intro more
    unfold skipType
    rw [if_neg h0, if_pos h1]
    exact hext more
  · cases hu : r.uint32 with
    | error e => simp [hu, bind, Except.bind] at h
    | ok p =>
      obtain ⟨len, r1⟩ := p
      obtain ⟨k, hk1, hk2, hr1, hext⟩ := uint32_spec hu
      simp only [hu, bind, Except.bind] at h
      obtain ⟨hl, hr, hext2⟩ := skip_spec h
      have hlen1 : r1.rest.length = r.rest.length - k := by rw [hr1, length_rest_advance]
      refine ⟨k + len, by omega, by omega, ?_, ?_⟩
      · rw [hr, hr1, advance_advance]
      · intro more
        unfold skipType
        rw [if_neg h0, if_neg h1, if_pos h2]
        simp only [hext more, bind, Except.bind]
        rw [advance_extend r more hk2, ← hr1, hext2 more, advance_extend r1 more hl, hr1,
          advance_advance, advance_extend r more (by omega)]
  · obtain ⟨hl, hr, hext⟩ := skip_spec h
    refine ⟨4, by omega, hl, hr, ?_⟩
    intro more
    unfold skipType
    rw [if_neg h0, if_neg h1, if_neg h2, if_pos h5]
    exact hext more

end Reader

/-! ## The loop of `decode` through the bytes left -/

namespace Reader

theorem uint32_at (p : Nat) (rest : List Nat) :
    (Reader.mk p rest).uint32 =
      ((Reader.mk 0 rest).uint32).map
        (fun x => (x.1, ⟨p + (rest.length - x.2.rest.length), x.2.rest⟩)) := by
  unfold uint32
  cases hv : readVarint rest with
  | none => rfl
  | some q =>
    obtain ⟨v, k⟩ := q
    obtain ⟨_, hk⟩ := readVarint_size hv
    simp only [Except.map, advance, List.length_drop, Except.ok.injEq, Prod.mk.injEq,
      Reader.mk.injEq, and_true, true_and]
    omega

theorem int64_at (p : Nat) (rest : List Nat) :
    (Reader.mk p rest).int64 =
      ((Reader.mk 0 rest).int64).map
        (fun x => (x.1, ⟨p + (rest.length - x.2.rest.length), x.2.rest⟩)) := by
  unfold int64
  cases hv : readVarint rest with
  | none => rfl
  | some q =>
    obtain ⟨v, k⟩ := q
    obtain ⟨_, hk⟩ := readVarint_size hv
    simp only [Except.map, advance, List.length_drop, Except.ok.injEq, Prod.mk.injEq,
      Reader.mk.injEq, and_true, true_and]
    omega

theorem skip_at (p : Nat) (rest : List Nat) (length : Nat) :
    (Reader.mk p rest).skip length =
      ((Reader.mk 0 rest).skip length).map
        (fun x => ⟨p + (rest.length - x.rest.length), x.rest⟩) := by
  unfold skip
  by_cases h : length ≤ rest.length
  · simp only [h, if_true, Except.map, advance, List.length_drop, Except.ok.injEq,
      Reader.mk.injEq, and_true]
    omega
  · simp only [h, if_false, Except.map]

theorem string_at (p : Nat) (rest : List Nat) :
    (Reader.mk p rest).string =
      ((Reader.mk 0 rest).string).map
        (fun x => (x.1, ⟨p + (rest.length - x.2.rest.length), x.2.rest⟩)) := by
  unfold string
  rw [uint32_at p rest]
  cases hu : (Reader.mk 0 rest).uint32 with
  | error e => rfl
  | ok q =>
    obtain ⟨len, r1⟩ := q
    obtain ⟨k, _, hk, hr1, _⟩ := uint32_spec hu
    simp only [Except.map, bind, Except.bind]
    by_cases h : len ≤ r1.rest.length
    · simp only [h, if_true, advance, List.length_drop, Except.ok.injEq, Prod.mk.injEq,
        Reader.mk.injEq, and_true, true_and]
      have : r1.rest.length = rest.length - k := by rw [hr1, length_rest_advance]
      omega
    · simp only [h, if_false]

theorem skipType_at (p : Nat) (rest : List Nat) (wireType : Nat) :
    (Reader.mk p rest).skipType wireType =
      ((Reader.mk 0 rest).skipType wireType).map
        (fun x => ⟨p + (rest.length - x.rest.length), x.rest⟩) := by
  unfold skipType
  split_ifs with h0 h1 h2 h5
  · cases hv : readVarint rest with
    | none => rfl
    | some q =>
      obtain ⟨v, k⟩ := q
      obtain ⟨_, hk⟩ := readVarint_size hv
      simp only [Except.map, advance, List.length_drop, Except.ok.injEq,
        Reader.mk.injEq, and_true]
      omega
  · exact skip_at p rest 8
  · rw [uint32_at p rest]
    cases hu : (Reader.mk 0 rest).uint32 with
    | error e => rfl
    | ok q =>
      obtain ⟨len, r1⟩ := q
      obtain ⟨k, _, hk, hr1, _⟩ := uint32_spec hu
      simp only [Except.map, bind, Except.bind]
      have hlen : r1.rest.length = rest.length - k := by rw [hr1, length_rest_advance]
      rw [skip_at (p + (rest.length - r1.rest.length)) r1.rest len,
        show r1 = Reader.mk r1.pos r1.rest from rfl, skip_at r1.pos r1.rest len]
      cases hs : (Reader.mk 0 r1.rest).skip len with
      | error e => rfl
      | ok r2 =>
        obtain ⟨hl, hr2, _⟩ := skip_spec hs
        simp only [Except.map, Except.ok.injEq, Reader.mk.injEq, and_true]
        have : r2.rest.length = r1.rest.length - len := by rw [hr2, length_rest_advance]
        omega
  · exact skip_at p rest 4
  · rfl

end Reader

/-- The bytes left by one turn of the loop are a proper suffix of the bytes it started on, if
those left by a nested call are a suffix. -/
theorem readValueRest_suffix {table : List MessageSchema}
    {decodeNested : List FieldSchema → List Nat → Nat →
      Except DecodeError (PbObject × List Nat)}
    (hd : ∀ fs r b m r', decodeNested fs r b = Except.ok (m, r') →
      ∃ j, j ≤ r.length ∧ r' = r.drop j)
    {field : Option FieldSchema} {tag : Nat} {rest rest' : List Nat}
    {value : Option (FieldSchema × PbValue)}
    (h : readValueRest table decodeNested field tag rest = Except.ok (value, rest')) :
    ∃ j, 1 ≤ j ∧ j ≤ rest.length ∧ rest' = rest.drop j := by
  have hskip : ∀ w, (do
      let reader ← (Reader.mk 0 rest).skipType w
      pure ((none : Option (FieldSchema × PbValue)), reader.rest)) = Except.ok (value, rest') →
      ∃ j, 1 ≤ j ∧ j ≤ rest.length ∧ rest' = rest.drop j := by
    intro w hw
    cases hs : (Reader.mk 0 rest).skipType w with
    | error e => simp [hs, bind, Except.bind] at hw
    | ok r1 =>
      obtain ⟨k, hk1, hk2, hr1, _⟩ := Reader.skipType_spec hs
      simp only [hs, bind, Except.bind, pure, Except.pure, Except.ok.injEq,
        Prod.mk.injEq] at hw
      exact ⟨k, hk1, hk2, by rw [← hw.2, hr1]; rfl⟩
  unfold readValueRest at h
  cases field with
  | none => exact hskip _ h
  | some field =>
    simp only at h
    split_ifs at h with hs hi hv hm
    · cases hr : (Reader.mk 0 rest).string with
      | error e => simp [hr, bind, Except.bind] at h
      | ok q =>
        obtain ⟨v, r1⟩ := q
        obtain ⟨k, hk1, hk2, hr1, _⟩ := Reader.string_spec hr
        simp only [hr, bind, Except.bind, pure, Except.pure, Except.ok.injEq,
          Prod.mk.injEq] at h
        exact ⟨k, hk1, hk2, by rw [← h.2, hr1]; rfl⟩
    · cases hr : (Reader.mk 0 rest).int64 with
      | error e => simp [hr, bind, Except.bind] at h
      | ok q =>
        obtain ⟨v, r1⟩ := q
        obtain ⟨k, hk1, hk2, hr1, _⟩ := Reader.int64_spec hr
        simp only [hr, bind, Except.bind, pure, Except.pure, Except.ok.injEq,
          Prod.mk.injEq] at h
        exact ⟨k, hk1, hk2, by rw [← h.2, hr1]; rfl⟩
    · cases hr : (Reader.mk 0 rest).uint32 with
      | error e => simp [hr, bind, Except.bind] at h
      | ok q =>
        obtain ⟨v, r1⟩ := q
        obtain ⟨k, hk1, hk2, hr1, _⟩ := Reader.uint32_spec hr
        simp only [hr, bind, Except.bind, pure, Except.pure, Except.ok.injEq,
          Prod.mk.injEq] at h
        exact ⟨k, hk1, hk2, by rw [← h.2, hr1]; rfl⟩
    · cases hr : (Reader.mk 0 rest).uint32 with
      | error e => simp [hr, bind, Except.bind] at h
      | ok q =>
        obtain ⟨len, r1⟩ := q
        obtain ⟨k, hk1, hk2, hr1, _⟩ := Reader.uint32_spec hr
        replace hk2 : k ≤ rest.length := hk2
        simp only [hr, bind, Except.bind] at h
        cases hn : field.messageType.bind (messageDecoders table) with
        | none => simp [hn] at h
        | some nested =>
          simp only [hn] at h
          cases hdn : decodeNested nested.fields r1.rest len with
          | error e => simp [hdn] at h
          | ok q2 =>
            obtain ⟨m2, r2⟩ := q2
            obtain ⟨j, hj, hr2⟩ := hd _ _ _ _ _ hdn
            simp only [hdn, pure, Except.pure, Except.ok.injEq, Prod.mk.injEq] at h
            have hr1' : r1.rest = rest.drop k := by rw [hr1]; rfl
            refine ⟨k + j, by omega, ?_, ?_⟩
            · rw [hr1', List.length_drop] at hj
              omega
            · rw [← h.2, hr2, hr1', List.drop_drop, Nat.add_comm]
    · exact hskip _ h

theorem decodeRestLoop_suffix (table : List MessageSchema) (fuel : Nat) :
    ∀ (fields : List FieldSchema) (rest : List Nat) (budget : Nat) (message m' : PbObject)
      (rest' : List Nat),
      decodeRestLoop table fuel fields rest budget message = Except.ok (m', rest') →
      ∃ j, j ≤ rest.length ∧ rest' = rest.drop j := by
  induction fuel with
  | zero =>
    intro fields rest budget message m' rest' h
    simp [decodeRestLoop] at h
  | succ fuel ih =>
    intro fields rest budget message m' rest' h
    unfold decodeRestLoop at h
    split_ifs at h with hb
    · cases hu : (Reader.mk 0 rest).uint32 with
      | error e => simp [hu] at h
      | ok q =>
        obtain ⟨tag, r1⟩ := q
        obtain ⟨k, hk1, hk2, hr1, _⟩ := Reader.uint32_spec hu
        replace hk2 : k ≤ rest.length := hk2
        simp only [hu] at h
        cases hv : readValueRest table (fun fs r b => decodeRestLoop table fuel fs r b [])
            (fields.find? (fun f => decide (f.fieldNumber = tag / 8))) tag r1.rest with
        | error e => simp [hv] at h
        | ok q2 =>
          obtain ⟨value, rest2⟩ := q2
          obtain ⟨j, hj1, hj2, hr2⟩ := readValueRest_suffix
            (fun fs r b m r' hh => ih fs r b [] m r' hh) hv
          simp only [hv] at h
          cases hst : storeValue message value with
          | error e => simp [hst] at h
          | ok m1 =>
            simp only [hst] at h
            obtain ⟨j3, hj3, hr3⟩ := ih _ _ _ _ _ _ h
            have hr1' : r1.rest = rest.drop k := by rw [hr1]; rfl
            rw [hr1', List.length_drop] at hj2
            rw [hr2, hr1', List.drop_drop, List.length_drop] at hj3
            refine ⟨j3 + (j + k), by omega, ?_⟩
            rw [hr3, hr2, hr1', List.drop_drop, List.drop_drop]
            congr 1
            omega
    · simp only [Except.ok.injEq, Prod.mk.injEq] at h
      exact ⟨0, Nat.zero_le _, by rw [← h.2]; rfl⟩

theorem decodeRestLoop_length {table : List MessageSchema} {fuel : Nat}
    {fields : List FieldSchema} {rest : List Nat} {budget : Nat} {message m' : PbObject}
    {rest' : List Nat}
    (h : decodeRestLoop table fuel fields rest budget message = Except.ok (m', rest')) :
    rest'.length ≤ rest.length := by
  obtain ⟨j, _, hr⟩ := decodeRestLoop_suffix table fuel _ _ _ _ _ _ h
  rw [hr, List.length_drop]
  omega

theorem readValue_eq_readValueRest {table : List MessageSchema}
    {d : List FieldSchema → Reader → Nat → Except DecodeError (PbObject × Reader)}
    {g : List FieldSchema → List Nat → Nat → Except DecodeError (PbObject × List Nat)}
    (hd : ∀ fs (r : Reader) lim, d fs r lim = atCursor r (g fs r.rest (lim - r.pos)))
    (hsuf : ∀ fs r b m r', g fs r b = Except.ok (m, r') → r'.length ≤ r.length)
    (field : Option FieldSchema) (tag p : Nat) (rest : List Nat) :
    readValue table d field tag ⟨p, rest⟩ =
      (readValueRest table g field tag rest).map
        (fun x => (x.1, ⟨p + (rest.length - x.2.length), x.2⟩)) := by
  have hskip : ∀ w, (do
      let reader ← (Reader.mk p rest).skipType w
      pure ((none : Option (FieldSchema × PbValue)), reader)) =
      (do
        let reader ← (Reader.mk 0 rest).skipType w
        pure ((none : Option (FieldSchema × PbValue)), reader.rest)).map
        (fun (x : Option (FieldSchema × PbValue) × List Nat) =>
          (x.1, (⟨p + (rest.length - x.2.length), x.2⟩ : Reader))) := by
    intro w
    rw [Reader.skipType_at p rest w]
    cases (Reader.mk 0 rest).skipType w <;> rfl
  unfold readValue readValueRest
  cases field with
  | none => exact hskip _
  | some field =>
    simp only
    split_ifs with hs hi hv hm
    · rw [Reader.string_at p rest]
      cases (Reader.mk 0 rest).string <;> rfl
    · rw [Reader.int64_at p rest]
      cases (Reader.mk 0 rest).int64 <;> rfl
    · rw [Reader.uint32_at p rest]
      cases (Reader.mk 0 rest).uint32 <;> rfl
    · rw [Reader.uint32_at p rest]
      cases hu : (Reader.mk 0 rest).uint32 with
      | error e => rfl
      | ok q =>
        obtain ⟨len, r1⟩ := q
        obtain ⟨k, _, hk2, hr1, _⟩ := Reader.uint32_spec hu
        replace hk2 : k ≤ rest.length := hk2
        have hlen1 : r1.rest.length = rest.length - k := by
          rw [hr1, Reader.length_rest_advance]
        simp only [Except.map, bind, Except.bind]
        cases hn : field.messageType.bind (messageDecoders table) with
        | none => rfl
        | some nested =>
          simp only
          rw [hd]
          simp only [Nat.add_sub_cancel_left]
          cases hdn : g nested.fields r1.rest len with
          | error e => rfl
          | ok q2 =>
            obtain ⟨m2, r2⟩ := q2
            have := hsuf _ _ _ _ _ hdn
            simp only [atCursor, Except.map, pure, Except.pure, Except.ok.injEq, Prod.mk.injEq,
              Reader.mk.injEq, and_true, true_and]
            omega
    · exact hskip _

/-- The loop of `decode` and its form on the bytes left agree, for every fuel: same error, or
same object and same bytes left, the cursor standing as many bytes further as were read. -/
theorem decodeLoop_eq_decodeRestLoop (table : List MessageSchema) (fuel : Nat) :
    ∀ (fields : List FieldSchema) (r : Reader) (limit : Nat) (message : PbObject),
      decodeLoop table fuel fields r limit message =
        atCursor r (decodeRestLoop table fuel fields r.rest (limit - r.pos) message) := by
  induction fuel with
  | zero => intro fields r limit message; rfl
  | succ fuel ih =>
    intro fields r limit message
    obtain ⟨p, rest⟩ := r
    unfold decodeLoop decodeRestLoop
    by_cases hlim : p < limit
    · have hb : 0 < limit - p := by omega
      simp only [hlim, hb, if_true]
      rw [Reader.uint32_at p rest]
      cases hu : (Reader.mk 0 rest).uint32 with
      | error e => rfl
      | ok q =>
        obtain ⟨tag, r1⟩ := q
        obtain ⟨k, _, hk2, hr1, _⟩ := Reader.uint32_spec hu
        replace hk2 : k ≤ rest.length := hk2
        have hlen1 : r1.rest.length = rest.length - k := by
          rw [hr1, Reader.length_rest_advance]
        simp only [Except.map]
        rw [readValue_eq_readValueRest
          (g := fun fs r b => decodeRestLoop table fuel fs r b [])
          (fun fs r lim => ih fs r lim [])
          (fun fs r b m r' hh => decodeRestLoop_length hh)]
        cases hv : readValueRest table (fun fs r b => decodeRestLoop table fuel fs r b [])
            (fields.find? (fun f => decide (f.fieldNumber = tag / 8))) tag r1.rest with
        | error e => rfl
        | ok q2 =>
          obtain ⟨value, rest2⟩ := q2
          obtain ⟨j, _, hj2, hr2⟩ := readValueRest_suffix
            (fun fs r b m r' hh => decodeRestLoop_suffix table fuel fs r b [] m r' hh) hv
          have hlen2 : rest2.length = r1.rest.length - j := by rw [hr2, List.length_drop]
          simp only [Except.map]
          cases hst : storeValue message value with
          | error e => rfl
          | ok m1 =>
            simp only
            rw [ih]
            have hbud : limit - (p + (rest.length - r1.rest.length)
                + (r1.rest.length - rest2.length))
                = limit - p - (rest.length - rest2.length) := by omega
            simp only [hbud]
            cases hrec : decodeRestLoop table fuel fields rest2
                (limit - p - (rest.length - rest2.length)) m1 with
            | error e => rfl
            | ok q3 =>
              obtain ⟨m3, rest3⟩ := q3
              have := decodeRestLoop_length hrec
              simp only [atCursor, Except.map, Except.ok.injEq, Prod.mk.injEq,
                Reader.mk.injEq, and_true, true_and]
              omega
    · have hb : ¬ 0 < limit - p := by omega
      simp only [hlim, hb, if_false, atCursor, Except.map, Nat.sub_self, Nat.add_zero]

/-- The decoder through the bytes left: `decode` is the loop on all the bytes, with all of
them to go, started on the empty object. -/
theorem decode_eq_decodeRest (table : List MessageSchema) (schema : MessageSchema)
    (bytes : List Nat) :
    decode table schema bytes =
      (decodeRest table schema.fields bytes bytes.length []).map Prod.fst := by
  unfold decode decodeRest
  rw [decodeLoop_eq_decodeRestLoop]
  simp only [Reader.create, Reader.len, Nat.zero_add, Nat.sub_zero]
  cases decodeRestLoop table (bytes.length + 1) schema.fields bytes bytes.length [] <;> rfl

/-- One turn of the loop depends on the nested decoder only through its runs on fewer
bytes. -/
theorem readValueRest_congr {table : List MessageSchema}
    {d e : List FieldSchema → List Nat → Nat → Except DecodeError (PbObject × List Nat)}
    (field : Option FieldSchema) (tag : Nat) (rest : List Nat)
    (h : ∀ fs r b, r.length < rest.length → d fs r b = e fs r b) :
    readValueRest table d field tag rest = readValueRest table e field tag rest := by
  unfold readValueRest
  cases field with
  | none => rfl
  | some field =>
    simp only
    split_ifs with hs hi hv hm
    · rfl
    · rfl
    · rfl
    · cases hu : (Reader.mk 0 rest).uint32 with
      | error e => rfl
      | ok q =>
        obtain ⟨len, r1⟩ := q
        obtain ⟨k, hk1, hk2, hr1, _⟩ := Reader.uint32_spec hu
        replace hk2 : k ≤ rest.length := hk2
        have hlen1 : r1.rest.length = rest.length - k := by
          rw [hr1, Reader.length_rest_advance]
        simp only [bind, Except.bind]
        cases hn : field.messageType.bind (messageDecoders table) with
        | none => rfl
        | some nested =>
          simp only
          rw [h nested.fields r1.rest len (by omega)]
    · rfl

/-- Fuel beyond the number of bytes left changes nothing. -/
theorem decodeRestLoop_fuel (table : List MessageSchema) (f1 : Nat) :
    ∀ (f2 : Nat) (fields : List FieldSchema) (rest : List Nat) (budget : Nat)
      (message : PbObject), rest.length < f1 → rest.length < f2 →
      decodeRestLoop table f1 fields rest budget message =
        decodeRestLoop table f2 fields rest budget message := by
  induction f1 with
  | zero => intro f2 fields rest budget message h1; omega
  | succ n ih =>
    intro f2 fields rest budget message h1 h2
    obtain ⟨k, rfl⟩ : ∃ k, f2 = k + 1 := ⟨f2 - 1, by omega⟩
    unfold decodeRestLoop
    by_cases hb : 0 < budget
    · simp only [hb, if_true]
      cases hu : (Reader.mk 0 rest).uint32 with
      | error e => rfl
      | ok q =>
        obtain ⟨tag, r1⟩ := q
        obtain ⟨j, hj1, hj2, hr1, _⟩ := Reader.uint32_spec hu
        replace hj2 : j ≤ rest.length := hj2
        have hlen1 : r1.rest.length = rest.length - j := by
          rw [hr1, Reader.length_rest_advance]
        simp only
        rw [readValueRest_congr (d := fun fs r b => decodeRestLoop table n fs r b [])
          (e := fun fs r b => decodeRestLoop table k fs r b []) _ tag r1.rest
          (fun fs r b hr => ih k fs r b [] (by omega) (by omega))]
        cases hv : readValueRest table (fun fs r b => decodeRestLoop table k fs r b [])
            (fields.find? (fun f => decide (f.fieldNumber = tag / 8))) tag r1.rest with
        | error e => rfl
        | ok q2 =>
          obtain ⟨value, rest2⟩ := q2
          obtain ⟨j2, _, hj22, hr2⟩ := readValueRest_suffix
            (fun fs r b m r' hh => decodeRestLoop_suffix table k fs r b [] m r' hh) hv
          have hlen2 : rest2.length = r1.rest.length - j2 := by rw [hr2, List.length_drop]
          simp only
          cases hst : storeValue message value with
          | error e => rfl
          | ok m1 =>
            simp only
            exact ih k fields rest2 _ m1 (by omega) (by omega)
    · simp only [hb, if_false]

/-- The loop of `decode` on the bytes left, one turn at a time. -/
theorem decodeRest_eq (table : List MessageSchema) (fields : List FieldSchema)
    (rest : List Nat) (budget : Nat) (message : PbObject) :
    decodeRest table fields rest budget message =
      if 0 < budget then
        match (Reader.mk 0 rest).uint32 with
        | Except.error e => Except.error e
        | Except.ok (tag, reader) =>
          match readValueRest table (fun fs r b => decodeRest table fs r b [])
              (fields.find? (fun f => decide (f.fieldNumber = tag / 8))) tag reader.rest with
          | Except.error e => Except.error e
          | Except.ok (value, rest') =>
            match storeValue message value with
            | Except.error e => Except.error e
            | Except.ok message =>
              decodeRest table fields rest' (budget - (rest.length - rest'.length)) message
      else Except.ok (message, rest) := by
  unfold decodeRest
  rw [decodeRestLoop]
  by_cases hb : 0 < budget
  · simp only [hb, if_true]
    cases hu : (Reader.mk 0 rest).uint32 with
    | error e => rfl
    | ok q =>
      obtain ⟨tag, r1⟩ := q
      obtain ⟨j, hj1, hj2, hr1, _⟩ := Reader.uint32_spec hu
      replace hj2 : j ≤ rest.length := hj2
      have hlen1 : r1.rest.length = rest.length - j := by
        rw [hr1, Reader.length_rest_advance]
      simp only
      rw [readValueRest_congr
        (d := fun fs r b => decodeRestLoop table rest.length fs r b [])
        (e := fun fs r b => decodeRestLoop table (r.length + 1) fs r b []) _ tag r1.rest
        (fun fs r b hr => decodeRestLoop_fuel table _ _ fs r b [] (by omega) (by omega))]
      cases hv : readValueRest table
          (fun fs r b => decodeRestLoop table (r.length + 1) fs r b [])
          (fields.find? (fun f => decide (f.fieldNumber = tag / 8))) tag r1.rest with
      | error e => rfl
      | ok q2 =>
        obtain ⟨value, rest2⟩ := q2
        obtain ⟨j2, _, hj22, hr2⟩ := readValueRest_suffix
          (fun fs r b m r' hh =>
            decodeRestLoop_suffix table (r.length + 1) fs r b [] m r' hh) hv
        have hlen2 : rest2.length = r1.rest.length - j2 := by rw [hr2, List.length_drop]
        simp only
        cases hst : storeValue message value with
        | error e => rfl
        | ok m1 =>
          simp only
          exact decodeRestLoop_fuel table _ _ fields rest2 _ m1 (by omega) (by omega)
  · simp only [hb, if_false]

theorem decodeRest_suffix {table : List MessageSchema} {fields : List FieldSchema}
    {rest : List Nat} {budget : Nat} {message m' : PbObject} {rest' : List Nat}
    (h : decodeRest table fields rest budget message = Except.ok (m', rest')) :
    ∃ j, j ≤ rest.length ∧ rest' = rest.drop j :=
  decodeRestLoop_suffix table _ _ _ _ _ _ _ h

theorem decodeRest_zero (table : List MessageSchema) (fields : List FieldSchema)
    (rest : List Nat) (message : PbObject) :
    decodeRest table fields rest 0 message = Except.ok (message, rest) := by
  rw [decodeRest_eq]
  simp

/-! ## Decoding a buffer that continues -/

namespace Reader

theorem uint32_extend {r r' : Reader} {v : Nat} (h : r.uint32 = Except.ok (v, r'))
    (more : List Nat) : (r.extend more).uint32 = Except.ok (v, r'.extend more) := by
  obtain ⟨k, _, hk, hr, hext⟩ := uint32_spec h
  rw [hext more, advance_extend r more hk, hr]

theorem int64_extend {r r' : Reader} {v : Int} (h : r.int64 = Except.ok (v, r'))
    (more : List Nat) : (r.extend more).int64 = Except.ok (v, r'.extend more) := by
  obtain ⟨k, _, hk, hr, hext⟩ := int64_spec h
  rw [hext more, advance_extend r more hk, hr]

theorem string_extend {r r' : Reader} {v : List Nat} (h : r.string = Except.ok (v, r'))
    (more : List Nat) : (r.extend more).string = Except.ok (v, r'.extend more) := by
  obtain ⟨k, _, hk, hr, hext⟩ := string_spec h
  rw [hext more, advance_extend r more hk, hr]

theorem skipType_extend {r r' : Reader} {w : Nat} (h : r.skipType w = Except.ok r')
    (more : List Nat) : (r.extend more).skipType w = Except.ok (r'.extend more) := by
  obtain ⟨k, _, hk, hr, hext⟩ := skipType_spec h
  rw [hext more, advance_extend r more hk, hr]

end Reader

theorem readValueRest_append {table : List MessageSchema}
    {d : List FieldSchema → List Nat → Nat → Except DecodeError (PbObject × List Nat)}
    {field : Option FieldSchema} {tag : Nat} {rest rest' : List Nat}
    {value : Option (FieldSchema × PbValue)} (more : List Nat)
    (hd : ∀ fs r b m r', r.length < rest.length → d fs r b = Except.ok (m, r') →
      d fs (r ++ more) b = Except.ok (m, r' ++ more))
    (h : readValueRest table d field tag rest = Except.ok (value, rest')) :
    readValueRest table d field tag (rest ++ more) = Except.ok (value, rest' ++ more) := by
  have hskip : ∀ w, (do
      let reader ← (Reader.mk 0 rest).skipType w
      pure ((none : Option (FieldSchema × PbValue)), reader.rest)) = Except.ok (value, rest') →
      (do
        let reader ← (Reader.mk 0 (rest ++ more)).skipType w
        pure ((none : Option (FieldSchema × PbValue)), reader.rest))
        = Except.ok (value, rest' ++ more) := by
    intro w hw
    cases hs : (Reader.mk 0 rest).skipType w with
    | error e => simp [hs, bind, Except.bind] at hw
    | ok r1 =>
      have hext := Reader.skipType_extend hs more
      simp only [hs, bind, Except.bind, pure, Except.pure, Except.ok.injEq,
        Prod.mk.injEq] at hw
      change (Reader.mk 0 (rest ++ more)).skipType w = _ at hext
      simp only [hext, bind, Except.bind, pure, Except.pure, Reader.extend, ← hw.1, ← hw.2]
  unfold readValueRest at h ⊢
  cases field with
  | none => exact hskip _ h
  | some field =>
    simp only at h ⊢
    split_ifs at h ⊢ with hs hi hv hm
    · cases hr : (Reader.mk 0 rest).string with
      | error e => simp [hr, bind, Except.bind] at h
      | ok q =>
        obtain ⟨v, r1⟩ := q
        have hext := Reader.string_extend hr more
        simp only [hr, bind, Except.bind, pure, Except.pure, Except.ok.injEq,
          Prod.mk.injEq] at h
        change (Reader.mk 0 (rest ++ more)).string = _ at hext
        simp only [hext, bind, Except.bind, pure, Except.pure, Reader.extend, ← h.1, ← h.2]
    · cases hr : (Reader.mk 0 rest).int64 with
      | error e => simp [hr, bind, Except.bind] at h
      | ok q =>
        obtain ⟨v, r1⟩ := q
        have hext := Reader.int64_extend hr more
        simp only [hr, bind, Except.bind, pure, Except.pure, Except.ok.injEq,
          Prod.mk.injEq] at h
        change (Reader.mk 0 (rest ++ more)).int64 = _ at hext
        simp only [hext, bind, Except.bind, pure, Except.pure, Reader.extend, ← h.1, ← h.2]
    · cases hr : (Reader.mk 0 rest).uint32 with
      | error e => simp [hr, bind, Except.bind] at h
      | ok q =>
        obtain ⟨v, r1⟩ := q
        have hext := Reader.uint32_extend hr more
        simp only [hr, bind, Except.bind, pure, Except.pure, Except.ok.injEq,
          Prod.mk.injEq] at h
        change (Reader.mk 0 (rest ++ more)).uint32 = _ at hext
        simp only [hext, bind, Except.bind, pure, Except.pure, Reader.extend, ← h.1, ← h.2]
    · cases hr : (Reader.mk 0 rest).uint32 with
      | error e => simp [hr, bind, Except.bind] at h
      | ok q =>
        obtain ⟨len, r1⟩ := q
        have hext := Reader.uint32_extend hr more
        obtain ⟨k, hk1, hk2, hr1, _⟩ := Reader.uint32_spec hr
        replace hk2 : k ≤ rest.length := hk2
        have hlen1 : r1.rest.length = rest.length - k := by
          rw [hr1, Reader.length_rest_advance]
        simp only [hr, bind, Except.bind] at h
        change (Reader.mk 0 (rest ++ more)).uint32 = _ at hext
        simp only [hext, bind, Except.bind, Reader.extend]
        cases hn : field.messageType.bind (messageDecoders table) with
        | none => simp [hn] at h
        | some nested =>
          simp only [hn] at h ⊢
          cases hdn : d nested.fields r1.rest len with
          | error e => simp [hdn] at h
          | ok q2 =>
            obtain ⟨m2, r2⟩ := q2
            rw [hd _ _ _ _ _ (by omega) hdn]
            simp only [hdn, pure, Except.pure, Except.ok.injEq, Prod.mk.injEq] at h
            simp only [pure, Except.pure, ← h.1, ← h.2]
    · exact hskip _ h

/-- A run that succeeds on some bytes succeeds alike when more bytes follow them. -/
theorem decodeRest_append (table : List MessageSchema) (more : List Nat) (n : Nat) :
    ∀ (fields : List FieldSchema) (rest : List Nat) (budget : Nat) (message m' : PbObject)
      (rest' : List Nat), rest.length ≤ n →
      decodeRest table fields rest budget message = Except.ok (m', rest') →
      decodeRest table fields (rest ++ more) budget message
        = Except.ok (m', rest' ++ more) := by
  induction n with
  | zero =>
    intro fields rest budget message m' rest' hn h
    have hnil : rest = [] := List.length_eq_zero.mp (by omega)
    subst hnil
    rw [decodeRest_eq] at h
    split_ifs at h with hb
    · simp [Reader.uint32, readVarint] at h
    · simp only [Except.ok.injEq, Prod.mk.injEq] at h
      rw [decodeRest_eq, if_neg hb, ← h.1, ← h.2]
  | succ n ih =>
    intro fields rest budget message m' rest' hn h
    rw [decodeRest_eq] at h
    rw [decodeRest_eq]
    split_ifs at h ⊢ with hb
    · cases hu : (Reader.mk 0 rest).uint32 with
      | error e => simp [hu] at h
      | ok q =>
        obtain ⟨tag, r1⟩ := q
        have hext := Reader.uint32_extend hu more
        obtain ⟨k, hk1, hk2, hr1, _⟩ := Reader.uint32_spec hu
        replace hk2 : k ≤ rest.length := hk2
        have hlen1 : r1.rest.length = rest.length - k := by
          rw [hr1, Reader.length_rest_advance]
        change (Reader.mk 0 (rest ++ more)).uint32 = _ at hext
        simp only [hu] at h
        simp only [hext, Reader.extend]
        cases hv : readValueRest table (fun fs r b => decodeRest table fs r b [])
            (fields.find? (fun f => decide (f.fieldNumber = tag / 8))) tag r1.rest with
        | error e => simp [hv] at h
        | ok q2 =>
          obtain ⟨value, rest2⟩ := q2
          obtain ⟨j2, _, hj22, hr2⟩ := readValueRest_suffix
            (fun fs r b m r' hh => decodeRest_suffix hh) hv
          have hlen2 : rest2.length = r1.rest.length - j2 := by rw [hr2, List.length_drop]
          rw [readValueRest_append more
            (fun fs r b m r' hr hh => ih fs r b [] m r' (by omega) hh) hv]
          simp only [hv] at h
          cases hst : storeValue message value with
          | error e => simp [hst] at h
          | ok m1 =>
            simp only [hst] at h ⊢
            have hbud : budget - ((rest ++ more).length - (rest2 ++ more).length)
                = budget - (rest.length - rest2.length) := by
              simp only [List.length_append]
              omega
            rw [hbud]
            exact ih fields rest2 _ m1 m' rest' (by omega) h
    · simp only [Except.ok.injEq, Prod.mk.injEq] at h
      rw [← h.1, ← h.2]

/-- A prefix that the loop decodes to its end is decoded first, whatever follows it. -/
theorem decodeRest_decoded_start (table : List MessageSchema) (n : Nat) :
    ∀ (fields : List FieldSchema) (a : List Nat) (message m1 : PbObject) (r1 : List Nat),
      a.length ≤ n →
      decodeRest table fields a a.length message = Except.ok (m1, r1) →
      r1 = [] ∧ ∀ (c : List Nat) (budget : Nat), a.length ≤ budget →
        decodeRest table fields (a ++ c) budget message
          = decodeRest table fields c (budget - a.length) m1 := by
  induction n with
  | zero =>
    intro fields a message m1 r1 hn h
    have hnil : a = [] := List.length_eq_zero.mp (by omega)
    subst hnil
    simp only [List.length_nil] at h
    rw [decodeRest_zero] at h
    simp only [Except.ok.injEq, Prod.mk.injEq] at h
    refine ⟨h.2.symm, ?_⟩
    intro c budget _
    simp [h.1]
  | succ n ih =>
    intro fields a message m1 r1 hn h
    by_cases ha : a.length = 0
    · have hnil : a = [] := List.length_eq_zero.mp ha
      subst hnil
      simp only [List.length_nil] at h
      rw [decodeRest_zero] at h
      simp only [Except.ok.injEq, Prod.mk.injEq] at h
      refine ⟨h.2.symm, ?_⟩
      intro c budget _
      simp [h.1]
    · rw [decodeRest_eq, if_pos (by omega)] at h
      cases hu : (Reader.mk 0 a).uint32 with
      | error e => simp [hu] at h
      | ok q =>
        obtain ⟨tag, rd⟩ := q
        obtain ⟨k, hk1, hk2, hrd, _⟩ := Reader.uint32_spec hu
        replace hk2 : k ≤ a.length := hk2
        have hlen1 : rd.rest.length = a.length - k := by
          rw [hrd, Reader.length_rest_advance]
        simp only [hu] at h
        cases hv : readValueRest table (fun fs r b => decodeRest table fs r b [])
            (fields.find? (fun f => decide (f.fieldNumber = tag / 8))) tag rd.rest with
        | error e => simp [hv] at h
        | ok q2 =>
          obtain ⟨value, rest2⟩ := q2
          obtain ⟨j2, _, hj22, hr2⟩ := readValueRest_suffix
            (fun fs r b m r' hh => decodeRest_suffix hh) hv
          have hlen2 : rest2.length = rd.rest.length - j2 := by rw [hr2, List.length_drop]
          simp only [hv] at h
          cases hst : storeValue message value with
          | error e => simp [hst] at h
          | ok m2 =>
            simp only [hst] at h
            have hbud : a.length - (a.length - rest2.length) = rest2.length := by omega
            rw [hbud] at h
            obtain ⟨hr1, hcont⟩ := ih fields rest2 m2 m1 r1 (by omega) h
            refine ⟨hr1, ?_⟩
            intro c budget hbudget
            have hext := Reader.uint32_extend hu c
            change (Reader.mk 0 (a ++ c)).uint32 = _ at hext
            rw [decodeRest_eq, if_pos (by omega)]
            simp only [hext, Reader.extend]
            rw [readValueRest_append c
              (fun fs r b m r' _ hh => decodeRest_append table c r.length fs r b [] m r'
                (Nat.le_refl _) hh) hv]
            simp only [hst]
            rw [hcont c _ (by simp only [List.length_append]; omega)]
            congr 1
            simp only [List.length_append]
            omega

/-! ## Unknown fields are skipped -/

theorem readVarint_of_isVarintBytes {bytes : List Nat} (h : isVarintBytes bytes = true) :
    readVarint bytes = some (varintValue bytes, bytes.length) := by
  induction bytes with
  | nil => simp [isVarintBytes] at h
  | cons b rest ih =>
    unfold isVarintBytes at h
    by_cases hb : b < 128
    · simp only [hb, if_true, List.isEmpty_eq_true] at h
      subst h
      simp [varintValue, readVarint, hb]
    · simp only [hb, if_false] at h
      have hr := ih h
      have hv : varintValue (b :: rest) = b % 128 + 128 * varintValue rest := by
        show (match readVarint (b :: rest) with
          | some (v, _) => v
          | none => 0) = _
        rw [readVarint, if_neg hb, hr]
      rw [readVarint, if_neg hb, hr, hv]
      rfl

theorem uint32_of_isVarintBytes {bytes : List Nat} (h : isVarintBytes bytes = true)
    (rest : List Nat) :
    (Reader.mk 0 (bytes ++ rest)).uint32
      = Except.ok (varintValue bytes % 4294967296, ⟨bytes.length, rest⟩) := by
  have hv := readVarint_append (readVarint_of_isVarintBytes h) rest
  unfold Reader.uint32
  simp only [hv, Reader.advance, Nat.zero_add, List.drop_left']

theorem length_pos_of_isVarintBytes {bytes : List Nat} (h : isVarintBytes bytes = true) :
    1 ≤ bytes.length := by
  cases bytes with
  | nil => simp [isVarintBytes] at h
  | cons b rest => simp

theorem skip_exact (bytes rest : List Nat) :
    (Reader.mk 0 (bytes ++ rest)).skip bytes.length = Except.ok ⟨bytes.length, rest⟩ := by
  simp [Reader.skip, Reader.advance]

theorem skipType_payload (w : WireField) (h : w.payloadWellFormed = true) (rest : List Nat) :
    (Reader.mk 0 (w.payload ++ rest)).skipType w.wireType
      = Except.ok ⟨w.payload.length, rest⟩ := by
  cases w with
  | varint t v =>
    have hv := readVarint_append (readVarint_of_isVarintBytes h) rest
    simp only [WireField.payload, WireField.wireType, Reader.skipType, if_true, hv,
      Reader.advance, Nat.zero_add, List.drop_left']
  | fixed64 t b =>
    have hb : b.length = 8 := by simpa [WireField.payloadWellFormed] using h
    have hs := skip_exact b rest
    rw [hb] at hs
    simp only [WireField.payload, WireField.wireType, Reader.skipType, hb]
    exact hs
  | lengthDelimited t l d =>
    simp only [WireField.payloadWellFormed, Bool.and_eq_true, decide_eq_true_eq] at h
    obtain ⟨⟨hl, hlt⟩, hd⟩ := h
    have hu := uint32_of_isVarintBytes hl (d ++ rest)
    rw [Nat.mod_eq_of_lt hlt] at hu
    have hs := skip_exact d rest
    simp only [WireField.payload, WireField.wireType, Reader.skipType, List.append_assoc, hu,
      bind, Except.bind]
    have h2 : ¬ (2 : Nat) = 0 := by decide
    have h3 : ¬ (2 : Nat) = 1 := by decide
    simp only [h2, h3, if_false, if_true, hd, List.length_append]
    have hs' : (Reader.mk l.length (d ++ rest)).skip d.length
        = Except.ok ⟨l.length + d.length, rest⟩ := by
      simp [Reader.skip, Reader.advance]
    exact hs'
  | fixed32 t b =>
    have hb : b.length = 4 := by simpa [WireField.payloadWellFormed] using h
    have hs := skip_exact b rest
    rw [hb] at hs
    simp only [WireField.payload, WireField.wireType, Reader.skipType, hb]
    exact hs

/-- One turn of the loop on a well-formed field of an unknown number: the field is skipped
whole and nothing is stored. -/
theorem decodeRest_skip_unknown (table : List MessageSchema) (fields : List FieldSchema)
    (w : WireField) (hw : w.wellFormed = true) (hu : w.unknownTo fields = true)
    (c : List Nat) (budget : Nat) (hb : 0 < budget) (message : PbObject) :
    decodeRest table fields (w.bytes ++ c) budget message
      = decodeRest table fields c (budget - w.bytes.length) message := by
  simp only [WireField.wellFormed, Bool.and_eq_true, decide_eq_true_eq] at hw
  obtain ⟨⟨⟨ht, hlt⟩, hwt⟩, hp⟩ := hw
  have hfind : fields.find?
      (fun f => decide (f.fieldNumber = varintValue w.tagBytes % 4294967296 / 8)) = none := by
    rw [Nat.mod_eq_of_lt hlt]
    simpa [WireField.unknownTo, WireField.fieldNumber] using hu
  rw [decodeRest_eq, if_pos hb]
  have hu32 := uint32_of_isVarintBytes ht (w.payload ++ c)
  simp only [WireField.bytes, List.append_assoc, hu32, hfind]
  have hskip := skipType_payload w hp c
  simp only [readValueRest, Nat.mod_eq_of_lt hlt, hwt, hskip, bind, Except.bind, pure,
    Except.pure, storeValue]
  congr 1
  simp only [List.length_append]
  omega

/-! ## Unknown fields: inserting one changes nothing -/

/-- Inserting an unknown field at a field boundary, at this level or inside a nested message
whose length prefix counts it, changes nothing that the loop computes, when the budget grows
by the bytes added. -/
theorem decodeRest_inserted {table : List MessageSchema} {fields : List FieldSchema}
    {budget : Nat} {x x' : List Nat} (h : Inserted table fields budget x x') :
    ∀ (budget' : Nat) (c : List Nat), budget' + x.length = budget + x'.length →
      decodeRest table fields (x' ++ c) budget' []
        = decodeRest table fields (x ++ c) budget [] := by
  induction h with
  | here fields budget a w m ha hle hw hu =>
    intro budget' c hb
    obtain ⟨_, hk⟩ :=
      decodeRest_decoded_start table a.length fields a [] m [] (Nat.le_refl _) ha
    have hwlen : 1 ≤ w.bytes.length := by
      simp only [WireField.wellFormed, Bool.and_eq_true] at hw
      have := length_pos_of_isVarintBytes hw.1.1.1
      simp only [WireField.bytes, List.length_append]
      omega
    simp only [List.length_append] at hb
    rw [List.append_assoc, hk (w.bytes ++ c) budget' (by omega), hk c budget hle,
      decodeRest_skip_unknown table fields w hw hu c _ (by omega)]
    congr 1
    omega
  | nested fields budget a tagBytes lengthBytes lengthBytes' y y' m field nested ha hlt ht
      hfind htype hnested hl hl' _ hlen hgrow ih =>
    intro budget' c hb
    obtain ⟨_, hk⟩ :=
      decodeRest_decoded_start table a.length fields a [] m [] (Nat.le_refl _) ha
    simp only [List.length_append] at hb
    have e1 : a ++ tagBytes ++ lengthBytes' ++ y' ++ c
        = a ++ (tagBytes ++ (lengthBytes' ++ (y' ++ c))) := by simp
    have e2 : a ++ tagBytes ++ lengthBytes ++ y ++ c
        = a ++ (tagBytes ++ (lengthBytes ++ (y ++ c))) := by simp
    rw [e1, e2, hk _ budget' (by omega), hk _ budget (by omega)]
    rw [decodeRest_eq, if_pos (by omega), decodeRest_eq table fields _ (budget - a.length),
      if_pos (by omega)]
    simp only [uint32_of_isVarintBytes ht, hfind]
    have hns : ¬ field.type = "string" := by rw [htype]; decide
    have hni : ¬ field.type = "int64" := by rw [htype]; decide
    have hnv : ¬ field.type = "varint" := by rw [htype]; decide
    have hrv : ∀ (lb yy : List Nat) , isVarintBytes lb = true →
        readValueRest table (fun fs r b => decodeRest table fs r b []) (some field)
          (varintValue tagBytes % 4294967296) (lb ++ (yy ++ c)) =
        (decodeRest table nested.fields (yy ++ c) (varintValue lb % 4294967296) []).bind
          (fun q => Except.ok
            (some (field, PbValue.message (PbRecord.ofList q.1)), q.2)) := by
      intro lb yy hlb
      simp only [readValueRest, hns, hni, hnv, htype, if_false, if_true,
        uint32_of_isVarintBytes hlb, bind, Except.bind, hnested]
      cases decodeRest table nested.fields (yy ++ c) (varintValue lb % 4294967296) [] <;> rfl
    rw [hrv lengthBytes' y' hl', hrv lengthBytes y hl, ih _ c hlen]
    cases hrec : decodeRest table nested.fields (y ++ c)
        (varintValue lengthBytes % 4294967296) [] with
    | error e => rfl
    | ok q =>
      obtain ⟨v, rest3⟩ := q
      have hrec' := hrec
      rw [← ih _ c hlen] at hrec'
      obtain ⟨j, hj, hr3⟩ := decodeRest_suffix hrec
      obtain ⟨j', hj', hr3'⟩ := decodeRest_suffix hrec'
      have hlen3 : rest3.length ≤ (y ++ c).length := by
        rw [hr3, List.length_drop]; omega
      have hlen3' : rest3.length ≤ (y' ++ c).length := by
        rw [hr3', List.length_drop]; omega
      simp only [Except.bind]
      cases hst : storeValue m (some (field, PbValue.message (PbRecord.ofList v))) with
      | error e => rfl
      | ok m2 =>
        simp only
        congr 1
        simp only [List.length_append] at hlen3 hlen3' ⊢
        omega

/-- C14: for every schema and every byte sequence `x ++ c` that decodes to a record, the
sequence `x' ++ c`, where `x'` is `x` with a well-formed field of a number unknown to the
schema (a varint, a 64-bit, a length-delimited or a 32-bit field) inserted at a field
boundary, at the top level or inside a nested message whose enclosing length prefixes count
the inserted bytes, decodes to the same record, without failing. -/
theorem decode_ignores_unknown_field (table : List MessageSchema) (schema : MessageSchema)
    (x x' c : List Nat) (record : PbObject)
    (hins : Inserted table schema.fields (x ++ c).length x x')
    (hdec : decode table schema (x ++ c) = Except.ok record) :
    decode table schema (x' ++ c) = Except.ok record := by
  rw [decode_eq_decodeRest] at hdec ⊢
  rw [decodeRest_inserted hins (x' ++ c).length c
    (by simp only [List.length_append]; omega)]
  exact hdec

/-- C14 on a caption wrapper: the varint field number 7, unknown to `Caption`, added inside
the nested caption, with the length prefix of the caption raised from 3 to 6. -/
theorem decode_ignores_unknown_field_witness :
    decode messageTypes Sample.captionWrapperSchema Sample.captionWrapperBytes
        = Except.ok [("caption", PbValue.message (PbRecord.ofList
            [("deviceId", PbValue.str [97])]))] ∧
      decode messageTypes Sample.captionWrapperSchema Sample.captionWrapperBytesWithUnknown
        = Except.ok [("caption", PbValue.message (PbRecord.ofList
            [("deviceId", PbValue.str [97])]))] :=
  ⟨by decide,
    decode_ignores_unknown_field messageTypes Sample.captionWrapperSchema
      Sample.captionWrapperBytes Sample.captionWrapperBytesWithUnknown []
      [("caption", PbValue.message (PbRecord.ofList [("deviceId", PbValue.str [97])]))]
      (Inserted.nested Sample.captionWrapperSchema.fields 5 [] [10] [3] [6] [10, 1, 97]
        [10, 1, 97, 56, 172, 2] [] (messageField "caption" 1 "Caption" false)
        Sample.captionSchema (by decide) (by decide) (by decide) (by decide) (by decide)
        (by decide)
        (by decide) (by decide)
        (Inserted.here Sample.captionSchema.fields 3 [10, 1, 97]
          (WireField.varint [56] [172, 2]) [("deviceId", PbValue.str [97])]
          (by decide) (by decide) (by decide) (by decide))
        (by decide) (by decide))
      (by decide)⟩

/-! ## Repeated, singular and absent fields -/

theorem pbArray_toList_ofList (l : List PbValue) : (PbArray.ofList l).toList = l := by
  induction l with
  | nil => rfl
  | cons v l ih => simp only [PbArray.ofList, PbArray.toList, ih]

theorem PbObject.get_set_same (m : PbObject) (name : String) (v : PbValue) :
    PbObject.get (PbObject.set m name v) name = some v := by
  induction m with
  | nil => simp [PbObject.set, PbObject.get]
  | cons kv m ih =>
    obtain ⟨k, w⟩ := kv
    by_cases h : k = name
    · simp [PbObject.set, PbObject.get, h]
    · simp [PbObject.set, PbObject.get, h, ih]

theorem PbObject.get_set_other (m : PbObject) (name key : String) (v : PbValue)
    (h : name ≠ key) : PbObject.get (PbObject.set m name v) key = PbObject.get m key := by
  induction m with
  | nil => simp [PbObject.set, PbObject.get, h]
  | cons kv m ih =>
    obtain ⟨k, w⟩ := kv
    by_cases hk : k = name
    · subst hk
      simp [PbObject.set, PbObject.get, h]
    · by_cases hk2 : k = key
      · subst hk2
        simp [PbObject.set, PbObject.get, hk]
      · simp [PbObject.set, PbObject.get, hk, hk2, ih]

theorem storeAll_append (m : PbObject) (items : List (FieldSchema × PbValue))
    (i : FieldSchema × PbValue) :
    storeAll m (items ++ [i]) = (storeAll m items).bind (fun r => storeField r i.1 i.2) := by
  induction items generalizing m with
  | nil =>
    obtain ⟨f, v⟩ := i
    simp only [List.nil_append, storeAll, Except.bind]
    cases storeField m f v <;> rfl
  | cons j items ih =>
    obtain ⟨f, v⟩ := j
    simp only [List.cons_append, storeAll]
    cases storeField m f v with
    | error e => rfl
    | ok m2 => exact ih m2

/-- A value read for storing belongs to the field that the tag named. -/
theorem readValueRest_field {table : List MessageSchema}
    {decodeNested : List FieldSchema → List Nat → Nat →
      Except DecodeError (PbObject × List Nat)}
    {fields : List FieldSchema} {tag : Nat} {rest rest2 : List Nat} {fv : FieldSchema × PbValue}
    (h : readValueRest table decodeNested
      (fields.find? (fun f => decide (f.fieldNumber = tag / 8))) tag rest
        = Except.ok (some fv, rest2)) :
    fv.1 ∈ fields ∧ fv.1.fieldNumber = tag / 8 := by
  cases hfind : fields.find? (fun f => decide (f.fieldNumber = tag / 8)) with
  | none =>
    rw [hfind] at h
    simp only [readValueRest, bind, Except.bind, pure, Except.pure] at h
    split at h <;> simp at h
  | some field =>
    rw [hfind] at h
    have hmemf := List.mem_of_find?_eq_some hfind
    have hnum : field.fieldNumber = tag / 8 := by
      have := List.find?_some hfind
      simpa using this
    suffices hfv : fv.1 = field by rw [hfv]; exact ⟨hmemf, hnum⟩
    simp only [readValueRest, bind, Except.bind, pure, Except.pure] at h
    split_ifs at h
    · split at h
      · simp at h
      · simp only [Except.ok.injEq, Prod.mk.injEq, Option.some.injEq] at h
        rw [← h.1]
    · split at h
      · simp at h
      · simp only [Except.ok.injEq, Prod.mk.injEq, Option.some.injEq] at h
        rw [← h.1]
    · split at h
      · simp at h
      · simp only [Except.ok.injEq, Prod.mk.injEq, Option.some.injEq] at h
        rw [← h.1]
    · split at h
      · simp at h
      · split at h
        · simp at h
        · split at h
          · simp at h
          · simp only [Except.ok.injEq, Prod.mk.injEq, Option.some.injEq] at h
            rw [← h.1]
    · split at h <;> simp at h

/-- The loop of `decode` stores, one after the other, the fields read off the wire. -/
theorem decodeRestLoop_eq_storeAll (table : List MessageSchema) (fuel : Nat) :
    ∀ (fields : List FieldSchema) (rest : List Nat) (budget : Nat) (m r : PbObject)
      (rest2 : List Nat),
      decodeRestLoop table fuel fields rest budget m = Except.ok (r, rest2) →
      ∃ items, wireFieldsLoop table fuel fields rest budget = Except.ok (items, rest2) ∧
        storeAll m items = Except.ok r ∧ ∀ i ∈ items, i.1 ∈ fields := by
  induction fuel with
  | zero => intro fields rest budget m r rest2 h; simp [decodeRestLoop] at h
  | succ fuel ih =>
    intro fields rest budget m r rest2 h
    rw [decodeRestLoop] at h
    rw [wireFieldsLoop]
    by_cases hb : 0 < budget
    · rw [if_pos hb] at h
      rw [if_pos hb]
      cases hu : (Reader.mk 0 rest).uint32 with
      | error e => rw [hu] at h; simp at h
      | ok tr =>
        obtain ⟨tag, reader⟩ := tr
        rw [hu] at h
        simp only at h ⊢
        cases hv : readValueRest table (fun fs r b => decodeRestLoop table fuel fs r b [])
            (fields.find? (fun f => decide (f.fieldNumber = tag / 8))) tag reader.rest with
        | error e => rw [hv] at h; simp at h
        | ok vr =>
          obtain ⟨value, rest1⟩ := vr
          rw [hv] at h
          simp only at h ⊢
          cases hs : storeValue m value with
          | error e => rw [hs] at h; simp at h
          | ok m2 =>
            rw [hs] at h
            simp only at h
            obtain ⟨items, hitems, hstore, hmem⟩ := ih fields rest1 _ m2 r rest2 h
            rw [hitems]
            refine ⟨value.toList ++ items, rfl, ?_, ?_⟩
            · cases value with
              | none =>
                simp only [storeValue, Except.ok.injEq] at hs
                subst hs
                simpa using hstore
              | some fv =>
                obtain ⟨f, v⟩ := fv
                simp only [storeValue] at hs
                simp only [Option.toList, List.singleton_append, storeAll, hs]
                exact hstore
            · intro i hi
              rw [List.mem_append] at hi
              rcases hi with hi | hi
              · cases value with
                | none => simp at hi
                | some fv =>
                  simp only [Option.toList, List.mem_singleton] at hi
                  subst hi
                  exact (readValueRest_field hv).1
              · exact hmem i hi
    · rw [if_neg hb] at h
      rw [if_neg hb]
      simp only [Except.ok.injEq, Prod.mk.injEq] at h
      obtain ⟨rfl, rfl⟩ := h
      exact ⟨[], rfl, rfl, by simp⟩

theorem storeField_eq_set {m r : PbObject} {f : FieldSchema} {v : PbValue}
    (h : storeField m f v = Except.ok r) : ∃ x, r = PbObject.set m f.name x := by
  unfold storeField at h
  split_ifs at h
  · split at h
    · exact ⟨_, (Except.ok.inj h).symm⟩
    · exact ⟨_, (Except.ok.inj h).symm⟩
    · simp at h
  · exact ⟨_, (Except.ok.inj h).symm⟩

theorem occurrences_append (f : FieldSchema) (items : List (FieldSchema × PbValue))
    (g : FieldSchema) (v : PbValue) :
    occurrences f (items ++ [(g, v)])
      = occurrences f items ++ (if g.fieldNumber = f.fieldNumber then [v] else []) := by
  unfold occurrences
  by_cases h : g.fieldNumber = f.fieldNumber
  · simp [List.filter_append, List.filter_cons, h]
  · simp [List.filter_append, List.filter_cons, h]

/-- What the object holds after storing fields of a schema with pairwise distinct names and
numbers into the empty object: under the name of a repeated field the array of the values
stored for it, in order, under the name of any other field the last value stored for it, and
no key for a field for which nothing was stored or for any other name. -/
theorem storeAll_spec (fields : List FieldSchema)
    (hnames : (fields.map FieldSchema.name).Nodup)
    (hnumbers : (fields.map FieldSchema.fieldNumber).Nodup)
    (items : List (FieldSchema × PbValue)) :
    ∀ (r : PbObject), (∀ i ∈ items, i.1 ∈ fields) → storeAll [] items = Except.ok r →
      (∀ f ∈ fields,
        (f.repeated = true → PbObject.get r f.name
          = if occurrences f items = [] then none
            else some (PbValue.array (PbArray.ofList (occurrences f items)))) ∧
        (f.repeated = false → PbObject.get r f.name = (occurrences f items).getLast?)) ∧
      (∀ key, PbObject.get r key ≠ none → ∃ f ∈ fields, f.name = key) := by
  induction items using List.reverseRecOn with
  | nil =>
    intro r _ h
    simp only [storeAll, Except.ok.injEq] at h
    subst h
    refine ⟨fun f _ => ⟨fun _ => ?_, fun _ => ?_⟩, fun key hk => ?_⟩
    · simp [occurrences, PbObject.get]
    · simp [occurrences, PbObject.get]
    · simp [PbObject.get] at hk
  | append_singleton items i ih =>
    intro r hmem h
    obtain ⟨g, v⟩ := i
    rw [storeAll_append] at h
    cases h0 : storeAll [] items with
    | error e => rw [h0] at h; simp [Except.bind] at h
    | ok r0 =>
      rw [h0] at h
      simp only [Except.bind] at h
      have hg : g ∈ fields := hmem (g, v) (by simp)
      obtain ⟨ihP, ihQ⟩ := ih r0 (fun i hi => hmem i (by simp [hi])) h0
      obtain ⟨x, hx⟩ := storeField_eq_set h
      refine ⟨fun f hf => ?_, fun key hk => ?_⟩
      · by_cases hfg : g = f
        · subst hfg
          rw [occurrences_append, if_pos rfl]
          refine ⟨fun hrep => ?_, fun hrep => ?_⟩
          · have hget := (ihP g hg).1 hrep
            rw [if_neg (by simp)]
            unfold storeField at h
            rw [if_pos hrep] at h
            by_cases hocc : occurrences g items = []
            · rw [if_pos hocc] at hget
              rw [hget] at h
              simp only [Except.ok.injEq] at h
              rw [← h, PbObject.get_set_same, hocc]
              rfl
            · rw [if_neg hocc] at hget
              rw [hget] at h
              simp only [Except.ok.injEq] at h
              rw [← h, PbObject.get_set_same, pbArray_toList_ofList]
          · unfold storeField at h
            rw [if_neg (by simp [hrep])] at h
            simp only [Except.ok.injEq] at h
            rw [← h, PbObject.get_set_same, List.getLast?_append]
            rfl
        · have hname : g.name ≠ f.name := fun e =>
            hfg (List.inj_on_of_nodup_map hnames hg hf e)
          have hnum : ¬ g.fieldNumber = f.fieldNumber := fun e =>
            hfg (List.inj_on_of_nodup_map hnumbers hg hf e)
          rw [occurrences_append, if_neg hnum, List.append_nil, hx,
            PbObject.get_set_other _ _ _ _ hname]
          exact ihP f hf
      · by_cases hkey : g.name = key
        · exact ⟨g, hg, hkey⟩
        · rw [hx, PbObject.get_set_other _ _ _ _ hkey] at hk
          exact ihQ key hk

/-- C16: for every schema whose fields have pairwise distinct names and numbers, as every
schema of the table has, and every byte sequence that decodes to a record: the fields of the
schema read off the wire are a list `items`, in arrival order, such that a repeated field with
at least one occurrence is in the record the array of the values of all its occurrences in
arrival order; any other field is the value of its last occurrence; a field without an
occurrence is a missing key, and every key of the record is the name of a field that occurs;
and the empty byte sequence decodes to the empty record. -/
theorem decode_fields_by_occurrence (table : List MessageSchema) (schema : MessageSchema)
    (bytes : List Nat) (record : PbObject)
    (hnames : (schema.fields.map FieldSchema.name).Nodup)
    (hnumbers : (schema.fields.map FieldSchema.fieldNumber).Nodup)
    (hdec : decode table schema bytes = Except.ok record) :
    (∃ items, wireFields table schema bytes = Except.ok items ∧
      (∀ f ∈ schema.fields, f.repeated = true → occurrences f items ≠ [] →
        PbObject.get record f.name
          = some (PbValue.array (PbArray.ofList (occurrences f items)))) ∧
      (∀ f ∈ schema.fields, f.repeated = false →
        PbObject.get record f.name = (occurrences f items).getLast?) ∧
      (∀ f ∈ schema.fields, occurrences f items = [] → PbObject.get record f.name = none) ∧
      (∀ key, PbObject.get record key ≠ none →
        ∃ f ∈ schema.fields, f.name = key ∧ occurrences f items ≠ [])) ∧
    decode table schema [] = Except.ok [] := by
  refine ⟨?_, rfl⟩
  rw [decode_eq_decodeRest] at hdec
  cases hrun : decodeRest table schema.fields bytes bytes.length [] with
  | error e => rw [hrun] at hdec; simp [Except.map] at hdec
  | ok q =>
    obtain ⟨r, rest2⟩ := q
    rw [hrun] at hdec
    simp only [Except.map, Except.ok.injEq] at hdec
    subst hdec
    obtain ⟨items, hitems, hstore, hmem⟩ :=
      decodeRestLoop_eq_storeAll table _ _ _ _ _ _ _ hrun
    obtain ⟨hP, hQ⟩ := storeAll_spec schema.fields hnames hnumbers items r hmem hstore
    have hnone : ∀ f ∈ schema.fields, occurrences f items = [] →
        PbObject.get r f.name = none := by
      intro f hf hocc
      cases hrep : f.repeated with
      | true => rw [(hP f hf).1 hrep, if_pos hocc]
      | false => rw [(hP f hf).2 hrep, hocc]; rfl
    refine ⟨items, ?_, ?_, ?_, hnone, ?_⟩
    · simp only [wireFields, hitems, Except.map]
    · intro f hf hrep hocc
      rw [(hP f hf).1 hrep, if_neg hocc]
    · intro f hf hrep
      exact (hP f hf).2 hrep
    · intro key hk
      obtain ⟨f, hf, hname⟩ := hQ key hk
      refine ⟨f, hf, hname, fun hocc => hk ?_⟩
      rw [← hname]
      exact hnone f hf hocc

/-- C16 on a `UserInfoListWrapper` in which the singular field arrives twice and the repeated
field twice. -/
theorem decode_fields_by_occurrence_witness :
    (Sample.userInfoListWrapperSchema.fields.map FieldSchema.name).Nodup ∧
    (Sample.userInfoListWrapperSchema.fields.map FieldSchema.fieldNumber).Nodup ∧
    decode messageTypes Sample.userInfoListWrapperSchema Sample.userInfoListWrapperBytes
      = Except.ok Sample.userInfoListWrapperRecord ∧
    ((∃ items, wireFields messageTypes Sample.userInfoListWrapperSchema
          Sample.userInfoListWrapperBytes = Except.ok items ∧
      (∀ f ∈ Sample.userInfoListWrapperSchema.fields, f.repeated = true →
        occurrences f items ≠ [] →
        PbObject.get Sample.userInfoListWrapperRecord f.name
          = some (PbValue.array (PbArray.ofList (occurrences f items)))) ∧
      (∀ f ∈ Sample.userInfoListWrapperSchema.fields, f.repeated = false →
        PbObject.get Sample.userInfoListWrapperRecord f.name
          = (occurrences f items).getLast?) ∧
      (∀ f ∈ Sample.userInfoListWrapperSchema.fields, occurrences f items = [] →
        PbObject.get Sample.userInfoListWrapperRecord f.name = none) ∧
      (∀ key, PbObject.get Sample.userInfoListWrapperRecord key ≠ none →
        ∃ f ∈ Sample.userInfoListWrapperSchema.fields,
          f.name = key ∧ occurrences f items ≠ [])) ∧
    decode messageTypes Sample.userInfoListWrapperSchema [] = Except.ok []) :=
  ⟨by decide, by decide, by decide,
    decode_fields_by_occurrence messageTypes Sample.userInfoListWrapperSchema
      Sample.userInfoListWrapperBytes Sample.userInfoListWrapperRecord (by decide) (by decide)
      (by decide)⟩

/-! ## Decoding undoes encoding -/

theorem encodeVarintFuel_spec (fuel : Nat) :
    ∀ (n : Nat), n ≤ fuel →
      isVarintBytes (encodeVarintFuel fuel n) = true ∧
        varintValue (encodeVarintFuel fuel n) = n := by
  induction fuel with
  | zero =>
    intro n hn
    have h0 : n = 0 := by omega
    subst h0
    exact ⟨by decide, by decide⟩
  | succ fuel ih =>
    intro n hn
    unfold encodeVarintFuel
    by_cases hlt : n < 128
    · rw [if_pos hlt]
      refine ⟨by simp [isVarintBytes, hlt], ?_⟩
      simp [varintValue, readVarint, hlt]
    · rw [if_neg hlt]
      obtain ⟨h1, h2⟩ := ih (n / 128) (by omega)
      have hb : ¬ n % 128 + 128 < 128 := by omega
      refine ⟨by rw [isVarintBytes, if_neg hb]; exact h1, ?_⟩
      have hr := readVarint_of_isVarintBytes h1
      show (match readVarint ((n % 128 + 128) :: encodeVarintFuel fuel (n / 128)) with
        | some (v, _) => v
        | none => 0) = n
      rw [readVarint, if_neg hb, hr, h2]
      show (n % 128 + 128) % 128 + 128 * (n / 128) = n
      omega

theorem isVarintBytes_encodeVarint (n : Nat) : isVarintBytes (encodeVarint n) = true :=
  (encodeVarintFuel_spec n n (Nat.le_refl n)).1

theorem varintValue_encodeVarint (n : Nat) : varintValue (encodeVarint n) = n :=
  (encodeVarintFuel_spec n n (Nat.le_refl n)).2

theorem uint32_encodeVarint (n : Nat) (hn : n < 4294967296) (rest : List Nat) :
    (Reader.mk 0 (encodeVarint n ++ rest)).uint32
      = Except.ok (n, ⟨(encodeVarint n).length, rest⟩) := by
  rw [uint32_of_isVarintBytes (isVarintBytes_encodeVarint n), varintValue_encodeVarint,
    Nat.mod_eq_of_lt hn]

theorem int64_encodeVarint (v : Int) (h1 : -9223372036854775808 ≤ v)
    (h2 : v < 9223372036854775808) (rest : List Nat) :
    (Reader.mk 0 (encodeVarint (v % 18446744073709551616).toNat ++ rest)).int64
      = Except.ok (v, ⟨(encodeVarint (v % 18446744073709551616).toNat).length, rest⟩) := by
  have hv := readVarint_append (readVarint_of_isVarintBytes
    (isVarintBytes_encodeVarint (v % 18446744073709551616).toNat)) rest
  rw [varintValue_encodeVarint] at hv
  unfold Reader.int64
  simp only [hv, Reader.advance, Nat.zero_add, List.drop_left']
  congr 2
  split_ifs with h <;> omega

theorem string_encode (utf8 : List Nat) (h : utf8.length < 4294967296) (rest : List Nat) :
    (Reader.mk 0 (encodeVarint utf8.length ++ (utf8 ++ rest))).string
      = Except.ok (utf8, ⟨(encodeVarint utf8.length).length + utf8.length, rest⟩) := by
  unfold Reader.string
  simp only [uint32_encodeVarint _ h, bind, Except.bind]
  simp [Reader.advance]

theorem length_encodeVarint_pos (n : Nat) : 1 ≤ (encodeVarint n).length :=
  length_pos_of_isVarintBytes (isVarintBytes_encodeVarint n)

theorem pbRecord_toList_ofList (l : List (String × PbValue)) :
    (PbRecord.ofList l).toList = l := by
  induction l with
  | nil => rfl
  | cons kv l ih =>
    obtain ⟨k, v⟩ := kv
    simp only [PbRecord.ofList, PbRecord.toList, ih]

theorem pbRecord_ofList_toList : ∀ (r : PbRecord), PbRecord.ofList r.toList = r
  | PbRecord.nil => rfl
  | PbRecord.cons k v r => by
    simp only [PbRecord.toList, PbRecord.ofList, pbRecord_ofList_toList r]

theorem pbArray_ofList_toList : ∀ (a : PbArray), PbArray.ofList a.toList = a
  | PbArray.nil => rfl
  | PbArray.cons v a => by
    simp only [PbArray.toList, PbArray.ofList, pbArray_ofList_toList a]

theorem PbObject.set_of_get_none (m : PbObject) (name : String) (v : PbValue)
    (h : PbObject.get m name = none) : PbObject.set m name v = m ++ [(name, v)] := by
  induction m with
  | nil => rfl
  | cons kv m ih =>
    obtain ⟨k, w⟩ := kv
    unfold PbObject.get at h
    by_cases hk : k = name
    · rw [if_pos hk] at h
      simp at h
    · rw [if_neg hk] at h
      simp only [PbObject.set, if_neg hk, ih h, List.cons_append]

theorem PbObject.get_append_same (m : PbObject) (name : String) (v : PbValue)
    (h : PbObject.get m name = none) : PbObject.get (m ++ [(name, v)]) name = some v := by
  rw [← PbObject.set_of_get_none m name v h, PbObject.get_set_same]

theorem PbObject.set_append_same (m : PbObject) (name : String) (v w : PbValue)
    (h : PbObject.get m name = none) :
    PbObject.set (m ++ [(name, v)]) name w = m ++ [(name, w)] := by
  induction m with
  | nil => simp [PbObject.set]
  | cons kv m ih =>
    obtain ⟨k, x⟩ := kv
    unfold PbObject.get at h
    by_cases hk : k = name
    · rw [if_pos hk] at h
      simp at h
    · rw [if_neg hk] at h
      simp only [List.cons_append, PbObject.set, if_neg hk, List.append_eq, ih h]

theorem PbObject.get_append_other (m : PbObject) (name key : String) (v : PbValue)
    (h : name ≠ key) : PbObject.get (m ++ [(name, v)]) key = PbObject.get m key := by
  induction m with
  | nil => simp [PbObject.get, h]
  | cons kv m ih =>
    obtain ⟨k, x⟩ := kv
    simp only [List.cons_append, PbObject.get, List.append_eq, ih]

/-- Pushing the elements of an array onto the array of a repeated field. -/
theorem storeAll_push (f : FieldSchema) (hrep : f.repeated = true) (m : PbObject)
    (hm : PbObject.get m f.name = none) (vs : List PbValue) :
    ∀ (pre : List PbValue),
      storeAll (m ++ [(f.name, PbValue.array (PbArray.ofList pre))])
          (vs.map (fun value => (f, value)))
        = Except.ok (m ++ [(f.name, PbValue.array (PbArray.ofList (pre ++ vs)))]) := by
  induction vs with
  | nil => intro pre; simp [storeAll]
  | cons v vs ih =>
    intro pre
    simp only [List.map_cons, storeAll, storeField, hrep, if_true,
      PbObject.get_append_same m f.name _ hm, pbArray_toList_ofList,
      PbObject.set_append_same m f.name _ _ hm]
    rw [ih (pre ++ [v])]
    simp

/-- Storing a non-empty array of a repeated field that the object does not hold yet. -/
theorem storeAll_array (f : FieldSchema) (hrep : f.repeated = true) (m : PbObject)
    (hm : PbObject.get m f.name = none) (v : PbValue) (rest : PbArray) :
    storeAll m ((PbArray.cons v rest).toList.map (fun value => (f, value)))
      = Except.ok (m ++ [(f.name, PbValue.array (PbArray.cons v rest))]) := by
  simp only [PbArray.toList, List.map_cons, storeAll, storeField, hrep, if_true, hm,
    PbObject.set_of_get_none m f.name _ hm]
  rw [storeAll_push f hrep m hm rest.toList [v]]
  simp only [List.singleton_append]
  rw [show PbArray.ofList (v :: rest.toList) = PbArray.cons v (PbArray.ofList rest.toList)
    from rfl, pbArray_ofList_toList]

theorem find?_number_of_mem {fields : List FieldSchema}
    (hnumbers : (fields.map FieldSchema.fieldNumber).Nodup) {f : FieldSchema}
    (hf : f ∈ fields) :
    fields.find? (fun g => decide (g.fieldNumber = f.fieldNumber)) = some f := by
  cases h : fields.find? (fun g => decide (g.fieldNumber = f.fieldNumber)) with
  | none =>
    have := List.find?_eq_none.mp h f hf
    simp at this
  | some g =>
    have hg := List.mem_of_find?_eq_some h
    have hnum : g.fieldNumber = f.fieldNumber := by simpa using List.find?_some h
    rw [List.inj_on_of_nodup_map hnumbers hg hf hnum]

theorem find?_name_spec {fields : List FieldSchema} {name : String} {f : FieldSchema}
    (h : fields.find? (fun g => decide (g.name = name)) = some f) :
    f ∈ fields ∧ f.name = name :=
  ⟨List.mem_of_find?_eq_some h, by simpa using List.find?_some h⟩

theorem mem_of_messageDecoders {table : List MessageSchema} {name : String}
    {schema : MessageSchema} (h : messageDecoders table name = some schema) :
    schema ∈ table := by
  unfold messageDecoders at h
  exact List.mem_reverse.mp (List.mem_of_find?_eq_some h)

theorem fieldsWellFormed_iff (fields : List FieldSchema) :
    fieldsWellFormed fields = true ↔
      (fields.map FieldSchema.name).Nodup ∧ (fields.map FieldSchema.fieldNumber).Nodup ∧
        ∀ f ∈ fields, f.fieldNumber < 536870912 := by
  simp [fieldsWellFormed, and_assoc]

theorem fieldsWellFormed_of_mem {table : List MessageSchema}
    (htable : tableWellFormed table = true) {schema : MessageSchema} (h : schema ∈ table) :
    fieldsWellFormed schema.fields = true := by
  unfold tableWellFormed at htable
  exact List.all_eq_true.mp htable schema h

/-- One turn of the loop on the encoding of one field of the schema: the loop reads the tag,
finds the field, reads the value and stores it. -/
theorem decodeRest_field (table : List MessageSchema) (fields : List FieldSchema)
    (hwf : fieldsWellFormed fields = true) (f : FieldSchema) (hf : f ∈ fields)
    (wireType : Nat) (hwt : wireType < 8) (payload after : List Nat) (v : PbValue)
    (hread : readValueRest table (fun fs r b => decodeRest table fs r b []) (some f)
      (f.fieldNumber * 8 + wireType) (payload ++ after) = Except.ok (some (f, v), after))
    (extra : Nat) (m : PbObject) :
    decodeRest table fields (encodeTag f wireType ++ (payload ++ after))
        ((encodeTag f wireType ++ payload).length + extra) m
      = match storeField m f v with
        | Except.error e => Except.error e
        | Except.ok m2 => decodeRest table fields after extra m2 := by
  obtain ⟨_, hnumbers, hlt⟩ := (fieldsWellFormed_iff fields).mp hwf
  have hfn := hlt f hf
  have hpos := length_encodeVarint_pos (f.fieldNumber * 8 + wireType)
  rw [decodeRest_eq, if_pos (by simp only [List.length_append, encodeTag]; omega)]
  unfold encodeTag
  rw [uint32_encodeVarint _ (by omega)]
  simp only
  rw [show (f.fieldNumber * 8 + wireType) / 8 = f.fieldNumber by omega,
    find?_number_of_mem hnumbers hf, hread]
  simp only [storeValue]
  cases storeField m f v with
  | error e => rfl
  | ok m2 =>
    simp only
    congr 1
    simp only [List.length_append]
    omega

theorem readValueRest_string (table : List MessageSchema)
    (decodeNested : List FieldSchema → List Nat → Nat →
      Except DecodeError (PbObject × List Nat))
    (f : FieldSchema) (tag : Nat) (utf8 after : List Nat)
    (htype : f.type = "string") (hlen : utf8.length < 4294967296) :
    readValueRest table decodeNested (some f) tag
        ((encodeVarint utf8.length ++ utf8) ++ after)
      = Except.ok (some (f, PbValue.str utf8), after) := by
  unfold readValueRest
  simp only
  rw [if_pos htype, List.append_assoc, string_encode utf8 hlen]
  rfl

theorem readValueRest_int64 (table : List MessageSchema)
    (decodeNested : List FieldSchema → List Nat → Nat →
      Except DecodeError (PbObject × List Nat))
    (f : FieldSchema) (tag : Nat) (value : Int) (after : List Nat)
    (htype : f.type = "int64") (h1 : -9223372036854775808 ≤ value)
    (h2 : value < 9223372036854775808) :
    readValueRest table decodeNested (some f) tag
        (encodeVarint (value % 18446744073709551616).toNat ++ after)
      = Except.ok (some (f, PbValue.int64 value), after) := by
  have hns : ¬ f.type = "string" := by rw [htype]; decide
  unfold readValueRest
  simp only
  rw [if_neg hns, if_pos htype, int64_encodeVarint value h1 h2]
  rfl

theorem readValueRest_uint32 (table : List MessageSchema)
    (decodeNested : List FieldSchema → List Nat → Nat →
      Except DecodeError (PbObject × List Nat))
    (f : FieldSchema) (tag : Nat) (value : Nat) (after : List Nat)
    (htype : f.type = "varint") (h : value < 4294967296) :
    readValueRest table decodeNested (some f) tag (encodeVarint value ++ after)
      = Except.ok (some (f, PbValue.uint32 value), after) := by
  have hns : ¬ f.type = "string" := by rw [htype]; decide
  have hni : ¬ f.type = "int64" := by rw [htype]; decide
  unfold readValueRest
  simp only
  rw [if_neg hns, if_neg hni, if_pos htype, uint32_encodeVarint value h]
  rfl

theorem readValueRest_message (table : List MessageSchema)
    (decodeNested : List FieldSchema → List Nat → Nat →
      Except DecodeError (PbObject × List Nat))
    (f : FieldSchema) (tag : Nat) (nested : MessageSchema) (body after : List Nat)
    (record : PbRecord)
    (htype : f.type = "message")
    (hnested : f.messageType.bind (messageDecoders table) = some nested)
    (hlen : body.length < 4294967296)
    (hdec : decodeNested nested.fields (body ++ after) body.length
      = Except.ok (record.toList, after)) :
    readValueRest table decodeNested (some f) tag
        ((encodeVarint body.length ++ body) ++ after)
      = Except.ok (some (f, PbValue.message record), after) := by
  have hns : ¬ f.type = "string" := by rw [htype]; decide
  have hni : ¬ f.type = "int64" := by rw [htype]; decide
  have hnv : ¬ f.type = "varint" := by rw [htype]; decide
  unfold readValueRest
  simp only
  rw [if_neg hns, if_neg hni, if_neg hnv, if_pos htype, List.append_assoc,
    uint32_encodeVarint _ hlen]
  simp only [bind, Except.bind, hnested, hdec, pbRecord_ofList_toList]
  rfl

theorem PbObject.get_append_none (m : PbObject) (name key : String) (v : PbValue)
    (h : name ≠ key) (hm : PbObject.get m key = none) :
    PbObject.get (m ++ [(name, v)]) key = none := by
  rw [PbObject.get_append_other m name key v h, hm]

theorem storeAll_singleton (m : PbObject) (f : FieldSchema) (v : PbValue) :
    storeAll m [(f, v)] = storeField m f v := by
  simp only [storeAll]
  cases storeField m f v <;> rfl

theorem valueItems_of_conformsValue {table : List MessageSchema} {f : FieldSchema}
    {v : PbValue} (h : conformsValue table f v = true) : valueItems f v = [(f, v)] := by
  cases v with
  | array items => simp [conformsValue] at h
  | str _ => rfl
  | int64 _ => rfl
  | uint32 _ => rfl
  | message _ => rfl

theorem decodeRest_encodeValue_str (table : List MessageSchema) (utf8 : List Nat) :
    ∀ (fields : List FieldSchema) (f : FieldSchema),
      fieldsWellFormed fields = true → f ∈ fields →
      (conformsValue table f (PbValue.str utf8) = true ∨
        ∃ elements, (PbValue.str utf8) = PbValue.array elements ∧
          conformsArray table f elements = true) →
      PbValue.arraysNonEmpty (PbValue.str utf8) = true →
      ∀ (after : List Nat) (extra : Nat) (m : PbObject),
        decodeRest table fields (encodeValue table f (PbValue.str utf8) ++ after)
            ((encodeValue table f (PbValue.str utf8)).length + extra) m
          = match storeAll m (valueItems f (PbValue.str utf8)) with
            | Except.error e => Except.error e
            | Except.ok m2 => decodeRest table fields after extra m2 := by
  intro fields f hwf hf hc _ after extra m
  rcases hc with hc | ⟨items, hitems, _⟩
  · simp only [conformsValue, Bool.and_eq_true, decide_eq_true_eq] at hc
    simp only [encodeValue, valueItems, storeAll_singleton]
    rw [List.append_assoc,
      decodeRest_field table fields hwf f hf 2 (by omega) _ after (PbValue.str utf8)
        (readValueRest_string table _ f _ utf8 after hc.1 hc.2)]
  · cases hitems

theorem decodeRest_encodeValue_int64 (table : List MessageSchema) (value : Int) :
    ∀ (fields : List FieldSchema) (f : FieldSchema),
      fieldsWellFormed fields = true → f ∈ fields →
      (conformsValue table f (PbValue.int64 value) = true ∨
        ∃ elements, (PbValue.int64 value) = PbValue.array elements ∧
          conformsArray table f elements = true) →
      PbValue.arraysNonEmpty (PbValue.int64 value) = true →
      ∀ (after : List Nat) (extra : Nat) (m : PbObject),
        decodeRest table fields (encodeValue table f (PbValue.int64 value) ++ after)
            ((encodeValue table f (PbValue.int64 value)).length + extra) m
          = match storeAll m (valueItems f (PbValue.int64 value)) with
            | Except.error e => Except.error e
            | Except.ok m2 => decodeRest table fields after extra m2 := by
  intro fields f hwf hf hc _ after extra m
  rcases hc with hc | ⟨items, hitems, _⟩
  · simp only [conformsValue, Bool.and_eq_true, decide_eq_true_eq] at hc
    simp only [encodeValue, valueItems, storeAll_singleton]
    rw [List.append_assoc,
      decodeRest_field table fields hwf f hf 0 (by omega) _ after (PbValue.int64 value)
        (readValueRest_int64 table _ f _ value after hc.1.1 hc.1.2 hc.2)]
  · cases hitems

theorem decodeRest_encodeValue_uint32 (table : List MessageSchema) (value : Nat) :
    ∀ (fields : List FieldSchema) (f : FieldSchema),
      fieldsWellFormed fields = true → f ∈ fields →
      (conformsValue table f (PbValue.uint32 value) = true ∨
        ∃ elements, (PbValue.uint32 value) = PbValue.array elements ∧
          conformsArray table f elements = true) →
      PbValue.arraysNonEmpty (PbValue.uint32 value) = true →
      ∀ (after : List Nat) (extra : Nat) (m : PbObject),
        decodeRest table fields (encodeValue table f (PbValue.uint32 value) ++ after)
            ((encodeValue table f (PbValue.uint32 value)).length + extra) m
          = match storeAll m (valueItems f (PbValue.uint32 value)) with
            | Except.error e => Except.error e
            | Except.ok m2 => decodeRest table fields after extra m2 := by
  intro fields f hwf hf hc _ after extra m
  rcases hc with hc | ⟨items, hitems, _⟩
  · simp only [conformsValue, Bool.and_eq_true, decide_eq_true_eq] at hc
    simp only [encodeValue, valueItems, storeAll_singleton]
    rw [List.append_assoc,
      decodeRest_field table fields hwf f hf 0 (by omega) _ after (PbValue.uint32 value)
        (readValueRest_uint32 table _ f _ value after hc.1 hc.2)]
  · cases hitems

theorem decodeRest_encodeValue_message (table : List MessageSchema)
    (htable : tableWellFormed table = true) (record : PbRecord)
    (hR : ∀ (fields : List FieldSchema),
      fieldsWellFormed fields = true → conformsRecord table fields record = true →
      PbRecord.arraysNonEmpty record = true →
      ∀ (after : List Nat) (extra : Nat) (m : PbObject),
        (∀ key ∈ PbRecord.keys record, PbObject.get m key = none) →
        decodeRest table fields (encodeRecord table fields record ++ after)
            ((encodeRecord table fields record).length + extra) m
          = decodeRest table fields after extra (m ++ PbRecord.toList record)) :
    ∀ (fields : List FieldSchema) (f : FieldSchema),
      fieldsWellFormed fields = true → f ∈ fields →
      (conformsValue table f (PbValue.message record) = true ∨
        ∃ elements, (PbValue.message record) = PbValue.array elements ∧
          conformsArray table f elements = true) →
      PbValue.arraysNonEmpty (PbValue.message record) = true →
      ∀ (after : List Nat) (extra : Nat) (m : PbObject),
        decodeRest table fields (encodeValue table f (PbValue.message record) ++ after)
            ((encodeValue table f (PbValue.message record)).length + extra) m
          = match storeAll m (valueItems f (PbValue.message record)) with
            | Except.error e => Except.error e
            | Except.ok m2 => decodeRest table fields after extra m2 := by
  intro fields f hwf hf hc hne after extra m
  rcases hc with hc | ⟨items, hitems, _⟩
  · simp only [conformsValue, Bool.and_eq_true, decide_eq_true_eq] at hc
    obtain ⟨htype, hrest⟩ := hc
    cases hnested : f.messageType.bind (messageDecoders table) with
    | none => rw [hnested] at hrest; simp at hrest
    | some nested =>
      rw [hnested] at hrest
      simp only [Bool.and_eq_true, decide_eq_true_eq] at hrest
      have hmemt : nested ∈ table := by
        cases hmt : f.messageType with
        | none => rw [hmt] at hnested; simp at hnested
        | some name =>
          rw [hmt] at hnested
          exact mem_of_messageDecoders hnested
      have hrec := hR nested.fields
        (fieldsWellFormed_of_mem htable hmemt) hrest.1
        (by simpa [PbValue.arraysNonEmpty] using hne) after 0 [] (fun _ _ => rfl)
      rw [Nat.add_zero, decodeRest_zero, List.nil_append] at hrec
      simp only [encodeValue, hnested, valueItems, storeAll_singleton]
      rw [List.append_assoc,
        decodeRest_field table fields hwf f hf 2 (by omega) _ after (PbValue.message record)
          (readValueRest_message table _ f _ nested _ after record htype hnested hrest.2
            hrec)]
  · cases hitems

theorem decodeRest_encodeValue_array (table : List MessageSchema) (items : PbArray)
    (hA : ∀ (fields : List FieldSchema) (f : FieldSchema),
      fieldsWellFormed fields = true → f ∈ fields →
      conformsArray table f items = true → PbArray.arraysNonEmpty items = true →
      ∀ (after : List Nat) (extra : Nat) (m : PbObject),
        decodeRest table fields (encodeArray table f items ++ after)
            ((encodeArray table f items).length + extra) m
          = match storeAll m ((PbArray.toList items).map (fun value => (f, value))) with
            | Except.error e => Except.error e
            | Except.ok m2 => decodeRest table fields after extra m2) :
    ∀ (fields : List FieldSchema) (f : FieldSchema),
      fieldsWellFormed fields = true → f ∈ fields →
      (conformsValue table f (PbValue.array items) = true ∨
        ∃ elements, (PbValue.array items) = PbValue.array elements ∧
          conformsArray table f elements = true) →
      PbValue.arraysNonEmpty (PbValue.array items) = true →
      ∀ (after : List Nat) (extra : Nat) (m : PbObject),
        decodeRest table fields (encodeValue table f (PbValue.array items) ++ after)
            ((encodeValue table f (PbValue.array items)).length + extra) m
          = match storeAll m (valueItems f (PbValue.array items)) with
            | Except.error e => Except.error e
            | Except.ok m2 => decodeRest table fields after extra m2 := by
  intro fields f hwf hf hc hne after extra m
  rcases hc with hc | ⟨items2, hitems, hc⟩
  · simp [conformsValue] at hc
  · rw [← PbValue.array.inj hitems] at hc
    simp only [encodeValue, valueItems]
    exact hA fields f hwf hf hc
      (by cases items with
        | nil => simp [PbValue.arraysNonEmpty] at hne
        | cons v rest => simpa [PbValue.arraysNonEmpty, PbArray.arraysNonEmpty] using hne)
      after extra m

theorem decodeRest_encodeRecord_cons (table : List MessageSchema) (name : String)
    (value : PbValue) (rest : PbRecord)
    (hV : ∀ (fields : List FieldSchema) (f : FieldSchema),
      fieldsWellFormed fields = true → f ∈ fields →
      (conformsValue table f value = true ∨
        ∃ elements, value = PbValue.array elements ∧
          conformsArray table f elements = true) →
      PbValue.arraysNonEmpty value = true →
      ∀ (after : List Nat) (extra : Nat) (m : PbObject),
        decodeRest table fields (encodeValue table f value ++ after)
            ((encodeValue table f value).length + extra) m
          = match storeAll m (valueItems f value) with
            | Except.error e => Except.error e
            | Except.ok m2 => decodeRest table fields after extra m2)
    (hR : ∀ (fields : List FieldSchema),
      fieldsWellFormed fields = true → conformsRecord table fields rest = true →
      PbRecord.arraysNonEmpty rest = true →
      ∀ (after : List Nat) (extra : Nat) (m : PbObject),
        (∀ key ∈ PbRecord.keys rest, PbObject.get m key = none) →
        decodeRest table fields (encodeRecord table fields rest ++ after)
            ((encodeRecord table fields rest).length + extra) m
          = decodeRest table fields after extra (m ++ PbRecord.toList rest)) :
    ∀ (fields : List FieldSchema),
      fieldsWellFormed fields = true →
      conformsRecord table fields (PbRecord.cons name value rest) = true →
      PbRecord.arraysNonEmpty (PbRecord.cons name value rest) = true →
      ∀ (after : List Nat) (extra : Nat) (m : PbObject),
        (∀ key ∈ PbRecord.keys (PbRecord.cons name value rest), PbObject.get m key = none) →
        decodeRest table fields (encodeRecord table fields (PbRecord.cons name value rest) ++ after)
            ((encodeRecord table fields (PbRecord.cons name value rest)).length + extra) m
          = decodeRest table fields after extra
              (m ++ PbRecord.toList (PbRecord.cons name value rest)) := by
  intro fields hwf hc hne after extra m hm
  rw [conformsRecord] at hc
  simp only [Bool.and_eq_true, Bool.not_eq_true', List.contains_eq_any_beq] at hc
  obtain ⟨⟨hfield, hfresh⟩, hcrest⟩ := hc
  simp only [PbRecord.arraysNonEmpty, Bool.and_eq_true] at hne
  cases hfind : fields.find? (fun g => decide (g.name = name)) with
  | none => rw [hfind] at hfield; simp at hfield
  | some f =>
    rw [hfind] at hfield
    simp only at hfield
    obtain ⟨hf, hname⟩ := find?_name_spec hfind
    have hmname : PbObject.get m f.name = none := by
      rw [hname]; exact hm name (by simp [PbRecord.keys])
    have hstore : storeAll m (valueItems f value) = Except.ok (m ++ [(name, value)]) ∧
        (conformsValue table f value = true ∨
          ∃ elements, value = PbValue.array elements ∧
            conformsArray table f elements = true) := by
      by_cases hrep : f.repeated = true
      · rw [if_pos hrep] at hfield
        cases value with
        | array items =>
          simp only at hfield
          cases items with
          | nil => simp [PbValue.arraysNonEmpty] at hne
          | cons v items =>
            refine ⟨?_, Or.inr ⟨_, rfl, hfield⟩⟩
            simp only [valueItems]
            rw [storeAll_array f hrep m hmname v items, hname]
        | str _ => simp at hfield
        | int64 _ => simp at hfield
        | uint32 _ => simp at hfield
        | message _ => simp at hfield
      · rw [if_neg hrep] at hfield
        refine ⟨?_, Or.inl hfield⟩
        rw [valueItems_of_conformsValue hfield, storeAll_singleton]
        simp only [storeField, if_neg hrep]
        rw [PbObject.set_of_get_none m f.name value hmname, hname]
    have hV2 := hV fields f hwf hf hstore.2 hne.1
      (encodeRecord table fields rest ++ after)
      ((encodeRecord table fields rest).length + extra) m
    rw [hstore.1] at hV2
    simp only at hV2
    have hR2 := hR fields hwf hcrest hne.2 after
      extra (m ++ [(name, value)]) (by
        intro key hkey
        have hne2 : name ≠ key := by
          intro e
          subst e
          simp only [List.any_eq_false, beq_iff_eq] at hfresh
          exact hfresh name hkey rfl
        exact PbObject.get_append_none m name key value hne2
          (hm key (by simp [PbRecord.keys, hkey])))
    simp only [encodeRecord, hfind, PbRecord.toList]
    rw [List.append_assoc, List.length_append, Nat.add_assoc, hV2, hR2]
    simp

theorem decodeRest_encodeArray_cons (table : List MessageSchema) (value : PbValue)
    (rest : PbArray)
    (hV : ∀ (fields : List FieldSchema) (f : FieldSchema),
      fieldsWellFormed fields = true → f ∈ fields →
      (conformsValue table f value = true ∨
        ∃ elements, value = PbValue.array elements ∧
          conformsArray table f elements = true) →
      PbValue.arraysNonEmpty value = true →
      ∀ (after : List Nat) (extra : Nat) (m : PbObject),
        decodeRest table fields (encodeValue table f value ++ after)
            ((encodeValue table f value).length + extra) m
          = match storeAll m (valueItems f value) with
            | Except.error e => Except.error e
            | Except.ok m2 => decodeRest table fields after extra m2)
    (hA : ∀ (fields : List FieldSchema) (f : FieldSchema),
      fieldsWellFormed fields = true → f ∈ fields →
      conformsArray table f rest = true → PbArray.arraysNonEmpty rest = true →
      ∀ (after : List Nat) (extra : Nat) (m : PbObject),
        decodeRest table fields (encodeArray table f rest ++ after)
            ((encodeArray table f rest).length + extra) m
          = match storeAll m ((PbArray.toList rest).map (fun value => (f, value))) with
            | Except.error e => Except.error e
            | Except.ok m2 => decodeRest table fields after extra m2) :
    ∀ (fields : List FieldSchema) (f : FieldSchema),
      fieldsWellFormed fields = true → f ∈ fields →
      conformsArray table f (PbArray.cons value rest) = true →
      PbArray.arraysNonEmpty (PbArray.cons value rest) = true →
      ∀ (after : List Nat) (extra : Nat) (m : PbObject),
        decodeRest table fields (encodeArray table f (PbArray.cons value rest) ++ after)
            ((encodeArray table f (PbArray.cons value rest)).length + extra) m
          = match storeAll m
              ((PbArray.toList (PbArray.cons value rest)).map (fun value => (f, value))) with
            | Except.error e => Except.error e
            | Except.ok m2 => decodeRest table fields after extra m2 := by
  intro fields f hwf hf hc hne after extra m
  simp only [conformsArray, Bool.and_eq_true] at hc
  simp only [PbArray.arraysNonEmpty, Bool.and_eq_true] at hne
  have hV2 := hV fields f hwf hf (Or.inl hc.1) hne.1
    (encodeArray table f rest ++ after) ((encodeArray table f rest).length + extra) m
  rw [valueItems_of_conformsValue hc.1, storeAll_singleton] at hV2
  simp only [encodeArray, PbArray.toList, List.map_cons, storeAll]
  rw [List.append_assoc, List.length_append, Nat.add_assoc, hV2]
  cases storeField m f value with
  | error e => rfl
  | ok m2 => exact hA fields f hwf hf hc.2 hne.2 after extra m2

mutual
/-- The loop of `decode` on the encoding of the value of a field stores the fields that the
encoding holds and goes on with the bytes after it. -/
theorem decodeRest_encodeValue (table : List MessageSchema)
    (htable : tableWellFormed table = true) : ∀ (v : PbValue),
    ∀ (fields : List FieldSchema) (f : FieldSchema),
      fieldsWellFormed fields = true → f ∈ fields →
      (conformsValue table f v = true ∨
        ∃ elements, v = PbValue.array elements ∧
          conformsArray table f elements = true) →
      PbValue.arraysNonEmpty v = true →
      ∀ (after : List Nat) (extra : Nat) (m : PbObject),
        decodeRest table fields (encodeValue table f v ++ after)
            ((encodeValue table f v).length + extra) m
          = match storeAll m (valueItems f v) with
            | Except.error e => Except.error e
            | Except.ok m2 => decodeRest table fields after extra m2
  | PbValue.str utf8 => decodeRest_encodeValue_str table utf8
  | PbValue.int64 value => decodeRest_encodeValue_int64 table value
  | PbValue.uint32 value => decodeRest_encodeValue_uint32 table value
  | PbValue.message record =>
    decodeRest_encodeValue_message table htable record
      (decodeRest_encodeRecord table htable record)
  | PbValue.array items =>
    decodeRest_encodeValue_array table items (decodeRest_encodeArray table htable items)
/-- The loop of `decode` on the encoding of a conforming record without empty arrays, from
an object without the record's keys, adds the record's properties in the record's order. -/
theorem decodeRest_encodeRecord (table : List MessageSchema)
    (htable : tableWellFormed table = true) : ∀ (record : PbRecord),
    ∀ (fields : List FieldSchema),
      fieldsWellFormed fields = true → conformsRecord table fields record = true →
      PbRecord.arraysNonEmpty record = true →
      ∀ (after : List Nat) (extra : Nat) (m : PbObject),
        (∀ key ∈ PbRecord.keys record, PbObject.get m key = none) →
        decodeRest table fields (encodeRecord table fields record ++ after)
            ((encodeRecord table fields record).length + extra) m
          = decodeRest table fields after extra (m ++ PbRecord.toList record)
  | PbRecord.nil => by
    intro fields _ _ _ after extra m _
    simp [encodeRecord, PbRecord.toList]
  | PbRecord.cons name value rest =>
    decodeRest_encodeRecord_cons table name value rest
      (decodeRest_encodeValue table htable value) (decodeRest_encodeRecord table htable rest)
/-- The loop of `decode` on the encoding of the elements of a repeated field stores the
elements in order and goes on with the bytes after them. -/
theorem decodeRest_encodeArray (table : List MessageSchema)
    (htable : tableWellFormed table = true) : ∀ (items : PbArray),
    ∀ (fields : List FieldSchema) (f : FieldSchema),
      fieldsWellFormed fields = true → f ∈ fields →
      conformsArray table f items = true → PbArray.arraysNonEmpty items = true →
      ∀ (after : List Nat) (extra : Nat) (m : PbObject),
        decodeRest table fields (encodeArray table f items ++ after)
            ((encodeArray table f items).length + extra) m
          = match storeAll m ((PbArray.toList items).map (fun value => (f, value))) with
            | Except.error e => Except.error e
            | Except.ok m2 => decodeRest table fields after extra m2
  | PbArray.nil => by
    intro fields f _ _ _ _ after extra m
    simp [encodeArray, PbArray.toList, storeAll]
  | PbArray.cons value rest =>
    decodeRest_encodeArray_cons table value rest
      (decodeRest_encodeValue table htable value) (decodeRest_encodeArray table htable rest)
end

/-- C15, the record that the claim does not cover: the record of `DeviceInfoWrapper` whose
repeated field `deviceOutputInfoList` is the empty sequence conforms to the schema, its
encoding is the empty byte sequence, and decoding it gives the record without the key, not the
record that was encoded. -/
theorem encode_empty_repeated_field_lost :
    Sample.deviceInfoWrapperSchema ∈ messageTypes ∧
    conforms messageTypes Sample.deviceInfoWrapperSchema Sample.emptyListRecord = true ∧
    encode messageTypes Sample.deviceInfoWrapperSchema Sample.emptyListRecord = [] ∧
    decode messageTypes Sample.deviceInfoWrapperSchema
        (encode messageTypes Sample.deviceInfoWrapperSchema Sample.emptyListRecord)
      = Except.ok [] ∧
    decode messageTypes Sample.deviceInfoWrapperSchema
        (encode messageTypes Sample.deviceInfoWrapperSchema Sample.emptyListRecord)
      ≠ Except.ok Sample.emptyListRecord := by
  decide

/-- C15, amended: for every schema of a table whose schemas have pairwise distinct field
names and pairwise distinct field numbers below 2^29, as the table `messageTypes` has, and
every record that conforms to the schema and holds no empty array, decoding the encoding of
the record with the schema's decoder returns exactly that record. -/
theorem decode_encode_round_trip (table : List MessageSchema)
    (htable : tableWellFormed table = true)
    (schema : MessageSchema) (hschema : schema ∈ table) (record : PbObject)
    (hc : conforms table schema record = true)
    (hne : (PbRecord.ofList record).arraysNonEmpty = true) :
    decode table schema (encode table schema record) = Except.ok record := by
  have h := decodeRest_encodeRecord table htable (PbRecord.ofList record) schema.fields
    (fieldsWellFormed_of_mem htable hschema) hc hne [] 0 [] (fun _ _ => rfl)
  rw [List.append_nil, Nat.add_zero, decodeRest_zero, List.nil_append,
    pbRecord_toList_ofList] at h
  rw [decode_eq_decodeRest]
  unfold encode
  rw [h]
  rfl

/-- C15, amended, on a record of `DeviceInfoWrapper` with two device outputs, one with a
nested status. -/
theorem decode_encode_round_trip_witness :
    tableWellFormed messageTypes = true ∧
    Sample.deviceInfoWrapperSchema ∈ messageTypes ∧
    conforms messageTypes Sample.deviceInfoWrapperSchema Sample.deviceOutputsRecord = true ∧
    (PbRecord.ofList Sample.deviceOutputsRecord).arraysNonEmpty = true ∧
    encode messageTypes Sample.deviceInfoWrapperSchema Sample.deviceOutputsRecord
      = [18, 11, 16, 172, 2, 34, 2, 97, 98, 82, 2, 8, 1, 18, 2, 16, 2] ∧
    decode messageTypes Sample.deviceInfoWrapperSchema
        (encode messageTypes Sample.deviceInfoWrapperSchema Sample.deviceOutputsRecord)
      = Except.ok Sample.deviceOutputsRecord :=
  ⟨by decide, by decide, by decide, by decide, by decide,
    decode_encode_round_trip messageTypes (by decide) Sample.deviceInfoWrapperSchema (by decide)
      Sample.deviceOutputsRecord (by decide) (by decide)⟩

/-! ## The control frame: `sendJson` and `handleMessage` -/

theorem char_toNat_valid (c : Char) :
    c.toNat < 55296 ∨ (57343 < c.toNat ∧ c.toNat < 1114112) := c.valid

theorem char_eq_ofNat {c : Char} {n : Nat} (h : n = c.toNat) : Char.ofNat n = c := by
  rw [h, Char.ofNat_toNat]

/-- The decoder reads back one encoded character, and as many bytes as were written. -/
theorem utf8DecodeOne_utf8EncodeChar (c : Char) (rest : List Nat) :
    ∃ b tail, utf8EncodeChar c = b :: tail ∧
      utf8DecodeOne b (tail ++ rest) = (c, tail.length + 1) := by
  have hv := char_toNat_valid c
  unfold utf8EncodeChar
  simp only
  by_cases h1 : c.toNat ≤ 127
  · rw [if_pos h1]
    refine ⟨_, _, rfl, ?_⟩
    simp only [utf8DecodeOne, if_pos h1, List.nil_append, List.length_nil, Nat.zero_add,
      Char.ofNat_toNat]
  · rw [if_neg h1]
    by_cases h2 : c.toNat ≤ 2047
    · rw [if_pos h2]
      refine ⟨_, _, rfl, ?_⟩
      have a1 : ¬ c.toNat / 64 % 32 + 192 ≤ 127 := by omega
      have a2 : 194 ≤ c.toNat / 64 % 32 + 192 ∧ c.toNat / 64 % 32 + 192 ≤ 223 := by omega
      have a3 : 128 ≤ c.toNat % 64 + 128 ∧ c.toNat % 64 + 128 ≤ 191 := by omega
      simp only [utf8DecodeOne, if_neg a1, if_pos a2, List.cons_append, List.nil_append,
        utf8Continuation, if_pos a3, List.length_singleton]
      rw [char_eq_ofNat (c := c) (by omega)]
    · rw [if_neg h2]
      by_cases h3 : c.toNat ≤ 65535
      · rw [if_pos h3]
        refine ⟨_, _, rfl, ?_⟩
        have a1 : ¬ c.toNat / 4096 % 16 + 224 ≤ 127 := by omega
        have a2 : ¬ (194 ≤ c.toNat / 4096 % 16 + 224 ∧ c.toNat / 4096 % 16 + 224 ≤ 223) := by
          omega
        have a3 : 224 ≤ c.toNat / 4096 % 16 + 224 ∧ c.toNat / 4096 % 16 + 224 ≤ 239 := by
          omega
        have a4 : (if c.toNat / 4096 % 16 + 224 = 224 then 160 else 128)
              ≤ c.toNat / 64 % 64 + 128 ∧
            c.toNat / 64 % 64 + 128
              ≤ (if c.toNat / 4096 % 16 + 224 = 237 then 159 else 191) := by
          constructor
          · split_ifs <;> omega
          · split_ifs <;> omega
        have a5 : 128 ≤ c.toNat % 64 + 128 ∧ c.toNat % 64 + 128 ≤ 191 := by omega
        simp only [utf8DecodeOne, if_neg a1, if_neg a2, if_pos a3, List.cons_append,
          List.nil_append, utf8Continuation, if_pos a4, if_pos a5, List.length_cons,
          List.length_nil]
        rw [char_eq_ofNat (c := c) (by omega)]
      · rw [if_neg h3]
        refine ⟨_, _, rfl, ?_⟩
        have a1 : ¬ c.toNat / 262144 % 8 + 240 ≤ 127 := by omega
        have a2 : ¬ (194 ≤ c.toNat / 262144 % 8 + 240 ∧
            c.toNat / 262144 % 8 + 240 ≤ 223) := by
          omega
        have a3 : ¬ (224 ≤ c.toNat / 262144 % 8 + 240 ∧
            c.toNat / 262144 % 8 + 240 ≤ 239) := by
          omega
        have a4 : 240 ≤ c.toNat / 262144 % 8 + 240 ∧ c.toNat / 262144 % 8 + 240 ≤ 244 := by
          omega
        have a5 : (if c.toNat / 262144 % 8 + 240 = 240 then 144 else 128)
              ≤ c.toNat / 4096 % 64 + 128 ∧
            c.toNat / 4096 % 64 + 128
              ≤ (if c.toNat / 262144 % 8 + 240 = 244 then 143 else 191) := by
          constructor
          · split_ifs <;> omega
          · split_ifs <;> omega
        have a6 : 128 ≤ c.toNat / 64 % 64 + 128 ∧ c.toNat / 64 % 64 + 128 ≤ 191 := by omega
        have a7 : 128 ≤ c.toNat % 64 + 128 ∧ c.toNat % 64 + 128 ≤ 191 := by omega
        simp only [utf8DecodeOne, if_neg a1, if_neg a2, if_neg a3, if_pos a4, List.cons_append,
          List.nil_append, utf8Continuation, if_pos a5, if_pos a6, if_pos a7, List.length_cons,
          List.length_nil]
        rw [char_eq_ofNat (c := c) (by omega)]

/-- The decoder reads back the encoding of a list of characters. -/
theorem utf8DecodeLoop_encode (cs : List Char) :
    ∀ (fuel : Nat), (cs.flatMap utf8EncodeChar).length ≤ fuel →
      utf8DecodeLoop fuel (cs.flatMap utf8EncodeChar) = cs := by
  induction cs with
  | nil =>
    intro fuel _
    cases fuel <;> rfl
  | cons c cs ih =>
    intro fuel hfuel
    obtain ⟨b, tail, henc, hone⟩ := utf8DecodeOne_utf8EncodeChar c (cs.flatMap utf8EncodeChar)
    rw [List.flatMap_cons, henc] at hfuel ⊢
    simp only [List.cons_append, List.length_cons, List.length_append] at hfuel
    cases fuel with
    | zero => omega
    | succ fuel =>
      simp only [List.cons_append, utf8DecodeLoop, List.append_eq, hone, Nat.add_sub_cancel,
        List.drop_left']
      rw [ih fuel (by omega)]

/-- The encoding of characters that do not start with U+FEFF does not start with a byte order
mark. -/
theorem utf8Encode_no_byte_order_mark (cs : List Char)
    (h : cs.head? ≠ some (Char.ofNat 65279)) :
    (cs.flatMap utf8EncodeChar).take 3 ≠ [239, 187, 191] := by
  cases cs with
  | nil => simp
  | cons c cs =>
    have hc : c.toNat ≠ 65279 := by
      intro e
      apply h
      simp only [List.head?_cons, Option.some.injEq]
      exact (char_eq_ofNat e.symm).symm
    have hv := char_toNat_valid c
    rw [List.flatMap_cons]
    unfold utf8EncodeChar
    simp only
    intro hbom
    split_ifs at hbom with h1 h2 h3
    · simp only [List.cons_append, List.nil_append, List.take_succ_cons] at hbom
      have := (List.cons.inj hbom).1
      omega
    · simp only [List.cons_append, List.nil_append, List.take_succ_cons] at hbom
      have := (List.cons.inj hbom).1
      omega
    · simp only [List.cons_append, List.nil_append, List.take_succ_cons, List.take_zero,
        List.cons.injEq, and_true] at hbom
      omega
    · simp only [List.cons_append, List.nil_append, List.take_succ_cons] at hbom
      have := (List.cons.inj hbom).1
      omega

/-- `TextDecoder` undoes `TextEncoder` on a string that does not start with U+FEFF. -/
theorem utf8Decode_utf8Encode (s : String) (h : s.data.head? ≠ some (Char.ofNat 65279)) :
    utf8Decode (utf8Encode s) = s := by
  unfold utf8Decode utf8Encode
  simp only [if_neg (utf8Encode_no_byte_order_mark s.data h)]
  rw [utf8DecodeLoop_encode s.data _ (Nat.le_refl _)]

namespace WebSocketClient

theorem jsonMessage_eq (jsonString : String) :
    jsonMessage jsonString = some (int32LE 1 ++ utf8Encode jsonString) := by
  unfold jsonMessage
  have e0 : newUint8Array (4 + (utf8Encode jsonString).length)
      = [] ++ List.replicate ((int32LE MESSAGE_TYPE_JSON).length
          + (utf8Encode jsonString).length) 0 := by
    rw [length_int32LE]
    simp only [newUint8Array, List.nil_append]
  have s1 := writeBytes_fill [] (int32LE MESSAGE_TYPE_JSON) (utf8Encode jsonString).length 0 rfl
  have e1 : ([] ++ int32LE MESSAGE_TYPE_JSON) ++ List.replicate (utf8Encode jsonString).length 0
      = int32LE MESSAGE_TYPE_JSON ++ List.replicate ((utf8Encode jsonString).length + 0) 0 := by
    simp only [List.nil_append, Nat.add_zero]
  have s2 := writeBytes_fill (int32LE MESSAGE_TYPE_JSON) (utf8Encode jsonString) 0 4
    (length_int32LE _).symm
  simp only [setInt32, typedArraySet, e0, s1, e1, s2, Option.bind_eq_bind, Option.some_bind,
    bind, List.replicate_zero, List.append_nil]
  rfl

end WebSocketClient

namespace WebSocketClient

theorem getInt32_json_frame (body : List Nat) : getInt32 (int32LE 1 ++ body) 0 = some 1 := by
  have h4 : (int32LE 1).length = 4 := length_int32LE 1
  unfold getInt32
  rw [if_pos (by rw [List.length_append, h4]; omega), List.drop_zero]
  have ht : (int32LE 1 ++ body).take 4 = int32LE 1 := by
    rw [← h4, List.take_left']
    rfl
  rw [ht]
  rfl

/-- C19: on an open connection, for every text `jsonString` that does not start with the
character U+FEFF, as no JSON text does, `sendJson` hands to `ws.send` the frame of the four
bytes of the number 1, little-endian, followed by the UTF-8 bytes of the text; and on that
frame `handleMessage` reads the message type 1 from offset 0, little-endian, and decodes from
offset 4 exactly the text that was sent, which is the text it hands to `JSON.parse`. -/
theorem sendJson_frame_round_trip (self : WebSocketClient) (jsonString : String)
    (hopen : self.readyState = OPEN)
    (hstart : jsonString.data.head? ≠ some (Char.ofNat 65279)) :
    (sendJson self jsonString).sent = self.sent ++ [int32LE 1 ++ utf8Encode jsonString] ∧
    getInt32 (int32LE 1 ++ utf8Encode jsonString) 0 = some 1 ∧
    utf8Decode ((int32LE 1 ++ utf8Encode jsonString).drop 4) = jsonString ∧
    handleMessage (int32LE 1 ++ utf8Encode jsonString) = Handled.json jsonString := by
  have hdrop : (int32LE 1 ++ utf8Encode jsonString).drop 4 = utf8Encode jsonString := by
    rw [← length_int32LE 1, List.drop_left']
    rfl
  refine ⟨?_, getInt32_json_frame _, ?_, ?_⟩
  · unfold sendJson
    rw [jsonMessage_eq]
    simp [hopen, wsSend]
  · rw [hdrop, utf8Decode_utf8Encode jsonString hstart]
  · unfold handleMessage
    rw [getInt32_json_frame, hdrop, utf8Decode_utf8Encode jsonString hstart]
    rfl

/-- C19 on an open connection, for the JSON text of the array of a string with characters of
two, three and four UTF-8 bytes and a number. -/
theorem sendJson_frame_round_trip_witness :
    Sample.clientOpen.readyState = OPEN ∧
    ("[\"é€𝄞\",1]" : String).data.head? ≠ some (Char.ofNat 65279) ∧
    (sendJson Sample.clientOpen "[\"é€𝄞\",1]").sent
        = Sample.clientOpen.sent ++ [int32LE 1 ++ utf8Encode "[\"é€𝄞\",1]"] ∧
      getInt32 (int32LE 1 ++ utf8Encode "[\"é€𝄞\",1]") 0 = some 1 ∧
      utf8Decode ((int32LE 1 ++ utf8Encode "[\"é€𝄞\",1]").drop 4) = "[\"é€𝄞\",1]" ∧
      handleMessage (int32LE 1 ++ utf8Encode "[\"é€𝄞\",1]")
        = Handled.json "[\"é€𝄞\",1]" :=
  ⟨by decide, by decide,
    sendJson_frame_round_trip Sample.clientOpen "[\"é€𝄞\",1]" (by decide) (by decide)⟩

end WebSocketClient

/-! ## The capture session: `start` and `stop` -/

namespace FullCaptureManager

theorem start_spec (self : FullCaptureManager) (host : Host) (globalAudioTracks : List Nat) :
    start self host true globalAudioTracks =
      ({ self with observer := some (host.lastHandle + 2),
                   animationFrameId := some (host.lastHandle + 3),
                   videoTrack := some (host.lastHandle + 4),
                   canvas := some (host.lastHandle + 1),
                   audioContext := some (host.lastHandle + 5),
                   audioSources := globalAudioTracks,
                   mixedAudioTrack := some (host.lastHandle + 6),
                   finalStream := some (host.lastHandle + 7),
                   mediaRecorder := some (host.lastHandle + 8),
                   recordedChunks := [] },
        { host with lastHandle := host.lastHandle + 8,
                    bodyCanvases := host.bodyCanvases ++ [host.lastHandle + 1],
                    observers := host.observers ++ [host.lastHandle + 2],
                    frameRequests := host.frameRequests ++ [host.lastHandle + 3],
                    liveTracks := host.liveTracks ++ [host.lastHandle + 4, host.lastHandle + 6],
                    recorders := host.recorders ++ [host.lastHandle + 8] }) := by
  simp [start, startRecording, Host.appendCanvas, Host.observe, Host.requestAnimationFrame,
    Host.newTrack, Host.newObject, Host.startRecorder]

theorem start_without_main (self : FullCaptureManager) (host : Host)
    (globalAudioTracks : List Nat) : start self host false globalAudioTracks = (self, host) := by
  simp [start]

end FullCaptureManager

namespace FullCaptureManager

/-- In the state Idle `stop` releases nothing and changes nothing. -/
theorem stop_of_idle (self : FullCaptureManager) (host : Host) (h : self.idle = true) :
    stop self host = StopResult.returned self host [] := by
  obtain ⟨vt, src, mat, cs, fs, mr, rc, ac, ob, af, cv⟩ := self
  simp only [idle, Bool.and_eq_true, Option.isNone_iff_eq_none] at h
  obtain ⟨⟨⟨⟨⟨⟨h1, h2⟩, h3⟩, h4⟩, h5⟩, h6⟩, h7⟩ := h
  subst h1 h2 h3 h4 h5 h6 h7
  rfl

/-- With the canvas, if any, attached to the body, `stop` returns in the state Idle. -/
theorem stop_returns_idle (self : FullCaptureManager) (host : Host)
    (h : self.canvasAttached host = true) :
    stop self host = StopResult.returned (stop self host).state.1 (stop self host).state.2
        (stop self host).actions ∧
      (stop self host).state.1.idle = true ∧
      (stop self host).state.2.intervals = host.intervals := by
  obtain ⟨vt, src, mat, cs, fs, mr, rc, ac, ob, af, cv⟩ := self
  have hrec : ∃ host0 actions0, stopRecording ⟨vt, src, mat, cs, fs, mr, rc, ac, ob, af, cv⟩ host
      = (host0, actions0) ∧ host0.bodyCanvases = host.bodyCanvases ∧
        host0.intervals = host.intervals := by
    cases mr with
    | none => exact ⟨host, [], rfl, rfl, rfl⟩
    | some r =>
      by_cases hr : r ∈ host.recorders
      · exact ⟨{ host with recorders := host.recorders.erase r },
          [ReleaseAction.recorderStop r], by simp only [stopRecording, if_pos hr], rfl, rfl⟩
      · exact ⟨host, [], by simp only [stopRecording, if_neg hr], rfl, rfl⟩
  obtain ⟨host0, actions0, hrec, hbody, hint⟩ := hrec
  simp only [stop, hrec]
  cases cv with
  | none =>
    cases af <;> cases ob <;> cases vt <;> cases mat <;>
      simp [cancelFrameAndAfter, disconnectAndAfter, removeCanvasAndAfter,
        stopTracksAndCleanUp, stopTrackIfSet, Host.stopTrack, idle, hint, StopResult.state,
        StopResult.actions]
  | some c =>
    have hc : c ∈ host0.bodyCanvases := by
      rw [hbody]
      simpa [canvasAttached] using h
    cases af <;> cases ob <;> cases vt <;> cases mat <;>
      simp [cancelFrameAndAfter, disconnectAndAfter, removeCanvasAndAfter,
        stopTracksAndCleanUp, stopTrackIfSet, Host.stopTrack, idle, hint, hc,
        StopResult.state, StopResult.actions]

/-- C24: in every state of the manager and the page in which the canvas of `this.canvas`, if
there is one, is a child of `document.body` (as it is in every state that `start` and `stop`
lead to), `stop` returns with the recorder, the draw-loop handle, the observer, the canvas,
the video track, the mixed audio track and the final stream cleared; a second `stop` then
returns too, performs no release and leaves the manager and the page as the first call left
them. -/
theorem stop_twice_same_as_once (self : FullCaptureManager) (host : Host)
    (hcanvas : self.canvasAttached host = true) :
    ∃ self1 host1 actions,
      stop self host = StopResult.returned self1 host1 actions ∧
      stop self1 host1 = StopResult.returned self1 host1 [] ∧
      self1.mediaRecorder = none ∧ self1.animationFrameId = none ∧ self1.observer = none ∧
      self1.canvas = none ∧ self1.videoTrack = none ∧ self1.mixedAudioTrack = none ∧
      self1.finalStream = none := by
  obtain ⟨h1, hidle, _⟩ := stop_returns_idle self host hcanvas
  refine ⟨_, _, _, h1, stop_of_idle _ _ hidle, ?_⟩
  simp only [idle, Bool.and_eq_true, Option.isNone_iff_eq_none] at hidle
  obtain ⟨⟨⟨⟨⟨⟨h1, h2⟩, h3⟩, h4⟩, h5⟩, h6⟩, h7⟩ := hidle
  exact ⟨h1, h2, h3, h4, h5, h6, h7⟩

/-- C24 on the state that `start` leaves on a fresh page: the first `stop` performs the six
releases, the second none. -/
theorem stop_twice_same_as_once_witness :
    (start init Host.init true [7]).1.canvasAttached (start init Host.init true [7]).2 = true ∧
    (stop (start init Host.init true [7]).1 (start init Host.init true [7]).2).actions
      = [ReleaseAction.recorderStop 8, ReleaseAction.cancelAnimationFrame 3,
          ReleaseAction.observerDisconnect 2, ReleaseAction.removeCanvas 1,
          ReleaseAction.trackStop 4, ReleaseAction.trackStop 6] ∧
    ∃ self1 host1 actions,
      stop (start init Host.init true [7]).1 (start init Host.init true [7]).2
        = StopResult.returned self1 host1 actions ∧
      stop self1 host1 = StopResult.returned self1 host1 [] ∧
      self1.mediaRecorder = none ∧ self1.animationFrameId = none ∧ self1.observer = none ∧
      self1.canvas = none ∧ self1.videoTrack = none ∧ self1.mixedAudioTrack = none ∧
      self1.finalStream = none :=
  ⟨by decide, by decide,
    stop_twice_same_as_once (start init Host.init true [7]).1 (start init Host.init true [7]).2
      (by decide)⟩

/-- The canvas of `this.canvas` is attached after `start`, if it was before. -/
theorem canvasAttached_start (self : FullCaptureManager) (host : Host) (mainElement : Bool)
    (globalAudioTracks : List Nat) (h : self.canvasAttached host = true) :
    (start self host mainElement globalAudioTracks).1.canvasAttached
      (start self host mainElement globalAudioTracks).2 = true := by
  cases mainElement with
  | false => rw [start_without_main]; exact h
  | true => rw [start_spec]; simp [canvasAttached]

/-- The canvas of `this.canvas`, if there is one, is attached in every state that `start` and
`stop` lead to from the state of the constructor on a fresh page. -/
theorem canvasAttached_run (calls : List Call) (state : FullCaptureManager × Host)
    (h : state.1.canvasAttached state.2 = true) :
    (run state calls).1.canvasAttached (run state calls).2 = true := by
  induction calls generalizing state with
  | nil => exact h
  | cons call calls ih =>
    apply ih
    cases call with
    | start mainElement globalAudioTracks =>
      exact canvasAttached_start state.1 state.2 mainElement globalAudioTracks h
    | stop =>
      obtain ⟨_, hidle, _⟩ := stop_returns_idle state.1 state.2 h
      simp only [idle, Bool.and_eq_true, Option.isNone_iff_eq_none] at hidle
      simp only [step, canvasAttached, hidle.1.1.1.2]

theorem canvasAttached_second_start (self : FullCaptureManager) (host : Host)
    (tracks1 tracks2 : List Nat) :
    (start (start self host true tracks1).1 (start self host true tracks1).2 true
        tracks2).1.canvasAttached
      (start (start self host true tracks1).1 (start self host true tracks1).2 true
        tracks2).2 = true := by
  rw [start_spec (start self host true tracks1).1]
  simp [canvasAttached]

/-- C23: from every state of the manager and the page, two calls of `start` in a row, with a
`main` element in the page, leave two canvases of the script in the body, two observers
observing, two draw loops waiting for a frame and two recorders recording; the second call
replaces the session fields of the first; and a `stop` after them releases the second
session only: the canvas, the observer, the draw loop and the recorder of the first stay. -/
theorem start_twice_starts_second_session (self : FullCaptureManager) (host : Host)
    (tracks1 tracks2 : List Nat) :
    (run (self, host) [Call.start true tracks1, Call.start true tracks2]).2.bodyCanvases
      = host.bodyCanvases ++ [host.lastHandle + 1, host.lastHandle + 9] ∧
    (run (self, host) [Call.start true tracks1, Call.start true tracks2]).2.observers
      = host.observers ++ [host.lastHandle + 2, host.lastHandle + 10] ∧
    (run (self, host) [Call.start true tracks1, Call.start true tracks2]).2.frameRequests
      = host.frameRequests ++ [host.lastHandle + 3, host.lastHandle + 11] ∧
    (run (self, host) [Call.start true tracks1, Call.start true tracks2]).2.recorders
      = host.recorders ++ [host.lastHandle + 8, host.lastHandle + 16] ∧
    (run (self, host) [Call.start true tracks1]).1.canvas = some (host.lastHandle + 1) ∧
    (run (self, host) [Call.start true tracks1]).1.mediaRecorder
      = some (host.lastHandle + 8) ∧
    (run (self, host) [Call.start true tracks1, Call.start true tracks2]).1.canvas
      = some (host.lastHandle + 9) ∧
    (run (self, host) [Call.start true tracks1, Call.start true tracks2]).1.mediaRecorder
      = some (host.lastHandle + 16) ∧
    (run (self, host) [Call.start true tracks1, Call.start true tracks2, Call.stop]).1.idle
      = true ∧
    host.lastHandle + 1 ∈
      (run (self, host)
        [Call.start true tracks1, Call.start true tracks2, Call.stop]).2.bodyCanvases ∧
    host.lastHandle + 2 ∈
      (run (self, host)
        [Call.start true tracks1, Call.start true tracks2, Call.stop]).2.observers ∧
    host.lastHandle + 3 ∈
      (run (self, host)
        [Call.start true tracks1, Call.start true tracks2, Call.stop]).2.frameRequests ∧
    host.lastHandle + 8 ∈
      (run (self, host)
        [Call.start true tracks1, Call.start true tracks2, Call.stop]).2.recorders := by
  have h1 : run (self, host) [Call.start true tracks1] = start self host true tracks1 := rfl
  have h2 : run (self, host) [Call.start true tracks1, Call.start true tracks2]
      = start (start self host true tracks1).1 (start self host true tracks1).2 true
          tracks2 := rfl
  have h3 : run (self, host) [Call.start true tracks1, Call.start true tracks2, Call.stop]
      = (stop (start (start self host true tracks1).1 (start self host true tracks1).2 true
          tracks2).1 (start (start self host true tracks1).1
            (start self host true tracks1).2 true tracks2).2).state := rfl
  have hstop := stop_returns_idle _ _
    (canvasAttached_second_start self host tracks1 tracks2)
  rw [h1, h2, h3]
  refine ⟨?_, ?_, ?_, ?_, ?_, ?_, ?_, ?_, hstop.2.1, ?_, ?_, ?_, ?_⟩
  · simp [start_spec]
  · simp [start_spec]
  · simp [start_spec]
  · simp [start_spec]
  · simp [start_spec]
  · simp [start_spec]
  · simp [start_spec]
  · simp [start_spec]
  · simp [start_spec, stop, stopRecording, cancelFrameAndAfter, disconnectAndAfter,
      removeCanvasAndAfter, stopTracksAndCleanUp, stopTrackIfSet, Host.stopTrack,
      StopResult.state, List.mem_erase_of_ne]
  · simp [start_spec, stop, stopRecording, cancelFrameAndAfter, disconnectAndAfter,
      removeCanvasAndAfter, stopTracksAndCleanUp, stopTrackIfSet, Host.stopTrack,
      StopResult.state, List.mem_erase_of_ne]
  · simp [start_spec, stop, stopRecording, cancelFrameAndAfter, disconnectAndAfter,
      removeCanvasAndAfter, stopTracksAndCleanUp, stopTrackIfSet, Host.stopTrack,
      StopResult.state, List.mem_erase_of_ne]
  · simp [start_spec, stop, stopRecording, cancelFrameAndAfter, disconnectAndAfter,
      removeCanvasAndAfter, stopTracksAndCleanUp, stopTrackIfSet, Host.stopTrack,
      StopResult.state, List.mem_erase_of_ne]

end FullCaptureManager

/-! ## The media gate and the filler-frame timer -/

namespace Page

/-- What holds of the objects between calls: the timer field is set exactly when the gate is
open, the timers of the page are the one of the field, and the canvas of the capture manager,
if any, is attached. -/
theorem inv_step (page : Page) (call : Call)
    (h1 : page.ws.fillerFrameInterval.isSome = page.ws.mediaSendingEnabled)
    (h2 : page.host.intervals = page.ws.fillerFrameInterval.toList)
    (h3 : page.fullCaptureManager.canvasAttached page.host = true) :
    (step page call).ws.fillerFrameInterval.isSome = (step page call).ws.mediaSendingEnabled ∧
    (step page call).host.intervals = (step page call).ws.fillerFrameInterval.toList ∧
    (step page call).fullCaptureManager.canvasAttached (step page call).host = true := by
  obtain ⟨ws, fcm, host⟩ := page
  cases call with
  | enableMediaSending mainElement globalAudioTracks =>
    cases hf : ws.fillerFrameInterval with
    | some id =>
      have e : step ⟨ws, fcm, host⟩ (Call.enableMediaSending mainElement globalAudioTracks)
          = ⟨{ ws with mediaSendingEnabled := true },
              (fcm.start host mainElement globalAudioTracks).1,
              (fcm.start host mainElement globalAudioTracks).2⟩ := by
        simp [step, WebSocketClient.enableMediaSending, WebSocketClient.startFillerFrameTimer,
          hf]
      rw [e]
      refine ⟨by simp [hf], ?_, FullCaptureManager.canvasAttached_start fcm host _ _ h3⟩
      cases mainElement with
      | false => rw [FullCaptureManager.start_without_main]; exact h2
      | true => rw [FullCaptureManager.start_spec]; exact h2
    | none =>
      have hint : host.intervals = [] := by
        have := h2
        simp only [hf] at this
        exact this
      have h3' : fcm.canvasAttached host.setInterval.2 = true := h3
      have e : step ⟨ws, fcm, host⟩ (Call.enableMediaSending mainElement globalAudioTracks)
          = ⟨{ ws with mediaSendingEnabled := true,
                       fillerFrameInterval := some (host.lastHandle + 1) },
              (fcm.start host.setInterval.2 mainElement globalAudioTracks).1,
              (fcm.start host.setInterval.2 mainElement globalAudioTracks).2⟩ := by
        simp [step, WebSocketClient.enableMediaSending, WebSocketClient.startFillerFrameTimer,
          hf, Host.setInterval]
      rw [e]
      refine ⟨rfl, ?_, FullCaptureManager.canvasAttached_start fcm _ _ _ h3'⟩
      cases mainElement with
      | false =>
        rw [FullCaptureManager.start_without_main]
        simp [Host.setInterval, hint]
      | true =>
        rw [FullCaptureManager.start_spec]
        simp [Host.setInterval, hint]
  | disableMediaSending =>
    have hclear : (WebSocketClient.stopFillerFrameTimer
        { ws with mediaSendingEnabled := false } host).1.fillerFrameInterval = none ∧
        (WebSocketClient.stopFillerFrameTimer
          { ws with mediaSendingEnabled := false } host).1.mediaSendingEnabled = false ∧
        (WebSocketClient.stopFillerFrameTimer
          { ws with mediaSendingEnabled := false } host).2.intervals = [] ∧
        (WebSocketClient.stopFillerFrameTimer
          { ws with mediaSendingEnabled := false } host).2.bodyCanvases
            = host.bodyCanvases := by
      cases hf : ws.fillerFrameInterval with
      | some id =>
        have hint : host.intervals = [id] := by
          have := h2
          simp only [hf] at this
          exact this
        simp [WebSocketClient.stopFillerFrameTimer, hf, Host.clearInterval, hint]
      | none =>
        have hint : host.intervals = [] := by
          have := h2
          simp only [hf] at this
          exact this
        simp [WebSocketClient.stopFillerFrameTimer, hf, hint]
    have hatt : fcm.canvasAttached (WebSocketClient.stopFillerFrameTimer
        { ws with mediaSendingEnabled := false } host).2 = true := by
      have := h3
      simp only [FullCaptureManager.canvasAttached] at this ⊢
      rw [hclear.2.2.2]
      exact this
    obtain ⟨hs, hidle, hint⟩ := FullCaptureManager.stop_returns_idle fcm _ hatt
    have e : step ⟨ws, fcm, host⟩ Call.disableMediaSending
        = ⟨(WebSocketClient.stopFillerFrameTimer
              { ws with mediaSendingEnabled := false } host).1,
            (fcm.stop (WebSocketClient.stopFillerFrameTimer
              { ws with mediaSendingEnabled := false } host).2).state.1,
            (fcm.stop (WebSocketClient.stopFillerFrameTimer
              { ws with mediaSendingEnabled := false } host).2).state.2⟩ := by
      simp only [step, WebSocketClient.disableMediaSending]
      rw [hs]
      rfl
    rw [e]
    simp only [FullCaptureManager.idle, Bool.and_eq_true, Option.isNone_iff_eq_none] at hidle
    refine ⟨by simp only [hclear.1, hclear.2.1, Option.isSome_none], ?_, ?_⟩
    · simp only [hint, hclear.2.2.1, hclear.1, Option.toList]
    · simp only [FullCaptureManager.canvasAttached, hidle.1.1.1.2]

theorem inv_run (calls : List Call) (page : Page)
    (h1 : page.ws.fillerFrameInterval.isSome = page.ws.mediaSendingEnabled)
    (h2 : page.host.intervals = page.ws.fillerFrameInterval.toList)
    (h3 : page.fullCaptureManager.canvasAttached page.host = true) :
    (run page calls).ws.fillerFrameInterval.isSome = (run page calls).ws.mediaSendingEnabled ∧
    (run page calls).host.intervals = (run page calls).ws.fillerFrameInterval.toList ∧
    (run page calls).fullCaptureManager.canvasAttached (run page calls).host = true := by
  induction calls generalizing page with
  | nil => exact ⟨h1, h2, h3⟩
  | cons call calls ih =>
    obtain ⟨g1, g2, g3⟩ := inv_step page call h1 h2 h3
    exact ih (step page call) g1 g2 g3

/-- What `disableMediaSending` does in a state in which the timers of the page are the one
of the field and the canvas, if any, is attached. -/
theorem disable_spec (page : Page)
    (h2 : page.host.intervals = page.ws.fillerFrameInterval.toList)
    (h3 : page.fullCaptureManager.canvasAttached page.host = true) :
    WebSocketClient.disableMediaSending page
        = DisableResult.returned (WebSocketClient.disableMediaSending page).page ∧
      (WebSocketClient.disableMediaSending page).page.ws.mediaSendingEnabled = false ∧
      (WebSocketClient.disableMediaSending page).page.ws.fillerFrameInterval = none ∧
      (WebSocketClient.disableMediaSending page).page.host.intervals = [] ∧
      (WebSocketClient.disableMediaSending page).page.fullCaptureManager.idle = true := by
  obtain ⟨ws, fcm, host⟩ := page
  have hclear : (WebSocketClient.stopFillerFrameTimer
      { ws with mediaSendingEnabled := false } host).1.fillerFrameInterval = none ∧
      (WebSocketClient.stopFillerFrameTimer
        { ws with mediaSendingEnabled := false } host).1.mediaSendingEnabled = false ∧
      (WebSocketClient.stopFillerFrameTimer
        { ws with mediaSendingEnabled := false } host).2.intervals = [] ∧
      (WebSocketClient.stopFillerFrameTimer
        { ws with mediaSendingEnabled := false } host).2.bodyCanvases
          = host.bodyCanvases := by
    cases hf : ws.fillerFrameInterval with
    | some id =>
      have hint : host.intervals = [id] := by
        have := h2
        simp only [hf] at this
        exact this
      simp [WebSocketClient.stopFillerFrameTimer, hf, Host.clearInterval, hint]
    | none =>
      have hint : host.intervals = [] := by
        have := h2
        simp only [hf] at this
        exact this
      simp [WebSocketClient.stopFillerFrameTimer, hf, hint]
  have hatt : fcm.canvasAttached (WebSocketClient.stopFillerFrameTimer
      { ws with mediaSendingEnabled := false } host).2 = true := by
    have := h3
    simp only [FullCaptureManager.canvasAttached] at this ⊢
    rw [hclear.2.2.2]
    exact this
  obtain ⟨hs, hidle, hint⟩ := FullCaptureManager.stop_returns_idle fcm _ hatt
  have e : WebSocketClient.disableMediaSending ⟨ws, fcm, host⟩
      = DisableResult.returned ⟨(WebSocketClient.stopFillerFrameTimer
            { ws with mediaSendingEnabled := false } host).1,
          (fcm.stop (WebSocketClient.stopFillerFrameTimer
            { ws with mediaSendingEnabled := false } host).2).state.1,
          (fcm.stop (WebSocketClient.stopFillerFrameTimer
            { ws with mediaSendingEnabled := false } host).2).state.2⟩ := by
    simp only [WebSocketClient.disableMediaSending]
    rw [hs]
    rfl
  rw [e]
  exact ⟨rfl, hclear.2.1, hclear.1, by simp only [DisableResult.page, hint, hclear.2.2.1],
    hidle⟩

/-- In a state with the gate closed, no timer and the capture manager Idle,
`disableMediaSending` changes nothing. -/
theorem disable_of_disabled (page : Page) (h1 : page.ws.mediaSendingEnabled = false)
    (h2 : page.ws.fillerFrameInterval = none)
    (h3 : page.fullCaptureManager.idle = true) :
    WebSocketClient.disableMediaSending page = DisableResult.returned page := by
  obtain ⟨ws, fcm, host⟩ := page
  obtain ⟨rs, sent, gate, t, fi, lf, bf⟩ := ws
  simp only at h1 h2 h3
  subst h1 h2
  simp only [WebSocketClient.disableMediaSending, WebSocketClient.stopFillerFrameTimer,
    FullCaptureManager.stop_of_idle fcm host h3]

/-- The gate and the filler-frame timer: in every state that calls of `enableMediaSending`
and `disableMediaSending`, in any order and with the page in any condition at each call,
lead to from the state the constructors build, a filler-frame timer of the page is running
exactly when `mediaSendingEnabled` is true; the timers running are the one of
`fillerFrameInterval`, so at most one; and `disableMediaSending` returns, leaving the gate
false, no timer field, no timer running and the session fields of the capture manager
cleared, and a second `disableMediaSending` returns leaving everything as the first did.
What the page still holds of a capture session is not part of this statement. -/
theorem media_sending_gate_and_timer (now : Nat) (calls : List Call) :
    let page := run (init now) calls
    let page1 := (WebSocketClient.disableMediaSending page).page
    page.host.intervals.isEmpty = !page.ws.mediaSendingEnabled ∧
    page.host.intervals = page.ws.fillerFrameInterval.toList ∧
    page.host.intervals.length ≤ 1 ∧
    WebSocketClient.disableMediaSending page = DisableResult.returned page1 ∧
    page1.ws.mediaSendingEnabled = false ∧
    page1.ws.fillerFrameInterval = none ∧
    page1.host.intervals = [] ∧
    page1.fullCaptureManager.idle = true ∧
    WebSocketClient.disableMediaSending page1 = DisableResult.returned page1 := by
  intro page page1
  obtain ⟨h1, h2, h3⟩ := inv_run calls (init now) rfl rfl rfl
  obtain ⟨d1, d2, d3, d4, d5⟩ := disable_spec page h2 h3
  refine ⟨?_, h2, ?_, d1, d2, d3, d4, d5, disable_of_disabled page1 d2 d3 d5⟩
  · show (run (init now) calls).host.intervals.isEmpty
      = !(run (init now) calls).ws.mediaSendingEnabled
    rw [h2, ← h1]
    cases (run (init now) calls).ws.fillerFrameInterval <;> rfl
  · show (run (init now) calls).host.intervals.length ≤ 1
    rw [h2]
    cases (run (init now) calls).ws.fillerFrameInterval <;> simp

/-- C27, `enableMediaSending` twice and then `disableMediaSending`, with a `<main>` element in
the page: the call returns and leaves the gate false, no timer and the session fields of the
capture manager cleared, but the capture pipeline is not idle. The canvas, the mutation
observer, the draw loop, the recorder and the two tracks of the session that the first
`enableMediaSending` started are still there, and a further `disableMediaSending` leaves
them. After one `enableMediaSending`, `disableMediaSending` leaves none of them. -/
theorem disableMediaSending_leaves_session (now : Nat) (tracks1 tracks2 : List Nat) :
    let page := run (init now)
      [Call.enableMediaSending true tracks1, Call.enableMediaSending true tracks2]
    let page1 := (WebSocketClient.disableMediaSending page).page
    let once := (WebSocketClient.disableMediaSending
      (run (init now) [Call.enableMediaSending true tracks1])).page
    WebSocketClient.disableMediaSending page = DisableResult.returned page1 ∧
    page1.ws.mediaSendingEnabled = false ∧
    page1.ws.fillerFrameInterval = none ∧
    page1.host.intervals = [] ∧
    page1.fullCaptureManager.idle = true ∧
    page1.host.bodyCanvases = [2] ∧
    page1.host.observers = [3] ∧
    page1.host.frameRequests = [4] ∧
    page1.host.recorders = [9] ∧
    page1.host.liveTracks = [5, 7] ∧
    WebSocketClient.disableMediaSending page1 = DisableResult.returned page1 ∧
    once.fullCaptureManager.idle = true ∧
    once.host.bodyCanvases = [] ∧ once.host.observers = [] ∧ once.host.frameRequests = [] ∧
    once.host.recorders = [] ∧ once.host.liveTracks = [] := by
  intro page page1 once
  refine ⟨rfl, rfl, rfl, rfl, rfl, rfl, rfl, rfl, rfl, rfl, rfl, rfl, rfl, rfl, rfl, rfl, rfl⟩

end Page

/-! ## The media gate and the sends -/

namespace WebSocketClient

/-- C21, the send that the gate does not cover: on an open connection with
`mediaSendingEnabled` false, `updateDeviceOutputs` hands a `DeviceOutputsUpdate` message to
`sendJson`, and `sendJson` passes its frame to `ws.send`: the type 1 followed by the UTF-8
bytes of the JSON text. -/
theorem sendJson_ignores_gate :
    Sample.clientGated.readyState = OPEN ∧ Sample.clientGated.mediaSendingEnabled = false ∧
    UserManager.updateDeviceOutputs UserManager.init [(Sample.outC2disabled, 5)]
      = UpdateResult.returned Sample.managerSharedDisabled
          [ControlMessage.deviceOutputsUpdate
            (JsMap.values Sample.managerSharedDisabled.deviceOutputMap)] ∧
    (sendControl Sample.clientGated
        [ControlMessage.deviceOutputsUpdate
          (JsMap.values Sample.managerSharedDisabled.deviceOutputMap)]).sent
      = [int32LE 1 ++ utf8Encode (ControlMessage.deviceOutputsUpdate
          (JsMap.values Sample.managerSharedDisabled.deviceOutputMap)).jsonText] ∧
    (sendControl Sample.clientGated
        [ControlMessage.deviceOutputsUpdate
          (JsMap.values Sample.managerSharedDisabled.deviceOutputMap)]).sent ≠ [] := by
  have hsend : (sendControl Sample.clientGated
        [ControlMessage.deviceOutputsUpdate
          (JsMap.values Sample.managerSharedDisabled.deviceOutputMap)]).sent
      = [int32LE 1 ++ utf8Encode (ControlMessage.deviceOutputsUpdate
          (JsMap.values Sample.managerSharedDisabled.deviceOutputMap)).jsonText] := by
    simp only [sendControl, List.foldl_cons, List.foldl_nil, sendJson, jsonMessage_eq]
    rfl
  refine ⟨by decide, by decide, by decide, hsend, ?_⟩
  rw [hsend]
  exact List.cons_ne_nil _ _

/-- C21, amended: in every state in which `mediaSendingEnabled` is false, each of
`sendClosedCaptionUpdate`, `sendEncodedMP4Chunk`, `sendAudio` and `sendVideo` returns leaving
the client as it was, so nothing is passed to `ws.send`; `sendJson` does not read the gate:
on an open connection it passes the frame of its JSON text to `ws.send`, and on a connection
that is not open it returns leaving the client as it was. -/
theorem sends_with_gate_off (self : WebSocketClient) (encodedMP4Data : List Nat)
    (timestamp audioStreamId : Int) (audioData : TypedArray) (streamId : String)
    (width height : Int) (videoData : TypedArray) (now : Nat) (jsonString : String)
    (hgate : self.mediaSendingEnabled = false) :
    sendClosedCaptionUpdate self jsonString = self ∧
    sendEncodedMP4Chunk self encodedMP4Data = self ∧
    sendAudio self timestamp audioStreamId audioData = self ∧
    sendVideo self timestamp streamId width height videoData now = self ∧
    (self.readyState = OPEN →
      sendJson self jsonString = wsSend self (int32LE 1 ++ utf8Encode jsonString)) ∧
    (self.readyState ≠ OPEN → sendJson self jsonString = self) := by
  refine ⟨?_, ?_, ?_, ?_, ?_, ?_⟩
  · simp [sendClosedCaptionUpdate, hgate]
  · simp [sendEncodedMP4Chunk, hgate]
  · simp [sendAudio, hgate]
  · simp [sendVideo, hgate]
  · intro hopen
    unfold sendJson
    rw [jsonMessage_eq]
    simp [hopen]
  · intro hclosed
    simp [sendJson, hclosed]

/-- C21, amended, on an open connection with the gate off and on a closing connection with
the gate off. -/
theorem sends_with_gate_off_witness :
    Sample.clientGated.mediaSendingEnabled = false ∧
    sendVideo Sample.clientGated 1000 "ab" 2 1 ⟨[9, 8, 7]⟩ 55 = Sample.clientGated ∧
    sendClosedCaptionUpdate Sample.clientGated "[1]" = Sample.clientGated ∧
    (sendJson Sample.clientGated "[1]").sent = [[1, 0, 0, 0, 91, 49, 93]] :=
  ⟨by decide,
    (sends_with_gate_off Sample.clientGated [] 1000 7 ⟨[]⟩ "ab" 2 1 ⟨[9, 8, 7]⟩ 55 "[1]"
      (by decide)).2.2.2.1,
    (sends_with_gate_off Sample.clientGated [] 1000 7 ⟨[]⟩ "ab" 2 1 ⟨[9, 8, 7]⟩ 55 "[1]"
      (by decide)).1,
    (congrArg WebSocketClient.sent
      ((sends_with_gate_off Sample.clientGated [] 1000 7 ⟨[]⟩ "ab" 2 1 ⟨[9, 8, 7]⟩ 55 "[1]"
        (by decide)).2.2.2.2.1 (by decide))).trans (by decide)⟩

/-- What the callback of the filler-frame timer does when its condition holds. -/
theorem fillerFrameTick_of_due (self : WebSocketClient) (userManager : UserManager)
    (videoTrackManager : VideoTrackManager) (currentTime : Nat)
    (hgate : self.mediaSendingEnabled = true)
    (helapsed : currentTime - self.lastVideoFrameTime ≥ 500) :
    fillerFrameTick self userManager videoTrackManager currentTime
      = { self := (currentVideoStreamIsActive self userManager videoTrackManager).2.1,
          videoTrackManager :=
            (currentVideoStreamIsActive self userManager videoTrackManager).2.2,
          frameToUse := some
            (if (currentVideoStreamIsActive self userManager videoTrackManager).1 then
              (currentVideoStreamIsActive self userManager videoTrackManager).2.1.lastVideoFrame
            else
              (currentVideoStreamIsActive self userManager
                videoTrackManager).2.1.blackVideoFrame) } := by
  unfold fillerFrameTick
  rw [if_pos (by simp [hgate, helapsed])]

/-- C22: on a tick of the filler-frame timer in a state in which `mediaSendingEnabled` is
true, more than 500 ms have passed since the last real video frame and the device output of
the selected feed is not active (it is disabled, or there is no feed or no output for it),
the callback chooses the black frame as `frameToUse` and puts it in `lastVideoFrame`, but
passes nothing to `ws.send`, whether the connection is open or not: no message is sent and
the rest of the client is as it was. -/
theorem fillerFrameTick_sends_nothing (self : WebSocketClient) (userManager : UserManager)
    (videoTrackManager : VideoTrackManager) (currentTime : Nat)
    (hgate : self.mediaSendingEnabled = true)
    (helapsed : currentTime - self.lastVideoFrameTime > 500)
    (hfeed : userManager.deviceForStreamIsActive
      videoTrackManager.getStreamIdToSendCached.1 = false) :
    (fillerFrameTick self userManager videoTrackManager currentTime).frameToUse
      = some self.blackVideoFrame ∧
    (fillerFrameTick self userManager videoTrackManager currentTime).self
      = { self with lastVideoFrame := self.blackVideoFrame } ∧
    (fillerFrameTick self userManager videoTrackManager currentTime).self.sent
      = self.sent := by
  have hactive : currentVideoStreamIsActive self userManager videoTrackManager
      = (false, { self with lastVideoFrame := self.blackVideoFrame },
          videoTrackManager.getStreamIdToSendCached.2) := by
    simp [currentVideoStreamIsActive, hfeed]
  rw [fillerFrameTick_of_due self userManager videoTrackManager currentTime hgate
    (Nat.le_of_lt helapsed), hactive]
  exact ⟨rfl, rfl, rfl⟩

/-- C22 at time 700 on an open, enabled connection whose last real frame was sent at time
100, with the selected feed on the stream `shared` and the device output of that stream
disabled: the black frame is chosen, and nothing is sent. -/
theorem fillerFrameTick_sends_nothing_witness :
    Sample.clientAfterFrame.mediaSendingEnabled = true ∧
    Sample.clientAfterFrame.readyState = OPEN ∧
    700 - Sample.clientAfterFrame.lastVideoFrameTime > 500 ∧
    Sample.managerSharedDisabled.deviceForStreamIsActive
      Sample.feedShared.getStreamIdToSendCached.1 = false ∧
    Sample.clientAfterFrame.lastVideoFrame ≠ Sample.clientAfterFrame.blackVideoFrame ∧
    (fillerFrameTick Sample.clientAfterFrame Sample.managerSharedDisabled Sample.feedShared
      700).frameToUse = some Sample.smallFrame ∧
    (fillerFrameTick Sample.clientAfterFrame Sample.managerSharedDisabled Sample.feedShared
      700).self.sent = [] :=
  ⟨by decide, by decide, by decide, by decide, by decide,
    (fillerFrameTick_sends_nothing Sample.clientAfterFrame Sample.managerSharedDisabled
      Sample.feedShared 700 (by decide) (by decide) (by decide)).1,
    (fillerFrameTick_sends_nothing Sample.clientAfterFrame Sample.managerSharedDisabled
      Sample.feedShared 700 (by decide) (by decide) (by decide)).2.2⟩

end WebSocketClient

/-! ## Captions -/

namespace CaptionManager

theorem syncAll_cons (self : CaptionManager) (ws : WebSocketClient) (caption : JsObject)
    (captions : List JsObject) :
    syncAll self ws (caption :: captions)
      = syncAll (singleCaptionSynced self ws caption).1 (singleCaptionSynced self ws caption).2
          captions := rfl

theorem syncAll_append (self : CaptionManager) (ws : WebSocketClient)
    (captions : List JsObject) (caption : JsObject) :
    syncAll self ws (captions ++ [caption])
      = singleCaptionSynced (syncAll self ws captions).1 (syncAll self ws captions).2
          caption := by
  simp [syncAll, List.foldl_append]

/-- The map after a sequence of captions: under every key the last caption of the sequence
with that `captionId`, or what the map held before when there is none. -/
theorem syncAll_captions (self : CaptionManager) (ws : WebSocketClient)
    (captions : List JsObject) (id : JsValue) :
    JsMap.get (syncAll self ws captions).1.captions id
      = match lastSynced captions id with
        | some caption => some caption
        | none => JsMap.get self.captions id := by
  induction captions using List.reverseRecOn with
  | nil => rfl
  | append_singleton captions caption ih =>
    rw [syncAll_append]
    simp only [singleCaptionSynced, lastSynced, List.reverse_append, List.reverse_cons,
      List.reverse_nil, List.nil_append, List.singleton_append, List.find?_cons]
    by_cases h : JsObject.getProp caption "captionId" = id
    · rw [h, JsMap.get_set_self]
      simp
    · rw [JsMap.get_set_of_ne _ _ h, ih]
      simp [h, lastSynced]

/-- C25: for every caption manager, every sequence of captions passed to
`singleCaptionSynced` one after the other and every `captionId`: the map holds under the id
the last caption of the sequence that carries it, whatever its `version`, and what it held
before when no caption of the sequence carries it; and the map is the same whatever the
client is, connected or not, with the gate on or off. -/
theorem caption_map_last_write_wins (self : CaptionManager) (ws ws' : WebSocketClient)
    (captions : List JsObject) (id : JsValue) :
    JsMap.get (syncAll self ws captions).1.captions id
      = (match lastSynced captions id with
        | some caption => some caption
        | none => JsMap.get self.captions id) ∧
    (syncAll self ws captions).1 = (syncAll self ws' captions).1 := by
  refine ⟨syncAll_captions self ws captions id, ?_⟩
  induction captions generalizing self ws ws' with
  | nil => rfl
  | cons caption captions ih =>
    rw [syncAll_cons, syncAll_cons]
    exact ih _ _ _

end CaptionManager

/-! ## Collection events -/

/-- C26: three decoded collection events on which `handleCollectionEvent` raises. An event
with one device output and no user list wrapper: the output is stored and the snapshot handed
to `sendJson`, then the read of `userInfoListWrapper` raises. An event with two device
outputs, the second without `deviceOutputStatus`, and a user list: the first output is
stored, the second raises, no snapshot is sent and the user list is not read. An event
without `body` (the empty byte sequence): the first read raises. An event with a user list
and no device outputs is handled to the end. -/
theorem handleCollectionEvent_raises :
    decode messageTypes Sample.collectionEventSchema Sample.deviceOnlyEventBytes
      = Except.ok Sample.deviceOnlyEvent ∧
    handleCollectionEvent UserManager.init Sample.deviceOnlyEvent 5
      = HandleResult.threw
          { UserManager.init with deviceOutputMap := [("a-2", Sample.storedA2)] }
          [ControlMessage.deviceOutputsUpdate [Sample.storedA2]] ∧
    decode messageTypes Sample.collectionEventSchema Sample.halfEventBytes
      = Except.ok Sample.halfEvent ∧
    handleCollectionEvent UserManager.init Sample.halfEvent 5
      = HandleResult.threw
          { UserManager.init with deviceOutputMap := [("a-2", Sample.storedA2)] } [] ∧
    decode messageTypes Sample.collectionEventSchema [] = Except.ok [] ∧
    handleCollectionEvent UserManager.init [] 5 = HandleResult.threw UserManager.init [] ∧
    decode messageTypes Sample.collectionEventSchema Sample.userEventBytes
      = Except.ok Sample.userEvent ∧
    handleCollectionEvent UserManager.init Sample.userEvent 5
      = HandleResult.returned
          (UserManager.singleUserSynced UserManager.init
            [("deviceId", JsValue.str "Z"), ("fullName", JsValue.str "Zed")]).1
          (UserManager.singleUserSynced UserManager.init
            [("deviceId", JsValue.str "Z"), ("fullName", JsValue.str "Zed")]).2 := by
  decide

/-! ## The schema table -/

/-- C28: in every schema of the table `messageTypes` no two fields have the same field number
and no two the same name, and every field of type `message` names a schema that
`messageDecoders` holds, a schema of the table. -/
theorem messageTypes_wellFormed (schema : MessageSchema) (hschema : schema ∈ messageTypes) :
    (schema.fields.map FieldSchema.fieldNumber).Nodup ∧
    (schema.fields.map FieldSchema.name).Nodup ∧
    ∀ field ∈ schema.fields, field.type = "message" →
      ∃ nested, field.messageType.bind (messageDecoders messageTypes) = some nested ∧
        nested ∈ messageTypes := by
  have hall : ∀ s ∈ messageTypes,
      (s.fields.map FieldSchema.fieldNumber).Nodup ∧ (s.fields.map FieldSchema.name).Nodup ∧
      ∀ field ∈ s.fields, field.type = "message" →
        (field.messageType.bind (messageDecoders messageTypes)).isSome = true := by
    decide
  obtain ⟨h1, h2, h3⟩ := hall schema hschema
  refine ⟨h1, h2, fun field hfield htype => ?_⟩
  obtain ⟨nested, hn⟩ := Option.isSome_iff_exists.mp (h3 field hfield htype)
  refine ⟨nested, hn, ?_⟩
  cases hmt : field.messageType with
  | none => rw [hmt] at hn; simp at hn
  | some name =>
    rw [hmt] at hn
    exact mem_of_messageDecoders hn

/-- C28 on the schema `UserInfoListWrapper`, whose two fields name the schemas
`UserEventInfo` and `UserInfoList`. -/
theorem messageTypes_wellFormed_witness :
    Sample.userInfoListWrapperSchema ∈ messageTypes ∧
    (Sample.userInfoListWrapperSchema.fields.map FieldSchema.fieldNumber).Nodup ∧
    (Sample.userInfoListWrapperSchema.fields.map FieldSchema.name).Nodup ∧
    ∀ field ∈ Sample.userInfoListWrapperSchema.fields, field.type = "message" →
      ∃ nested, field.messageType.bind (messageDecoders messageTypes) = some nested ∧
        nested ∈ messageTypes :=
  ⟨by decide, messageTypes_wellFormed Sample.userInfoListWrapperSchema (by decide)⟩

/-! ## The key of a device output -/

namespace UserManager

/-- C29: for every two different pairs of a deviceId string and a natural-number output
type, the keys that `updateDeviceOutputs` and `getDeviceOutput` build are different, and
storing a device output for the one pair leaves what `getDeviceOutput` returns for the other
pair as it was. -/
theorem deviceOutputKey_distinct_pairs (self : UserManager) (d d' : String) (t t' : Nat)
    (streamId : JsValue) (status : JsObject) (now : Nat) (hne : (d, t) ≠ (d', t')) :
    deviceOutputKey (JsValue.str d) (JsValue.num t)
      ≠ deviceOutputKey (JsValue.str d') (JsValue.num t') ∧
    getDeviceOutput
        (updateDeviceOutputs self
          [(⟨JsValue.num t, streamId, JsValue.str d, some status⟩, now)]).self
        (JsValue.str d') (JsValue.num t')
      = getDeviceOutput self (JsValue.str d') (JsValue.num t') := by
  have hkey : deviceOutputKey (JsValue.str d) (JsValue.num t)
      ≠ deviceOutputKey (JsValue.str d') (JsValue.num t') := by
    intro h
    obtain ⟨e1, e2⟩ := deviceOutputKey_injective h
    exact hne (by rw [e1, e2])
  refine ⟨hkey, ?_⟩
  simp only [updateDeviceOutputs, applyDeviceOutputs, UpdateResult.self, getDeviceOutput]
  exact JsMap.get_set_of_ne _ _ hkey

/-- C29 on the pairs (`a-1`, 2) and (`a`, 12), whose keys are `a-1-2` and `a-12`. -/
theorem deviceOutputKey_distinct_pairs_witness :
    (("a-1", 2) : String × Nat) ≠ ("a", 12) ∧
    deviceOutputKey (JsValue.str "a-1") (JsValue.num 2) = "a-1-2" ∧
    deviceOutputKey (JsValue.str "a") (JsValue.num 12) = "a-12" ∧
    deviceOutputKey (JsValue.str "a-1") (JsValue.num 2)
      ≠ deviceOutputKey (JsValue.str "a") (JsValue.num 12) ∧
    getDeviceOutput
        (updateDeviceOutputs UserManager.init
          [(⟨JsValue.num 2, JsValue.str "s1", JsValue.str "a-1", some []⟩, 5)]).self
        (JsValue.str "a") (JsValue.num 12)
      = getDeviceOutput UserManager.init (JsValue.str "a") (JsValue.num 12) :=
  ⟨by decide, by decide, by decide,
    deviceOutputKey_distinct_pairs UserManager.init "a-1" "a" 2 12 (JsValue.str "s1") [] 5
      (by decide)⟩

end UserManager

/-! ## Where a nested message ends -/

/-- One turn of the loop gives the same result with a nested decoder that succeeds wherever
the first does, with the same result. -/
theorem readValueRest_mono {table : List MessageSchema}
    {d e : List FieldSchema → List Nat → Nat → Except DecodeError (PbObject × List Nat)}
    (hd : ∀ fs r b x, d fs r b = Except.ok x → e fs r b = Except.ok x)
    {field : Option FieldSchema} {tag : Nat} {rest : List Nat}
    {y : Option (FieldSchema × PbValue) × List Nat}
    (h : readValueRest table d field tag rest = Except.ok y) :
    readValueRest table e field tag rest = Except.ok y := by
  unfold readValueRest at h ⊢
  cases field with
  | none => exact h
  | some field =>
    simp only at h ⊢
    split_ifs at h ⊢ with hs hi hv hm
    · exact h
    · exact h
    · exact h
    · simp only [bind, Except.bind] at h ⊢
      cases hu : (Reader.mk 0 rest).uint32 with
      | error err => rw [hu] at h; simp at h
      | ok q =>
        obtain ⟨len, r1⟩ := q
        rw [hu] at h
        simp only at h ⊢
        cases hn : field.messageType.bind (messageDecoders table) with
        | none => rw [hn] at h; simp at h
        | some nested =>
          rw [hn] at h
          simp only at h ⊢
          cases hdn : d nested.fields r1.rest len with
          | error err => rw [hdn] at h; simp at h
          | ok q2 =>
            rw [hdn] at h
            rw [hd _ _ _ _ hdn]
            exact h
    · exact h

/-- A run of the loop that succeeds gives the same result with more fuel. -/
theorem decodeRestLoop_mono (table : List MessageSchema) (f1 : Nat) :
    ∀ (f2 : Nat) (fields : List FieldSchema) (rest : List Nat) (budget : Nat)
      (message : PbObject) (x : PbObject × List Nat), f1 ≤ f2 →
      decodeRestLoop table f1 fields rest budget message = Except.ok x →
      decodeRestLoop table f2 fields rest budget message = Except.ok x := by
  induction f1 with
  | zero => intro f2 fields rest budget message x _ h; simp [decodeRestLoop] at h
  | succ n ih =>
    intro f2 fields rest budget message x hle h
    obtain ⟨k, rfl⟩ : ∃ k, f2 = k + 1 := ⟨f2 - 1, by omega⟩
    unfold decodeRestLoop at h ⊢
    by_cases hb : 0 < budget
    · simp only [hb, if_true] at h ⊢
      cases hu : (Reader.mk 0 rest).uint32 with
      | error err => rw [hu] at h; simp at h
      | ok q =>
        obtain ⟨tag, r1⟩ := q
        rw [hu] at h
        simp only at h ⊢
        cases hv : readValueRest table (fun fs r b => decodeRestLoop table n fs r b [])
            (fields.find? (fun f => decide (f.fieldNumber = tag / 8))) tag r1.rest with
        | error err => rw [hv] at h; simp at h
        | ok q2 =>
          obtain ⟨value, rest2⟩ := q2
          rw [hv] at h
          rw [readValueRest_mono
            (fun fs r b x hx => ih k fs r b [] x (by omega) hx) hv]
          simp only at h ⊢
          cases hst : storeValue message value with
          | error err => rw [hst] at h; simp at h
          | ok m1 =>
            rw [hst] at h
            simp only at h ⊢
            exact ih k _ _ _ _ _ (by omega) h
    · simp only [hb, if_false] at h ⊢
      exact h

/-- A run of the loop that succeeds is the run with the fuel of `decodeRest`. -/
theorem decodeRest_of_decodeRestLoop {table : List MessageSchema} {fuel : Nat}
    {fields : List FieldSchema} {rest : List Nat} {budget : Nat} {message : PbObject}
    {x : PbObject × List Nat}
    (h : decodeRestLoop table fuel fields rest budget message = Except.ok x) :
    decodeRest table fields rest budget message = Except.ok x := by
  have h1 := decodeRestLoop_mono table fuel (fuel + (rest.length + 1)) fields rest budget
    message x (by omega) h
  unfold decodeRest
  rw [decodeRestLoop_fuel table (rest.length + 1) (fuel + (rest.length + 1)) fields rest
    budget message (by omega) (by omega)]
  exact h1

/-- The loop does not return before it has read the bytes of its budget. -/
theorem decodeRestLoop_consumed (table : List MessageSchema) (fuel : Nat) :
    ∀ (fields : List FieldSchema) (rest : List Nat) (budget : Nat) (message m' : PbObject)
      (rest' : List Nat),
      decodeRestLoop table fuel fields rest budget message = Except.ok (m', rest') →
      budget + rest'.length ≤ rest.length := by
  induction fuel with
  | zero =>
    intro fields rest budget message m' rest' h
    simp [decodeRestLoop] at h
  | succ fuel ih =>
    intro fields rest budget message m' rest' h
    unfold decodeRestLoop at h
    split_ifs at h with hb
    · cases hu : (Reader.mk 0 rest).uint32 with
      | error e => simp [hu] at h
      | ok q =>
        obtain ⟨tag, r1⟩ := q
        obtain ⟨k, hk1, hk2, hr1, _⟩ := Reader.uint32_spec hu
        replace hk2 : k ≤ rest.length := hk2
        simp only [hu] at h
        cases hv : readValueRest table (fun fs r b => decodeRestLoop table fuel fs r b [])
            (fields.find? (fun f => decide (f.fieldNumber = tag / 8))) tag r1.rest with
        | error e => simp [hv] at h
        | ok q2 =>
          obtain ⟨value, rest2⟩ := q2
          obtain ⟨j, hj1, hj2, hr2⟩ := readValueRest_suffix
            (fun fs r b m r' hh => decodeRestLoop_suffix table fuel fs r b [] m r' hh) hv
          simp only [hv] at h
          cases hst : storeValue message value with
          | error e => simp [hst] at h
          | ok m1 =>
            simp only [hst] at h
            have hrec := ih _ _ _ _ _ _ h
            have hr1' : r1.rest = rest.drop k := by rw [hr1]; rfl
            rw [hr1', List.length_drop] at hj2
            have hlen2 : rest2.length = rest.length - k - j := by
              rw [hr2, hr1', List.length_drop, List.length_drop]
            omega
    · simp only [Except.ok.injEq, Prod.mk.injEq] at h
      rw [← h.2]
      omega

/-- C30, a nested message that reads past its declared length: in the caption wrapper of the
bytes 10, 1, 10, 1, 97 the caption declares a length of one byte; the nested decoder starts
at position 2 with the limit 3, reads the three-byte field of the device id and returns at
position 5, and decoding succeeds. -/
theorem nested_decode_overruns_declared_length :
    decodeLoop messageTypes 4 Sample.captionSchema.fields ⟨2, [10, 1, 97]⟩ (2 + 1) []
      = Except.ok ([("deviceId", PbValue.str [97])], ⟨5, []⟩) ∧
    decode messageTypes Sample.captionWrapperSchema Sample.overrunBytes
      = Except.ok [("caption", PbValue.message (PbRecord.ofList
          [("deviceId", PbValue.str [97])]))] := by
  decide

/-- C30, amended: whenever the loop of `decode`, called for a nested message from the cursor
`reader` with the declared length `length`, returns, the cursor it returns is not before
the position `reader.pos + length`; and it is at that position, with the record that the
declared bytes decode to on their own, whenever the declared bytes decode on their own. -/
theorem nested_decode_end_position (table : List MessageSchema) (fuel : Nat)
    (schema : MessageSchema) (reader : Reader) (length : Nat) (message : PbObject)
    (reader' : Reader)
    (h : decodeLoop table fuel schema.fields reader (reader.pos + length) []
      = Except.ok (message, reader')) :
    reader.pos + length ≤ reader'.pos ∧
    (∀ alone, decode table schema (reader.rest.take length) = Except.ok alone →
      reader'.pos = reader.pos + length ∧ message = alone) := by
  rw [decodeLoop_eq_decodeRestLoop, Nat.add_sub_cancel_left] at h
  cases hrun : decodeRestLoop table fuel schema.fields reader.rest length [] with
  | error e => rw [hrun] at h; simp [atCursor, Except.map] at h
  | ok q =>
    obtain ⟨m1, rest1⟩ := q
    rw [hrun] at h
    simp only [atCursor, Except.map, Except.ok.injEq, Prod.mk.injEq] at h
    obtain ⟨hm, hr⟩ := h
    have hcons := decodeRestLoop_consumed table fuel _ _ _ _ _ _ hrun
    have hpos : reader'.pos = reader.pos + (reader.rest.length - rest1.length) := by
      rw [← hr]
    refine ⟨by rw [hpos]; omega, ?_⟩
    intro alone halone
    rw [decode_eq_decodeRest] at halone
    cases hal : decodeRest table schema.fields (reader.rest.take length)
        (reader.rest.take length).length [] with
    | error e => rw [hal] at halone; simp [Except.map] at halone
    | ok q2 =>
      obtain ⟨m2, rest2⟩ := q2
      rw [hal] at halone
      simp only [Except.map, Except.ok.injEq] at halone
      have hlen : (reader.rest.take length).length = length := by
        rw [List.length_take]
        omega
      obtain ⟨_, hstart⟩ := decodeRest_decoded_start table _ schema.fields
        (reader.rest.take length) [] m2 rest2 (Nat.le_refl _) hal
      have hwhole := hstart (reader.rest.drop length) length (by omega)
      rw [List.take_append_drop, hlen, Nat.sub_self, decodeRest_zero,
        decodeRest_of_decodeRestLoop hrun] at hwhole
      simp only [Except.ok.injEq, Prod.mk.injEq] at hwhole
      refine ⟨?_, by rw [← hm, hwhole.1, halone]⟩
      rw [hpos, hwhole.2, List.length_drop]
      omega

/-- C30, amended, on the caption of the wrapper 10, 3, 10, 1, 97: the nested decoder starts at
position 2 with the declared length 3 and returns at position 5. -/
theorem nested_decode_end_position_witness :
    decodeLoop messageTypes 4 Sample.captionSchema.fields ⟨2, [10, 1, 97]⟩ (2 + 3) []
      = Except.ok ([("deviceId", PbValue.str [97])], ⟨5, []⟩) ∧
    (2 + 3 ≤ (⟨5, []⟩ : Reader).pos ∧
      (∀ alone, decode messageTypes Sample.captionSchema
          ((⟨2, [10, 1, 97]⟩ : Reader).rest.take 3) = Except.ok alone →
        (⟨5, []⟩ : Reader).pos = 2 + 3 ∧ [("deviceId", PbValue.str [97])] = alone)) :=
  ⟨by decide,
    nested_decode_end_position messageTypes 4 Sample.captionSchema ⟨2, [10, 1, 97]⟩ 3
      [("deviceId", PbValue.str [97])] ⟨5, []⟩ (by decide)⟩

/-! ## Termination of the decoder -/

namespace Reader

theorem uint32_error {r : Reader} {e : DecodeError} (h : r.uint32 = Except.error e) :
    e = DecodeError.indexOutOfRange := by
  unfold uint32 at h
  cases hv : readVarint r.rest with
  | none =>
    rw [hv] at h
    simp only [Except.error.injEq] at h
    exact h.symm
  | some p => rw [hv] at h; simp at h

theorem int64_error {r : Reader} {e : DecodeError} (h : r.int64 = Except.error e) :
    e = DecodeError.indexOutOfRange := by
  unfold int64 at h
  cases hv : readVarint r.rest with
  | none =>
    rw [hv] at h
    simp only [Except.error.injEq] at h
    exact h.symm
  | some p => rw [hv] at h; simp at h

theorem skip_error {r : Reader} {length : Nat} {e : DecodeError}
    (h : r.skip length = Except.error e) : e = DecodeError.indexOutOfRange := by
  unfold skip at h
  split_ifs at h
  simp only [Except.error.injEq] at h
  exact h.symm

theorem string_error {r : Reader} {e : DecodeError} (h : r.string = Except.error e) :
    e = DecodeError.indexOutOfRange := by
  unfold string at h
  cases hu : r.uint32 with
  | error e1 =>
    rw [hu] at h
    simp only [bind, Except.bind, Except.error.injEq] at h
    rw [← h]
    exact uint32_error hu
  | ok p =>
    obtain ⟨len, r1⟩ := p
    rw [hu] at h
    simp only [bind, Except.bind] at h
    split_ifs at h
    simp only [Except.error.injEq] at h
    exact h.symm

theorem skipType_error {r : Reader} {wireType : Nat} {e : DecodeError}
    (h : r.skipType wireType = Except.error e) :
    e = DecodeError.indexOutOfRange ∨ e = DecodeError.invalidWireType := by
  unfold skipType at h
  split_ifs at h with h0 h1 h2 h5
  · cases hv : readVarint r.rest with
    | none =>
      rw [hv] at h
      simp only [Except.error.injEq] at h
      exact Or.inl h.symm
    | some p => rw [hv] at h; simp at h
  · exact Or.inl (skip_error h)
  · cases hu : r.uint32 with
    | error e1 =>
      rw [hu] at h
      simp only [bind, Except.bind, Except.error.injEq] at h
      rw [← h]
      exact Or.inl (uint32_error hu)
    | ok p =>
      obtain ⟨len, r1⟩ := p
      rw [hu] at h
      simp only [bind, Except.bind] at h
      exact Or.inl (skip_error h)
  · exact Or.inl (skip_error h)
  · simp only [Except.error.injEq] at h
    exact Or.inr h.symm

end Reader

theorem storeValue_error {message : PbObject} {value : Option (FieldSchema × PbValue)}
    {e : DecodeError} (h : storeValue message value = Except.error e) :
    e = DecodeError.typeError := by
  cases value with
  | none => simp [storeValue] at h
  | some fv =>
    obtain ⟨f, v⟩ := fv
    simp only [storeValue, storeField] at h
    split_ifs at h
    split at h
    · simp at h
    · simp at h
    · simp only [Except.error.injEq] at h
      exact h.symm

/-- The errors of one turn of the loop are those of the cursor, of the nested decoder, and the
type error of a call of a decoder that `messageDecoders` does not hold. -/
theorem readValueRest_error {table : List MessageSchema}
    {d : List FieldSchema → List Nat → Nat → Except DecodeError (PbObject × List Nat)}
    {field : Option FieldSchema} {tag : Nat} {rest : List Nat} {e : DecodeError}
    (P : DecodeError → Prop) (hidx : P DecodeError.indexOutOfRange)
    (hwire : P DecodeError.invalidWireType)
    (hres : P DecodeError.typeError ∨ ∀ f, field = some f → f.type = "message" →
      (f.messageType.bind (messageDecoders table)).isSome = true)
    (hd : ∀ nested, nested ∈ table → ∀ r b e1, r.length < rest.length →
      d nested.fields r b = Except.error e1 → P e1)
    (h : readValueRest table d field tag rest = Except.error e) : P e := by
  have hcur : ∀ e1, e1 = DecodeError.indexOutOfRange ∨ e1 = DecodeError.invalidWireType →
      P e1 := by
    intro e1 h1
    rcases h1 with h1 | h1
    · rw [h1]; exact hidx
    · rw [h1]; exact hwire
  have hskip : ∀ w, (do
      let reader ← (Reader.mk 0 rest).skipType w
      pure ((none : Option (FieldSchema × PbValue)), reader.rest)) = Except.error e →
      P e := by
    intro w hw
    cases hs : (Reader.mk 0 rest).skipType w with
    | error e1 =>
      rw [hs] at hw
      simp only [bind, Except.bind, Except.error.injEq] at hw
      rw [← hw]
      exact hcur _ (Reader.skipType_error hs)
    | ok r1 =>
      rw [hs] at hw
      simp [bind, Except.bind, pure, Except.pure] at hw
  unfold readValueRest at h
  cases field with
  | none => exact hskip _ h
  | some field =>
    simp only at h
    split_ifs at h with hs hi hv hm
    · cases hr : (Reader.mk 0 rest).string with
      | error e1 =>
        rw [hr] at h
        simp only [bind, Except.bind, Except.error.injEq] at h
        rw [← h]
        exact hcur _ (Or.inl (Reader.string_error hr))
      | ok q => rw [hr] at h; simp [bind, Except.bind, pure, Except.pure] at h
    · cases hr : (Reader.mk 0 rest).int64 with
      | error e1 =>
        rw [hr] at h
        simp only [bind, Except.bind, Except.error.injEq] at h
        rw [← h]
        exact hcur _ (Or.inl (Reader.int64_error hr))
      | ok q => rw [hr] at h; simp [bind, Except.bind, pure, Except.pure] at h
    · cases hr : (Reader.mk 0 rest).uint32 with
      | error e1 =>
        rw [hr] at h
        simp only [bind, Except.bind, Except.error.injEq] at h
        rw [← h]
        exact hcur _ (Or.inl (Reader.uint32_error hr))
      | ok q => rw [hr] at h; simp [bind, Except.bind, pure, Except.pure] at h
    · cases hr : (Reader.mk 0 rest).uint32 with
      | error e1 =>
        rw [hr] at h
        simp only [bind, Except.bind, Except.error.injEq] at h
        rw [← h]
        exact hcur _ (Or.inl (Reader.uint32_error hr))
      | ok q =>
        obtain ⟨len, r1⟩ := q
        obtain ⟨k, hk1, hk2, hr1, _⟩ := Reader.uint32_spec hr
        replace hk2 : k ≤ rest.length := hk2
        have hlen1 : r1.rest.length = rest.length - k := by
          rw [hr1, Reader.length_rest_advance]
        rw [hr] at h
        simp only [bind, Except.bind] at h
        cases hn : field.messageType.bind (messageDecoders table) with
        | none =>
          rw [hn] at h
          simp only [Except.error.injEq] at h
          rcases hres with hres | hres
          · rw [← h]; exact hres
          · have := hres field rfl hm
            rw [hn] at this
            simp at this
        | some nested =>
          rw [hn] at h
          simp only at h
          have hmem : nested ∈ table := by
            cases hmt : field.messageType with
            | none => rw [hmt] at hn; simp at hn
            | some name =>
              rw [hmt] at hn
              exact mem_of_messageDecoders hn
          cases hdn : d nested.fields r1.rest len with
          | error e1 =>
            rw [hdn] at h
            simp only [Except.error.injEq] at h
            rw [← h]
            exact hd nested hmem r1.rest len e1 (by omega) hdn
          | ok q2 => rw [hdn] at h; simp [pure, Except.pure] at h
    · exact hskip _ h

/-- No run of the loop with more fuel than bytes left ends for want of fuel. -/
theorem decodeRestLoop_fuel_suffices (table : List MessageSchema) (fuel : Nat) :
    ∀ (fields : List FieldSchema) (rest : List Nat) (budget : Nat) (message : PbObject),
      rest.length < fuel →
      decodeRestLoop table fuel fields rest budget message
        ≠ Except.error DecodeError.outOfFuel := by
  induction fuel with
  | zero => intro fields rest budget message h; omega
  | succ n ih =>
    intro fields rest budget message hlen h
    unfold decodeRestLoop at h
    split_ifs at h with hb
    cases hu : (Reader.mk 0 rest).uint32 with
    | error e1 =>
      rw [hu] at h
      simp only [Except.error.injEq] at h
      have := Reader.uint32_error hu
      rw [h] at this
      cases this
    | ok q =>
      obtain ⟨tag, r1⟩ := q
      obtain ⟨j, hj1, hj2, hr1, _⟩ := Reader.uint32_spec hu
      replace hj2 : j ≤ rest.length := hj2
      have hlen1 : r1.rest.length = rest.length - j := by
        rw [hr1, Reader.length_rest_advance]
      rw [hu] at h
      simp only at h
      cases hv : readValueRest table (fun fs r b => decodeRestLoop table n fs r b [])
          (fields.find? (fun f => decide (f.fieldNumber = tag / 8))) tag r1.rest with
      | error e1 =>
        rw [hv] at h
        simp only [Except.error.injEq] at h
        rw [h] at hv
        exact readValueRest_error (fun e => e ≠ DecodeError.outOfFuel) (by decide) (by decide)
          (Or.inl (by decide))
          (fun nested _ r b e1 hr he => by
            intro hfuel
            rw [hfuel] at he
            exact ih nested.fields r b [] (by omega) he) hv rfl
      | ok q2 =>
        obtain ⟨value, rest2⟩ := q2
        obtain ⟨j2, _, hj22, hr2⟩ := readValueRest_suffix
          (fun fs r b m r' hh => decodeRestLoop_suffix table n fs r b [] m r' hh) hv
        have hlen2 : rest2.length = r1.rest.length - j2 := by rw [hr2, List.length_drop]
        rw [hv] at h
        simp only at h
        cases hst : storeValue message value with
        | error e1 =>
          rw [hst] at h
          simp only [Except.error.injEq] at h
          have := storeValue_error hst
          rw [h] at this
          cases this
        | ok m1 =>
          rw [hst] at h
          simp only at h
          exact ih fields rest2 _ m1 (by omega) h

/-- A store into an object that holds arrays under the names of the repeated fields succeeds
and leaves such an object, when the names of the fields are distinct. -/
theorem storeField_arrays {fields : List FieldSchema}
    (hnames : (fields.map FieldSchema.name).Nodup) {m : PbObject}
    (hinv : ∀ f ∈ fields, f.repeated = true → ∀ v, PbObject.get m f.name = some v →
      ∃ items, v = PbValue.array items)
    {g : FieldSchema} (hg : g ∈ fields) (v : PbValue) :
    ∃ m1, storeField m g v = Except.ok m1 ∧
      ∀ f ∈ fields, f.repeated = true → ∀ w, PbObject.get m1 f.name = some w →
        ∃ items, w = PbValue.array items := by
  unfold storeField
  by_cases hrep : g.repeated = true
  · rw [if_pos hrep]
    cases hget : PbObject.get m g.name with
    | none =>
      refine ⟨_, rfl, ?_⟩
      intro f hf hfrep w hw
      by_cases hname : g.name = f.name
      · rw [← hname, PbObject.get_set_same] at hw
        exact ⟨_, (Option.some.inj hw).symm⟩
      · rw [PbObject.get_set_other _ _ _ _ hname] at hw
        exact hinv f hf hfrep w hw
    | some u =>
      obtain ⟨items, hu⟩ := hinv g hg hrep u hget
      subst hu
      refine ⟨_, rfl, ?_⟩
      intro f hf hfrep w hw
      by_cases hname : g.name = f.name
      · rw [← hname, PbObject.get_set_same] at hw
        exact ⟨_, (Option.some.inj hw).symm⟩
      · rw [PbObject.get_set_other _ _ _ _ hname] at hw
        exact hinv f hf hfrep w hw
  · rw [if_neg hrep]
    refine ⟨_, rfl, ?_⟩
    intro f hf hfrep w hw
    have hname : g.name ≠ f.name := by
      intro hname
      have := List.inj_on_of_nodup_map hnames hg hf hname
      rw [this] at hrep
      exact hrep hfrep
    rw [PbObject.get_set_other _ _ _ _ hname] at hw
    exact hinv f hf hfrep w hw

/-- With a table in which the names of the fields of each schema are distinct and every field
of type `message` names a schema that `messageDecoders` holds, a run of the loop for a schema
of the table, with more fuel than bytes left, fails only with an error of the cursor. -/
theorem decodeRestLoop_error {table : List MessageSchema}
    (hnames : ∀ s ∈ table, (s.fields.map FieldSchema.name).Nodup)
    (hres : ∀ s ∈ table, ∀ f ∈ s.fields, f.type = "message" →
      (f.messageType.bind (messageDecoders table)).isSome = true) (fuel : Nat) :
    ∀ (schema : MessageSchema) (rest : List Nat) (budget : Nat) (message : PbObject)
      (e : DecodeError), schema ∈ table → rest.length < fuel →
      (∀ f ∈ schema.fields, f.repeated = true → ∀ v, PbObject.get message f.name = some v →
        ∃ items, v = PbValue.array items) →
      decodeRestLoop table fuel schema.fields rest budget message = Except.error e →
      e = DecodeError.indexOutOfRange ∨ e = DecodeError.invalidWireType := by
  induction fuel with
  | zero => intro schema rest budget message e _ h; omega
  | succ n ih =>
    intro schema rest budget message e hschema hlen hinv h
    unfold decodeRestLoop at h
    split_ifs at h with hb
    cases hu : (Reader.mk 0 rest).uint32 with
    | error e1 =>
      rw [hu] at h
      simp only [Except.error.injEq] at h
      rw [← h]
      exact Or.inl (Reader.uint32_error hu)
    | ok q =>
      obtain ⟨tag, r1⟩ := q
      obtain ⟨j, hj1, hj2, hr1, _⟩ := Reader.uint32_spec hu
      replace hj2 : j ≤ rest.length := hj2
      have hlen1 : r1.rest.length = rest.length - j := by
        rw [hr1, Reader.length_rest_advance]
      rw [hu] at h
      simp only at h
      cases hv : readValueRest table (fun fs r b => decodeRestLoop table n fs r b [])
          (schema.fields.find? (fun f => decide (f.fieldNumber = tag / 8))) tag r1.rest with
      | error e1 =>
        rw [hv] at h
        simp only [Except.error.injEq] at h
        rw [← h]
        exact readValueRest_error
          (fun e => e = DecodeError.indexOutOfRange ∨ e = DecodeError.invalidWireType)
          (Or.inl rfl) (Or.inr rfl)
          (Or.inr (fun f hf hm =>
            hres schema hschema f (List.mem_of_find?_eq_some hf) hm))
          (fun nested hnested r b e2 hr he =>
            ih nested r b [] e2 hnested (by omega)
              (fun f _ _ v hget => by simp [PbObject.get] at hget) he) hv
      | ok q2 =>
        obtain ⟨value, rest2⟩ := q2
        obtain ⟨j2, _, hj22, hr2⟩ := readValueRest_suffix
          (fun fs r b m r' hh => decodeRestLoop_suffix table n fs r b [] m r' hh) hv
        have hlen2 : rest2.length = r1.rest.length - j2 := by rw [hr2, List.length_drop]
        rw [hv] at h
        simp only at h
        cases value with
        | none =>
          simp only [storeValue] at h
          exact ih schema rest2 _ message e hschema (by omega) hinv h
        | some fv =>
          obtain ⟨hmem, _⟩ := readValueRest_field hv
          obtain ⟨m1, hst, hinv1⟩ :=
            storeField_arrays (hnames schema hschema) hinv hmem fv.2
          simp only [storeValue] at h
          rw [hst] at h
          simp only at h
          exact ih schema rest2 _ m1 e hschema (by omega) hinv1 h

/-- The nested decoder is called only on a cursor that stands further than the cursor of the
turn of the loop, with fewer bytes left. -/
theorem readValue_nested_later (table : List MessageSchema)
    (d : List FieldSchema → Reader → Nat → Except DecodeError (PbObject × Reader))
    (field : Option FieldSchema) (tag : Nat) (reader : Reader) :
    readValue table d field tag reader =
      readValue table (fun fs r lim =>
        if reader.pos < r.pos ∧ r.rest.length < reader.rest.length then d fs r lim
        else Except.error DecodeError.outOfFuel) field tag reader := by
  unfold readValue
  cases field with
  | none => rfl
  | some field =>
    simp only
    split_ifs with hs hi hv hm
    · rfl
    · rfl
    · rfl
    · cases hu : reader.uint32 with
      | error e => rfl
      | ok q =>
        obtain ⟨len, r1⟩ := q
        obtain ⟨k, hk1, hk2, hr1, _⟩ := Reader.uint32_spec hu
        have hlen1 : r1.rest.length = reader.rest.length - k := by
          rw [hr1, Reader.length_rest_advance]
        have hpos1 : r1.pos = reader.pos + k := by rw [hr1]; rfl
        simp only [bind, Except.bind]
        cases hn : field.messageType.bind (messageDecoders table) with
        | none => rfl
        | some nested =>
          simp only
          rw [if_pos ⟨by omega, by omega⟩]
    · rfl

/-- C31: for every schema of the table `messageTypes` and every byte sequence, `decode` returns
a record or fails with an error of the byte cursor (index out of range, invalid wire type).
For any table, a run of the loop with more fuel than bytes left never ends for want of fuel
and is the same for any such fuel; the tag read of a turn moves the cursor at least one byte
forward and the turn leaves it further still, with fewer bytes left; and the nested decoder
is called only on a cursor that stands further than the cursor at the start of the turn, with
fewer bytes left. -/
theorem decode_terminates (schema : MessageSchema) (hschema : schema ∈ messageTypes)
    (bytes : List Nat) :
    ((∃ record, decode messageTypes schema bytes = Except.ok record) ∨
      decode messageTypes schema bytes = Except.error DecodeError.indexOutOfRange ∨
      decode messageTypes schema bytes = Except.error DecodeError.invalidWireType) ∧
    (∀ (table : List MessageSchema) (fuel fuel2 : Nat) (fields : List FieldSchema)
      (reader : Reader) (limit : Nat) (message : PbObject),
      reader.rest.length < fuel → reader.rest.length < fuel2 →
      decodeLoop table fuel fields reader limit message
        ≠ Except.error DecodeError.outOfFuel ∧
      decodeLoop table fuel fields reader limit message
        = decodeLoop table fuel2 fields reader limit message) ∧
    (∀ (table : List MessageSchema) (fuel : Nat) (field : Option FieldSchema)
      (reader reader1 reader2 : Reader) (tag : Nat) (value : Option (FieldSchema × PbValue)),
      reader.uint32 = Except.ok (tag, reader1) →
      readValue table (fun fs r lim => decodeLoop table fuel fs r lim []) field tag reader1
        = Except.ok (value, reader2) →
      reader.pos < reader1.pos ∧ reader1.pos < reader2.pos ∧
        reader2.rest.length < reader1.rest.length ∧
        reader1.rest.length < reader.rest.length) ∧
    (∀ (table : List MessageSchema)
      (d : List FieldSchema → Reader → Nat → Except DecodeError (PbObject × Reader))
      (field : Option FieldSchema) (reader reader1 : Reader) (tag : Nat),
      reader.uint32 = Except.ok (tag, reader1) →
      readValue table d field tag reader1 =
        readValue table (fun fs r lim =>
          if reader.pos < r.pos ∧ r.rest.length < reader.rest.length then d fs r lim
          else Except.error DecodeError.outOfFuel) field tag reader1) := by
  refine ⟨?_, ?_, ?_, ?_⟩
  · have hnames : ∀ s ∈ messageTypes, (s.fields.map FieldSchema.name).Nodup := by decide
    have hres : ∀ s ∈ messageTypes, ∀ f ∈ s.fields, f.type = "message" →
        (f.messageType.bind (messageDecoders messageTypes)).isSome = true := by decide
    rw [decode_eq_decodeRest]
    cases hrun : decodeRest messageTypes schema.fields bytes bytes.length [] with
    | ok q => exact Or.inl ⟨q.1, rfl⟩
    | error e =>
      have := decodeRestLoop_error hnames hres (bytes.length + 1) schema bytes bytes.length []
        e hschema (Nat.lt_succ_self _) (fun f _ _ v hget => by simp [PbObject.get] at hget)
        hrun
      rcases this with he | he
      · exact Or.inr (Or.inl (by rw [he]; rfl))
      · exact Or.inr (Or.inr (by rw [he]; rfl))
  · intro table fuel fuel2 fields reader limit message hfuel hfuel2
    rw [decodeLoop_eq_decodeRestLoop, decodeLoop_eq_decodeRestLoop,
      decodeRestLoop_fuel table fuel fuel2 fields reader.rest _ message hfuel hfuel2]
    refine ⟨?_, rfl⟩
    intro h
    cases hrun : decodeRestLoop table fuel2 fields reader.rest (limit - reader.pos)
        message with
    | ok q => rw [hrun] at h; simp [atCursor, Except.map] at h
    | error e =>
      rw [hrun] at h
      simp only [atCursor, Except.map, Except.error.injEq] at h
      rw [h] at hrun
      exact decodeRestLoop_fuel_suffices table fuel2 fields reader.rest _ message hfuel2 hrun
  · intro table fuel field reader reader1 reader2 tag value hu hv
    obtain ⟨k, hk1, hk2, hr1, _⟩ := Reader.uint32_spec hu
    have hlen1 : reader1.rest.length = reader.rest.length - k := by
      rw [hr1, Reader.length_rest_advance]
    have hpos1 : reader1.pos = reader.pos + k := by rw [hr1]; rfl
    obtain ⟨p1, rest1⟩ := reader1
    rw [readValue_eq_readValueRest (g := fun fs r b => decodeRestLoop table fuel fs r b [])
      (fun fs r lim => decodeLoop_eq_decodeRestLoop table fuel fs r lim [])
      (fun fs r b m r' hh => decodeRestLoop_length hh)] at hv
    cases hrest : readValueRest table (fun fs r b => decodeRestLoop table fuel fs r b [])
        field tag rest1 with
    | error e => rw [hrest] at hv; simp [Except.map] at hv
    | ok q =>
      obtain ⟨value1, rest2⟩ := q
      obtain ⟨j, hj1, hj2, hr2⟩ := readValueRest_suffix
        (fun fs r b m r' hh => decodeRestLoop_suffix table fuel fs r b [] m r' hh) hrest
      rw [hrest] at hv
      simp only [Except.map, Except.ok.injEq, Prod.mk.injEq] at hv
      have hlen2 : rest2.length = rest1.length - j := by rw [hr2, List.length_drop]
      rw [← hv.2]
      simp only at hlen1 hpos1 ⊢
      omega
  · intro table d field reader reader1 tag hu
    obtain ⟨k, hk1, hk2, hr1, _⟩ := Reader.uint32_spec hu
    have hlen1 : reader1.rest.length = reader.rest.length - k := by
      rw [hr1, Reader.length_rest_advance]
    have hpos1 : reader1.pos = reader.pos + k := by rw [hr1]; rfl
    refine (readValue_nested_later table d field tag reader1).trans
      (Eq.trans ?_ (readValue_nested_later table _ field tag reader1).symm)
    congr 1
    funext fs r lim
    by_cases hc : reader1.pos < r.pos ∧ r.rest.length < reader1.rest.length
    · simp only [if_pos hc]
      rw [if_pos ⟨by omega, by omega⟩]
    · simp only [if_neg hc]

/-- C31 on the schema `Caption` and the bytes 10, 1, 97, which decode to the record with the
device id "a". -/
theorem decode_terminates_witness :
    Sample.captionSchema ∈ messageTypes ∧
    (((∃ record, decode messageTypes Sample.captionSchema [10, 1, 97] = Except.ok record) ∨
      decode messageTypes Sample.captionSchema [10, 1, 97]
        = Except.error DecodeError.indexOutOfRange ∨
      decode messageTypes Sample.captionSchema [10, 1, 97]
        = Except.error DecodeError.invalidWireType) ∧
    (∀ (table : List MessageSchema) (fuel fuel2 : Nat) (fields : List FieldSchema)
      (reader : Reader) (limit : Nat) (message : PbObject),
      reader.rest.length < fuel → reader.rest.length < fuel2 →
      decodeLoop table fuel fields reader limit message
        ≠ Except.error DecodeError.outOfFuel ∧
      decodeLoop table fuel fields reader limit message
        = decodeLoop table fuel2 fields reader limit message) ∧
    (∀ (table : List MessageSchema) (fuel : Nat) (field : Option FieldSchema)
      (reader reader1 reader2 : Reader) (tag : Nat) (value : Option (FieldSchema × PbValue)),
      reader.uint32 = Except.ok (tag, reader1) →
      readValue table (fun fs r lim => decodeLoop table fuel fs r lim []) field tag reader1
        = Except.ok (value, reader2) →
      reader.pos < reader1.pos ∧ reader1.pos < reader2.pos ∧
        reader2.rest.length < reader1.rest.length ∧
        reader1.rest.length < reader.rest.length) ∧
    (∀ (table : List MessageSchema)
      (d : List FieldSchema → Reader → Nat → Except DecodeError (PbObject × Reader))
      (field : Option FieldSchema) (reader reader1 : Reader) (tag : Nat),
      reader.uint32 = Except.ok (tag, reader1) →
      readValue table d field tag reader1 =
        readValue table (fun fs r lim =>
          if reader.pos < r.pos ∧ r.rest.length < reader.rest.length then d fs r lim
          else Except.error DecodeError.outOfFuel) field tag reader1)) :=
  ⟨by decide, decode_terminates Sample.captionSchema (by decide) [10, 1, 97]⟩

end GoogleMeet
